import Mathlib

/-!
# oracall: argument model, name allocator and call planner

A shallow embedding of the Go packages `structs` (src/structs), `oracall`
(src/lib) and `custom` (src/custom) of the oracall repository, with the
properties of its specification proved or refuted on the embedding.  The
reader of the metadata rows, whose source the repository does not hold under
src/, is written from the specification.

Conventions of the embedding.

* A Go `string` is a Lean `String`.  `len` is the length in bytes
  (`String.utf8ByteSize`).  Indices into a string are only ever produced by a
  search for an ASCII character and consumed by a slice at that index, so they
  are kept as character indices: an ASCII byte never occurs inside the encoding
  of another character, and the comparisons the code makes on such an index
  (`i > 0`, `i < len(s)-1`) mean the same on both kinds of index.
* A Go `map[string]T` is an association list with unique-key update
  (`Go.mapGet`, `Go.mapSet`); `len` of a map is the length of the list.
* `uint8` and `uint` values are natural numbers; the code does no arithmetic
  on them.
* `glog.Fatalf` (the process stops) and a runtime fault (index out of range)
  are the two `Go.Fault` outcomes of a fallible function.
-/

namespace Go

/-- Length in bytes of a string, Go's builtin `len` on a `string`. -/
def len (s : String) : Nat := s.utf8ByteSize

/-- Slice `s[:i]`. -/
def sliceTo (s : String) (i : Nat) : String := String.mk (s.data.take i)

/-- Slice `s[i:]`. -/
def sliceFrom (s : String) (i : Nat) : String := String.mk (s.data.drop i)

/-- Scan for the last occurrence of `d`, the position of the head being `i`. -/
def lastIndexAux : List Char → Char → Nat → Option Nat → Option Nat
  | [], _, _, acc => acc
  | c :: cs, d, i, acc => lastIndexAux cs d (i + 1) (if c = d then some i else acc)

/-- Position of the last occurrence of the one-character separator `d` in `s`,
as `strings.LastIndex(s, d)` finds it; `none` stands for the result `-1`. -/
def lastIndex (s : String) (d : Char) : Option Nat := lastIndexAux s.data d 0 none

/-- Decimal rendering of the verb `%d`. -/
def fmtD (n : Nat) : String := Nat.repr n

/-- Decimal rendering of the verb `%03d`: zero-padded on the left to width 3. -/
def fmt03d (n : Nat) : String :=
  String.mk (List.replicate (3 - (Nat.repr n).length) '0') ++ Nat.repr n

/-- Lookup `m[k]` with its presence flag. -/
def mapGet {β : Type} : List (String × β) → String → Option β
  | [], _ => none
  | (k', v) :: m, k => if k' = k then some v else mapGet m k

/-- Assignment `m[k] = v`: replaces the value of a present key, adds an absent one. -/
def mapSet {β : Type} : List (String × β) → String → β → List (String × β)
  | [], k, v => [(k, v)]
  | (k', v') :: m, k, v => if k' = k then (k', v) :: m else (k', v') :: mapSet m k v

/-- Builtin `len` on a map.  Its result is a Go `int`, a value below `2^63`;
the reduction is the identity on every map a process can hold. -/
def mapLen {β : Type} (m : List (String × β)) : Nat := m.length % 2 ^ 63

/-- Lower-casing of `strings.ToLower`, on the ASCII letters. -/
def toLower (s : String) : String := String.mk (s.data.map Char.toLower)

/-- Search of `sub` at every position of a character list. -/
def containsAux : List Char → List Char → Bool
  | [], sub => sub.isEmpty
  | c :: cs, sub => sub.isPrefixOf (c :: cs) || containsAux cs sub

/-- Test `strings.Contains(s, sub)`, also what `strings.Index(s, sub) >= 0` tests. -/
def contains (s sub : String) : Bool := containsAux s.data sub.data

/-- Count `strings.Count(s, d)` of a one-character separator. -/
def count (s : String) (d : Char) : Nat := s.data.count d

/-- Test `strings.HasPrefix(s, p)`. -/
def hasPrefix (s p : String) : Bool := p.data.isPrefixOf s.data

/-- Mapping `strings.Map(f, s)`: a character `f` sends to `none` (a negative
rune) is dropped. -/
def mapRunes (f : Char → Option Char) (s : String) : String := String.mk (s.data.filterMap f)

/-- Upper-casing of `strings.ToUpper`, on the ASCII letters. -/
def toUpper (s : String) : String := String.mk (s.data.map Char.toUpper)

/-- Scan for the first occurrence of `d`, the position of the head being `i`. -/
def indexAux : List Char → Char → Nat → Option Nat
  | [], _, _ => none
  | c :: cs, d, i => if c = d then some i else indexAux cs d (i + 1)

/-- Position of the first occurrence of the one-character separator `d` in `s`,
as `strings.Index(s, d)` finds it; `none` stands for the result `-1`. -/
def index (s : String) (d : Char) : Option Nat := indexAux s.data d 0

/-- How a fallible function ends when it does not return. -/
inductive Fault where
  | fatal (msg : String)
  | panic (msg : String)
  deriving DecidableEq, Repr

/-- Conversion `int32(x)` of an integer: the low 32 bits, read as a signed number. -/
def toInt32 (x : Int) : Int := (x + 2 ^ 31) % 2 ^ 32 - 2 ^ 31

/-- Conversion `int64(x)` of an integer: the low 64 bits, read as a signed number. -/
def toInt64 (x : Int) : Int := (x + 2 ^ 63) % 2 ^ 64 - 2 ^ 63


/-! ## Hashing and hexadecimal text (`hash/fnv`, `encoding/hex`) -/

/-- The bytes of a character in UTF-8, the encoding of a Go `string`. -/
def utf8Bytes (c : Char) : List Nat :=
  let v := c.toNat
  if v < 0x80 then [v]
  else if v < 0x800 then [0xC0 + v / 64, 0x80 + v % 64]
  else if v < 0x10000 then [0xE0 + v / 4096, 0x80 + v / 64 % 64, 0x80 + v % 64]
  else [0xF0 + v / 262144, 0x80 + v / 4096 % 64, 0x80 + v / 64 % 64, 0x80 + v % 64]

/-- The bytes of a string. -/
def bytes (s : String) : List Nat := s.data.flatMap utf8Bytes

/-- The hash of `hash/fnv`, `New64` (FNV-1 on 64 bits): from the offset basis,
for each byte the hash is multiplied by the prime modulo `2^64` and the byte
is XORed in. -/
def fnv64 (data : List Nat) : Nat :=
  data.foldl (fun h b => (h * 1099511628211) % 2 ^ 64 ^^^ b) 14695981039346656037

/-- The text of `hex.Encode` for the eight bytes, the most significant first, of
a 64-bit number: sixteen lower-case hexadecimal digits. -/
def hex64 (n : Nat) : String :=
  String.mk ((List.range 16).map (fun i => Nat.digitChar (n / 16 ^ (15 - i) % 16)))

/-- Function `strings.TrimPrefix(s, p)`. -/
def trimPrefix (s p : String) : String :=
  if p.data.isPrefixOf s.data then String.mk (s.data.drop p.data.length) else s

end Go

namespace structs

/-! ## The argument model (src/structs/struct.go) -/

/-- Constant `DIR_IN`. -/
def DIR_IN : Nat := 1
/-- Constant `DIR_OUT`. -/
def DIR_OUT : Nat := 2
/-- Constant `FLAVOR_SIMPLE`. -/
def FLAVOR_SIMPLE : Nat := 0
/-- Constant `FLAVOR_RECORD`. -/
def FLAVOR_RECORD : Nat := 1
/-- Constant `FLAVOR_TABLE`. -/
def FLAVOR_TABLE : Nat := 2

/-- The fields of the struct `Argument`, over the type `α` of its children.
`TableOf` is a pointer (`none` is nil) and `RecordOf` a map (`none` is the nil
map), listed in the order in which a `range` loop visits it. -/
structure ArgumentF (α : Type) where
  Name : String := ""
  Flavor : Nat := 0
  Direction : Nat := 0
  Type_ : String := ""
  PlsType : String := ""
  TypeName : String := ""
  AbsType : String := ""
  Precision : Nat := 0
  Scale : Nat := 0
  Charset : String := ""
  CharLength : Nat := 0
  TableOf : Option α := none
  RecordOf : Option (List (String × α)) := none
  goTypeName : String := ""

/-- The struct `Argument`. -/
inductive Argument where
  | mk (fields : ArgumentF Argument)

/-- The fields of an argument. -/
def Argument.fields : Argument → ArgumentF Argument
  | .mk f => f

/-- Method `IsInput`. -/
def Argument.IsInput (a : Argument) : Bool := decide (a.fields.Direction &&& DIR_IN > 0)

/-- Method `IsOutput`. -/
def Argument.IsOutput (a : Argument) : Bool := decide (a.fields.Direction &&& DIR_OUT > 0)

/-- The statements of `NewArgument` that strip the type-reference markers from
`typeName`: the marker `..@` becomes the empty name, then a final `@` is cut. -/
def NewArgument.typeName (typeName : String) : String :=
  let typeName := if typeName = "..@" then "" else typeName
  if typeName ≠ "" ∧ typeName.data.getLast? = some '@' then String.mk typeName.data.dropLast
  else typeName

/-- The statements of `NewArgument` that settle the direction from the text
`dirName` and the number `dir`. -/
def NewArgument.dir (dirName : String) (dir : Nat) : Nat :=
  let dir :=
    if dirName ≠ "" then
      if dirName = "IN/OUT" then DIR_IN ||| DIR_OUT
      else if dirName = "OUT" then DIR_OUT
      else DIR_IN
    else dir
  if dir < DIR_IN then DIR_IN else dir

/-- The first `switch arg.Type` of `NewArgument`: the flavor, and for a record
its empty field map and its default type name. -/
def NewArgument.setFlavor (arg : ArgumentF Argument) : ArgumentF Argument :=
  if arg.Type_ = "PL/SQL RECORD" then
    let arg := { arg with Flavor := FLAVOR_RECORD, RecordOf := some [] }
    if arg.TypeName = "" then { arg with TypeName := arg.Name } else arg
  else if arg.Type_ = "TABLE" ∨ arg.Type_ = "PL/SQL TABLE" ∨ arg.Type_ = "REF CURSOR" then
    { arg with Flavor := FLAVOR_TABLE }
  else arg

/-- The second `switch arg.Type` of `NewArgument`: the character length default
and the rendered type `AbsType`. -/
def NewArgument.setAbsType (arg : ArgumentF Argument) : ArgumentF Argument :=
  if arg.Type_ = "CHAR" ∨ arg.Type_ = "NCHAR" ∨ arg.Type_ = "VARCHAR" ∨ arg.Type_ = "NVARCHAR"
      ∨ arg.Type_ = "VARCHAR2" ∨ arg.Type_ = "NVARCHAR2" then
    let arg :=
      if arg.CharLength ≤ 0 then
        if Go.contains arg.Type_ "VAR" then { arg with CharLength := 1000 }
        else { arg with CharLength := 10 }
      else arg
    { arg with AbsType := arg.Type_ ++ "(" ++ Go.fmtD arg.CharLength ++ ")" }
  else if arg.Type_ = "NUMBER" then
    if arg.Scale > 0 then
      { arg with AbsType := "NUMBER(" ++ Go.fmtD arg.Precision ++ ", " ++ Go.fmtD arg.Scale ++ ")" }
    else if arg.Precision > 0 then
      { arg with AbsType := "NUMBER(" ++ Go.fmtD arg.Precision ++ ")" }
    else { arg with AbsType := "NUMBER" }
  else if arg.Type_ = "PLS_INTEGER" ∨ arg.Type_ = "BINARY_INTEGER" then
    { arg with AbsType := "INTEGER(10)" }
  else { arg with AbsType := arg.Type_ }

/-- Function `NewArgument` of package structs. -/
def NewArgument (name dataType plsType typeName dirName : String) (dir : Nat)
    (charset : String) (precision scale charlength : Nat) : Argument :=
  let name := Go.toLower name
  let typeName := NewArgument.typeName typeName
  let dir := NewArgument.dir dirName dir
  let arg : ArgumentF Argument :=
    { Name := name, Type_ := dataType, PlsType := plsType, TypeName := typeName,
      Direction := dir, Precision := precision, Scale := scale, CharLength := charlength,
      Charset := charset }
  Argument.mk (NewArgument.setAbsType (NewArgument.setFlavor arg))

/-! ## The name allocator (src/structs/plsql.go, `varNames` and `getVarName`) -/

/-- The inner map of `varNames`: dotted path to generated name. -/
abbrev NameMap := List (String × String)

/-- The package-level variable `varNames`: function name to its `NameMap`. -/
abbrev VarNames := List (String × NameMap)

/-- The first statements of `getVarName`: the map of `funName`, made and stored
when `varNames` has none. -/
def getVarName.openMap (vn : VarNames) (funName : String) : VarNames :=
  match Go.mapGet vn funName with
  | some _ => vn
  | none => Go.mapSet vn funName []

/-- The test of `getVarName` on the last dot of `varName`: the prefix
`varName[:i]` and the suffix `varName[i+1:]` when the last dot, at `i`, is
neither the first nor the last character (`i > 0 && i < len(varName)-1`). -/
def getVarName.dotSplit (varName : String) : Option (String × String) :=
  match Go.lastIndex varName '.' with
  | some i =>
    if 0 < i ∧ i + 1 < varName.length then
      some (Go.sliceTo varName i, Go.sliceFrom varName (i + 1))
    else none
  | none => none

/-- The last statements of `getVarName` for a path not yet recorded: the
candidate `x0` is replaced by the prefix and the sequence number `length + 1`
when it is empty or longer than 30 bytes, and the name is stored in the map of
`funName`. -/
def getVarName.record (vn : VarNames) (funName varName pfx : String) (length : Nat)
    (x0 : String) : String × VarNames :=
  let x := if x0 = "" ∨ 30 < Go.len x0 then pfx ++ Go.fmt03d (length + 1) else x0
  (x, Go.mapSet vn funName (Go.mapSet ((Go.mapGet vn funName).getD []) varName x))

/-- Function `getVarName`, with the package-level `varNames` passed in and
returned.  The recursion is on a proper prefix of `varName`; `fuel` bounds its
depth and `none` is returned only when the fuel runs out.  `length` is read
before the recursive call, as in the source. -/
def getVarNameFuel : Nat → VarNames → String → String → String → Option (String × VarNames)
  | 0, _, _, _, _ => none
  | fuel + 1, vn, funName, varName, pfx =>
    let vn1 := getVarName.openMap vn funName
    let m : NameMap := (Go.mapGet vn1 funName).getD []
    match Go.mapGet m varName with
    | some x => some (x, vn1)
    | none =>
      let length := Go.mapLen m
      match getVarName.dotSplit varName with
      | some (pre, suf) =>
        match getVarNameFuel fuel vn1 funName pre pfx with
        | some (y, vn2) => some (getVarName.record vn2 funName varName pfx length (y ++ "#" ++ suf))
        | none => none
      | none => some (getVarName.record vn1 funName varName pfx length "")

/-- Function `getVarName`: the name and the state of `varNames` after the call.
The fuel `varName.length + 1` is never exhausted (`getVarNameFuel_isSome`). -/
def getVarName (vn : VarNames) (funName varName pfx : String) : String × VarNames :=
  (getVarNameFuel (varName.length + 1) vn funName varName pfx).getD ("", vn)

/-- Function `getInnerVarName`. -/
def getInnerVarName (vn : VarNames) (funName varName : String) : String × VarNames :=
  getVarName vn funName varName "x"

/-- Function `getParamName`. -/
def getParamName (vn : VarNames) (funName paramName : String) : String × VarNames :=
  getVarName vn funName paramName "x"

/-- The name recorded for path `k` of function `f`, the entry `varNames[f][k]`. -/
def recorded (vn : VarNames) (f k : String) : Option String :=
  match Go.mapGet vn f with
  | some m => Go.mapGet m k
  | none => none

/-- A request to the allocator: `getParamName(f, k)` when the flag is set,
`getInnerVarName(f, k)` otherwise. -/
abbrev Request := Bool × String × String

/-- The state of `varNames` after one request. -/
def request (vn : VarNames) (r : Request) : VarNames :=
  if r.1 then (getParamName vn r.2.1 r.2.2).2 else (getInnerVarName vn r.2.1 r.2.2).2

/-- The state of `varNames` after a sequence of requests. -/
def requests (vn : VarNames) (rs : List Request) : VarNames := rs.foldl request vn

/-- The states of `varNames` that requests to `getInnerVarName` and
`getParamName` reach from the empty map. -/
def Reachable (vn : VarNames) : Prop := ∃ rs : List Request, vn = requests [] rs

/-! ## The call planner (src/structs/plsql.go) -/

/-- Constant `MaxTableSize`. -/
def MaxTableSize : Nat := 1000

/-- A Go `map[string]string`, the type of `Function.types`, `tableTypes` and `callArgs`. -/
abbrev StrMap := List (String × String)

/-- The struct `Function`.  A nil `types` map is the empty map: `prepareCall`
replaces a nil one by an empty one before any use. -/
structure Function where
  Package : String := ""
  name : String := ""
  Returns : Option Argument := none
  Args : List Argument := []
  types : StrMap := []

/-- What `prepareCall` uses and src/structs does not hold: the functions `unocap`,
`goName`, `capitalize` and the method `goType` of package structs (which
receives the `types` map and may write to it), the rendering of the verb `%q`,
and `rangeOf n m`, the order in which the `n`-th `range` loop of `prepareCall`
visits the map `m` (Go leaves the order of a map unspecified). -/
structure Helpers where
  unocap : String → String
  goName : String → String
  capitalize : String → String
  goType : Argument → StrMap → String × StrMap
  quote : String → String
  rangeOf : Nat → List (String × Argument) → List (String × Argument)

/-- Method `Function.Name`. -/
def Function.Name (h : Helpers) (f : Function) : String :=
  if f.Package = "" then Go.toLower f.name
  else h.unocap f.Package ++ "." ++ Go.toLower f.name

/-- Function `notNullCheck`. -/
def notNullCheck (goType name : String) : String :=
  if Go.hasPrefix goType "Null" then name ++ ".Valid"
  else if goType = "string" then name ++ " != \"\" "
  else name ++ "!= nil"

/-- Function `deRef`; `goType[8:]` and `goType[0]` fault on a string too short. -/
def deRef (goType name : String) : Except Go.Fault String :=
  if Go.hasPrefix goType "Null" then
    if Go.len goType < 8 then .error (.panic "slice bounds out of range")
    else .ok (name ++ "." ++ Go.sliceFrom goType 8)
  else if goType = "" then .error (.panic "index out of range")
  else if goType.data.head? = some '*' then .ok ("*" ++ name)
  else .ok name

/-- The guard `preconcept2` that `getConvSimple` and `getConvRec` compute from
`name` when it has a dot: `"if input.<name up to its last dot> != nil {"`. -/
def preconcept2Of (name : String) : String :=
  match Go.lastIndex name '.' with
  | some i =>
    let preconcept := "input." ++ Go.sliceTo name i ++ " != nil &&"
    "if " ++ Go.sliceTo preconcept (preconcept.length - 3) ++ " \x7b"
  | none => ""

/-- Method `Argument.getConvSimple`.  The result carries the `types` map as
`goType` left it. -/
def getConvSimple (h : Helpers) (arg : Argument) (convIn convOut : List String)
    (types : StrMap) (name paramName : String) (tableSize : Nat) :
    Except Go.Fault (List String × List String × StrMap) :=
  let (got, types) := h.goType arg types
  let preconcept2 := if Go.count name '.' ≥ 1 then preconcept2Of name else ""
  if arg.IsOutput then
    let (convIn, convOut) :=
      if arg.IsInput then
        let convIn := convIn ++ ["output." ++ name ++ " = input." ++ name]
        if got = "string" then
          (convIn ++ ["v = gocilib.NewStringVar(input." ++ name ++ ", "
            ++ Go.fmtD arg.fields.CharLength ++ ")"], convOut)
        else (convIn ++ ["v = &output." ++ name], convOut)
      else if got = "string" then
        (convIn ++ ["v = gocilib.NewStringVar(\"\", " ++ Go.fmtD arg.fields.CharLength ++ ")"],
         convOut ++ ["if params[" ++ h.quote paramName ++ "] != nil \x7b output." ++ name
            ++ " = params[" ++ h.quote paramName ++ "].(*gocilib.StringVar).String() \x7d"])
      else (convIn ++ ["v = &output." ++ name], convOut)
    if got = "" then .error (.panic "index out of range")
    else
      let convIn :=
        if arg.IsInput then
          if tableSize = 0 then
            let convIn := if preconcept2 ≠ "" then convIn ++ [preconcept2] else convIn
            if preconcept2 ≠ "" then convIn ++ ["\x7d"] else convIn
          else
            let convIn := if preconcept2 ≠ "" then convIn ++ [preconcept2] else convIn
            let convIn := convIn ++ ["v = input." ++ name]
            if preconcept2 ≠ "" then convIn ++ ["\x7d"] else convIn
        else convIn
      .ok (convIn ++ ["params[\"" ++ paramName ++ "\"] = v\n"], convOut, types)
  else if tableSize = 0 then
    let convIn := if preconcept2 ≠ "" then convIn ++ [preconcept2] else convIn
    let convIn := convIn ++ ["v = input." ++ name]
    let convIn := if preconcept2 ≠ "" then convIn ++ ["\x7d else \x7b v = nil \x7d"] else convIn
    .ok (convIn ++ ["params[\"" ++ paramName ++ "\"] = v\n"], convOut, types)
  else
    let convIn := if preconcept2 ≠ "" then convIn ++ [preconcept2] else convIn
    if got = "" then .error (.panic "index out of range")
    else
      let convIn := convIn ++ ["v = input." ++ name]
      let convIn := if preconcept2 ≠ "" then convIn ++ ["\x7d"] else convIn
      .ok (convIn ++ ["params[\"" ++ paramName ++ "\"] = v\n"], convOut, types)

/-- Method `Argument.getConvRec`; `hasParent` is `parentArg != nil`.  The host
type and the capitalised key are taken to hold no `%`, which `fmt.Sprintf`
would read as a verb. -/
def getConvRec (h : Helpers) (arg : Argument) (convIn convOut : List String)
    (types : StrMap) (name paramName : String) (tableSize : Nat)
    (hasParent : Bool) (key : String) :
    Except Go.Fault (List String × List String × StrMap) :=
  let (got, types) := h.goType arg types
  let preconcept2 :=
    if Go.count name '.' ≥ 1 ∧ hasParent = true then preconcept2Of name else ""
  if arg.IsOutput then
    let convIn :=
      if arg.IsInput then convIn ++ ["input." ++ name ++ " = output." ++ name] else convIn
    let convIn := convIn ++ ["v = &output." ++ name]
    if got = "" then .error (.panic "index out of range")
    else
      let convIn :=
        if arg.IsInput then
          if tableSize = 0 then
            let convIn := if preconcept2 ≠ "" then convIn ++ [preconcept2] else convIn
            if preconcept2 ≠ "" then convIn ++ ["\x7d"] else convIn
          else
            let convIn := if preconcept2 ≠ "" then convIn ++ [preconcept2] else convIn
            let convIn := convIn ++ ["v = input." ++ name]
            if preconcept2 ≠ "" then convIn ++ ["\x7d"] else convIn
        else convIn
      .ok (convIn ++ ["params[\"" ++ paramName ++ "\"] = v\n"], convOut, types)
  else if tableSize = 0 then
    let convIn := if preconcept2 ≠ "" then convIn ++ [preconcept2] else convIn
    let convIn := convIn ++ ["v = input." ++ name]
    let convIn := if preconcept2 ≠ "" then convIn ++ ["\x7d else \x7b v = nil \x7d"] else convIn
    .ok (convIn ++ ["params[\"" ++ paramName ++ "\"] = v\n"], convOut, types)
  else
    let convIn := if preconcept2 ≠ "" then convIn ++ [preconcept2] else convIn
    if got = "" then .error (.panic "index out of range")
    else
      let subGoType := if got.data.head? = some '*' then Go.sliceFrom got 1 else got
      match deRef got ("x." ++ h.capitalize key) with
      | .error e => .error e
      | .ok deref =>
        let convIn := convIn ++ [
          "\x7b\n                var a []" ++ subGoType
          ++ "\n                if len(input." ++ name ++ ") == 0 \x7b"
          ++ "\n                    a = make([]" ++ subGoType ++ ", 0)"
          ++ "\n                \x7d else \x7b"
          ++ "\n                    a = make([]" ++ subGoType ++ ", len(input." ++ name ++ "))"
          ++ "\n                    for i, x := range input." ++ name ++ " \x7b"
          ++ "\n                   if x != nil && " ++ notNullCheck got ("x." ++ h.capitalize key)
          ++ " \x7b\n\t\t\t\t\t\t\ta[i] = " ++ deref ++ " \x7d"
          ++ "\n                    \x7d"
          ++ "\n                \x7d"
          ++ "\n                v = a"
          ++ "\n                \x7d"
          ++ "\n                    "]
        let convIn := if preconcept2 ≠ "" then convIn ++ ["\x7d"] else convIn
        .ok (convIn ++ ["params[\"" ++ paramName ++ "\"] = v\n"], convOut, types)

/-- The local variables of `prepareCall` that its loops update, the
package-level `varNames` apart. -/
structure Plan where
  decls : List String := []
  pre : List String := []
  post : List String := []
  convIn : List String := []
  convOut : List String := []
  tableTypes : StrMap := []
  callArgs : StrMap := []
  types : StrMap := []

/-- The rune mapping of `getTableType`: `(` and `,` become `_`, a space and `)`
are dropped. -/
def tableTypeRune (c : Char) : Option Char :=
  if c = '(' ∨ c = ',' then some '_'
  else if c = ' ' ∨ c = ')' then none
  else some c

/-- The closure `getTableType` of `prepareCall`. -/
def getTableType (p : Plan) (absType : String) : String × Plan :=
  match Go.mapGet p.tableTypes absType with
  | some typ => (typ, p)
  | none =>
    let typ := Go.mapRunes tableTypeRune absType ++ "_tab_typ"
    (typ, { p with
      decls := p.decls ++ ["TYPE " ++ typ ++ " IS TABLE OF " ++ absType ++ " INDEX BY BINARY_INTEGER;"],
      tableTypes := Go.mapSet p.tableTypes absType typ })

/-- A `range` loop whose body may stop the run: the body is applied to the
elements in order, up to the first fault. -/
def forRange {α σ : Type} (body : σ → α → Except Go.Fault σ) : List α → σ → Except Go.Fault σ
  | [], st => .ok st
  | a :: l, st =>
    match body st a with
    | .error e => .error e
    | .ok st1 => forRange body l st1

/-- One turn of the loop over the fields of a Record argument (the first
`range arg.RecordOf` loop of `prepareCall`). -/
def recordField (h : Helpers) (funName : String) (arg : Argument) (vn aname : String)
    (st : VarNames × Plan) (kv : String × Argument) : Except Go.Fault (VarNames × Plan) :=
  let (vns, p) := st
  let (k, v) := kv
  let tmp := (getParamName vns funName (vn ++ "." ++ k)).1
  let vns := (getParamName vns funName (vn ++ "." ++ k)).2
  let name := aname ++ "." ++ h.capitalize (h.goName k)
  let p := if arg.IsInput then { p with pre := p.pre ++ [vn ++ "." ++ k ++ " := :" ++ tmp ++ ";"] } else p
  let p := if arg.IsOutput then { p with post := p.post ++ [":" ++ tmp ++ " := " ++ vn ++ "." ++ k ++ ";"] } else p
  match getConvRec h v p.convIn p.convOut p.types name tmp 0 true k with
  | .error e => .error e
  | .ok (convIn, convOut, types) =>
    .ok (vns, { p with convIn := convIn, convOut := convOut, types := types })

/-- One turn of the loop of a Table-of-Record argument that declares the
shadow collections ("declarations go first"). -/
def tableRecordDecl (funName : String) (arg : Argument) (vn : String)
    (st : VarNames × Plan) (kv : String × Argument) : Except Go.Fault (VarNames × Plan) :=
  let (vns, p) := st
  let (k, v) := kv
  let (typ, p) := getTableType p v.fields.AbsType
  let dn := (getParamName vns funName (vn ++ "." ++ k)).1
  let vns := (getParamName vns funName (vn ++ "." ++ k)).2
  let p := { p with decls := p.decls ++ [dn ++ " " ++ typ ++ ";"] }
  let tmp := (getParamName vns funName (vn ++ "." ++ k)).1
  let vns := (getParamName vns funName (vn ++ "." ++ k)).2
  let p :=
    if arg.IsInput then { p with pre := p.pre ++ [tmp ++ " := :" ++ tmp ++ ";"] }
    else { p with pre := p.pre ++ [tmp ++ ".DELETE;"] }
  .ok (vns, p)

/-- One turn of the loop of a Table-of-Record argument that writes the copy
loops ("here comes the loops"); the third component of the state is `idxvar`. -/
def tableRecordLoop (h : Helpers) (funName : String) (arg : Argument) (vn aname : String)
    (st : VarNames × Plan × String) (kv : String × Argument) :
    Except Go.Fault (VarNames × Plan × String) :=
  let (vns, p, idxvar) := st
  let (k, v) := kv
  let p := (getTableType p v.fields.AbsType).2
  let tmp := (getParamName vns funName (vn ++ "." ++ k)).1
  let vns := (getParamName vns funName (vn ++ "." ++ k)).2
  let opened : VarNames × Plan × String :=
    if idxvar = "" then
      let idxvar := (getParamName vns funName (vn ++ "." ++ k)).1
      let vns := (getParamName vns funName (vn ++ "." ++ k)).2
      let p :=
        if arg.IsInput then
          { p with pre := p.pre ++ ["", "i1 := " ++ idxvar ++ ".FIRST;", "WHILE i1 IS NOT NULL LOOP"] }
        else p
      let p :=
        if arg.IsOutput then
          { p with post := p.post ++ ["", "i1 := " ++ vn ++ ".FIRST; i2 := 1;", "WHILE i1 IS NOT NULL LOOP"] }
        else p
      (vns, p, idxvar)
    else (vns, p, idxvar)
  let vns := opened.1
  let p := opened.2.1
  let idxvar := opened.2.2
  match getConvRec h v p.convIn p.convOut p.types aname tmp MaxTableSize true k with
  | .error e => .error e
  | .ok (convIn, convOut, types) =>
    let p := { p with convIn := convIn, convOut := convOut, types := types }
    let p :=
      if arg.IsInput then
        { p with pre := p.pre ++ ["  " ++ vn ++ "(i1)." ++ k ++ " := " ++ tmp ++ "(i1);"] }
      else p
    let p :=
      if arg.IsOutput then
        { p with post := p.post ++ ["  " ++ tmp ++ "(i2) := " ++ vn ++ "(i1)." ++ k ++ ";"] }
      else p
    .ok (vns, p, idxvar)

/-- One turn of the last loop of an output Table-of-Record argument, which
writes each shadow collection back to its bind slot. -/
def tableRecordOut (funName : String) (vn : String)
    (st : VarNames × Plan) (kv : String × Argument) : Except Go.Fault (VarNames × Plan) :=
  let (vns, p) := st
  let tmp := (getParamName vns funName (vn ++ "." ++ kv.1)).1
  let vns := (getParamName vns funName (vn ++ "." ++ kv.1)).2
  .ok (vns, { p with post := p.post ++ [":" ++ tmp ++ " := " ++ tmp ++ ";"] })

/-- The case `FLAVOR_SIMPLE` of the loop of `prepareCall`, which is also how a
`REF CURSOR` that is not an input is planned. -/
def planSimple (h : Helpers) (st : VarNames × Plan) (arg : Argument) :
    Except Go.Fault (VarNames × Plan) :=
  let (vns, p) := st
  let name := h.capitalize (h.goName arg.fields.Name)
  match getConvSimple h arg p.convIn p.convOut p.types name arg.fields.Name 0 with
  | .error e => .error e
  | .ok (convIn, convOut, types) =>
    .ok (vns, { p with convIn := convIn, convOut := convOut, types := types })

/-- The case `FLAVOR_RECORD` of the loop of `prepareCall`. -/
def planRecord (h : Helpers) (funName : String) (st : VarNames × Plan) (arg : Argument) :
    Except Go.Fault (VarNames × Plan) :=
  let (vns, p) := st
  let vn := (getInnerVarName vns funName arg.fields.Name).1
  let vns := (getInnerVarName vns funName arg.fields.Name).2
  let p := { p with decls := p.decls ++ [vn ++ " " ++ arg.fields.TypeName ++ ";"],
                    callArgs := Go.mapSet p.callArgs arg.fields.Name vn }
  let aname := h.capitalize (h.goName arg.fields.Name)
  let withOut : Except Go.Fault Plan :=
    if arg.IsOutput then
      let (got, types) := h.goType arg p.types
      if got = "" then .error (.panic "slice bounds out of range")
      else .ok { p with
        types := types,
        convOut := p.convOut ++ [
          "\n                    if output." ++ aname ++ " == nil \x7b"
          ++ "\n                        output." ++ aname ++ " = new(" ++ Go.sliceFrom got 1 ++ ")"
          ++ "\n                    \x7d"] }
    else .ok p
  match withOut with
  | .error e => .error e
  | .ok p =>
    forRange (recordField h funName arg vn aname)
      (h.rangeOf 0 (arg.fields.RecordOf.getD [])) (vns, p)

/-- The case `FLAVOR_TABLE` of the loop of `prepareCall` for a table whose
element `elem` is `FLAVOR_SIMPLE`. -/
def planTableSimple (h : Helpers) (funName : String) (st : VarNames × Plan)
    (arg elem : Argument) : Except Go.Fault (VarNames × Plan) :=
  let (vns, p) := st
  let (typ, p) := getTableType p elem.fields.AbsType
  let setvar := if arg.IsInput then " := :" ++ arg.fields.Name else ""
  let p := { p with decls := p.decls ++ [arg.fields.Name ++ " " ++ typ ++ setvar ++ ";"] }
  let vn := (getInnerVarName vns funName arg.fields.Name).1
  let vns := (getInnerVarName vns funName arg.fields.Name).2
  let p := { p with callArgs := Go.mapSet p.callArgs arg.fields.Name vn,
                    decls := p.decls ++ [vn ++ " " ++ arg.fields.TypeName ++ ";"] }
  let p :=
    if arg.IsInput then
      { p with pre := p.pre ++ [
          vn ++ ".DELETE;",
          "i1 := " ++ arg.fields.Name ++ ".FIRST;",
          "WHILE i1 IS NOT NULL LOOP",
          "  " ++ vn ++ "(i1) := " ++ arg.fields.Name ++ "(i1);",
          "  i1 := " ++ arg.fields.Name ++ ".NEXT(i1);",
          "END LOOP;"] }
    else p
  let p :=
    if arg.IsOutput then
      { p with post := p.post ++ [
          arg.fields.Name ++ ".DELETE;",
          "i1 := " ++ vn ++ ".FIRST;",
          "WHILE i1 IS NOT NULL LOOP",
          "  " ++ arg.fields.Name ++ "(i1) := " ++ vn ++ "(i1);",
          "  i1 := " ++ vn ++ ".NEXT(i1);",
          "END LOOP;",
          ":" ++ arg.fields.Name ++ " := " ++ arg.fields.Name ++ ";"] }
    else p
  let name := h.capitalize (h.goName arg.fields.Name)
  match getConvSimple h elem p.convIn p.convOut p.types name arg.fields.Name MaxTableSize with
  | .error e => .error e
  | .ok (convIn, convOut, types) =>
    .ok (vns, { p with convIn := convIn, convOut := convOut, types := types })

/-- The end of the case of a Table-of-Record, after its copy loops: the loops
are closed and, for an output, the shadow collections are written back. -/
def tableRecordClose (h : Helpers) (funName : String) (arg : Argument) (vn : String)
    (recordOf : List (String × Argument)) (st : VarNames × Plan × String) :
    Except Go.Fault (VarNames × Plan) :=
  let (vns, p, idxvar) := st
  let p :=
    if arg.IsInput then
      { p with pre := p.pre ++ ["  i1 := " ++ idxvar ++ ".NEXT(i1);", "END LOOP;"] }
    else p
  if arg.IsOutput then
    let p := { p with post := p.post ++
      ["  i1 := " ++ vn ++ ".NEXT(i1); i2 := i2 + 1;", "END LOOP;"] }
    forRange (tableRecordOut funName vn) (h.rangeOf 3 recordOf) (vns, p)
  else .ok (vns, p)

/-- The middle of the case of a Table-of-Record, after its declarations: the
copy loops ("here comes the loops") and what follows them. -/
def tableRecordLoops (h : Helpers) (funName : String) (arg : Argument) (vn aname : String)
    (recordOf : List (String × Argument)) (st : VarNames × Plan) :
    Except Go.Fault (VarNames × Plan) :=
  match forRange (tableRecordLoop h funName arg vn aname) (h.rangeOf 2 recordOf)
      (st.1, st.2, "") with
  | .error e => .error e
  | .ok st1 => tableRecordClose h funName arg vn recordOf st1

/-- The case `FLAVOR_TABLE` of the loop of `prepareCall` for a table whose
element `elem` is `FLAVOR_RECORD`. -/
def planTableRecord (h : Helpers) (funName : String) (st : VarNames × Plan)
    (arg elem : Argument) : Except Go.Fault (VarNames × Plan) :=
  let (vns, p) := st
  let vn := (getInnerVarName vns funName (arg.fields.Name ++ "." ++ elem.fields.Name)).1
  let vns := (getInnerVarName vns funName (arg.fields.Name ++ "." ++ elem.fields.Name)).2
  let p := { p with callArgs := Go.mapSet p.callArgs arg.fields.Name vn,
                    decls := p.decls ++ [vn ++ " " ++ arg.fields.TypeName ++ ";"] }
  let aname := h.capitalize (h.goName arg.fields.Name)
  let p :=
    if arg.IsOutput then
      let (got, types) := h.goType elem p.types
      { p with
        types := types,
        convOut := p.convOut ++ [
          "\n                    if output." ++ aname ++ " == nil \x7b"
          ++ "\n                        output." ++ aname ++ " = make([]" ++ got ++ ", 0, "
          ++ Go.fmtD MaxTableSize ++ ")"
          ++ "\n                    \x7d"] }
    else p
  let p := if ¬ arg.IsInput then { p with pre := p.pre ++ [vn ++ ".DELETE;"] } else p
  let recordOf := elem.fields.RecordOf.getD []
  match forRange (tableRecordDecl funName arg vn) (h.rangeOf 1 recordOf) (vns, p) with
  | .error e => .error e
  | .ok st1 => tableRecordLoops h funName arg vn aname recordOf st1

/-- The body of the loop `for _, arg := range args` of `prepareCall`: the
`switch arg.Flavor`. -/
def planArg (h : Helpers) (funName : String) (st : VarNames × Plan) (arg : Argument) :
    Except Go.Fault (VarNames × Plan) :=
  if arg.fields.Flavor = FLAVOR_SIMPLE then planSimple h st arg
  else if arg.fields.Flavor = FLAVOR_RECORD then planRecord h funName st arg
  else if arg.fields.Flavor = FLAVOR_TABLE then
    if arg.fields.Type_ = "REF CURSOR" then
      if arg.IsInput then .error (.fatal "cannot use IN cursor variables")
      else planSimple h st arg
    else
      match arg.fields.TableOf with
      | none => .error (.panic "nil pointer dereference")
      | some elem =>
        if elem.fields.Flavor = FLAVOR_SIMPLE then planTableSimple h funName st arg elem
        else if elem.fields.Flavor = FLAVOR_RECORD then planTableRecord h funName st arg elem
        else .error (.fatal "only table of simple or record types are allowed (no table of table!)")
  else .error (.fatal "unkown flavor")

/-- The loop of `prepareCall` that writes the actual parameters of the call;
`i` is the index of the head of the list in `fun.Args`. -/
def writeCallArgs (callArgs : StrMap) : List Argument → Nat → String
  | [], _ => ""
  | arg :: rest, i =>
    (if i > 0 then ",\n\t\t" else "")
    ++ arg.fields.Name ++ "=>"
    ++ (match Go.mapGet callArgs arg.fields.Name with
        | some vn => vn
        | none => ":" ++ arg.fields.Name)
    ++ writeCallArgs callArgs rest (i + 1)

/-- The results of `prepareCall`. -/
structure Prepared where
  decls : List String
  pre : List String
  call : String
  post : List String
  convIn : List String
  convOut : List String
  err : Option String
  deriving DecidableEq, Repr

/-- Method `Function.prepareCall`, with the package-level `varNames` passed in
and returned beside the results. -/
def prepareCall (h : Helpers) (varNames : VarNames) (f : Function) :
    Except Go.Fault (Prepared × VarNames) :=
  let funName := f.Name h
  let p : Plan :=
    { decls := ["i1 PLS_INTEGER;", "i2 PLS_INTEGER;"],
      convIn := ["var v driver.Value\nvar x interface\x7b\x7d\n _, _ = v, x"],
      types := f.types }
  let args : List Argument :=
    match f.Returns with
    | some r => f.Args ++ [r]
    | none => f.Args
  match forRange (planArg h funName) args (varNames, p) with
  | .error e => .error e
  | .ok (vns, p) =>
    let call := (if f.Returns.isSome then ":ret := " else "") ++ funName ++ "("
      ++ writeCallArgs p.callArgs f.Args 0 ++ ")"
    .ok ({ decls := p.decls, pre := p.pre, call := call, post := p.post,
           convIn := p.convIn, convOut := p.convOut, err := none }, vns)

/-- The names recorded for function `f`: the map `varNames[f]`, the empty map
when `varNames` has none. -/
def namesOf (vn : VarNames) (f : String) : NameMap := (Go.mapGet vn f).getD []

/-- What a step of the planner leaves, with `varNames` cut down to the map of
function `f`. -/
def cutTo {σ : Type} (f : String) :
    Except Go.Fault (VarNames × σ) → Except Go.Fault (NameMap × σ)
  | .ok (vn, st) => .ok (namesOf vn f, st)
  | .error e => .error e

/-- The states of `varNames` that earlier planning leaves behind: the empty map
of a fresh process, and the state a returning `prepareCall` leaves. -/
inductive PlannedState (h : Helpers) : VarNames → Prop where
  | fresh : PlannedState h []
  | planned (vn vn' : VarNames) (f : Function) (r : Prepared) :
      PlannedState h vn → prepareCall h vn f = .ok (r, vn') → PlannedState h vn'

/-- The results of `prepareCall` without the state of `varNames`: what the
caller of `prepareCall` receives, or how the run stopped. -/
def prepared (h : Helpers) (varNames : VarNames) (f : Function) : Except Go.Fault Prepared :=
  match prepareCall h varNames f with
  | .ok (r, _) => .ok r
  | .error e => .error e

/-- A stand-in for the functions that src/structs does not hold, to run the
planner at concrete inputs: `unocap`, `goName` and `capitalize` return their
argument, the host type of an argument is its field `goTypeName`, `%q` puts its
argument between double quotes, and a `range` loop visits a map in the order
in which it is listed. -/
def Helpers.plain : Helpers where
  unocap := fun s => s
  goName := fun s => s
  capitalize := fun s => s
  goType := fun a types => (a.fields.goTypeName, types)
  quote := fun s => "\"" ++ s ++ "\""
  rangeOf := fun _ m => m

/-- An input Record argument without fields, as `NewArgument` returns it for the
keyword `PL/SQL RECORD`, the direction `IN` and the type name `typeName`. -/
def inputRecord (name typeName : String) : Argument :=
  NewArgument name "PL/SQL RECORD" "" typeName "IN" 0 "" 0 0 0

/-- A procedure without package: the function `name` with the arguments `args`
and no `Returns`. -/
def procedure (name : String) (args : List Argument) : Function :=
  { name := name, Args := args }

/-- The lines that `PlsqlBlock` writes for a list of statements: each on its own
line, indented by two spaces (`fmt.Fprintf(plsBuf, "  %s\n", line)`). -/
def plsqlLines : List String → String
  | [] => ""
  | line :: rest => "  " ++ line ++ "\n" ++ plsqlLines rest

/-- The text `plsql` that `PlsqlBlock` writes from the results of `prepareCall`. -/
def plsqlText (r : Prepared) : String :=
  (if r.decls.length > 0 then "DECLARE\n" ++ plsqlLines r.decls ++ "\n" else "")
  ++ "BEGIN\n" ++ plsqlLines r.pre ++ "\n  " ++ r.call ++ ";\n\n" ++ plsqlLines r.post
  ++ "\nEND;\n"

/-- Method `Function.PlsqlBlock`, its result `plsql`, with the package-level
`varNames` passed in and returned.  An error of `prepareCall` stops the run
(`glog.Fatalf`).  The second result, the host wrapper `callFun`, is written
with `getStructName` and `getPlsqlConstName`, which src/structs does not hold,
and is left out. -/
def PlsqlBlock (h : Helpers) (varNames : VarNames) (f : Function) :
    Except Go.Fault (String × VarNames) :=
  match prepareCall h varNames f with
  | .error e => .error e
  | .ok (r, vns) =>
    match r.err with
    | some e => .error (.fatal ("error preparing: " ++ e))
    | none => .ok (plsqlText r, vns)

/-- An argument with its element set, as the reader of the metadata sets
`TableOf`. -/
def Argument.setTableOf (a elem : Argument) : Argument :=
  Argument.mk { a.fields with TableOf := some elem }

/-- An argument with its fields set, as the reader of the metadata fills
`RecordOf`. -/
def Argument.setRecordOf (a : Argument) (fs : List (String × Argument)) : Argument :=
  Argument.mk { a.fields with RecordOf := some fs }

/-- An argument with its cached host type name set. -/
def Argument.setGoTypeName (a : Argument) (t : String) : Argument :=
  Argument.mk { a.fields with goTypeName := t }

/-- The slice `args` of `prepareCall`: the arguments of the function, followed
by its `Returns` when it has one. -/
def Function.args (f : Function) : List Argument :=
  match f.Returns with
  | some r => f.Args ++ [r]
  | none => f.Args

/-- The structural violations of the planner: a `REF CURSOR` table whose
direction includes IN, and a table whose element is itself a table. -/
def Argument.violates (a : Argument) : Prop :=
  a.fields.Flavor = FLAVOR_TABLE ∧
    ((a.fields.Type_ = "REF CURSOR" ∧ a.IsInput = true) ∨
     (a.fields.Type_ ≠ "REF CURSOR" ∧
       ∃ elem, a.fields.TableOf = some elem ∧ elem.fields.Flavor = FLAVOR_TABLE))

/-! ## Predicates for stating what a plan holds -/

/-- The second state records every name that the first records: what a run of
requests to the allocator leaves of the state it starts from. -/
def Keeps (vn vn' : VarNames) : Prop :=
  ∀ f k y, recorded vn f k = some y → recorded vn' f k = some y

/-- Every recorded name starts with `x`, the prefix that `getInnerVarName` and
`getParamName` pass: the states a process can reach are such. -/
def WellNamed (vn : VarNames) : Prop :=
  ∀ f k y, recorded vn f k = some y → y.data.head? = some 'x'

/-- The name recorded for a path, as a plan writes it (the empty string when
there is none). -/
def slotOf (vn : VarNames) (f path : String) : String := (recorded vn f path).getD ""

/-- An argument for which `prepareCall` declares a local variable: a Record, or
a Table that is no `REF CURSOR`. -/
def Argument.isLocal (a : Argument) : Prop :=
  a.fields.Flavor = FLAVOR_RECORD ∨
    (a.fields.Flavor = FLAVOR_TABLE ∧ a.fields.Type_ ≠ "REF CURSOR")

/-- The path under which `prepareCall` requests the local variable of an
argument: its name, followed for a Table-of-Record by a dot and the name of the
element. -/
def Argument.path (a : Argument) : String :=
  if a.fields.Flavor = FLAVOR_RECORD then a.fields.Name
  else
    match a.fields.TableOf with
    | some elem =>
      if elem.fields.Flavor = FLAVOR_RECORD then a.fields.Name ++ "." ++ elem.fields.Name
      else a.fields.Name
    | none => a.fields.Name

/-- The name of the local collection type of an element signature, as
`getTableType` makes it. -/
def tableTypeName (absType : String) : String :=
  Go.mapRunes tableTypeRune absType ++ "_tab_typ"

/-- The declaration of the local collection type of an element signature, as
`getTableType` writes it. -/
def typeLine (absType : String) : String :=
  "TYPE " ++ tableTypeName absType ++ " IS TABLE OF " ++ absType ++ " INDEX BY BINARY_INTEGER;"

instance (a : Argument) : Decidable a.isLocal := by
  unfold Argument.isLocal
  infer_instance

/-- The actual parameter that the call passes for an argument, as the
planner's rules give it: the local variable recorded for the path of an
argument that has one, and the bind slot `:name` otherwise. -/
def callRef (vn : VarNames) (f : String) (a : Argument) : String :=
  if a.isLocal then slotOf vn f a.path else ":" ++ a.fields.Name

/-- Plan `q` continues plan `p`: its declarations and its pre-call and post-call
statements start with those of `p`. -/
def Plan.Extends (p q : Plan) : Prop :=
  p.decls <+: q.decls ∧ p.pre <+: q.pre ∧ p.post <+: q.post

/-- The state after a run of steps continues the state before it: every
recorded name is kept, the names still start with `x` when they did, and the
plan continues the plan before. -/
def Continues (st st' : VarNames × Plan) : Prop :=
  Keeps st.1 st'.1 ∧ (WellNamed st.1 → WellNamed st'.1) ∧ st.2.Extends st'.2

/-- The invariant of `tableTypes` and the declarations: a signature without a
recorded type has no `TYPE` line among the declarations, and a signature with
a recorded type has the type that `getTableType` names for it and exactly one
`TYPE` line. -/
def Plan.TypesOnce (p : Plan) : Prop :=
  ∀ a : String,
    (Go.mapGet p.tableTypes a = none → p.decls.count (typeLine a) = 0) ∧
    (∀ t, Go.mapGet p.tableTypes a = some t →
      t = tableTypeName a ∧ p.decls.count (typeLine a) = 1)

/-- A function with an argument of every kind the planner accepts: an input
scalar, an IN/OUT Record, an input Table of scalars, an output Table of Records,
an output `REF CURSOR`, and a numeric `Returns`. -/
def sendOffer : Function :=
  { Package := "DB_web", name := "SEND_OFFER",
    Args := [
      (NewArgument "P_SESSIONID" "VARCHAR2" "VARCHAR2" "" "IN" 0 "CHAR_CS" 0 0 80).setGoTypeName
        "string",
      ((NewArgument "P_KOTVENY" "PL/SQL RECORD" "" "DB_WEB.KOTVENY_REC_TYP" "IN/OUT" 0 "" 0 0
          0).setRecordOf
        [("dijkod", (NewArgument "DIJKOD" "VARCHAR2" "VARCHAR2" "" "IN/OUT" 0 "CHAR_CS" 0 0
            2).setGoTypeName "string")]).setGoTypeName "*Kotveny_rec_typ",
      (NewArgument "P_SZAMOK" "PL/SQL TABLE" "" "DB_WEB.SZAM_TAB_TYP" "IN" 0 "" 0 0 0).setTableOf
        ((NewArgument "" "NUMBER" "NUMBER" "" "IN" 0 "" 9 0 0).setGoTypeName "float64"),
      (NewArgument "P_HIBALISTA" "PL/SQL TABLE" "" "DB_WEB.HIBA_TAB_TYP" "OUT" 0 "" 0 0
          0).setTableOf
        (((NewArgument "" "PL/SQL RECORD" "" "DB_WEB.HIBA_REC_TYP" "OUT" 0 "" 0 0 0).setRecordOf
          [("hibaszam", (NewArgument "HIBASZAM" "NUMBER" "NUMBER" "" "OUT" 0 "" 9 0
              0).setGoTypeName "float64")]).setGoTypeName "*Hiba_rec_typ"),
      (NewArgument "P_CUR" "REF CURSOR" "" "" "OUT" 0 "" 0 0 0).setGoTypeName "*ora.Rset"],
    Returns := some ((NewArgument "ret" "NUMBER" "NUMBER" "" "OUT" 0 "" 9 0 0).setGoTypeName
      "float64") }

/-- An IN/OUT Record argument with two DATE fields. -/
def kotvenyRecord : Argument :=
  ((NewArgument "P_KOTVENY" "PL/SQL RECORD" "" "BRUNO.DB_WEB_ELEKTR.KOTVENY_REC_TYP" "IN/OUT" 0
      "" 0 0 0).setRecordOf
    [("szerkot", (NewArgument "SZERKOT" "DATE" "DATE" "" "IN/OUT" 0 "" 0 0 0).setGoTypeName
        "time.Time"),
     ("szerlejar", (NewArgument "SZERLEJAR" "DATE" "DATE" "" "IN/OUT" 0 "" 0 0 0).setGoTypeName
        "time.Time")]).setGoTypeName "*Kotveny_rec_typ"

/-- A procedure whose one parameter is the IN/OUT Record `kotvenyRecord`. -/
def setDates : Function :=
  { Package := "DB_web", name := "SET_DATES", Args := [kotvenyRecord] }

/-- An OUT Record with the two fields `nev` and `ertek`, the element of
`nevszamTable`. -/
def nevszamRecord : Argument :=
  ((NewArgument "" "PL/SQL RECORD" "" "BRUNO.DB_WEB_PORTAL.NEVSZAM_REC_TYP" "OUT" 0 "" 0 0
      0).setRecordOf
    [("nev", (NewArgument "NEV" "VARCHAR2" "VARCHAR2" "" "OUT" 0 "CHAR_CS" 0 0
        80).setGoTypeName "string"),
     ("ertek", (NewArgument "ERTEK" "NUMBER" "NUMBER" "" "OUT" 0 "" 12 2 0).setGoTypeName
        "float64")]).setGoTypeName "*Nevszam_rec_typ"

/-- An OUT Table of the Record `nevszamRecord`. -/
def nevszamTable : Argument :=
  (NewArgument "ret" "PL/SQL TABLE" "" "BRUNO.DB_WEB_PORTAL.NEVSZAM_TAB_TYP" "OUT" 0 "" 0 0
    0).setTableOf nevszamRecord

/-- A function without parameters that returns the Table `nevszamTable`. -/
def szamoltDijtetelek : Function :=
  { Package := "DB_web", name := "SZAMOLT_DIJTETELEK", Returns := some nevszamTable }

/-- A run of steps keeps the collection types: it continues the state; it
keeps the invariant of the collection types when the names start with `x`; and
a signature that had a recorded type still has one. -/
def KeepsTypes (st st' : VarNames × Plan) : Prop :=
  Continues st st' ∧
  (WellNamed st.1 → st.2.TypesOnce → st'.2.TypesOnce) ∧
  ∀ b, Go.mapGet st.2.tableTypes b ≠ none → Go.mapGet st'.2.tableTypes b ≠ none

/-- An input Table of `NUMBER(9)` scalars. -/
def szamokIn : Argument :=
  (NewArgument "P_SZAMOK" "PL/SQL TABLE" "" "DB_WEB.SZAM_TAB_TYP" "IN" 0 "" 0 0 0).setTableOf
    ((NewArgument "" "NUMBER" "NUMBER" "" "IN" 0 "" 9 0 0).setGoTypeName "float64")

/-- An output Table of `NUMBER(9)` scalars. -/
def kodokOut : Argument :=
  (NewArgument "P_KODOK" "PL/SQL TABLE" "" "DB_WEB.KOD_TAB_TYP" "OUT" 0 "" 0 0 0).setTableOf
    ((NewArgument "" "NUMBER" "NUMBER" "" "OUT" 0 "" 9 0 0).setGoTypeName "float64")

/-- An output Record with a `NUMBER(9)` field and a `VARCHAR2(1000)` field, the
element of `hibaTable`. -/
def hibaRecord : Argument :=
  ((NewArgument "" "PL/SQL RECORD" "" "DB_WEB.HIBA_REC_TYP" "OUT" 0 "" 0 0 0).setRecordOf
    [("hibaszam", (NewArgument "HIBASZAM" "NUMBER" "NUMBER" "" "OUT" 0 "" 9 0 0).setGoTypeName
        "float64"),
     ("szoveg", (NewArgument "SZOVEG" "VARCHAR2" "VARCHAR2" "" "OUT" 0 "CHAR_CS" 0 0
        1000).setGoTypeName "string")]).setGoTypeName "*Hiba_rec_typ"

/-- An output Table of the Record `hibaRecord`. -/
def hibaTable : Argument :=
  (NewArgument "P_HIBALISTA" "PL/SQL TABLE" "" "DB_WEB.HIBA_TAB_TYP" "OUT" 0 "" 0 0
    0).setTableOf hibaRecord

/-- A procedure in which two Tables of scalars and a field of a Table of Records
have the signature `NUMBER(9)`. -/
def checkCodes : Function :=
  { Package := "DB_web", name := "CHECK_CODES", Args := [szamokIn, kodokOut, hibaTable] }

/-- An input Record with one field, named `P_ADAT`. -/
def adatRecord : Argument :=
  ((NewArgument "P_ADAT" "PL/SQL RECORD" "" "DB_WEB.ADAT_REC_TYP" "IN" 0 "" 0 0 0).setRecordOf
    [("kod", (NewArgument "KOD" "NUMBER" "NUMBER" "" "IN" 0 "" 9 0 0).setGoTypeName
        "float64")]).setGoTypeName "*Adat_rec_typ"

/-- An output Table of the Record `hibaRecord`, named `P_ADAT` as well. -/
def adatTable : Argument :=
  (NewArgument "P_ADAT" "PL/SQL TABLE" "" "DB_WEB.HIBA_TAB_TYP" "OUT" 0 "" 0 0 0).setTableOf
    hibaRecord

/-- A procedure with two arguments of the same name, the Record `adatRecord`
and the Table `adatTable`. -/
def sameNames : Function := procedure "F" [adatRecord, adatTable]


/-- Function `oracleVarTypeName`; `quote` is the rendering of the verb `%q`.
The statement `return ""` after the switch is not reached: every case returns
and the default case ends the process in `glog.Fatalf`. -/
def oracleVarTypeName (quote : String → String) (typ : String) : Except Go.Fault String :=
  if typ = "BINARY_INTEGER" ∨ typ = "PLS_INTEGER" then .ok "int32"
  else if typ = "STRING" ∨ typ = "VARCHAR2" ∨ typ = "CHAR" ∨ typ = "BINARY" then .ok "string"
  else if typ = "INTEGER" then .ok "int64"
  else if typ = "ROWID" then .ok "[10]byte"
  else if typ = "REF CURSOR" then .ok "gocilib.Cursor"
  else if typ = "TIMESTAMP" then .ok "sqlhlp.NullTime"
  else if typ = "NUMBER" then .ok "float64"
  else if typ = "DATE" then .ok "sqlhlp.NullTime"
  else if typ = "BLOB" then .ok "gocilib.LOB"
  else if typ = "CLOB" then .ok "gocilib.LOB"
  else if typ = "BOOLEAN" ∨ typ = "PL/SQL BOOLEAN" then .ok "bool"
  else .error (.fatal ("oracleVarTypeName: unknown variable type " ++ quote typ))

/-- The stand-in `Helpers.plain` with another order of the `range` loops: each
loop visits a map from its last listed entry to its first. -/
def Helpers.reversed : Helpers := { Helpers.plain with rangeOf := fun _ m => m.reverse }

/-- The request that a loop over the fields of the composite variable `vn` of
function `f` issues for the field `kv`: `getParamName(f, vn + "." + k)`. -/
def fieldRequest (f vn : String) (kv : String × Argument) : Request :=
  (true, f, vn ++ "." ++ kv.1)

/-- A function with one input parameter that returns a number; the row of the
return value carries no argument name. -/
def getCount : Function :=
  { Package := "DB_web", name := "GET_COUNT",
    Args := [(NewArgument "P_SESSIONID" "VARCHAR2" "VARCHAR2" "" "IN" 0 "CHAR_CS" 0 0
      80).setGoTypeName "string"],
    Returns := some ((NewArgument "" "NUMBER" "NUMBER" "" "OUT" 0 "" 9 0 0).setGoTypeName
      "float64") }

/-- The IN/OUT field `szerkot` of the Record `kotvenyRecord`, a `DATE`. -/
def szerkotField : Argument :=
  (NewArgument "SZERKOT" "DATE" "DATE" "" "IN/OUT" 0 "" 0 0 0).setGoTypeName "time.Time"


/-! ## Signatures and more sample inputs -/

/-- The signature that `NewArgument` renders from a keyword and its numbers:
the keyword alone, `kw(d)` or `kw(d1, d2)`. -/
def signature (kw : String) (ds : List Nat) : String :=
  match ds with
  | [] => kw
  | [d] => kw ++ "(" ++ Go.fmtD d ++ ")"
  | d1 :: d2 :: _ => kw ++ "(" ++ Go.fmtD d1 ++ ", " ++ Go.fmtD d2 ++ ")"

/-- Pieces of text joined by underscores, the first piece apart. -/
def joinPieces (x : List Char) (xs : List (List Char)) : List Char :=
  x ++ (xs.map (fun y => '_' :: y)).flatten

/-- A keyword without the characters that the naming of collection types
rewrites or drops, and without underscore. -/
def plainKeyword (kw : String) : Prop :=
  ∀ c ∈ kw.data, c ≠ '(' ∧ c ≠ ',' ∧ c ≠ ' ' ∧ c ≠ ')' ∧ c ≠ '_'

/-- The value of a list of decimal digits. -/
def digitsValue (l : List Char) : Nat := l.foldl (fun a c => 10 * a + (c.toNat - 48)) 0

instance (kw : String) : Decidable (plainKeyword kw) := by
  unfold plainKeyword
  infer_instance

/-- The type keywords that the source names: the keywords of the two switches
of `NewArgument` and the sixteen keywords that `oracleVarTypeName` has a case
for; every other keyword ends the run in `oracleVarTypeName`. -/
def typeKeywords : List String :=
  ["PL/SQL RECORD", "TABLE", "PL/SQL TABLE", "REF CURSOR",
   "CHAR", "NCHAR", "VARCHAR", "NVARCHAR", "VARCHAR2", "NVARCHAR2",
   "NUMBER", "PLS_INTEGER", "BINARY_INTEGER",
   "STRING", "BINARY", "INTEGER", "ROWID", "TIMESTAMP", "DATE", "BLOB", "CLOB",
   "BOOLEAN", "PL/SQL BOOLEAN"]

/-- An IN/OUT Record without fields, the element of `uresTable`. -/
def uresRecord : Argument :=
  (NewArgument "" "PL/SQL RECORD" "" "DB_WEB.URES_REC_TYP" "IN/OUT" 0 "" 0 0 0).setGoTypeName
    "*Ures_rec_typ"

/-- An IN/OUT Table of the Record `uresRecord`. -/
def uresTable : Argument :=
  (NewArgument "P_URES" "PL/SQL TABLE" "" "DB_WEB.URES_TAB_TYP" "IN/OUT" 0 "" 0 0 0).setTableOf
    uresRecord

/-- A procedure whose one parameter is the Table `uresTable`. -/
def clearAll : Function := { Package := "DB_web", name := "CLEAR_ALL", Args := [uresTable] }

end structs


namespace oracall

/-! ## The argument model of package oracall (src/lib/struct.go, src/lib/types.go) -/

/-- Constant `DefaultMaxVARCHARLength`. -/
def DefaultMaxVARCHARLength : Nat := 32767
/-- Constant `DefaultMaxCHARLength`. -/
def DefaultMaxCHARLength : Nat := 10
/-- Constant `DIR_IN`. -/
def DIR_IN : Nat := 1
/-- Constant `DIR_OUT`. -/
def DIR_OUT : Nat := 2
/-- Constant `FLAVOR_SIMPLE`. -/
def FLAVOR_SIMPLE : Nat := 0
/-- Constant `FLAVOR_RECORD`. -/
def FLAVOR_RECORD : Nat := 1
/-- Constant `FLAVOR_TABLE`. -/
def FLAVOR_TABLE : Nat := 2

/-- The struct `PlsType`. -/
structure PlsType where
  ora : String := ""
  deriving DecidableEq, Repr

/-- Function `NewPlsType`. -/
def NewPlsType (ora : String) : PlsType := { ora := ora }

/-- The fields of the struct `Argument`, over the type `α` of its children.
`RecordOf` is a slice of `NamedArgument` (`none` is the nil slice), each element
the pair of its `Name` and its embedded `Argument`. -/
structure ArgumentF (α : Type) where
  Name : String := ""
  Flavor : Nat := 0
  Direction : Nat := 0
  Type_ : String := ""
  TypeName : String := ""
  AbsType : String := ""
  Precision : Nat := 0
  Scale : Nat := 0
  Charset : String := ""
  Charlength : Nat := 0
  TableOf : Option α := none
  RecordOf : Option (List (String × α)) := none
  goTypeName : String := ""
  PlsType : PlsType := {}

/-- The struct `Argument`. -/
inductive Argument where
  | mk (fields : ArgumentF Argument)

/-- The fields of an argument. -/
def Argument.fields : Argument → ArgumentF Argument
  | .mk f => f

/-- The struct `NamedArgument`: a name and the embedded argument. -/
abbrev NamedArgument := String × Argument

/-- The zero value of `NamedArgument`, what `make([]NamedArgument, 1)` holds. -/
def NamedArgument.zero : NamedArgument := ("", Argument.mk {})

/-- Method `IsInput`. -/
def Argument.IsInput (a : Argument) : Bool := decide (a.fields.Direction &&& DIR_IN > 0)

/-- Method `IsOutput`. -/
def Argument.IsOutput (a : Argument) : Bool := decide (a.fields.Direction &&& DIR_OUT > 0)

/-- The statements of `NewArgument` that strip the type-reference markers from
`typeName`: the marker `..@` becomes the empty name, then a final `@` is cut. -/
def NewArgument.typeName (typeName : String) : String :=
  let typeName := if typeName = "..@" then "" else typeName
  if typeName ≠ "" ∧ typeName.data.getLast? = some '@' then String.mk typeName.data.dropLast
  else typeName

/-- The statements of `NewArgument` that settle the direction from the text
`dirName` and the number `dir`. -/
def NewArgument.dir (dirName : String) (dir : Nat) : Nat :=
  let dir :=
    if dirName ≠ "" then
      if dirName = "IN/OUT" then DIR_IN ||| DIR_OUT
      else if dirName = "OUT" then DIR_OUT
      else DIR_IN
    else dir
  if dir < DIR_IN then DIR_IN else dir

/-- The first `switch arg.Type` of `NewArgument`: the flavor, and for a record
its one-element slice of fields. -/
def NewArgument.setFlavor (arg : ArgumentF Argument) : ArgumentF Argument :=
  if arg.Type_ = "PL/SQL RECORD" then
    { arg with Flavor := FLAVOR_RECORD, RecordOf := some [NamedArgument.zero] }
  else if arg.Type_ = "TABLE" ∨ arg.Type_ = "PL/SQL TABLE" ∨ arg.Type_ = "REF CURSOR" then
    { arg with Flavor := FLAVOR_TABLE }
  else arg

/-- The second `switch arg.Type` of `NewArgument`: the character length default
and the rendered type `AbsType`. -/
def NewArgument.setAbsType (arg : ArgumentF Argument) : ArgumentF Argument :=
  if arg.Type_ = "CHAR" ∨ arg.Type_ = "NCHAR" ∨ arg.Type_ = "VARCHAR" ∨ arg.Type_ = "NVARCHAR"
      ∨ arg.Type_ = "VARCHAR2" ∨ arg.Type_ = "NVARCHAR2" then
    let arg :=
      if arg.Charlength ≤ 0 then
        if Go.contains arg.Type_ "VAR" then { arg with Charlength := DefaultMaxVARCHARLength }
        else { arg with Charlength := DefaultMaxCHARLength }
      else arg
    { arg with AbsType := arg.Type_ ++ "(" ++ Go.fmtD arg.Charlength ++ ")" }
  else if arg.Type_ = "NUMBER" then
    if arg.Scale > 0 then
      { arg with AbsType := "NUMBER(" ++ Go.fmtD arg.Precision ++ ", " ++ Go.fmtD arg.Scale ++ ")" }
    else if arg.Precision > 0 then
      { arg with AbsType := "NUMBER(" ++ Go.fmtD arg.Precision ++ ")" }
    else { arg with AbsType := "NUMBER" }
  else if arg.Type_ = "PLS_INTEGER" ∨ arg.Type_ = "BINARY_INTEGER" then
    { arg with AbsType := "INTEGER(10)" }
  else { arg with AbsType := arg.Type_ }

/-- Function `NewArgument` of package oracall. -/
def NewArgument (name dataType plsType typeName dirName : String) (dir : Nat)
    (charset : String) (precision scale charlength : Nat) : Argument :=
  let name := Go.toLower name
  let typeName := NewArgument.typeName typeName
  let dir := NewArgument.dir dirName dir
  let arg : ArgumentF Argument :=
    { Name := name, Type_ := dataType, PlsType := NewPlsType plsType, TypeName := typeName,
      Direction := dir, Precision := precision, Scale := scale, Charlength := charlength,
      Charset := charset }
  Argument.mk (NewArgument.setAbsType (NewArgument.setFlavor arg))

/-- The struct `Function` of package oracall. -/
structure Function where
  Package : String := ""
  name : String := ""
  Returns : Option Argument := none
  Args : List Argument := []

/-- Function `unocap` of package oracall; `capitalize`, which src/lib does not
hold, is a parameter.  Without an underscore `strings.Index` returns -1 and the
slice `text[:i]` is a runtime fault. -/
def unocap (capitalize : String → String) (text : String) : Except Go.Fault String :=
  match Go.index text '_' with
  | none => .error (.panic "slice bounds out of range")
  | some i =>
    if i = 0 then .ok (capitalize text)
    else .ok (Go.toUpper (Go.sliceTo text i) ++ "_" ++ Go.toLower (Go.sliceFrom text (i + 1)))

/-- Method `Function.Name` of package oracall. -/
def Function.Name (capitalize : String → String) (f : Function) : Except Go.Fault String :=
  if f.Package = "" then .ok (Go.toLower f.name)
  else
    match unocap capitalize f.Package with
    | .error e => .error e
    | .ok p => .ok (p ++ "." ++ Go.toLower f.name)


/-! ## Conversion expressions (src/lib/types.go) -/

/-- Function `mkVarName`: `var_` and the FNV-1 hash of `dst` in hexadecimal. -/
def mkVarName (dst : String) : String := "var_" ++ Go.hex64 (Go.fnv64 (Go.bytes dst))

/-- Method `PlsType.ToOra`; the package variable `Gogo`, which src/lib does not
declare, is a parameter.  Reading `src[0]` of an empty `src` is a runtime
fault. -/
def PlsType.ToOra (Gogo : Bool) (arg : PlsType) (dst src : String) :
    Except Go.Fault (String × String) :=
  let dstVar := mkVarName dst
  if Gogo = true ∧ arg.ora = "DATE" then
    match src.data.head? with
    | none => .error (.panic "index out of range")
    | some c =>
      let pointer := if c = '&' then "&" else ""
      .ok (dstVar ++ " := custom.Date(" ++ Go.trimPrefix src "&" ++ ").Get() // toOra D\n\t\t\t"
        ++ dst ++ " = " ++ pointer ++ dstVar, dstVar)
  else if arg.ora = "PLS_INTEGER" then
    match src.data.head? with
    | none => .error (.panic "index out of range")
    | some c =>
      if c ≠ '&' then
        .ok (dstVar ++ " := ora.Int32\x7bIsNull:true\x7d; if " ++ src ++ " != 0 \x7b " ++ dstVar
          ++ ".Value, " ++ dstVar ++ ".IsNull = " ++ src ++ ", false \x7d; " ++ dst ++ " = "
          ++ dstVar, dstVar)
      else .ok (dst ++ " = " ++ src ++ " // " ++ arg.ora, "")
  else if arg.ora = "NUMBER" then
    match src.data.head? with
    | none => .error (.panic "index out of range")
    | some c =>
      if c ≠ '&' then
        .ok (dstVar ++ " := ora.Float64\x7bIsNull:true\x7d; if " ++ src ++ " != 0 \x7b " ++ dstVar
          ++ ".Value, " ++ dstVar ++ ".IsNull = " ++ src ++ ", false \x7d; " ++ dst ++ " = "
          ++ dstVar, dstVar)
      else .ok (dst ++ " = " ++ src ++ " // " ++ arg.ora, "")
  else .ok (dst ++ " = " ++ src ++ " // " ++ arg.ora, "")


/-! ## The reader of the metadata (`ParseCsv`, specification §4.1)

The source of `ParseCsv` is not in src/lib, which holds only the test that
calls it; the reader is written here from the specification, over
`NewArgument` of src/lib/struct.go. -/

/-- Modelled from the spec: a row of the metadata, one per subprogram and
argument occurrence (§4.1): package name, subprogram name, nesting level,
position, argument name, direction text, data-type keyword, precision, scale,
character-set name, PL/SQL type, character length and the reference to a
user-defined type. -/
structure Row where
  PackageName : String := ""
  ObjectName : String := ""
  DataLevel : Nat := 0
  Position : Nat := 0
  ArgumentName : String := ""
  InOut : String := ""
  DataType : String := ""
  DataPrecision : Nat := 0
  DataScale : Nat := 0
  CharacterSetName : String := ""
  PlsType : String := ""
  CharLength : Nat := 0
  TypeName : String := ""

/-- Modelled from the spec: the argument that a row describes, classified by
`NewArgument` (§4.2). -/
def Row.argument (r : Row) : Argument :=
  NewArgument r.ArgumentName r.DataType r.PlsType r.TypeName r.InOut 0 r.CharacterSetName
    r.DataPrecision r.DataScale r.CharLength

/-- Modelled from the spec: the error kind `StructuralMetadataError` (§7), the
only error of the reader of the rows. -/
inductive ReadError where
  | structural (msg : String)
  deriving DecidableEq, Repr

/-- Modelled from the spec: a child attached to its parent (§4.1), as the
element of a Table and as a named field, after the fields already there, of a
Record. -/
def attach (parent child : Argument) : Argument :=
  if parent.fields.Flavor = FLAVOR_TABLE then
    Argument.mk { parent.fields with TableOf := some child }
  else
    Argument.mk { parent.fields with
      RecordOf := some (parent.fields.RecordOf.getD [] ++ [(child.fields.Name, child)]) }

/-- Modelled from the spec: a chain of open arguments, listed from the
shallowest to the deepest, closed into its first argument: each argument is
attached to the one before it. -/
def collapse : List Argument → Option Argument
  | [] => none
  | a :: rest =>
    match collapse rest with
    | none => some a
    | some c => some (attach a c)

/-- Modelled from the spec: the state of the reader within one function: the
top-level arguments already closed, and the open arguments, one per level,
from level 0 upwards. -/
structure Reader where
  args : List Argument := []
  opened : List Argument := []

/-- Modelled from the spec: one row read (§4.1).  A level-0 row closes the open
arguments and opens a top-level argument.  A row at level L > 0 closes the open
arguments at level L and deeper and attaches to the open argument at level
L-1, which must be a Record or a Table; the structural errors are: no open
parent at level L-1, a Table parent that already has its element, and a Table
whose element is a Table. -/
def readRow (st : Reader) (r : Row) : Except ReadError Reader :=
  if r.DataLevel = 0 then
    .ok { args := st.args ++ (collapse st.opened).toList, opened := [r.argument] }
  else
    match collapse (st.opened.drop (r.DataLevel - 1)) with
    | none => .error (.structural "no open parent at the level above")
    | some parent =>
      if parent.fields.Flavor = FLAVOR_RECORD then
        .ok { st with opened := st.opened.take (r.DataLevel - 1) ++ [parent, r.argument] }
      else if parent.fields.Flavor = FLAVOR_TABLE then
        if parent.fields.TableOf.isSome then
          .error (.structural "the table parent already has an element")
        else if r.argument.fields.Flavor = FLAVOR_TABLE then
          .error (.structural "table of table")
        else
          .ok { st with opened := st.opened.take (r.DataLevel - 1) ++ [parent, r.argument] }
      else .error (.structural "the open parent is neither a record nor a table")

/-- Modelled from the spec: the rows of one function read one after the other;
the first structural error ends the reading.  The order "ascending (level,
position)" of §4.1 is taken as the order of the input, in which the catalog
lists every argument before its children and the positions ascend within a
level: a row attaches to the argument opened most recently, which an order by
level first would lose. -/
def readRows : List Row → Reader → Except ReadError Reader
  | [], st => .ok st
  | r :: rs, st =>
    match readRow st r with
    | .error e => .error e
    | .ok st1 => readRows rs st1

/-- Modelled from the spec: whether a top-level argument is the return value:
OUT-only, Scalar, without a name (§4.1). -/
def isReturn (a : Argument) : Bool :=
  a.IsOutput && !a.IsInput && decide (a.fields.Flavor = FLAVOR_SIMPLE)
    && decide (a.fields.Name = "")

/-- Modelled from the spec: the Function of a group of rows that was read: when
exactly one top-level argument is a return value it becomes `Returns`. -/
def Reader.function (st : Reader) (package name : String) : Function :=
  let args := st.args ++ (collapse st.opened).toList
  match args.filter isReturn with
  | [ret] =>
    { Package := package, name := name, Returns := some ret,
      Args := args.filter (fun a => !isReturn a) }
  | _ => { Package := package, name := name, Args := args }

/-- Modelled from the spec: whether two rows belong to the same function, the
key (package, subprogram) of §4.1. -/
def sameFunction (r s : Row) : Bool :=
  decide (r.PackageName = s.PackageName) && decide (r.ObjectName = s.ObjectName)

/-- Modelled from the spec: the first row of each function, in the order in
which the functions are first seen. -/
def firstRows : List Row → List Row
  | [] => []
  | r :: rs => r :: (firstRows rs).filter (fun s => !sameFunction r s)

/-- Modelled from the spec: the rows grouped by (package, subprogram), one group
per distinct key in first-seen order, each group in the order of the input. -/
def groupRows (rows : List Row) : List (List Row) :=
  (firstRows rows).map (fun k => rows.filter (sameFunction k))

/-- Modelled from the spec: the Function of one group of rows, or its
structural error. -/
def readFunction (g : List Row) : Except ReadError Function :=
  match readRows g {} with
  | .error e => .error e
  | .ok st =>
    .ok (st.function ((g.head?.map (fun r => r.PackageName)).getD "")
      ((g.head?.map (fun r => r.ObjectName)).getD ""))

/-- Modelled from the spec: the Functions of the groups; a structural error in
a group fails the batch, which then yields no Function (§8). -/
def readFunctions : List (List Row) → Except ReadError (List Function)
  | [] => .ok []
  | g :: gs =>
    match readFunction g with
    | .error e => .error e
    | .ok f =>
      match readFunctions gs with
      | .error e => .error e
      | .ok fs => .ok (f :: fs)

/-- Modelled from the spec: `ParseCsv` on the rows that the delimited text
holds (§4.1, §6): the rows are grouped by function and each group is read. -/
def ParseCsv (rows : List Row) : Except ReadError (List Function) :=
  readFunctions (groupRows rows)

/-- Modelled from the spec: the row that is open at level `l` after the rows
`rows`, listed from the last row read to the first: the last row of level `l`
that no later row of a level up to `l` has closed. -/
def openRow (l : Nat) : List Row → Option Row
  | [] => none
  | r :: rs =>
    if r.DataLevel = l then some r
    else if r.DataLevel < l then none
    else openRow l rs

/-- The open arguments follow the rows read: the argument open at a level has
the flavor of the row that is open at that level. -/
def OpenFollows (rows : List Row) (opened : List Argument) : Prop :=
  ∀ l e, opened[l]? = some e →
    ∃ p, openRow l rows = some p ∧ e.fields.Flavor = p.argument.fields.Flavor

/-- A batch of three rows of one function: a top-level Record, a field of it,
and a top-level number. -/
def recordRows : List Row :=
  [{ PackageName := "DB_WEB", ObjectName := "SET_DATES", DataLevel := 0, Position := 1,
     ArgumentName := "P_KOTVENY", InOut := "IN/OUT", DataType := "PL/SQL RECORD",
     TypeName := "BRUNO.DB_WEB_ELEKTR.KOTVENY_REC_TYP" },
   { PackageName := "DB_WEB", ObjectName := "SET_DATES", DataLevel := 1, Position := 1,
     ArgumentName := "SZERKOT", InOut := "IN/OUT", DataType := "DATE", PlsType := "DATE" },
   { PackageName := "DB_WEB", ObjectName := "SET_DATES", DataLevel := 0, Position := 2,
     ArgumentName := "P_AZON", InOut := "IN", DataType := "NUMBER", PlsType := "NUMBER",
     DataPrecision := 9 }]

/-- A level-2 row of function `DB_WEB.SET_DATES`. -/
def deepRow : Row :=
  { PackageName := "DB_WEB", ObjectName := "SET_DATES", DataLevel := 2, Position := 1,
    ArgumentName := "SZERKOT", InOut := "IN/OUT", DataType := "DATE", PlsType := "DATE" }

end oracall

namespace custom

/-! ## The host-side values (src/custom/ora.go) -/

/-- What package custom takes from the Go library and from the driver package
`ora`: the floating-point types with the constant 0 and their conversions, the
results of `strconv.ParseFloat` and `strconv.ParseInt` (the value they return,
which the callers use also beside an error), `time.Time` with `time.Parse`
(`none` is an error) and `Format`, and `ora.Date` with its zero value and its
methods `Set` and `Get`. -/
structure Lib where
  Float64 : Type
  Float32 : Type
  Time : Type
  OraDate : Type
  zero : Float64
  widen : Float32 → Float64
  floatOfInt : Int → Float64
  intOfFloat : Float64 → Nat → Int
  parseFloat : String → Nat → Float64
  parseInt : String → Nat → Nat → Int
  parse : String → String → Option Time
  format : Time → String → String
  zeroDate : OraDate
  dateSet : OraDate → Time → OraDate
  dateGet : OraDate → Time

/-- A value of type `interface{}` as the coercions tell it apart by its dynamic
type: the nil interface, the types their switches name, and any other type. -/
inductive Value (L : Lib) where
  | nil
  | string (x : String)
  | float64 (x : L.Float64)
  | float32 (x : L.Float32)
  | int64 (x : Int)
  | int32 (x : Int)
  | oraString (Value : String)
  | oraFloat64 (Value : L.Float64)
  | oraFloat32 (Value : L.Float32)
  | oraInt64 (Value : Int)
  | oraInt32 (Value : Int)
  | date (x : String)
  | time (x : L.Time)
  | oraDate (x : L.OraDate)
  | other (typeName : String)

/-- Type `Date`, a string. -/
abbrev Date := String

/-- Constant `timeFormat`. -/
def timeFormat : String := "2006-01-02 15:04:05 -0700"

/-- Function `NewDate`. -/
def NewDate (L : Lib) (date : L.OraDate) : Date := L.format (L.dateGet date) timeFormat

/-- Method `Date.Get`.  The slice `timeFormat[:len(d)]` is a runtime fault when
`d` is longer than `timeFormat`. -/
def Date.Get (L : Lib) (d : Date) : Except Go.Fault L.OraDate :=
  if Go.len d > Go.len timeFormat then .error (.panic "slice bounds out of range")
  else
    match L.parse (Go.sliceTo timeFormat (Go.len d)) d with
    | some t => .ok (L.dateSet L.zeroDate t)
    | none => .ok L.zeroDate

/-- Function `AsString`; `sprint` is the rendering of the verb `%v`. -/
def AsString (L : Lib) (sprint : Value L → String) (v : Value L) : String :=
  match v with
  | .nil => ""
  | .string x => x
  | .oraString x => x
  | v => sprint v

/-- Function `AsFloat64`.  The calls of `log.Printf` leave no trace in the result. -/
def AsFloat64 (L : Lib) (v : Value L) : L.Float64 :=
  match v with
  | .nil => L.zero
  | .float64 x => x
  | .float32 x => L.widen x
  | .int64 x => L.floatOfInt x
  | .int32 x => L.floatOfInt x
  | .oraFloat64 x => x
  | .oraFloat32 x => L.widen x
  | .string x => if x = "" then L.zero else L.parseFloat x 64
  | _ => L.zero

/-- Function `AsInt32`. -/
def AsInt32 (L : Lib) (v : Value L) : Int :=
  match v with
  | .nil => 0
  | .int32 x => x
  | .int64 x => Go.toInt32 x
  | .float64 x => L.intOfFloat x 32
  | .float32 x => L.intOfFloat (L.widen x) 32
  | .oraInt32 x => x
  | .oraInt64 x => Go.toInt32 x
  | .string x => if x = "" then 0 else Go.toInt32 (L.parseInt x 10 32)
  | _ => 0

/-- Function `AsInt64`.  It has no test for nil: the nil interface matches no
case of the type switch and takes the default case. -/
def AsInt64 (L : Lib) (v : Value L) : Int :=
  match v with
  | .int64 x => x
  | .int32 x => x
  | .float64 x => L.intOfFloat x 64
  | .float32 x => L.intOfFloat (L.widen x) 64
  | .oraInt64 x => x
  | .oraInt32 x => x
  | .string x => if x = "" then 0 else L.parseInt x 10 64
  | _ => 0

/-- Function `AsDate`. -/
def AsDate (L : Lib) (v : Value L) : Date :=
  match v with
  | .nil => ""
  | .date x => x
  | .time x => L.format x timeFormat
  | .string x => x
  | .oraDate x => NewDate L x
  | _ => ""

end custom


/-! # Properties of `NewArgument` -/

section NewArgumentFacts

/-- The second switch of `structs.NewArgument` changes `AbsType` and `CharLength` only. -/
theorem structs_setAbsType_keeps (a : structs.ArgumentF structs.Argument) :
    (structs.NewArgument.setAbsType a).Direction = a.Direction ∧
    (structs.NewArgument.setAbsType a).Flavor = a.Flavor ∧
    (structs.NewArgument.setAbsType a).TypeName = a.TypeName ∧
    (structs.NewArgument.setAbsType a).Name = a.Name ∧
    (structs.NewArgument.setAbsType a).Type_ = a.Type_ := by
  simp only [structs.NewArgument.setAbsType]
  split_ifs <;> exact ⟨rfl, rfl, rfl, rfl, rfl⟩

/-- The first switch of `structs.NewArgument` changes `Flavor`, `RecordOf` and `TypeName` only. -/
theorem structs_setFlavor_keeps (a : structs.ArgumentF structs.Argument) :
    (structs.NewArgument.setFlavor a).Direction = a.Direction ∧
    (structs.NewArgument.setFlavor a).Type_ = a.Type_ ∧
    (structs.NewArgument.setFlavor a).Scale = a.Scale ∧
    (structs.NewArgument.setFlavor a).Precision = a.Precision ∧
    (structs.NewArgument.setFlavor a).CharLength = a.CharLength ∧
    (structs.NewArgument.setFlavor a).Name = a.Name := by
  simp only [structs.NewArgument.setFlavor]
  split_ifs <;> exact ⟨rfl, rfl, rfl, rfl, rfl, rfl⟩

/-- The second switch of `oracall.NewArgument` changes `AbsType` and `Charlength` only. -/
theorem oracall_setAbsType_keeps (a : oracall.ArgumentF oracall.Argument) :
    (oracall.NewArgument.setAbsType a).Direction = a.Direction ∧
    (oracall.NewArgument.setAbsType a).Flavor = a.Flavor ∧
    (oracall.NewArgument.setAbsType a).TypeName = a.TypeName ∧
    (oracall.NewArgument.setAbsType a).Name = a.Name ∧
    (oracall.NewArgument.setAbsType a).Type_ = a.Type_ := by
  simp only [oracall.NewArgument.setAbsType]
  split_ifs <;> exact ⟨rfl, rfl, rfl, rfl, rfl⟩

/-- The first switch of `oracall.NewArgument` changes `Flavor` and `RecordOf` only. -/
theorem oracall_setFlavor_keeps (a : oracall.ArgumentF oracall.Argument) :
    (oracall.NewArgument.setFlavor a).Direction = a.Direction ∧
    (oracall.NewArgument.setFlavor a).Type_ = a.Type_ ∧
    (oracall.NewArgument.setFlavor a).Scale = a.Scale ∧
    (oracall.NewArgument.setFlavor a).Precision = a.Precision ∧
    (oracall.NewArgument.setFlavor a).Charlength = a.Charlength ∧
    (oracall.NewArgument.setFlavor a).Name = a.Name ∧
    (oracall.NewArgument.setFlavor a).TypeName = a.TypeName := by
  simp only [oracall.NewArgument.setFlavor]
  split_ifs <;> exact ⟨rfl, rfl, rfl, rfl, rfl, rfl, rfl⟩

/-- The direction of a new argument of package structs is what the direction
statements compute. -/
theorem structs_NewArgument_Direction (name dataType plsType typeName dirName : String)
    (dir : Nat) (charset : String) (precision scale charlength : Nat) :
    (structs.NewArgument name dataType plsType typeName dirName dir charset precision scale
        charlength).fields.Direction = structs.NewArgument.dir dirName dir := by
  simp only [structs.NewArgument, structs.Argument.fields, structs_setAbsType_keeps,
    structs_setFlavor_keeps]

/-- The direction of a new argument of package oracall is what the direction
statements compute. -/
theorem oracall_NewArgument_Direction (name dataType plsType typeName dirName : String)
    (dir : Nat) (charset : String) (precision scale charlength : Nat) :
    (oracall.NewArgument name dataType plsType typeName dirName dir charset precision scale
        charlength).fields.Direction = oracall.NewArgument.dir dirName dir := by
  simp only [oracall.NewArgument, oracall.Argument.fields, oracall_setAbsType_keeps,
    oracall_setFlavor_keeps]

/-- The direction statements of package structs: never 0, and one of 1, 2, 3 when
the text is present or the number is at most 3; the number is kept when the
text is absent and the number is not 0. -/
theorem structs_dir_cases (dirName : String) (dir : Nat) :
    structs.NewArgument.dir dirName dir ≠ 0 ∧
    (dirName ≠ "" ∨ dir ≤ 3 →
      structs.NewArgument.dir dirName dir = 1 ∨ structs.NewArgument.dir dirName dir = 2 ∨
      structs.NewArgument.dir dirName dir = 3) ∧
    (dirName = "" → structs.NewArgument.dir dirName dir = if dir < 1 then 1 else dir) := by
  simp only [structs.NewArgument.dir, structs.DIR_IN, structs.DIR_OUT]
  split_ifs <;> simp_all
  all_goals omega

/-- The direction statements of package oracall, as `structs_dir_cases`. -/
theorem oracall_dir_cases (dirName : String) (dir : Nat) :
    oracall.NewArgument.dir dirName dir ≠ 0 ∧
    (dirName ≠ "" ∨ dir ≤ 3 →
      oracall.NewArgument.dir dirName dir = 1 ∨ oracall.NewArgument.dir dirName dir = 2 ∨
      oracall.NewArgument.dir dirName dir = 3) ∧
    (dirName = "" → oracall.NewArgument.dir dirName dir = if dir < 1 then 1 else dir) := by
  simp only [oracall.NewArgument.dir, oracall.DIR_IN, oracall.DIR_OUT]
  split_ifs <;> simp_all
  all_goals omega

/-- A direction of 1, 2 or 3 has the input bit or the output bit. -/
theorem dir_bits (d : Nat) (h : d = 1 ∨ d = 2 ∨ d = 3) : d &&& 1 > 0 ∨ d &&& 2 > 0 := by
  rcases h with h | h | h <;> subst h <;> decide

end NewArgumentFacts

/-- C5, refuted as stated: with no direction text and the numeric direction 4,
`NewArgument` of package structs returns Direction 4, which is none of DIR_IN,
DIR_OUT, DIR_IN|DIR_OUT, and neither `IsInput` nor `IsOutput` holds. -/
theorem NewArgument_direction_out_of_range :
    ¬ ((structs.NewArgument "a" "NUMBER" "" "" "" 4 "" 0 0 0).fields.Direction = 1 ∨
       (structs.NewArgument "a" "NUMBER" "" "" "" 4 "" 0 0 0).fields.Direction = 2 ∨
       (structs.NewArgument "a" "NUMBER" "" "" "" 4 "" 0 0 0).fields.Direction = 3) ∧
    (structs.NewArgument "a" "NUMBER" "" "" "" 4 "" 0 0 0).IsInput = false ∧
    (structs.NewArgument "a" "NUMBER" "" "" "" 4 "" 0 0 0).IsOutput = false := by
  decide

/-- C5, amended: in both packages the Direction of the Argument that
`NewArgument` returns is never 0; whenever the direction text is non-empty or
the numeric direction passed is at most 3 it is DIR_IN (1), DIR_OUT (2) or
DIR_IN|DIR_OUT (3), and then at least one of `IsInput` and `IsOutput` is true. -/
theorem NewArgument_direction_valid (name dataType plsType typeName dirName : String)
    (dir : Nat) (charset : String) (precision scale charlength : Nat) :
    ((structs.NewArgument name dataType plsType typeName dirName dir charset precision scale
        charlength).fields.Direction ≠ 0 ∧
     (oracall.NewArgument name dataType plsType typeName dirName dir charset precision scale
        charlength).fields.Direction ≠ 0) ∧
    (dirName ≠ "" ∨ dir ≤ 3 →
      ((structs.NewArgument name dataType plsType typeName dirName dir charset precision scale
          charlength).fields.Direction ∈ [structs.DIR_IN, structs.DIR_OUT,
            structs.DIR_IN ||| structs.DIR_OUT] ∧
       ((structs.NewArgument name dataType plsType typeName dirName dir charset precision scale
          charlength).IsInput = true ∨
        (structs.NewArgument name dataType plsType typeName dirName dir charset precision scale
          charlength).IsOutput = true)) ∧
      ((oracall.NewArgument name dataType plsType typeName dirName dir charset precision scale
          charlength).fields.Direction ∈ [oracall.DIR_IN, oracall.DIR_OUT,
            oracall.DIR_IN ||| oracall.DIR_OUT] ∧
       ((oracall.NewArgument name dataType plsType typeName dirName dir charset precision scale
          charlength).IsInput = true ∨
        (oracall.NewArgument name dataType plsType typeName dirName dir charset precision scale
          charlength).IsOutput = true))) := by
  have hs := structs_dir_cases dirName dir
  have ho := oracall_dir_cases dirName dir
  refine ⟨⟨?_, ?_⟩, fun hd => ⟨⟨?_, ?_⟩, ⟨?_, ?_⟩⟩⟩
  · rw [structs_NewArgument_Direction]; exact hs.1
  · rw [oracall_NewArgument_Direction]; exact ho.1
  · rw [structs_NewArgument_Direction]
    have := hs.2.1 hd
    simpa [structs.DIR_IN, structs.DIR_OUT] using this
  · have hb := dir_bits _ (hs.2.1 hd)
    simpa [structs.Argument.IsInput, structs.Argument.IsOutput, structs_NewArgument_Direction,
      structs.DIR_IN, structs.DIR_OUT] using hb
  · rw [oracall_NewArgument_Direction]
    have := ho.2.1 hd
    simpa [oracall.DIR_IN, oracall.DIR_OUT] using this
  · have hb := dir_bits _ (ho.2.1 hd)
    simpa [oracall.Argument.IsInput, oracall.Argument.IsOutput, oracall_NewArgument_Direction,
      oracall.DIR_IN, oracall.DIR_OUT] using hb

/-- C5, the amended claim at a concrete input: the text `OUT` with the numeric
direction 7 gives Direction 2 in both packages. -/
theorem NewArgument_direction_valid_witness :
    (structs.NewArgument "P_OUT" "NUMBER" "" "" "OUT" 7 "" 9 0 0).fields.Direction
        ∈ [structs.DIR_IN, structs.DIR_OUT, structs.DIR_IN ||| structs.DIR_OUT] ∧
    (oracall.NewArgument "P_OUT" "NUMBER" "" "" "OUT" 7 "" 9 0 0).fields.Direction
        ∈ [oracall.DIR_IN, oracall.DIR_OUT, oracall.DIR_IN ||| oracall.DIR_OUT] :=
  ⟨((NewArgument_direction_valid "P_OUT" "NUMBER" "" "" "OUT" 7 "" 9 0 0).2
      (Or.inl (by decide))).1.1,
   ((NewArgument_direction_valid "P_OUT" "NUMBER" "" "" "OUT" 7 "" 9 0 0).2
      (Or.inl (by decide))).2.1⟩

/-- C6, refuted as stated: with absent direction text and the numeric direction
DIR_OUT, the resulting Direction is DIR_OUT, not DIR_IN. -/
theorem NewArgument_absent_text_not_in :
    (structs.NewArgument "a" "NUMBER" "" "" "" 2 "" 0 0 0).fields.Direction ≠ structs.DIR_IN ∧
    (oracall.NewArgument "a" "NUMBER" "" "" "" 2 "" 0 0 0).fields.Direction ≠ oracall.DIR_IN := by
  decide

/-- C6, amended: for every call of `NewArgument` with absent direction text,
whatever the other parameters are, the resulting Direction is the numeric
direction passed when that is not 0, and DIR_IN when it is 0. -/
theorem NewArgument_absent_text_direction (name dataType plsType typeName : String)
    (dir : Nat) (charset : String) (precision scale charlength : Nat) :
    (structs.NewArgument name dataType plsType typeName "" dir charset precision scale
        charlength).fields.Direction = (if dir = 0 then structs.DIR_IN else dir) ∧
    (oracall.NewArgument name dataType plsType typeName "" dir charset precision scale
        charlength).fields.Direction = (if dir = 0 then oracall.DIR_IN else dir) := by
  rw [structs_NewArgument_Direction, oracall_NewArgument_Direction,
    (structs_dir_cases "" dir).2.2 rfl, (oracall_dir_cases "" dir).2.2 rfl]
  simp only [Nat.lt_one_iff, structs.DIR_IN, oracall.DIR_IN, and_self]

/-- C7: the Flavor `NewArgument` assigns, in both packages, is FLAVOR_RECORD for
the keyword `PL/SQL RECORD`, FLAVOR_TABLE for `TABLE`, `PL/SQL TABLE` and
`REF CURSOR`, FLAVOR_SIMPLE for every other keyword; two calls with the same
keyword yield the same Flavor whatever the other parameters are. -/
theorem NewArgument_flavor_of_keyword (dataType : String)
    (name plsType typeName dirName : String) (dir : Nat) (charset : String)
    (precision scale charlength : Nat)
    (name' plsType' typeName' dirName' : String) (dir' : Nat) (charset' : String)
    (precision' scale' charlength' : Nat) :
    (structs.NewArgument name dataType plsType typeName dirName dir charset precision scale
        charlength).fields.Flavor =
      (if dataType = "PL/SQL RECORD" then structs.FLAVOR_RECORD
       else if dataType = "TABLE" ∨ dataType = "PL/SQL TABLE" ∨ dataType = "REF CURSOR" then
         structs.FLAVOR_TABLE
       else structs.FLAVOR_SIMPLE) ∧
    (oracall.NewArgument name dataType plsType typeName dirName dir charset precision scale
        charlength).fields.Flavor =
      (if dataType = "PL/SQL RECORD" then oracall.FLAVOR_RECORD
       else if dataType = "TABLE" ∨ dataType = "PL/SQL TABLE" ∨ dataType = "REF CURSOR" then
         oracall.FLAVOR_TABLE
       else oracall.FLAVOR_SIMPLE) ∧
    (structs.NewArgument name dataType plsType typeName dirName dir charset precision scale
        charlength).fields.Flavor =
      (structs.NewArgument name' dataType plsType' typeName' dirName' dir' charset' precision'
        scale' charlength').fields.Flavor ∧
    (oracall.NewArgument name dataType plsType typeName dirName dir charset precision scale
        charlength).fields.Flavor =
      (oracall.NewArgument name' dataType plsType' typeName' dirName' dir' charset' precision'
        scale' charlength').fields.Flavor := by
  have hs : ∀ (name plsType typeName dirName : String) (dir : Nat) (charset : String)
      (precision scale charlength : Nat),
      (structs.NewArgument name dataType plsType typeName dirName dir charset precision scale
        charlength).fields.Flavor =
      (if dataType = "PL/SQL RECORD" then structs.FLAVOR_RECORD
       else if dataType = "TABLE" ∨ dataType = "PL/SQL TABLE" ∨ dataType = "REF CURSOR" then
         structs.FLAVOR_TABLE
       else structs.FLAVOR_SIMPLE) := by
    intros
    simp only [structs.NewArgument, structs.Argument.fields, structs_setAbsType_keeps,
      structs.NewArgument.setFlavor]
    split_ifs <;> rfl
  have ho : ∀ (name plsType typeName dirName : String) (dir : Nat) (charset : String)
      (precision scale charlength : Nat),
      (oracall.NewArgument name dataType plsType typeName dirName dir charset precision scale
        charlength).fields.Flavor =
      (if dataType = "PL/SQL RECORD" then oracall.FLAVOR_RECORD
       else if dataType = "TABLE" ∨ dataType = "PL/SQL TABLE" ∨ dataType = "REF CURSOR" then
         oracall.FLAVOR_TABLE
       else oracall.FLAVOR_SIMPLE) := by
    intros
    simp only [oracall.NewArgument, oracall.Argument.fields, oracall_setAbsType_keeps,
      oracall.NewArgument.setFlavor]
    split_ifs <;> rfl
  exact ⟨hs _ _ _ _ _ _ _ _ _, ho _ _ _ _ _ _ _ _ _, by rw [hs, hs], by rw [ho, ho]⟩

/-- C8: in both models, for Type `NUMBER` the AbsType is `NUMBER(p, s)` whenever
the scale s is positive (also when the precision p is 0), `NUMBER(p)` when the
scale is 0 and the precision p is positive, and `NUMBER` when both are 0, so
precision 12 with scale 2 gives `NUMBER(12, 2)` and precision 9 without scale
gives `NUMBER(9)`; for `PLS_INTEGER` and `BINARY_INTEGER` it is `INTEGER(10)`;
for every keyword other than these three and the six character keywords it is
the keyword unchanged. -/
theorem NewArgument_AbsType_rendering (name dataType plsType typeName dirName : String)
    (dir : Nat) (charset : String) (precision scale charlength : Nat) :
    ((0 < scale →
        (structs.NewArgument name "NUMBER" plsType typeName dirName dir charset precision scale
          charlength).fields.AbsType
          = "NUMBER(" ++ Go.fmtD precision ++ ", " ++ Go.fmtD scale ++ ")" ∧
        (oracall.NewArgument name "NUMBER" plsType typeName dirName dir charset precision scale
          charlength).fields.AbsType
          = "NUMBER(" ++ Go.fmtD precision ++ ", " ++ Go.fmtD scale ++ ")") ∧
     (0 < precision →
        (structs.NewArgument name "NUMBER" plsType typeName dirName dir charset precision 0
          charlength).fields.AbsType = "NUMBER(" ++ Go.fmtD precision ++ ")" ∧
        (oracall.NewArgument name "NUMBER" plsType typeName dirName dir charset precision 0
          charlength).fields.AbsType = "NUMBER(" ++ Go.fmtD precision ++ ")") ∧
     (structs.NewArgument name "NUMBER" plsType typeName dirName dir charset 0 0
        charlength).fields.AbsType = "NUMBER" ∧
     (oracall.NewArgument name "NUMBER" plsType typeName dirName dir charset 0 0
        charlength).fields.AbsType = "NUMBER") ∧
    ((structs.NewArgument name "NUMBER" plsType typeName dirName dir charset 12 2
        charlength).fields.AbsType = "NUMBER(12, 2)" ∧
     (oracall.NewArgument name "NUMBER" plsType typeName dirName dir charset 12 2
        charlength).fields.AbsType = "NUMBER(12, 2)" ∧
     (structs.NewArgument name "NUMBER" plsType typeName dirName dir charset 9 0
        charlength).fields.AbsType = "NUMBER(9)" ∧
     (oracall.NewArgument name "NUMBER" plsType typeName dirName dir charset 9 0
        charlength).fields.AbsType = "NUMBER(9)") ∧
    ((structs.NewArgument name "PLS_INTEGER" plsType typeName dirName dir charset precision scale
        charlength).fields.AbsType = "INTEGER(10)" ∧
     (oracall.NewArgument name "PLS_INTEGER" plsType typeName dirName dir charset precision scale
        charlength).fields.AbsType = "INTEGER(10)" ∧
     (structs.NewArgument name "BINARY_INTEGER" plsType typeName dirName dir charset precision
        scale charlength).fields.AbsType = "INTEGER(10)" ∧
     (oracall.NewArgument name "BINARY_INTEGER" plsType typeName dirName dir charset precision
        scale charlength).fields.AbsType = "INTEGER(10)") ∧
    (dataType ∉ ["NUMBER", "PLS_INTEGER", "BINARY_INTEGER", "CHAR", "NCHAR", "VARCHAR",
        "NVARCHAR", "VARCHAR2", "NVARCHAR2"] →
      (structs.NewArgument name dataType plsType typeName dirName dir charset precision scale
        charlength).fields.AbsType = dataType ∧
      (oracall.NewArgument name dataType plsType typeName dirName dir charset precision scale
        charlength).fields.AbsType = dataType) := by
  refine ⟨⟨fun hs => ⟨?_, ?_⟩, fun hp => ⟨?_, ?_⟩, ?_, ?_⟩, ⟨?_, ?_, ?_, ?_⟩, ⟨?_, ?_, ?_, ?_⟩,
    fun hk => ?_⟩
  · simp [structs.NewArgument, structs.Argument.fields, structs.NewArgument.setAbsType,
      structs_setFlavor_keeps, hs]
  · simp [oracall.NewArgument, oracall.Argument.fields, oracall.NewArgument.setAbsType,
      oracall_setFlavor_keeps, hs]
  · simp [structs.NewArgument, structs.Argument.fields, structs.NewArgument.setAbsType,
      structs_setFlavor_keeps, hp]
  · simp [oracall.NewArgument, oracall.Argument.fields, oracall.NewArgument.setAbsType,
      oracall_setFlavor_keeps, hp]
  · simp [structs.NewArgument, structs.Argument.fields, structs.NewArgument.setAbsType,
      structs_setFlavor_keeps]
  · simp [oracall.NewArgument, oracall.Argument.fields, oracall.NewArgument.setAbsType,
      oracall_setFlavor_keeps]
  · simp [structs.NewArgument, structs.Argument.fields, structs.NewArgument.setAbsType,
      structs_setFlavor_keeps]
    decide
  · simp [oracall.NewArgument, oracall.Argument.fields, oracall.NewArgument.setAbsType,
      oracall_setFlavor_keeps]
    decide
  · simp [structs.NewArgument, structs.Argument.fields, structs.NewArgument.setAbsType,
      structs_setFlavor_keeps]
    decide
  · simp [oracall.NewArgument, oracall.Argument.fields, oracall.NewArgument.setAbsType,
      oracall_setFlavor_keeps]
    decide
  · simp [structs.NewArgument, structs.Argument.fields, structs.NewArgument.setAbsType,
      structs_setFlavor_keeps]
  · simp [oracall.NewArgument, oracall.Argument.fields, oracall.NewArgument.setAbsType,
      oracall_setFlavor_keeps]
  · simp [structs.NewArgument, structs.Argument.fields, structs.NewArgument.setAbsType,
      structs_setFlavor_keeps]
  · simp [oracall.NewArgument, oracall.Argument.fields, oracall.NewArgument.setAbsType,
      oracall_setFlavor_keeps]
  · simp only [List.mem_cons, List.mem_singleton, not_or, List.mem_nil_iff, or_false] at hk
    constructor
    · simp [structs.NewArgument, structs.Argument.fields, structs.NewArgument.setAbsType,
        structs_setFlavor_keeps, hk]
    · simp [oracall.NewArgument, oracall.Argument.fields, oracall.NewArgument.setAbsType,
        oracall_setFlavor_keeps, hk]

/-- C8 at a concrete input: precision 12 with scale 2 renders as `NUMBER(12, 2)`,
and the keyword `DATE` is kept unchanged. -/
theorem NewArgument_AbsType_rendering_witness :
    (structs.NewArgument "KOLTSEG" "NUMBER" "" "" "OUT" 0 "" 12 2 0).fields.AbsType
        = "NUMBER(" ++ Go.fmtD 12 ++ ", " ++ Go.fmtD 2 ++ ")" ∧
    (structs.NewArgument "KOLTSEG" "DATE" "" "" "OUT" 0 "" 12 2 0).fields.AbsType = "DATE" :=
  ⟨((NewArgument_AbsType_rendering "KOLTSEG" "DATE" "" "" "OUT" 0 "" 12 2 0).1.1
      (by decide)).1,
   ((NewArgument_AbsType_rendering "KOLTSEG" "DATE" "" "" "OUT" 0 "" 12 2 0).2.2.2
      (by decide)).1⟩

/-- The second switch of `oracall.NewArgument` on a character keyword. -/
theorem oracall_setAbsType_char (a : oracall.ArgumentF oracall.Argument)
    (hk : a.Type_ ∈ ["CHAR", "NCHAR", "VARCHAR", "NVARCHAR", "VARCHAR2", "NVARCHAR2"]) :
    (oracall.NewArgument.setAbsType a).AbsType
      = a.Type_ ++ "(" ++ Go.fmtD
          (if 0 < a.Charlength then a.Charlength
           else if a.Type_ ∈ ["VARCHAR", "NVARCHAR", "VARCHAR2", "NVARCHAR2"] then
             oracall.DefaultMaxVARCHARLength
           else oracall.DefaultMaxCHARLength) ++ ")" ∧
    (oracall.NewArgument.setAbsType a).Charlength
      = (if 0 < a.Charlength then a.Charlength
         else if a.Type_ ∈ ["VARCHAR", "NVARCHAR", "VARCHAR2", "NVARCHAR2"] then
           oracall.DefaultMaxVARCHARLength
         else oracall.DefaultMaxCHARLength) := by
  have hc : Go.contains a.Type_ "VAR"
      = decide (a.Type_ ∈ ["VARCHAR", "NVARCHAR", "VARCHAR2", "NVARCHAR2"]) := by
    simp only [List.mem_cons, List.mem_singleton, List.mem_nil_iff, or_false] at hk
    rcases hk with h | h | h | h | h | h <;> rw [h] <;> decide
  have hk' : a.Type_ = "CHAR" ∨ a.Type_ = "NCHAR" ∨ a.Type_ = "VARCHAR" ∨ a.Type_ = "NVARCHAR"
      ∨ a.Type_ = "VARCHAR2" ∨ a.Type_ = "NVARCHAR2" := by
    simpa only [List.mem_cons, List.mem_singleton, List.mem_nil_iff, or_false] using hk
  simp only [oracall.NewArgument.setAbsType]
  rw [if_pos hk']
  by_cases h0 : a.Charlength ≤ 0
  · have hn : ¬ 0 < a.Charlength := by omega
    rw [if_pos h0, if_neg hn, hc]
    by_cases hv : a.Type_ ∈ ["VARCHAR", "NVARCHAR", "VARCHAR2", "NVARCHAR2"]
    · rw [if_pos hv, decide_eq_true hv]; exact ⟨rfl, rfl⟩
    · rw [if_neg hv, decide_eq_false hv]; exact ⟨rfl, rfl⟩
  · have hp : 0 < a.Charlength := by omega
    rw [if_neg h0, if_pos hp]; exact ⟨rfl, rfl⟩

/-- C9: in package oracall, for each of the six character keywords
`NewArgument` renders AbsType as `KEYWORD(n)`, where n is the supplied character
length when that is positive; when it is 0, n is DefaultMaxVARCHARLength = 32767
for the four keywords containing `VAR` and DefaultMaxCHARLength = 10 for `CHAR`
and `NCHAR`; the field Charlength is set to that same n. -/
theorem oracall_NewArgument_char_AbsType (kw : String)
    (hk : kw ∈ ["CHAR", "NCHAR", "VARCHAR", "NVARCHAR", "VARCHAR2", "NVARCHAR2"])
    (name plsType typeName dirName : String) (dir : Nat) (charset : String)
    (precision scale charlength : Nat) :
    (oracall.NewArgument name kw plsType typeName dirName dir charset precision scale
        charlength).fields.AbsType
      = kw ++ "(" ++ Go.fmtD
          (if 0 < charlength then charlength
           else if kw ∈ ["VARCHAR", "NVARCHAR", "VARCHAR2", "NVARCHAR2"] then
             oracall.DefaultMaxVARCHARLength
           else oracall.DefaultMaxCHARLength) ++ ")" ∧
    (oracall.NewArgument name kw plsType typeName dirName dir charset precision scale
        charlength).fields.Charlength
      = (if 0 < charlength then charlength
         else if kw ∈ ["VARCHAR", "NVARCHAR", "VARCHAR2", "NVARCHAR2"] then
           oracall.DefaultMaxVARCHARLength
         else oracall.DefaultMaxCHARLength) ∧
    (Go.contains kw "VAR" = true ↔ kw ∈ ["VARCHAR", "NVARCHAR", "VARCHAR2", "NVARCHAR2"]) ∧
    oracall.DefaultMaxVARCHARLength = 32767 ∧ oracall.DefaultMaxCHARLength = 10 := by
  have h := oracall_setAbsType_char (oracall.NewArgument.setFlavor
    { Name := Go.toLower name, Type_ := kw, PlsType := oracall.NewPlsType plsType,
      TypeName := oracall.NewArgument.typeName typeName,
      Direction := oracall.NewArgument.dir dirName dir, Precision := precision, Scale := scale,
      Charlength := charlength, Charset := charset })
    (by simpa only [oracall_setFlavor_keeps] using hk)
  simp only [oracall_setFlavor_keeps] at h
  refine ⟨h.1, h.2, ?_, rfl, rfl⟩
  simp only [List.mem_cons, List.mem_singleton, List.mem_nil_iff, or_false] at hk
  rcases hk with h | h | h | h | h | h <;> subst h <;> decide

/-- C9 at concrete inputs: `VARCHAR2` with no length is `VARCHAR2(32767)`, `CHAR`
with no length is `CHAR(10)` with Charlength 10, `VARCHAR2` of length 40 is
`VARCHAR2(40)`. -/
theorem oracall_NewArgument_char_AbsType_witness :
    (oracall.NewArgument "F_ISIN" "VARCHAR2" "" "" "OUT" 0 "CHAR_CS" 0 0 0).fields.AbsType
        = "VARCHAR2(32767)" ∧
    (oracall.NewArgument "F_ISIN" "CHAR" "" "" "OUT" 0 "CHAR_CS" 0 0 0).fields.Charlength = 10 ∧
    (oracall.NewArgument "F_UNIT_NEV" "VARCHAR2" "" "" "OUT" 0 "CHAR_CS" 0 0 40).fields.AbsType
        = "VARCHAR2(40)" :=
  ⟨(oracall_NewArgument_char_AbsType "VARCHAR2" (by decide) "F_ISIN" "" "" "OUT" 0 "CHAR_CS"
      0 0 0).1,
   (oracall_NewArgument_char_AbsType "CHAR" (by decide) "F_ISIN" "" "" "OUT" 0 "CHAR_CS"
      0 0 0).2.1,
   (oracall_NewArgument_char_AbsType "VARCHAR2" (by decide) "F_UNIT_NEV" "" "" "OUT" 0 "CHAR_CS"
      0 0 40).1⟩

/-- The marker statements of `NewArgument`, by cases on the type name: `..@`
gives the empty name, another name `cs ++ "@"` gives `cs`, a name that does not
end in `@` is kept. -/
theorem structs_typeName_cases (typeName : String) :
    (typeName = "..@" → structs.NewArgument.typeName typeName = "") ∧
    (∀ cs : List Char, typeName ≠ "..@" → typeName.data = cs ++ ['@'] →
      structs.NewArgument.typeName typeName = String.mk cs) ∧
    (typeName.data.getLast? ≠ some '@' → structs.NewArgument.typeName typeName = typeName) := by
  refine ⟨?_, ?_, ?_⟩
  · intro h; subst h; decide
  · intro cs h1 h2
    have hne : typeName ≠ "" := by
      intro h; rw [h] at h2; simp at h2
    simp [structs.NewArgument.typeName, h1, hne, h2]
  · intro h
    have h1 : typeName ≠ "..@" := by
      intro h'; rw [h'] at h; exact h (by decide)
    simp [structs.NewArgument.typeName, h1, h]

/-- The marker statements of package oracall are those of package structs. -/
theorem oracall_typeName_eq (typeName : String) :
    oracall.NewArgument.typeName typeName = structs.NewArgument.typeName typeName := rfl

/-- The TypeName of a new argument of package oracall is the stripped name. -/
theorem oracall_NewArgument_TypeName (name dataType plsType typeName dirName : String)
    (dir : Nat) (charset : String) (precision scale charlength : Nat) :
    (oracall.NewArgument name dataType plsType typeName dirName dir charset precision scale
        charlength).fields.TypeName = oracall.NewArgument.typeName typeName := by
  simp only [oracall.NewArgument, oracall.Argument.fields, oracall_setAbsType_keeps,
    oracall_setFlavor_keeps]

/-- The TypeName of a new argument of package structs is the stripped name,
except for a record whose stripped name is empty, which gets its name. -/
theorem structs_NewArgument_TypeName (name dataType plsType typeName dirName : String)
    (dir : Nat) (charset : String) (precision scale charlength : Nat) :
    (structs.NewArgument name dataType plsType typeName dirName dir charset precision scale
        charlength).fields.TypeName =
      if dataType = "PL/SQL RECORD" ∧ structs.NewArgument.typeName typeName = "" then
        Go.toLower name
      else structs.NewArgument.typeName typeName := by
  simp only [structs.NewArgument, structs.Argument.fields, structs_setAbsType_keeps,
    structs.NewArgument.setFlavor]
  split_ifs <;> simp_all

/-- C10, refuted as stated: in package structs a record argument whose type
name is empty, a name that does not end in `@`, does not keep it: TypeName
becomes the lower-cased argument name. -/
theorem structs_NewArgument_record_typeName_not_kept :
    ("" : String).data.getLast? ≠ some '@' ∧
    (structs.NewArgument "P_REC" "PL/SQL RECORD" "" "" "IN" 0 "" 0 0 0).fields.TypeName ≠ "" ∧
    (structs.NewArgument "P_REC" "PL/SQL RECORD" "" "" "IN" 0 "" 0 0 0).fields.TypeName
      = "p_rec" := by
  decide

/-- C10, amended: `NewArgument` strips the type-reference markers: the marker
`..@` yields an empty TypeName, any other type name ending in `@` yields that
name with exactly its final `@` removed, a type name not ending in `@` is kept
unchanged; this holds in package oracall for every argument and in package
structs for every argument that is not a record or whose stripped name is not
empty, and a record of package structs whose stripped name is empty gets its
lower-cased Name as TypeName. -/
theorem NewArgument_typeName_stripped (name dataType plsType typeName dirName : String)
    (dir : Nat) (charset : String) (precision scale charlength : Nat) :
    (typeName = "..@" →
      (oracall.NewArgument name dataType plsType typeName dirName dir charset precision scale
        charlength).fields.TypeName = "" ∧
      (dataType ≠ "PL/SQL RECORD" →
        (structs.NewArgument name dataType plsType typeName dirName dir charset precision scale
          charlength).fields.TypeName = "")) ∧
    (∀ cs : List Char, typeName ≠ "..@" → typeName.data = cs ++ ['@'] →
      (oracall.NewArgument name dataType plsType typeName dirName dir charset precision scale
        charlength).fields.TypeName = String.mk cs ∧
      (dataType ≠ "PL/SQL RECORD" ∨ cs ≠ [] →
        (structs.NewArgument name dataType plsType typeName dirName dir charset precision scale
          charlength).fields.TypeName = String.mk cs)) ∧
    (typeName.data.getLast? ≠ some '@' →
      (oracall.NewArgument name dataType plsType typeName dirName dir charset precision scale
        charlength).fields.TypeName = typeName ∧
      (dataType ≠ "PL/SQL RECORD" ∨ typeName ≠ "" →
        (structs.NewArgument name dataType plsType typeName dirName dir charset precision scale
          charlength).fields.TypeName = typeName)) ∧
    (dataType = "PL/SQL RECORD" →
      (typeName = "..@" ∨ typeName = "@" ∨ typeName = "") →
      (structs.NewArgument name dataType plsType typeName dirName dir charset precision scale
        charlength).fields.TypeName = Go.toLower name) := by
  obtain ⟨c1, c2, c3⟩ := structs_typeName_cases typeName
  refine ⟨fun h => ⟨?_, fun hd => ?_⟩, fun cs h1 h2 => ⟨?_, fun hd => ?_⟩,
    fun h => ⟨?_, fun hd => ?_⟩, fun hd h => ?_⟩
  · rw [oracall_NewArgument_TypeName, oracall_typeName_eq, c1 h]
  · rw [structs_NewArgument_TypeName, c1 h]; simp [hd]
  · rw [oracall_NewArgument_TypeName, oracall_typeName_eq, c2 cs h1 h2]
  · rw [structs_NewArgument_TypeName, c2 cs h1 h2]
    rcases hd with hd | hd
    · simp [hd]
    · have : String.mk cs ≠ "" := by
        intro h; apply hd; simpa using congrArg String.data h
      simp [this]
  · rw [oracall_NewArgument_TypeName, oracall_typeName_eq, c3 h]
  · rw [structs_NewArgument_TypeName, c3 h]
    rcases hd with hd | hd <;> simp [hd]
  · rw [structs_NewArgument_TypeName]
    have : structs.NewArgument.typeName typeName = "" := by
      rcases h with h | h | h <;> subst h <;> decide
    simp [hd, this]

/-- C10, the amended claim at concrete inputs: the owner-qualified name
`BRUNO_OWNER.DB_SPOOLSYS3.TYPE_OUTLIST_078@` loses its final `@` in both
packages, and `..@` gives the empty TypeName of a scalar. -/
theorem NewArgument_typeName_stripped_witness :
    ((oracall.NewArgument "P_OUTPUT" "PL/SQL TABLE" "" "BRUNO_OWNER.DB_SPOOLSYS3.TYPE_OUTLIST_078@"
        "OUT" 0 "" 0 0 0).fields.TypeName = String.mk "BRUNO_OWNER.DB_SPOOLSYS3.TYPE_OUTLIST_078".data
      ∧
     (structs.NewArgument "P_OUTPUT" "PL/SQL TABLE" "" "BRUNO_OWNER.DB_SPOOLSYS3.TYPE_OUTLIST_078@"
        "OUT" 0 "" 0 0 0).fields.TypeName = String.mk "BRUNO_OWNER.DB_SPOOLSYS3.TYPE_OUTLIST_078".data)
    ∧
    (structs.NewArgument "P" "NUMBER" "" "..@" "IN" 0 "" 9 0 0).fields.TypeName = "" :=
  ⟨⟨((NewArgument_typeName_stripped "P_OUTPUT" "PL/SQL TABLE" ""
        "BRUNO_OWNER.DB_SPOOLSYS3.TYPE_OUTLIST_078@" "OUT" 0 "" 0 0 0).2.1
        "BRUNO_OWNER.DB_SPOOLSYS3.TYPE_OUTLIST_078".data (by decide) (by decide)).1,
     ((NewArgument_typeName_stripped "P_OUTPUT" "PL/SQL TABLE" ""
        "BRUNO_OWNER.DB_SPOOLSYS3.TYPE_OUTLIST_078@" "OUT" 0 "" 0 0 0).2.1
        "BRUNO_OWNER.DB_SPOOLSYS3.TYPE_OUTLIST_078".data (by decide) (by decide)).2
        (Or.inl (by decide))⟩,
   ((NewArgument_typeName_stripped "P" "NUMBER" "" "..@" "IN" 0 "" 9 0 0).1 rfl).2
      (by decide)⟩

/-! # Properties of the name allocator -/

section MapFacts

/-- Reading back the key just assigned. -/
theorem mapGet_mapSet_self {β : Type} (m : List (String × β)) (k : String) (v : β) :
    Go.mapGet (Go.mapSet m k v) k = some v := by
  induction m with
  | nil => simp [Go.mapSet, Go.mapGet]
  | cons e m ih =>
    obtain ⟨k', v'⟩ := e
    by_cases h : k' = k
    · simp [Go.mapSet, Go.mapGet, h]
    · simp [Go.mapSet, Go.mapGet, h, ih]

/-- An assignment leaves every other key as it was. -/
theorem mapGet_mapSet_ne {β : Type} (m : List (String × β)) (k k' : String) (v : β)
    (hne : k' ≠ k) : Go.mapGet (Go.mapSet m k v) k' = Go.mapGet m k' := by
  induction m with
  | nil =>
    have : ¬ k = k' := fun h => hne h.symm
    simp [Go.mapSet, Go.mapGet, this]
  | cons e m ih =>
    obtain ⟨k0, v0⟩ := e
    by_cases h : k0 = k
    · subst h
      have : ¬ k0 = k' := fun h => hne h.symm
      simp [Go.mapSet, Go.mapGet, this]
    · by_cases h' : k0 = k'
      · subst h'
        simp [Go.mapSet, Go.mapGet, h]
      · simp [Go.mapSet, Go.mapGet, h, h', ih]

end MapFacts

section DigitFacts

/-- Every digit character is one byte long. -/
theorem digitChar_utf8Size (d : Nat) (h : d < 10) : (Nat.digitChar d).utf8Size = 1 := by
  interval_cases d <;> rfl

/-- A list of one-byte characters has as many bytes as characters. -/
theorem utf8Len_of_ascii (l : List Char) (h : ∀ c ∈ l, c.utf8Size = 1) :
    String.utf8Len l = l.length := by
  induction l with
  | nil => rfl
  | cons c l ih =>
    have hc := h c (List.mem_cons_self c l)
    have hl := ih (fun c' hc' => h c' (List.mem_cons_of_mem c hc'))
    simp [String.utf8Len_cons, hc, hl]

/-- The digits that `Nat.toDigitsCore` puts before one-byte characters are one
byte long. -/
theorem toDigitsCore_ascii (fuel : Nat) : ∀ (n : Nat) (acc : List Char),
    (∀ c ∈ acc, c.utf8Size = 1) → ∀ c ∈ Nat.toDigitsCore 10 fuel n acc, c.utf8Size = 1 := by
  induction fuel with
  | zero => intro n acc hacc c hc; simpa [Nat.toDigitsCore] using hacc c (by simpa [Nat.toDigitsCore] using hc)
  | succ fuel ih =>
    intro n acc hacc c hc
    have hacc' : ∀ c ∈ Nat.digitChar (n % 10) :: acc, c.utf8Size = 1 := by
      intro c' hc'
      rcases List.mem_cons.mp hc' with h | h
      · rw [h]; exact digitChar_utf8Size _ (Nat.mod_lt _ (by decide))
      · exact hacc c' h
    simp only [Nat.toDigitsCore] at hc
    split_ifs at hc
    · exact hacc' c hc
    · exact ih _ _ hacc' c hc

/-- The decimal rendering of a number has as many bytes as characters. -/
theorem len_repr (n : Nat) : Go.len (Nat.repr n) = (Nat.repr n).length := by
  have h : ∀ c ∈ Nat.toDigits 10 n, c.utf8Size = 1 :=
    toDigitsCore_ascii _ _ _ (by simp)
  have := utf8Len_of_ascii _ h
  simpa [Go.len, Nat.repr, List.asString, String.length] using this

/-- Length in bytes of a concatenation. -/
theorem len_append (a b : String) : Go.len (a ++ b) = Go.len a + Go.len b := by
  obtain ⟨a⟩ := a
  obtain ⟨b⟩ := b
  show String.utf8ByteSize ⟨a ++ b⟩ = String.utf8ByteSize ⟨a⟩ + String.utf8ByteSize ⟨b⟩
  simp only [String.utf8ByteSize_mk, String.utf8Len_append]

/-- The rendering `%03d` of a number below `10^20` has at most 20 bytes. -/
theorem len_fmt03d (n : Nat) (h : n < 10 ^ 20) : Go.len (Go.fmt03d n) ≤ 20 := by
  have hl : (Nat.repr n).length ≤ 20 := Nat.repr_length n 20 (by decide) h
  have hz : Go.len (String.mk (List.replicate (3 - (Nat.repr n).length) '0'))
      = 3 - (Nat.repr n).length := by
    have := utf8Len_of_ascii (List.replicate (3 - (Nat.repr n).length) '0')
      (by intro c hc; rw [List.eq_of_mem_replicate hc]; rfl)
    simpa [Go.len] using this
  rw [Go.fmt03d, len_append, hz, len_repr]
  omega

end DigitFacts

section AllocatorFacts

/-- The scan for the last separator returns the running result or a position
inside the scanned part. -/
theorem lastIndexAux_bound (d : Char) : ∀ (cs : List Char) (i : Nat) (acc : Option Nat) (j : Nat),
    Go.lastIndexAux cs d i acc = some j → acc = some j ∨ (i ≤ j ∧ j < i + cs.length) := by
  intro cs
  induction cs with
  | nil => intro i acc j h; exact Or.inl (by simpa [Go.lastIndexAux] using h)
  | cons c cs ih =>
    intro i acc j h
    simp only [Go.lastIndexAux] at h
    rcases ih _ _ _ h with h1 | h1
    · by_cases hc : c = d
      · simp only [hc, if_true, Option.some.injEq] at h1
        right; simp only [List.length_cons]; omega
      · simp only [hc, if_false] at h1
        exact Or.inl h1
    · right; simp only [List.length_cons]; omega

/-- The position of the last separator is inside the string. -/
theorem lastIndex_lt (s : String) (d : Char) (i : Nat) (h : Go.lastIndex s d = some i) :
    i < s.length := by
  rcases lastIndexAux_bound d s.data 0 none i h with h1 | h1
  · cases h1
  · have := h1.2
    rw [Nat.zero_add] at this
    exact this

/-- The prefix that `dotSplit` returns is shorter than the path. -/
theorem dotSplit_length_lt (v pre suf : String)
    (h : structs.getVarName.dotSplit v = some (pre, suf)) : pre.length < v.length := by
  unfold structs.getVarName.dotSplit at h
  cases hl : Go.lastIndex v '.' with
  | none => rw [hl] at h; cases h
  | some i =>
    rw [hl] at h
    have hi := lastIndex_lt v '.' i hl
    by_cases hc : 0 < i ∧ i + 1 < v.length
    · simp only [hc, and_self, if_true, Option.some.injEq, Prod.mk.injEq] at h
      rw [← h.1]
      show (v.data.take i).length < v.data.length
      rw [List.length_take]
      exact lt_of_le_of_lt (Nat.min_le_left _ _) hi
    · simp only [hc, if_false] at h
      cases h

/-- With fuel above the length of the path, `getVarNameFuel` returns. -/
theorem getVarNameFuel_isSome (fuel : Nat) : ∀ (vn : structs.VarNames) (f v p : String),
    v.length < fuel → ∃ r, structs.getVarNameFuel fuel vn f v p = some r := by
  induction fuel with
  | zero => intro vn f v p h; omega
  | succ fuel ih =>
    intro vn f v p h
    simp only [structs.getVarNameFuel]
    cases hm : Go.mapGet ((Go.mapGet (structs.getVarName.openMap vn f) f).getD []) v with
    | some x => exact ⟨_, rfl⟩
    | none =>
      cases hd : structs.getVarName.dotSplit v with
      | none => exact ⟨_, rfl⟩
      | some ps =>
        obtain ⟨pre, suf⟩ := ps
        have hlt := dotSplit_length_lt v pre suf hd
        obtain ⟨⟨y, vn2⟩, hr⟩ := ih (structs.getVarName.openMap vn f) f pre p (by omega)
        simp only [hr]
        exact ⟨_, rfl⟩

/-- Function `getVarName` is the fuelled function at its own fuel. -/
theorem getVarName_eq (vn : structs.VarNames) (f v p : String) :
    structs.getVarNameFuel (v.length + 1) vn f v p = some (structs.getVarName vn f v p) := by
  obtain ⟨r, hr⟩ := getVarNameFuel_isSome (v.length + 1) vn f v p (Nat.lt_succ_self _)
  simp [structs.getVarName, hr]

end AllocatorFacts

section RecordedFacts

/-- The map a request works on holds what is recorded. -/
theorem mapGet_getD_eq (vn : structs.VarNames) (f k : String) :
    Go.mapGet ((Go.mapGet vn f).getD []) k = structs.recorded vn f k := by
  unfold structs.recorded
  cases Go.mapGet vn f <;> rfl

/-- Making the map of a function records nothing. -/
theorem recorded_openMap (vn : structs.VarNames) (f f' k : String) :
    structs.recorded (structs.getVarName.openMap vn f) f' k = structs.recorded vn f' k := by
  unfold structs.getVarName.openMap
  cases h : Go.mapGet vn f with
  | some m => rfl
  | none =>
    simp only
    unfold structs.recorded
    by_cases hf : f' = f
    · subst hf
      rw [mapGet_mapSet_self, h]
      rfl
    · rw [mapGet_mapSet_ne _ _ _ _ hf]

/-- After the map of a function is made, the function has a map. -/
theorem openMap_of_some (vn : structs.VarNames) (f : String) (m : structs.NameMap)
    (h : Go.mapGet vn f = some m) : structs.getVarName.openMap vn f = vn := by
  unfold structs.getVarName.openMap
  rw [h]

/-- What is recorded after a name is stored. -/
theorem recorded_record (vn : structs.VarNames) (f v p : String) (n : Nat) (x0 f' k : String) :
    structs.recorded (structs.getVarName.record vn f v p n x0).2 f' k =
      if f' = f ∧ k = v then some (structs.getVarName.record vn f v p n x0).1
      else structs.recorded vn f' k := by
  simp only [structs.getVarName.record]
  by_cases hf : f' = f
  · subst hf
    by_cases hk : k = v
    · subst hk
      simp only [structs.recorded, mapGet_mapSet_self, and_self, if_true]
    · simp only [structs.recorded, mapGet_mapSet_self, hk, and_false, if_false]
      rw [mapGet_mapSet_ne _ _ _ _ hk]
      cases Go.mapGet vn f' <;> rfl
  · simp only [structs.recorded, hf, false_and, if_false]
    rw [mapGet_mapSet_ne _ _ _ _ hf]

/-- A request for a recorded path returns the recorded name and changes nothing. -/
theorem getVarNameFuel_hit (fuel : Nat) (vn : structs.VarNames) (f v p x : String)
    (h : structs.recorded vn f v = some x) :
    structs.getVarNameFuel (fuel + 1) vn f v p = some (x, vn) := by
  have hm : ∃ m, Go.mapGet vn f = some m := by
    unfold structs.recorded at h
    cases hg : Go.mapGet vn f with
    | none => rw [hg] at h; cases h
    | some m => exact ⟨m, rfl⟩
  obtain ⟨m, hm⟩ := hm
  simp only [structs.getVarNameFuel, openMap_of_some vn f m hm, mapGet_getD_eq, h]

/-- A request records the name it returns and keeps every recorded name. -/
theorem getVarNameFuel_records (fuel : Nat) : ∀ (vn : structs.VarNames) (f v p x : String)
    (vn' : structs.VarNames), structs.getVarNameFuel fuel vn f v p = some (x, vn') →
    structs.recorded vn' f v = some x ∧
    ∀ (f' k y : String), structs.recorded vn f' k = some y →
      structs.recorded vn' f' k = some y := by
  induction fuel with
  | zero => intro vn f v p x vn' h; cases h
  | succ fuel ih =>
    intro vn f v p x vn' h
    simp only [structs.getVarNameFuel, mapGet_getD_eq, recorded_openMap] at h
    cases hm : structs.recorded vn f v with
    | some x1 =>
      simp only [hm, Option.some.injEq, Prod.mk.injEq] at h
      obtain ⟨rfl, rfl⟩ := h
      exact ⟨by rw [recorded_openMap]; exact hm, fun f' k y hy => by
        rw [recorded_openMap]; exact hy⟩
    | none =>
      simp only [hm] at h
      have key : ∀ (vn2 : structs.VarNames) (x0 : String),
          (∀ (f' k y : String), structs.recorded vn f' k = some y →
            structs.recorded vn2 f' k = some y) →
          (x, vn') = structs.getVarName.record vn2 f v p
            (Go.mapLen ((Go.mapGet (structs.getVarName.openMap vn f) f).getD [])) x0 →
          structs.recorded vn' f v = some x ∧
          ∀ (f' k y : String), structs.recorded vn f' k = some y →
            structs.recorded vn' f' k = some y := by
        intro vn2 x0 hkeep he
        have hx : x = (structs.getVarName.record vn2 f v p
            (Go.mapLen ((Go.mapGet (structs.getVarName.openMap vn f) f).getD [])) x0).1 := by
          rw [← he]
        have hv : vn' = (structs.getVarName.record vn2 f v p
            (Go.mapLen ((Go.mapGet (structs.getVarName.openMap vn f) f).getD [])) x0).2 := by
          rw [← he]
        refine ⟨?_, ?_⟩
        · rw [hv, recorded_record, hx]; simp
        · intro f' k y hy
          rw [hv, recorded_record]
          have hne : ¬ (f' = f ∧ k = v) := by
            rintro ⟨rfl, rfl⟩
            rw [hm] at hy; cases hy
          rw [if_neg hne]
          exact hkeep f' k y hy
      cases hd : structs.getVarName.dotSplit v with
      | none =>
        simp only [hd, Option.some.injEq] at h
        exact key _ _ (fun f' k y hy => by rw [recorded_openMap]; exact hy) h.symm
      | some ps =>
        obtain ⟨pre, suf⟩ := ps
        simp only [hd] at h
        cases hr : structs.getVarNameFuel fuel (structs.getVarName.openMap vn f) f pre p with
        | none => simp only [hr] at h; cases h
        | some r =>
          obtain ⟨y, vn2⟩ := r
          simp only [hr, Option.some.injEq] at h
          have hih := (ih _ _ _ _ _ _ hr).2
          exact key _ _ (fun f' k y hy => hih f' k y (by rw [recorded_openMap]; exact hy)) h.symm

end RecordedFacts

section ShortNames

/-- The name that `record` stores under the prefix `x` is at most 30 bytes long. -/
theorem record_len_le (vn : structs.VarNames) (f v : String)
    (m : List (String × String)) (x0 : String) :
    Go.len (structs.getVarName.record vn f v "x" (Go.mapLen m) x0).1 ≤ 30 := by
  simp only [structs.getVarName.record]
  split_ifs with h
  · have hn : Go.mapLen m + 1 < 10 ^ 20 := by
      have : Go.mapLen m < 2 ^ 63 := Nat.mod_lt _ (by decide)
      have h2 : (2 : Nat) ^ 63 + 1 < 10 ^ 20 := by norm_num
      omega
    have := len_fmt03d _ hn
    have hx : Go.len "x" = 1 := by decide
    rw [len_append, hx]
    omega
  · have := not_or.mp h
    omega

/-- Requests with the prefix `x` keep every recorded name at most 30 bytes long,
and return such a name. -/
theorem getVarNameFuel_short (fuel : Nat) : ∀ (vn : structs.VarNames) (f v x : String)
    (vn' : structs.VarNames),
    (∀ f' k y, structs.recorded vn f' k = some y → Go.len y ≤ 30) →
    structs.getVarNameFuel fuel vn f v "x" = some (x, vn') →
    Go.len x ≤ 30 ∧ ∀ f' k y, structs.recorded vn' f' k = some y → Go.len y ≤ 30 := by
  induction fuel with
  | zero => intro vn f v x vn' _ h; cases h
  | succ fuel ih =>
    intro vn f v x vn' hs h
    simp only [structs.getVarNameFuel, mapGet_getD_eq, recorded_openMap] at h
    cases hm : structs.recorded vn f v with
    | some x1 =>
      simp only [hm, Option.some.injEq, Prod.mk.injEq] at h
      obtain ⟨rfl, rfl⟩ := h
      exact ⟨hs f v x1 hm, fun f' k y hy => hs f' k y (by rw [recorded_openMap] at hy; exact hy)⟩
    | none =>
      simp only [hm] at h
      have key : ∀ (vn2 : structs.VarNames) (x0 : String),
          (∀ f' k y, structs.recorded vn2 f' k = some y → Go.len y ≤ 30) →
          (x, vn') = structs.getVarName.record vn2 f v "x"
            (Go.mapLen ((Go.mapGet (structs.getVarName.openMap vn f) f).getD [])) x0 →
          Go.len x ≤ 30 ∧ ∀ f' k y, structs.recorded vn' f' k = some y → Go.len y ≤ 30 := by
        intro vn2 x0 hs2 he
        have hx : x = (structs.getVarName.record vn2 f v "x"
            (Go.mapLen ((Go.mapGet (structs.getVarName.openMap vn f) f).getD [])) x0).1 := by
          rw [← he]
        have hv : vn' = (structs.getVarName.record vn2 f v "x"
            (Go.mapLen ((Go.mapGet (structs.getVarName.openMap vn f) f).getD [])) x0).2 := by
          rw [← he]
        have hlen : Go.len x ≤ 30 := by rw [hx]; exact record_len_le _ _ _ _ _
        refine ⟨hlen, ?_⟩
        intro f' k y hy
        rw [hv, recorded_record] at hy
        by_cases hc : f' = f ∧ k = v
        · rw [if_pos hc, ← hx] at hy
          cases hy
          exact hlen
        · rw [if_neg hc] at hy
          exact hs2 f' k y hy
      have hs1 : ∀ f' k y, structs.recorded (structs.getVarName.openMap vn f) f' k = some y →
          Go.len y ≤ 30 := fun f' k y hy => hs f' k y (by rw [recorded_openMap] at hy; exact hy)
      cases hd : structs.getVarName.dotSplit v with
      | none =>
        simp only [hd, Option.some.injEq] at h
        exact key _ _ hs1 h.symm
      | some ps =>
        obtain ⟨pre, suf⟩ := ps
        simp only [hd] at h
        cases hr : structs.getVarNameFuel fuel (structs.getVarName.openMap vn f) f pre "x" with
        | none => simp only [hr] at h; cases h
        | some r =>
          obtain ⟨y, vn2⟩ := r
          simp only [hr, Option.some.injEq] at h
          exact key _ _ (ih _ _ _ _ _ hs1 hr).2 h.symm

/-- Every name recorded in a reachable state is at most 30 bytes long. -/
theorem requests_short (rs : List structs.Request) : ∀ (vn : structs.VarNames),
    (∀ f' k y, structs.recorded vn f' k = some y → Go.len y ≤ 30) →
    ∀ f' k y, structs.recorded (structs.requests vn rs) f' k = some y → Go.len y ≤ 30 := by
  induction rs with
  | nil => intro vn hs; exact hs
  | cons r rs ih =>
    intro vn hs
    have hstep : ∀ f' k y, structs.recorded (structs.request vn r) f' k = some y →
        Go.len y ≤ 30 := by
      obtain ⟨b, f, v⟩ := r
      have h := getVarName_eq vn f v "x"
      have := (getVarNameFuel_short _ vn f v _ _ hs h).2
      cases b <;> exact this
    exact ih _ hstep

/-- Later requests keep a recorded name. -/
theorem requests_keep (rs : List structs.Request) : ∀ (vn : structs.VarNames) (f k y : String),
    structs.recorded vn f k = some y →
    structs.recorded (structs.requests vn rs) f k = some y := by
  induction rs with
  | nil => intro vn f k y h; exact h
  | cons r rs ih =>
    intro vn f k y h
    have hstep : structs.recorded (structs.request vn r) f k = some y := by
      obtain ⟨b, f0, v0⟩ := r
      have h0 := getVarName_eq vn f0 v0 "x"
      have := (getVarNameFuel_records _ vn f0 v0 "x" _ _ h0).2 f k y h
      cases b <;> exact this
    exact ih _ _ _ _ hstep

end ShortNames

/-- C1, the code at the failing input: from the empty state, the request
`getInnerVarName("f", "p_rec")` followed by the request for its field,
`getParamName("f", "x001.ertekesitett_alapok_osszesen")`, leaves two distinct
paths of function `f`, `x001` and `x001.ertekesitett_alapok_osszesen`, recorded
with the same name `x002`. -/
theorem getVarName_records_one_name_twice :
    structs.Reachable (structs.requests []
      [(false, "f", "p_rec"), (true, "f", "x001.ertekesitett_alapok_osszesen")]) ∧
    (structs.getInnerVarName [] "f" "p_rec").1 = "x001" ∧
    structs.recorded (structs.requests []
      [(false, "f", "p_rec"), (true, "f", "x001.ertekesitett_alapok_osszesen")])
      "f" "x001" = some "x002" ∧
    structs.recorded (structs.requests []
      [(false, "f", "p_rec"), (true, "f", "x001.ertekesitett_alapok_osszesen")])
      "f" "x001.ertekesitett_alapok_osszesen" = some "x002" ∧
    "x001" ≠ "x001.ertekesitett_alapok_osszesen" :=
  ⟨⟨_, rfl⟩, by decide, by decide, by decide, by decide⟩

/-- C2: in every allocator state reachable from the empty state through
`getInnerVarName` / `getParamName` requests, every name these functions return,
for any function name and any path, is at most 30 bytes long. -/
theorem getVarName_len_le_30 (vn : structs.VarNames) (hr : structs.Reachable vn)
    (f p : String) :
    Go.len (structs.getInnerVarName vn f p).1 ≤ 30 ∧
    Go.len (structs.getParamName vn f p).1 ≤ 30 := by
  obtain ⟨rs, rfl⟩ := hr
  have hs := requests_short rs [] (fun f' k y h => by cases h)
  have h := getVarName_eq (structs.requests [] rs) f p "x"
  have := (getVarNameFuel_short _ _ f p _ _ hs h).1
  exact ⟨this, this⟩

/-- C2 at a concrete state: after two requests, the request for a path whose
composed name would have 33 bytes returns a name of at most 30 bytes. -/
theorem getVarName_len_le_30_witness :
    Go.len (structs.getInnerVarName
      (structs.requests [] [(false, "f", "p_rec"), (true, "f", "x001.d1")])
      "f" "x001.ertekesitett_alapok_osszesen").1 ≤ 30 :=
  (getVarName_len_le_30 _ ⟨_, rfl⟩ "f" "x001.ertekesitett_alapok_osszesen").1

/-- C3: for every allocator state, function name f and path p, once
`getInnerVarName` / `getParamName` has returned a name for (f, p), every later
request for (f, p), whatever other requests happen in between, returns that same
name, and a repeated request for an already recorded path leaves the allocator
state unchanged. -/
theorem getVarName_stable (vn : structs.VarNames) (f p : String)
    (between : List structs.Request) :
    structs.getInnerVarName (structs.requests (structs.getInnerVarName vn f p).2 between) f p
      = ((structs.getInnerVarName vn f p).1,
         structs.requests (structs.getInnerVarName vn f p).2 between) ∧
    structs.getParamName (structs.requests (structs.getParamName vn f p).2 between) f p
      = ((structs.getParamName vn f p).1,
         structs.requests (structs.getParamName vn f p).2 between) ∧
    (∀ x, structs.recorded vn f p = some x →
      structs.getInnerVarName vn f p = (x, vn) ∧ structs.getParamName vn f p = (x, vn)) := by
  have h0 := getVarName_eq vn f p "x"
  have hrec : structs.recorded (structs.getVarName vn f p "x").2 f p
      = some (structs.getVarName vn f p "x").1 :=
    (getVarNameFuel_records _ vn f p "x" (structs.getVarName vn f p "x").1
      (structs.getVarName vn f p "x").2 h0).1
  have hkeep := requests_keep between (structs.getVarName vn f p "x").2 f p
    (structs.getVarName vn f p "x").1 hrec
  have hhit := getVarNameFuel_hit p.length
    (structs.requests (structs.getVarName vn f p "x").2 between) f p "x"
    (structs.getVarName vn f p "x").1 hkeep
  have h1 := getVarName_eq (structs.requests (structs.getVarName vn f p "x").2 between) f p "x"
  rw [hhit] at h1
  have h2 := (Option.some.inj h1).symm
  refine ⟨h2, h2, ?_⟩
  intro x hx
  have h3 := getVarNameFuel_hit p.length vn f p "x" x hx
  rw [h0] at h3
  exact ⟨Option.some.inj h3, Option.some.inj h3⟩

/-! # The planner and the state of the allocator -/

section PlannerFacts

/-- The map of a function after its map is made. -/
theorem namesOf_openMap (vn : structs.VarNames) (f : String) :
    structs.namesOf (structs.getVarName.openMap vn f) f = structs.namesOf vn f := by
  unfold structs.getVarName.openMap structs.namesOf
  cases h : Go.mapGet vn f with
  | some m => simp only [h]
  | none => simp only [mapGet_mapSet_self]; rfl

/-- The map of a function after a name is stored. -/
theorem namesOf_record (vn : structs.VarNames) (f v p : String) (n : Nat) (x0 : String) :
    structs.namesOf (structs.getVarName.record vn f v p n x0).2 f
      = Go.mapSet (structs.namesOf vn f) v (structs.getVarName.record vn f v p n x0).1 := by
  simp only [structs.getVarName.record, structs.namesOf, mapGet_mapSet_self, Option.getD_some]

/-- A request sees of `varNames` only the map of its function: on two states
with the same map for `f` it returns the same name and leaves the same map. -/
theorem getVarNameFuel_agree (fuel : Nat) : ∀ (s1 s2 : structs.VarNames) (f v p : String)
    (r1 r2 : String × structs.VarNames),
    structs.namesOf s1 f = structs.namesOf s2 f →
    structs.getVarNameFuel fuel s1 f v p = some r1 →
    structs.getVarNameFuel fuel s2 f v p = some r2 →
    r1.1 = r2.1 ∧ structs.namesOf r1.2 f = structs.namesOf r2.2 f := by
  induction fuel with
  | zero => intro s1 s2 f v p r1 r2 _ h; cases h
  | succ fuel ih =>
    intro s1 s2 f v p r1 r2 ha h1 h2
    have ho : structs.namesOf (structs.getVarName.openMap s1 f) f
        = structs.namesOf (structs.getVarName.openMap s2 f) f := by
      rw [namesOf_openMap, namesOf_openMap, ha]
    simp only [structs.getVarNameFuel] at h1 h2
    change (match Go.mapGet (structs.namesOf (structs.getVarName.openMap s1 f) f) v with
      | some x => _ | none => _) = _ at h1
    change (match Go.mapGet (structs.namesOf (structs.getVarName.openMap s2 f) f) v with
      | some x => _ | none => _) = _ at h2
    rw [← ho] at h2
    cases hm : Go.mapGet (structs.namesOf (structs.getVarName.openMap s1 f) f) v with
    | some x =>
      simp only [hm, Option.some.injEq] at h1 h2
      subst h1; subst h2
      exact ⟨rfl, ho⟩
    | none =>
      simp only [hm] at h1 h2
      cases hd : structs.getVarName.dotSplit v with
      | none =>
        simp only [hd, Option.some.injEq] at h1 h2
        have hl : Go.mapLen ((Go.mapGet (structs.getVarName.openMap s2 f) f).getD [])
            = Go.mapLen ((Go.mapGet (structs.getVarName.openMap s1 f) f).getD []) :=
          congrArg Go.mapLen ho.symm
        rw [hl] at h2
        subst h1; subst h2
        refine ⟨rfl, ?_⟩
        rw [namesOf_record, namesOf_record, ho]
        rfl
      | some ps =>
        obtain ⟨pre, suf⟩ := ps
        simp only [hd] at h1 h2
        cases hr1 : structs.getVarNameFuel fuel (structs.getVarName.openMap s1 f) f pre p with
        | none => simp only [hr1] at h1; cases h1
        | some q1 =>
          cases hr2 : structs.getVarNameFuel fuel (structs.getVarName.openMap s2 f) f pre p with
          | none => simp only [hr2] at h2; cases h2
          | some q2 =>
            obtain ⟨y1, t1⟩ := q1
            obtain ⟨y2, t2⟩ := q2
            simp only [hr1, hr2, Option.some.injEq] at h1 h2
            obtain ⟨hy, ht⟩ := ih _ _ f pre p _ _ ho hr1 hr2
            simp only at hy ht
            have hl : Go.mapLen ((Go.mapGet (structs.getVarName.openMap s2 f) f).getD [])
                = Go.mapLen ((Go.mapGet (structs.getVarName.openMap s1 f) f).getD []) :=
              congrArg Go.mapLen ho.symm
            rw [hl, ← hy] at h2
            subst h1; subst h2
            refine ⟨rfl, ?_⟩
            rw [namesOf_record, namesOf_record, ht]
            rfl

/-- Function `getVarName` on two states with the same map for `f`. -/
theorem getVarName_agree (s1 s2 : structs.VarNames) (f v p : String)
    (ha : structs.namesOf s1 f = structs.namesOf s2 f) :
    (structs.getVarName s1 f v p).1 = (structs.getVarName s2 f v p).1 ∧
    structs.namesOf (structs.getVarName s1 f v p).2 f
      = structs.namesOf (structs.getVarName s2 f v p).2 f :=
  getVarNameFuel_agree _ s1 s2 f v p _ _ ha (getVarName_eq s1 f v p) (getVarName_eq s2 f v p)

end PlannerFacts

section PlannerSteps

/-- A loop whose body sees of `varNames` only the map of `f` sees only that map. -/
theorem forRange_cutTo {α σ : Type} (f : String)
    (body : structs.VarNames × σ → α → Except Go.Fault (structs.VarNames × σ))
    (hbody : ∀ (s1 s2 : structs.VarNames) (st : σ) (a : α),
      structs.namesOf s1 f = structs.namesOf s2 f →
      structs.cutTo f (body (s1, st) a) = structs.cutTo f (body (s2, st) a)) :
    ∀ (l : List α) (s1 s2 : structs.VarNames) (st : σ),
      structs.namesOf s1 f = structs.namesOf s2 f →
      structs.cutTo f (structs.forRange body l (s1, st))
        = structs.cutTo f (structs.forRange body l (s2, st)) := by
  intro l
  induction l with
  | nil => intro s1 s2 st ha; simp only [structs.forRange, structs.cutTo, ha]
  | cons a l ih =>
    intro s1 s2 st ha
    have hb := hbody s1 s2 st a ha
    simp only [structs.forRange]
    cases e1 : body (s1, st) a with
    | error x1 =>
      cases e2 : body (s2, st) a with
      | error x2 =>
        rw [e1, e2] at hb
        simpa [structs.cutTo] using hb
      | ok r2 =>
        rw [e1, e2] at hb
        obtain ⟨t2, st2⟩ := r2
        simp [structs.cutTo] at hb
    | ok r1 =>
      obtain ⟨t1, st1⟩ := r1
      cases e2 : body (s2, st) a with
      | error x2 =>
        rw [e1, e2] at hb
        simp [structs.cutTo] at hb
      | ok r2 =>
        obtain ⟨t2, st2⟩ := r2
        rw [e1, e2] at hb
        simp only [structs.cutTo, Except.ok.injEq, Prod.mk.injEq] at hb
        obtain ⟨h1, h2⟩ := hb
        subst h2
        exact ih t1 t2 st1 h1

/-- The loop over the fields of a Record sees only the map of the function. -/
theorem recordField_cutTo (h : structs.Helpers) (f : String) (arg : structs.Argument)
    (vn aname : String) (s1 s2 : structs.VarNames) (p : structs.Plan)
    (kv : String × structs.Argument) (ha : structs.namesOf s1 f = structs.namesOf s2 f) :
    structs.cutTo f (structs.recordField h f arg vn aname (s1, p) kv)
      = structs.cutTo f (structs.recordField h f arg vn aname (s2, p) kv) := by
  obtain ⟨k, v⟩ := kv
  obtain ⟨hx, hs⟩ := getVarName_agree s1 s2 f (vn ++ "." ++ k) "x" ha
  simp only [structs.recordField, structs.getParamName]
  rw [← hx]
  split <;> simp only [structs.cutTo, hs]

/-- The declaration loop of a Table-of-Record sees only the map of the function. -/
theorem tableRecordDecl_cutTo (f : String) (arg : structs.Argument)
    (vn : String) (s1 s2 : structs.VarNames) (p : structs.Plan)
    (kv : String × structs.Argument) (ha : structs.namesOf s1 f = structs.namesOf s2 f) :
    structs.cutTo f (structs.tableRecordDecl f arg vn (s1, p) kv)
      = structs.cutTo f (structs.tableRecordDecl f arg vn (s2, p) kv) := by
  obtain ⟨k, v⟩ := kv
  obtain ⟨hx, hs⟩ := getVarName_agree s1 s2 f (vn ++ "." ++ k) "x" ha
  obtain ⟨hx2, hs2⟩ := getVarName_agree _ _ f (vn ++ "." ++ k) "x" hs
  simp only [structs.tableRecordDecl, structs.getParamName]
  rw [← hx, ← hx2]
  simp only [structs.cutTo, hs2]

/-- The copy loop of a Table-of-Record sees only the map of the function. -/
theorem tableRecordLoop_cutTo (h : structs.Helpers) (f : String) (arg : structs.Argument)
    (vn aname : String) (s1 s2 : structs.VarNames) (st : structs.Plan × String)
    (kv : String × structs.Argument) (ha : structs.namesOf s1 f = structs.namesOf s2 f) :
    structs.cutTo f (structs.tableRecordLoop h f arg vn aname (s1, st) kv)
      = structs.cutTo f (structs.tableRecordLoop h f arg vn aname (s2, st) kv) := by
  obtain ⟨k, v⟩ := kv
  obtain ⟨p, idxvar⟩ := st
  obtain ⟨hx, hs⟩ := getVarName_agree s1 s2 f (vn ++ "." ++ k) "x" ha
  obtain ⟨hx2, hs2⟩ := getVarName_agree _ _ f (vn ++ "." ++ k) "x" hs
  simp only [structs.tableRecordLoop, structs.getParamName]
  rw [← hx, ← hx2]
  by_cases hi : idxvar = ""
  · simp only [hi, if_true]
    split <;> simp only [structs.cutTo, hs2]
  · simp only [hi, if_false]
    split <;> simp only [structs.cutTo, hs]

/-- The write-back loop of a Table-of-Record sees only the map of the function. -/
theorem tableRecordOut_cutTo (f : String) (vn : String) (s1 s2 : structs.VarNames)
    (p : structs.Plan) (kv : String × structs.Argument)
    (ha : structs.namesOf s1 f = structs.namesOf s2 f) :
    structs.cutTo f (structs.tableRecordOut f vn (s1, p) kv)
      = structs.cutTo f (structs.tableRecordOut f vn (s2, p) kv) := by
  obtain ⟨hx, hs⟩ := getVarName_agree s1 s2 f (vn ++ "." ++ kv.1) "x" ha
  simp only [structs.tableRecordOut, structs.getParamName]
  rw [← hx]
  simp only [structs.cutTo, hs]

/-- Two results that agree once `varNames` is cut down are two faults, the same
one, or two states with the same map for `f` and the same plan. -/
theorem cutTo_cases {σ : Type} (f : String)
    (r1 r2 : Except Go.Fault (structs.VarNames × σ))
    (hc : structs.cutTo f r1 = structs.cutTo f r2) :
    (∃ e, r1 = .error e ∧ r2 = .error e) ∨
    (∃ t1 t2 st, r1 = .ok (t1, st) ∧ r2 = .ok (t2, st) ∧
      structs.namesOf t1 f = structs.namesOf t2 f) := by
  cases r1 with
  | error e1 =>
    cases r2 with
    | error e2 =>
      left
      simp only [structs.cutTo, Except.error.injEq] at hc
      exact ⟨e1, rfl, by rw [hc]⟩
    | ok q2 => obtain ⟨t2, st2⟩ := q2; simp [structs.cutTo] at hc
  | ok q1 =>
    obtain ⟨t1, st1⟩ := q1
    cases r2 with
    | error e2 => simp [structs.cutTo] at hc
    | ok q2 =>
      obtain ⟨t2, st2⟩ := q2
      simp only [structs.cutTo, Except.ok.injEq, Prod.mk.injEq] at hc
      right
      exact ⟨t1, t2, st1, rfl, by rw [hc.2], hc.1⟩

/-- The scalar case leaves `varNames` as it is. -/
theorem planSimple_cutTo (h : structs.Helpers) (f : String) (arg : structs.Argument)
    (s1 s2 : structs.VarNames) (p : structs.Plan)
    (ha : structs.namesOf s1 f = structs.namesOf s2 f) :
    structs.cutTo f (structs.planSimple h (s1, p) arg)
      = structs.cutTo f (structs.planSimple h (s2, p) arg) := by
  simp only [structs.planSimple]
  split <;> simp only [structs.cutTo, ha]

/-- The Record case sees only the map of the function. -/
theorem planRecord_cutTo (h : structs.Helpers) (f : String) (arg : structs.Argument)
    (s1 s2 : structs.VarNames) (p : structs.Plan)
    (ha : structs.namesOf s1 f = structs.namesOf s2 f) :
    structs.cutTo f (structs.planRecord h f (s1, p) arg)
      = structs.cutTo f (structs.planRecord h f (s2, p) arg) := by
  obtain ⟨hx, hs⟩ := getVarName_agree s1 s2 f arg.fields.Name "x" ha
  simp only [structs.planRecord, structs.getInnerVarName]
  rw [← hx]
  split
  · simp only [structs.cutTo]
  · exact forRange_cutTo f _ (fun t1 t2 st a hh => recordField_cutTo h f arg _ _ t1 t2 st a hh)
      _ _ _ _ hs

/-- The Table-of-Scalar case sees only the map of the function. -/
theorem planTableSimple_cutTo (h : structs.Helpers) (f : String) (arg elem : structs.Argument)
    (s1 s2 : structs.VarNames) (p : structs.Plan)
    (ha : structs.namesOf s1 f = structs.namesOf s2 f) :
    structs.cutTo f (structs.planTableSimple h f (s1, p) arg elem)
      = structs.cutTo f (structs.planTableSimple h f (s2, p) arg elem) := by
  obtain ⟨hx, hs⟩ := getVarName_agree s1 s2 f arg.fields.Name "x" ha
  simp only [structs.planTableSimple, structs.getInnerVarName]
  rw [← hx]
  split <;> simp only [structs.cutTo, hs]

/-- The end of the Table-of-Record case sees only the map of the function. -/
theorem tableRecordClose_cutTo (h : structs.Helpers) (f : String) (arg : structs.Argument)
    (vn : String) (recordOf : List (String × structs.Argument))
    (s1 s2 : structs.VarNames) (st : structs.Plan × String)
    (ha : structs.namesOf s1 f = structs.namesOf s2 f) :
    structs.cutTo f (structs.tableRecordClose h f arg vn recordOf (s1, st))
      = structs.cutTo f (structs.tableRecordClose h f arg vn recordOf (s2, st)) := by
  obtain ⟨p, idxvar⟩ := st
  simp only [structs.tableRecordClose]
  by_cases ho : arg.IsOutput = true
  · rw [if_pos ho, if_pos ho]
    exact forRange_cutTo f _ (fun t1 t2 st a hh => tableRecordOut_cutTo f vn t1 t2 st a hh)
      _ _ _ _ ha
  · rw [if_neg ho, if_neg ho]
    simp only [structs.cutTo, ha]

/-- The copy loops of the Table-of-Record case see only the map of the function. -/
theorem tableRecordLoops_cutTo (h : structs.Helpers) (f : String) (arg : structs.Argument)
    (vn aname : String) (recordOf : List (String × structs.Argument))
    (s1 s2 : structs.VarNames) (p : structs.Plan)
    (ha : structs.namesOf s1 f = structs.namesOf s2 f) :
    structs.cutTo f (structs.tableRecordLoops h f arg vn aname recordOf (s1, p))
      = structs.cutTo f (structs.tableRecordLoops h f arg vn aname recordOf (s2, p)) := by
  have hl := forRange_cutTo f (structs.tableRecordLoop h f arg vn aname)
    (fun t1 t2 st a hh => tableRecordLoop_cutTo h f arg vn aname t1 t2 st a hh)
    (h.rangeOf 2 recordOf) s1 s2 (p, "") ha
  simp only [structs.tableRecordLoops]
  rcases cutTo_cases f _ _ hl with ⟨e, h1, h2⟩ | ⟨t1, t2, st, h1, h2, hs⟩
  · rw [h1, h2]
  · rw [h1, h2]
    exact tableRecordClose_cutTo h f arg vn recordOf t1 t2 st hs

/-- The Table-of-Record case sees only the map of the function. -/
theorem planTableRecord_cutTo (h : structs.Helpers) (f : String) (arg elem : structs.Argument)
    (s1 s2 : structs.VarNames) (p : structs.Plan)
    (ha : structs.namesOf s1 f = structs.namesOf s2 f) :
    structs.cutTo f (structs.planTableRecord h f (s1, p) arg elem)
      = structs.cutTo f (structs.planTableRecord h f (s2, p) arg elem) := by
  obtain ⟨hx, hs⟩ := getVarName_agree s1 s2 f
    (arg.fields.Name ++ "." ++ elem.fields.Name) "x" ha
  simp only [structs.planTableRecord, structs.getInnerVarName]
  rw [← hx]
  have hl := forRange_cutTo f
    (structs.tableRecordDecl f arg
      (structs.getVarName s1 f (arg.fields.Name ++ "." ++ elem.fields.Name) "x").1)
    (fun t1 t2 st a hh => tableRecordDecl_cutTo f arg _ t1 t2 st a hh)
    (h.rangeOf 1 (elem.fields.RecordOf.getD []))
    (structs.getVarName s1 f (arg.fields.Name ++ "." ++ elem.fields.Name) "x").2
    (structs.getVarName s2 f (arg.fields.Name ++ "." ++ elem.fields.Name) "x").2
  generalize (structs.getVarName s1 f (arg.fields.Name ++ "." ++ elem.fields.Name) "x").2 = u1
    at hl hs ⊢
  generalize (structs.getVarName s2 f (arg.fields.Name ++ "." ++ elem.fields.Name) "x").2 = u2
    at hl hs ⊢
  generalize (structs.getVarName s1 f (arg.fields.Name ++ "." ++ elem.fields.Name) "x").1 = vn
    at hl ⊢
  rcases cutTo_cases f _ _ (hl _ hs) with ⟨e, h1, h2⟩ | ⟨t1, t2, st, h1, h2, hs'⟩
  · rw [h1, h2]
  · rw [h1, h2]
    exact tableRecordLoops_cutTo h f arg vn _ _ t1 t2 st hs'

/-- The body of the loop over the arguments sees only the map of the function. -/
theorem planArg_cutTo (h : structs.Helpers) (f : String)
    (s1 s2 : structs.VarNames) (p : structs.Plan) (arg : structs.Argument)
    (ha : structs.namesOf s1 f = structs.namesOf s2 f) :
    structs.cutTo f (structs.planArg h f (s1, p) arg)
      = structs.cutTo f (structs.planArg h f (s2, p) arg) := by
  simp only [structs.planArg]
  split_ifs
  · exact planSimple_cutTo h f arg s1 s2 p ha
  · exact planRecord_cutTo h f arg s1 s2 p ha
  · rfl
  · exact planSimple_cutTo h f arg s1 s2 p ha
  · split
    · rfl
    · split_ifs
      · exact planTableSimple_cutTo h f arg _ s1 s2 p ha
      · exact planTableRecord_cutTo h f arg _ s1 s2 p ha
      · rfl
  · rfl

end PlannerSteps

/-- The results of `prepareCall` depend on `varNames` only through the map of
the planned function. -/
theorem prepareCall_cutTo (h : structs.Helpers) (s1 s2 : structs.VarNames) (f : structs.Function)
    (ha : structs.namesOf s1 (f.Name h) = structs.namesOf s2 (f.Name h)) :
    structs.prepared h s1 f = structs.prepared h s2 f := by
  have hl := forRange_cutTo (f.Name h) (structs.planArg h (f.Name h))
    (fun t1 t2 st a hh => planArg_cutTo h (f.Name h) t1 t2 st a hh)
    (match f.Returns with
      | some r => f.Args ++ [r]
      | none => f.Args) s1 s2
    { decls := ["i1 PLS_INTEGER;", "i2 PLS_INTEGER;"],
      convIn := ["var v driver.Value\nvar x interface\x7b\x7d\n _, _ = v, x"],
      types := f.types } ha
  simp only [structs.prepared, structs.prepareCall]
  rcases cutTo_cases _ _ _ hl with ⟨e, h1, h2⟩ | ⟨t1, t2, st, h1, h2, _⟩
  · rw [h1, h2]
  · rw [h1, h2]

/-- C4, refuted as stated: whatever the functions missing from src/structs are
(a range over an empty map visiting nothing), planning the procedure `F(b)` in
the fresh state and in the state that planning another procedure of the same
name, `F(a)`, leaves behind does not yield the same results: the local variable
of `b` is declared as `x001` in the one and as `x002` in the other. -/
theorem prepareCall_not_fresh :
    ¬ ∃ h : structs.Helpers, h.rangeOf 0 [] = [] ∧
      ∀ (r : structs.Prepared) (left : structs.VarNames),
        structs.prepareCall h [] (structs.procedure "F" [structs.inputRecord "A" "t_a"])
          = .ok (r, left) →
        structs.prepared h [] (structs.procedure "F" [structs.inputRecord "B" "t_b"])
          = structs.prepared h left (structs.procedure "F" [structs.inputRecord "B" "t_b"]) := by
  rintro ⟨h, h0, H⟩
  have hn : ∀ args, (structs.procedure "F" args).Name h = "f" := by
    intro args
    simp only [structs.procedure, structs.Function.Name, if_true]
    decide
  have hA : (structs.inputRecord "A" "t_a") = structs.Argument.mk
      { Name := "a", Flavor := 1, Direction := 1, Type_ := "PL/SQL RECORD", TypeName := "t_a",
        AbsType := "PL/SQL RECORD", RecordOf := some [] } := by rfl
  have hB : (structs.inputRecord "B" "t_b") = structs.Argument.mk
      { Name := "b", Flavor := 1, Direction := 1, Type_ := "PL/SQL RECORD", TypeName := "t_b",
        AbsType := "PL/SQL RECORD", RecordOf := some [] } := by rfl
  have step : ∀ (s : structs.VarNames) (nm ty : String),
      structs.prepareCall h s (structs.procedure "F" [structs.Argument.mk
        { Name := nm, Flavor := 1, Direction := 1, Type_ := "PL/SQL RECORD", TypeName := ty,
          AbsType := "PL/SQL RECORD", RecordOf := some [] }])
      = .ok ({ decls := ["i1 PLS_INTEGER;", "i2 PLS_INTEGER;",
                  (structs.getInnerVarName s "f" nm).1 ++ " " ++ ty ++ ";"],
               pre := [], call := "f(" ++ (nm ++ "=>" ++ (structs.getInnerVarName s "f" nm).1
                  ++ "") ++ ")",
               post := [],
               convIn := ["var v driver.Value\nvar x interface\x7b\x7d\n _, _ = v, x"],
               convOut := [], err := none },
             (structs.getInnerVarName s "f" nm).2) := by
    intro s nm ty
    simp only [structs.prepareCall, hn]
    simp [structs.procedure, structs.forRange, structs.planArg, structs.planRecord,
      structs.Argument.fields, structs.Argument.IsOutput, structs.FLAVOR_SIMPLE,
      structs.FLAVOR_RECORD, structs.DIR_OUT, h0, structs.writeCallArgs, mapGet_mapSet_self,
      Go.mapSet, Go.mapGet]
  have hH := H _ _ (by rw [hA]; exact step [] "a" "t_a")
  rw [hB] at hH
  simp only [structs.prepared, step, Except.ok.injEq, structs.Prepared.mk.injEq] at hH
  have hd := hH.1
  have e1 : (structs.getInnerVarName [] "f" "b").1 = "x001" := by decide
  have e2 : (structs.getInnerVarName (structs.getInnerVarName [] "f" "a").2 "f" "b").1
      = "x002" := by decide
  rw [e1, e2] at hd
  exact absurd hd (by decide)

section OrderFacts

/-- Two loop bodies that agree on the elements of a list give the same loop. -/
theorem forRange_congr {α σ : Type} (b1 b2 : σ → α → Except Go.Fault σ) :
    ∀ (l : List α) (st : σ), (∀ a ∈ l, ∀ s, b1 s a = b2 s a) →
      structs.forRange b1 l st = structs.forRange b2 l st
  | [], _, _ => rfl
  | a :: l, st, hb => by
    simp only [structs.forRange]
    rw [hb a (List.mem_cons_self a l) st]
    cases b2 st a with
    | error e => rfl
    | ok s1 => exact forRange_congr b1 b2 l s1 (fun x hx s => hb x (List.mem_cons_of_mem a hx) s)

/-- The turn of `prepareCall` for an argument reads the order of the `range`
loops only on the field map of the argument and on the field map of its
element: two sets of helpers that differ in the order alone, and agree on
these two maps, plan the argument alike. -/
theorem planArg_order (u g c : String → String)
    (t : structs.Argument → structs.StrMap → String × structs.StrMap) (q : String → String)
    (o1 o2 : Nat → List (String × structs.Argument) → List (String × structs.Argument))
    (fn : String) (st : structs.VarNames × structs.Plan) (a : structs.Argument)
    (hr : ∀ n, o1 n (a.fields.RecordOf.getD []) = o2 n (a.fields.RecordOf.getD []))
    (he : ∀ n e, a.fields.TableOf = some e →
      o1 n (e.fields.RecordOf.getD []) = o2 n (e.fields.RecordOf.getD [])) :
    structs.planArg ⟨u, g, c, t, q, o1⟩ fn st a = structs.planArg ⟨u, g, c, t, q, o2⟩ fn st a := by
  simp only [structs.planArg]
  by_cases h0 : a.fields.Flavor = structs.FLAVOR_SIMPLE
  · simp only [h0, if_true]
    rfl
  · simp only [h0, if_false]
    by_cases h1 : a.fields.Flavor = structs.FLAVOR_RECORD
    · simp only [h1, if_true]
      simp only [structs.planRecord, hr 0]
      rfl
    · simp only [h1, if_false]
      by_cases h2 : a.fields.Flavor = structs.FLAVOR_TABLE
      · simp only [h2, if_true]
        by_cases h3 : a.fields.Type_ = "REF CURSOR"
        · simp only [h3, if_true]
          split_ifs
          · rfl
          · rfl
        · simp only [h3, if_false]
          cases ht : a.fields.TableOf with
          | none => rfl
          | some e =>
            simp only []
            split_ifs
            · rfl
            · simp only [structs.planTableRecord, structs.tableRecordLoops,
                structs.tableRecordClose, he 1 e ht, he 2 e ht, he 3 e ht]
              rfl
            · rfl
      · simp only [h2, if_false]

end OrderFacts

/-- C4, amended: the naming state is the package-level `varNames`, which
`prepareCall` reads as earlier planning left it, and the fields of a Record are
a map, which each `range` loop visits in an order of its own.  For any two runs
of `prepareCall` on the same Function, from two allocator states that hold the
same map for `Name()` of the function (an absent map counting as an empty one),
in which the `range` loops visit the field map of each argument and of the
element of each Table in the same order, the two runs yield the same
declarations, pre-call statements, call, post-call statements and conversion
statements, or stop in the same way.  The two runs have helpers `h1` and `h2`
with the same functions `unocap`, `goName`, `capitalize`, `goType` and `%q`;
their orders `rangeOf` are only required to agree on the maps of this
Function. -/
theorem prepareCall_same_names_same_plan (h1 h2 : structs.Helpers) (s1 s2 : structs.VarNames)
    (f : structs.Function)
    (hu : h1.unocap = h2.unocap) (hg : h1.goName = h2.goName)
    (hc : h1.capitalize = h2.capitalize) (ht : h1.goType = h2.goType)
    (hq : h1.quote = h2.quote)
    (ha : structs.namesOf s1 (f.Name h1) = structs.namesOf s2 (f.Name h1))
    (ho : ∀ n, ∀ a ∈ f.args,
      h1.rangeOf n (a.fields.RecordOf.getD []) = h2.rangeOf n (a.fields.RecordOf.getD []) ∧
      ∀ e, a.fields.TableOf = some e →
        h1.rangeOf n (e.fields.RecordOf.getD []) = h2.rangeOf n (e.fields.RecordOf.getD [])) :
    f.Name h1 = f.Name h2 ∧
    structs.prepared h1 s1 f = structs.prepared h2 s2 f ∧
    (∀ r1 r2 : structs.Prepared,
      structs.prepared h1 s1 f = .ok r1 → structs.prepared h2 s2 f = .ok r2 →
      r1.decls = r2.decls ∧ r1.pre = r2.pre ∧ r1.call = r2.call ∧ r1.post = r2.post ∧
      r1.convIn = r2.convIn ∧ r1.convOut = r2.convOut) := by
  obtain ⟨u, g, c, t, q, o1⟩ := h1
  obtain ⟨u2, g2, c2, t2, q2, o2⟩ := h2
  simp only at hu hg hc ht hq
  subst hu hg hc ht hq
  have hn : f.Name ⟨u, g, c, t, q, o1⟩ = f.Name ⟨u, g, c, t, q, o2⟩ := rfl
  have hs : structs.prepared ⟨u, g, c, t, q, o1⟩ s1 f
      = structs.prepared ⟨u, g, c, t, q, o2⟩ s1 f := by
    have hl := forRange_congr
      (structs.planArg ⟨u, g, c, t, q, o1⟩ (f.Name ⟨u, g, c, t, q, o1⟩))
      (structs.planArg ⟨u, g, c, t, q, o2⟩ (f.Name ⟨u, g, c, t, q, o1⟩))
      f.args
      (s1, { decls := ["i1 PLS_INTEGER;", "i2 PLS_INTEGER;"],
             convIn := ["var v driver.Value\nvar x interface\x7b\x7d\n _, _ = v, x"],
             types := f.types })
      (fun a hm s => planArg_order u g c t q o1 o2 _ s a (fun n => (ho n a hm).1)
        (fun n e hte => (ho n a hm).2 e hte))
    simp only [structs.Function.args] at hl
    simp only [structs.prepared, structs.prepareCall, hl, ← hn]
  have he := prepareCall_cutTo ⟨u, g, c, t, q, o2⟩ s1 s2 f ha
  refine ⟨hn, hs.trans he, ?_⟩
  intro r1 r2 e1 e2
  rw [hs.trans he, e2] at e1
  cases e1
  exact ⟨rfl, rfl, rfl, rfl, rfl, rfl⟩

/-- C4, the amended claim at a concrete input: the procedure `F` with the input
Record `P_ADAT` of one field is planned in the fresh state, and in the state
that planning the procedure `G(a)` leaves behind with the `range` loops
visiting every map from its last entry to its first; the two runs yield the
same results.  With a Record of two fields the two orders yield different
pre-call statements. -/
theorem prepareCall_same_names_same_plan_witness :
    structs.prepared structs.Helpers.plain [] (structs.procedure "F" [structs.adatRecord])
      = structs.prepared structs.Helpers.reversed [("g", [("a", "x001")])]
        (structs.procedure "F" [structs.adatRecord]) ∧
    structs.prepareCall structs.Helpers.plain []
        (structs.procedure "G" [structs.inputRecord "A" "t_a"])
      = .ok ({ decls := ["i1 PLS_INTEGER;", "i2 PLS_INTEGER;", "x001 t_a;"], pre := [],
               call := "g(a=>x001)", post := [],
               convIn := ["var v driver.Value\nvar x interface\x7b\x7d\n _, _ = v, x"],
               convOut := [], err := none }, [("g", [("a", "x001")])]) ∧
    (structs.prepared structs.Helpers.plain [] structs.setDates).map (fun r => r.pre)
      = .ok ["x001.szerkot := :x002#szerkot;", "x001.szerlejar := :x002#szerlejar;"] ∧
    (structs.prepared structs.Helpers.reversed [] structs.setDates).map (fun r => r.pre)
      = .ok ["x001.szerlejar := :x002#szerlejar;", "x001.szerkot := :x002#szerkot;"] :=
  ⟨(prepareCall_same_names_same_plan structs.Helpers.plain structs.Helpers.reversed []
      [("g", [("a", "x001")])] (structs.procedure "F" [structs.adatRecord])
      rfl rfl rfl rfl rfl (by decide)
      (fun n a hm => by
        have ea : a = structs.adatRecord := by
          simpa [structs.Function.args, structs.procedure] using hm
        subst ea
        exact ⟨rfl, fun e he => by cases he⟩)).2.1, by rfl, rfl, rfl⟩

/-! # Properties of `Function.Name` -/

section NameFacts

/-- A lower-cased character is no upper-case ASCII letter. -/
theorem toLower_not_isUpper (c : Char) : (Char.toLower c).isUpper = false := by
  unfold Char.toLower
  by_cases h : c.toNat ≥ 65 ∧ c.toNat ≤ 90
  · simp only [h, and_self, if_true]
    obtain ⟨h1, h2⟩ := h
    generalize c.toNat = n at h1 h2
    interval_cases n <;> rfl
  · simp only [h, if_false]
    rw [Bool.eq_false_iff]
    intro hu
    apply h
    simp only [Char.isUpper, Bool.and_eq_true, decide_eq_true_eq, ge_iff_le] at hu
    obtain ⟨h1, h2⟩ := hu
    exact ⟨UInt32.le_def.mp h1, h2⟩

/-- A lower-cased string holds no upper-case ASCII letter. -/
theorem toLower_no_upper (n : String) : ∀ c ∈ (Go.toLower n).data, c.isUpper = false := by
  intro c hc
  simp only [Go.toLower, List.mem_map] at hc
  obtain ⟨d, _, rfl⟩ := hc
  exact toLower_not_isUpper d

end NameFacts

/-- C11, refuted as stated: whatever `capitalize` is, `Name()` of the function
`SENDPREOFFER_31101` of package `DB_WEB` is `DB_web.sendpreoffer_31101`, which
holds the upper-case letters `D` and `B`. -/
theorem Function_Name_not_lower_case :
    ¬ ∃ (capitalize : String → String) (s : String),
      oracall.Function.Name capitalize { Package := "DB_WEB", name := "SENDPREOFFER_31101" }
        = .ok s ∧ ∀ c ∈ s.data, c.isUpper = false := by
  rintro ⟨capitalize, s, hs, hl⟩
  have h : oracall.Function.Name capitalize { Package := "DB_WEB", name := "SENDPREOFFER_31101" }
      = .ok "DB_web.sendpreoffer_31101" := rfl
  rw [h] at hs
  cases hs
  exact absurd (hl 'D' (by decide)) (by decide)

/-- C11, amended: for every Function with a non-empty Package, `Name()` (when it
returns) has the form `<p>.<n>`, where `<n>` is the function name in lower case
and holds no upper-case letter, and `<p>` is `unocap` of the package, which is
not put in lower case. -/
theorem Function_Name_qualified (capitalize : String → String) (f : oracall.Function)
    (h : structs.Helpers) (g : structs.Function) :
    (f.Package ≠ "" → ∀ s, f.Name capitalize = .ok s →
      ∃ p, oracall.unocap capitalize f.Package = .ok p ∧ s = p ++ "." ++ Go.toLower f.name) ∧
    (g.Package ≠ "" → g.Name h = h.unocap g.Package ++ "." ++ Go.toLower g.name) ∧
    (∀ c ∈ (Go.toLower f.name).data, c.isUpper = false) ∧
    (∀ c ∈ (Go.toLower g.name).data, c.isUpper = false) := by
  refine ⟨?_, ?_, toLower_no_upper _, toLower_no_upper _⟩
  · intro hp s hs
    simp only [oracall.Function.Name, hp, if_false] at hs
    cases hu : oracall.unocap capitalize f.Package with
    | error e => rw [hu] at hs; cases hs
    | ok p =>
      rw [hu] at hs
      simp only [Except.ok.injEq] at hs
      exact ⟨p, rfl, hs.symm⟩
  · intro hp
    simp only [structs.Function.Name, hp, if_false]

/-- C11, the amended claim at a concrete input: package `DB_WEB`, function
`SENDPREOFFER_31101`. -/
theorem Function_Name_qualified_witness :
    ∃ p, oracall.unocap id "DB_WEB" = .ok p ∧
      "DB_web.sendpreoffer_31101" = p ++ "." ++ Go.toLower "SENDPREOFFER_31101" :=
  (Function_Name_qualified id { Package := "DB_WEB", name := "SENDPREOFFER_31101" }
    structs.Helpers.plain {}).1 (by decide) "DB_web.sendpreoffer_31101" rfl

/-- C12: for every Function of package oracall whose Package has its first
underscore at a position i > 0, `Name()` is the upper-cased `Package[:i]`, an
underscore, the lower-cased rest of the package after that underscore, a dot
and the lower-cased function name; package `DB_WEB` with name
`SENDPREOFFER_31101` gives `DB_web.sendpreoffer_31101`. -/
theorem Function_Name_unocap (capitalize : String → String) (f : oracall.Function) (i : Nat)
    (hi : Go.index f.Package '_' = some i) (hpos : 0 < i) :
    f.Name capitalize = .ok (Go.toUpper (Go.sliceTo f.Package i) ++ "_"
      ++ Go.toLower (Go.sliceFrom f.Package (i + 1)) ++ "." ++ Go.toLower f.name) ∧
    oracall.Function.Name capitalize { Package := "DB_WEB", name := "SENDPREOFFER_31101" }
      = .ok "DB_web.sendpreoffer_31101" := by
  refine ⟨?_, rfl⟩
  have hp : f.Package ≠ "" := by
    intro h0
    rw [h0] at hi
    cases hi
  have h0 : ¬ i = 0 := by omega
  simp only [oracall.Function.Name, hp, if_false, oracall.unocap, hi, h0]

/-- C12 at a concrete input: package `DB_SPOOLSYS3`, function `QUERY_078`. -/
theorem Function_Name_unocap_witness :
    oracall.Function.Name id { Package := "DB_SPOOLSYS3", name := "QUERY_078" }
      = .ok (Go.toUpper (Go.sliceTo "DB_SPOOLSYS3" 2) ++ "_"
        ++ Go.toLower (Go.sliceFrom "DB_SPOOLSYS3" (2 + 1)) ++ "." ++ Go.toLower "QUERY_078") :=
  (Function_Name_unocap id { Package := "DB_SPOOLSYS3", name := "QUERY_078" } 2
    (by decide) (by decide)).1

/-! # Properties of the conversions and of the failure cases -/

section ConvFacts

/-- What `getConvSimple` appends for an argument that is both input and output. -/
theorem getConvSimple_inout (h : structs.Helpers) (arg : structs.Argument)
    (convIn convOut : List String) (types : structs.StrMap) (name paramName : String)
    (tableSize : Nat) (hi : arg.IsInput = true) (ho : arg.IsOutput = true)
    (r : List String × List String × structs.StrMap)
    (hr : structs.getConvSimple h arg convIn convOut types name paramName tableSize = .ok r) :
    (∃ rest, r.1 = convIn ++ ("output." ++ name ++ " = input." ++ name) :: rest) ∧
    r.2.1 = convOut ∧
    ((h.goType arg types).1 ≠ "string" →
      ∃ rest, r.1 = convIn ++ ("output." ++ name ++ " = input." ++ name)
        :: ("v = &output." ++ name) :: rest) := by
  simp only [structs.getConvSimple, ho, hi, if_true] at hr
  by_cases hs : (h.goType arg types).1 = "string"
  · simp only [hs, if_true] at hr
    split_ifs at hr <;> cases hr <;> simp [hs]
  · simp only [hs, if_false] at hr
    split_ifs at hr <;> cases hr <;> simp

/-- What `getConvSimple` appends for an argument that is output only. -/
theorem getConvSimple_out_only (h : structs.Helpers) (arg : structs.Argument)
    (convIn convOut : List String) (types : structs.StrMap) (name paramName : String)
    (tableSize : Nat) (hi : arg.IsInput = false) (ho : arg.IsOutput = true)
    (r : List String × List String × structs.StrMap)
    (hr : structs.getConvSimple h arg convIn convOut types name paramName tableSize = .ok r) :
    ((h.goType arg types).1 ≠ "string" →
      r.1 = convIn ++ ["v = &output." ++ name, "params[\"" ++ paramName ++ "\"] = v\n"] ∧
      r.2.1 = convOut) ∧
    ((h.goType arg types).1 = "string" →
      r.1 = convIn ++ ["v = gocilib.NewStringVar(\"\", " ++ Go.fmtD arg.fields.CharLength ++ ")",
        "params[\"" ++ paramName ++ "\"] = v\n"] ∧
      r.2.1 = convOut ++ ["if params[" ++ h.quote paramName ++ "] != nil \x7b output." ++ name
        ++ " = params[" ++ h.quote paramName ++ "].(*gocilib.StringVar).String() \x7d"]) := by
  simp only [structs.getConvSimple, ho, hi, if_true, Bool.false_eq_true, if_false] at hr
  by_cases hs : (h.goType arg types).1 = "string"
  · simp only [hs, if_true] at hr
    split_ifs at hr
    cases hr
    simp [hs]
  · simp only [hs, if_false] at hr
    split_ifs at hr
    cases hr
    simp [hs]

/-- An argument that is not output leaves the output conversions as they are. -/
theorem getConvSimple_in_only (h : structs.Helpers) (arg : structs.Argument)
    (convIn convOut : List String) (types : structs.StrMap) (name paramName : String)
    (tableSize : Nat) (ho : arg.IsOutput = false)
    (r : List String × List String × structs.StrMap)
    (hr : structs.getConvSimple h arg convIn convOut types name paramName tableSize = .ok r) :
    r.2.1 = convOut := by
  simp only [structs.getConvSimple, ho, Bool.false_eq_true, if_false] at hr
  split_ifs at hr <;> cases hr <;> rfl

end ConvFacts

/-- C20, refuted as stated: whatever the functions missing from src/structs
are, `getConvSimple` appends nothing to the output conversions for the IN/OUT
scalar `P_VONALKOD`; with the stand-in functions it returns, binding
`&output.P_vonalkod`. -/
theorem getConvSimple_inout_no_output_conversion :
    (¬ ∃ (h : structs.Helpers) (r : List String × List String × structs.StrMap),
      structs.getConvSimple h
        ((structs.NewArgument "P_VONALKOD" "BINARY_INTEGER" "PLS_INTEGER" "" "IN/OUT" 0 "" 0 0
          0).setGoTypeName "int32") [] [] [] "P_vonalkod" "p_vonalkod" 0 = .ok r ∧
      r.2.1 ≠ []) ∧
    structs.getConvSimple structs.Helpers.plain
        ((structs.NewArgument "P_VONALKOD" "BINARY_INTEGER" "PLS_INTEGER" "" "IN/OUT" 0 "" 0 0
          0).setGoTypeName "int32") [] [] [] "P_vonalkod" "p_vonalkod" 0
      = .ok (["output.P_vonalkod = input.P_vonalkod", "v = &output.P_vonalkod",
               "params[\"p_vonalkod\"] = v\n"], [], []) := by
  refine ⟨?_, rfl⟩
  rintro ⟨h, r, hr, hne⟩
  exact hne (getConvSimple_inout h _ [] [] [] _ _ 0 (by decide) (by decide) r hr).2.1

/-- C20, amended: for every IN/OUT Scalar argument `getConvSimple` appends to
the input conversions the echo statement `output.<Name> = input.<Name>`, and
when the host type is not `string` it binds `&output.<Name>`, through which the
result is written, and leaves the output conversions unchanged; for every
OUT-only Scalar it binds a placeholder and no input value: `&output.<Name>`
with the output conversions unchanged, or for the host type `string` an empty
string variable with one output conversion that writes it back. -/
theorem getConvSimple_scalar_bindings (h : structs.Helpers) (arg : structs.Argument)
    (convIn convOut : List String) (types : structs.StrMap) (name paramName : String)
    (ho : arg.IsOutput = true)
    (r : List String × List String × structs.StrMap)
    (hr : structs.getConvSimple h arg convIn convOut types name paramName 0 = .ok r) :
    (arg.IsInput = true →
      (∃ rest, r.1 = convIn ++ ("output." ++ name ++ " = input." ++ name) :: rest) ∧
      ((h.goType arg types).1 ≠ "string" →
        r.2.1 = convOut ∧
        ∃ rest, r.1 = convIn ++ ("output." ++ name ++ " = input." ++ name)
          :: ("v = &output." ++ name) :: rest)) ∧
    (arg.IsInput = false →
      ((h.goType arg types).1 ≠ "string" →
        r.1 = convIn ++ ["v = &output." ++ name, "params[\"" ++ paramName ++ "\"] = v\n"] ∧
        r.2.1 = convOut) ∧
      ((h.goType arg types).1 = "string" →
        r.1 = convIn ++ ["v = gocilib.NewStringVar(\"\", " ++ Go.fmtD arg.fields.CharLength
          ++ ")", "params[\"" ++ paramName ++ "\"] = v\n"] ∧
        r.2.1 = convOut ++ ["if params[" ++ h.quote paramName ++ "] != nil \x7b output." ++ name
          ++ " = params[" ++ h.quote paramName ++ "].(*gocilib.StringVar).String() \x7d"])) := by
  refine ⟨fun hi => ?_, fun hi => ?_⟩
  · have := getConvSimple_inout h arg convIn convOut types name paramName 0 hi ho r hr
    exact ⟨this.1, fun hs => ⟨this.2.1, this.2.2 hs⟩⟩
  · exact getConvSimple_out_only h arg convIn convOut types name paramName 0 hi ho r hr

/-- C20, the amended claim at a concrete input: the OUT-only scalar `P_EVESDIJ`
of host type `float64` binds `&output.P_evesdij` and no input value. -/
theorem getConvSimple_scalar_bindings_witness :
    (["v = &output.P_evesdij", "params[\"p_evesdij\"] = v\n"], ([] : List String),
        ([] : structs.StrMap)).1
      = [] ++ ["v = &output." ++ "P_evesdij", "params[\"" ++ "p_evesdij" ++ "\"] = v\n"] ∧
    (["v = &output.P_evesdij", "params[\"p_evesdij\"] = v\n"], ([] : List String),
        ([] : structs.StrMap)).2.1 = [] :=
  ((getConvSimple_scalar_bindings structs.Helpers.plain
      ((structs.NewArgument "P_EVESDIJ" "NUMBER" "NUMBER" "" "OUT" 0 "" 0 0 0).setGoTypeName
        "float64") [] [] [] "P_evesdij" "p_evesdij" (by decide)
      (["v = &output.P_evesdij", "params[\"p_evesdij\"] = v\n"], [], []) rfl).2
    (by decide)).1 (by decide)

section FailureFacts

/-- A loop stops at an element on which its body always stops, if not before. -/
theorem forRange_error_of_mem {α σ : Type} (body : σ → α → Except Go.Fault σ) (a : α)
    (ha : ∀ st, ∃ e, body st a = .error e) :
    ∀ (l : List α), a ∈ l → ∀ st, ∃ e, structs.forRange body l st = .error e := by
  intro l
  induction l with
  | nil => intro hm; cases hm
  | cons b l ih =>
    intro hm st
    simp only [structs.forRange]
    cases hb : body st b with
    | error e => exact ⟨e, rfl⟩
    | ok st1 =>
      rcases List.mem_cons.mp hm with rfl | hl
      · obtain ⟨e, he⟩ := ha st
        rw [he] at hb
        cases hb
      · exact ih hl st1

/-- The planner stops the run at a structural violation. -/
theorem planArg_violates (h : structs.Helpers) (f : String) (a : structs.Argument)
    (hv : a.violates) (st : structs.VarNames × structs.Plan) :
    ∃ msg, structs.planArg h f st a = .error (.fatal msg) := by
  obtain ⟨hf, hc⟩ := hv
  have h0 : ¬ a.fields.Flavor = structs.FLAVOR_SIMPLE := by
    rw [hf]; decide
  have h1 : ¬ a.fields.Flavor = structs.FLAVOR_RECORD := by
    rw [hf]; decide
  simp only [structs.planArg, h0, h1, hf, if_true, if_false]
  rcases hc with ⟨hc, hi⟩ | ⟨hc, elem, he, hef⟩
  · simp only [hc, hi, if_true]
    exact ⟨_, rfl⟩
  · have e0 : ¬ elem.fields.Flavor = structs.FLAVOR_SIMPLE := by
      rw [hef]; decide
    have e1 : ¬ elem.fields.Flavor = structs.FLAVOR_RECORD := by
      rw [hef]; decide
    simp only [hc, he, e0, e1, if_false]
    exact ⟨_, rfl⟩

/-- The planner returns a nil error whenever it returns. -/
theorem prepareCall_err_none (h : structs.Helpers) (vn : structs.VarNames) (f : structs.Function)
    (r : structs.Prepared) (vn' : structs.VarNames)
    (hr : structs.prepareCall h vn f = .ok (r, vn')) : r.err = none := by
  simp only [structs.prepareCall] at hr
  split at hr
  · cases hr
  · cases hr
    rfl

end FailureFacts

/-- C19, refuted as stated: whatever the functions missing from src/structs
are, `prepareCall` does not return for a procedure with a Table argument whose
element is itself a Table, nor for one with an IN `REF CURSOR` argument: it
returns no error value, the run stops in `glog.Fatalf`. -/
theorem prepareCall_violation_does_not_return :
    (¬ ∃ (h : structs.Helpers) (r : structs.Prepared) (vn' : structs.VarNames),
      structs.prepareCall h [] (structs.procedure "F"
        [(structs.NewArgument "P_TAB" "PL/SQL TABLE" "" "T_TAB" "IN" 0 "" 0 0 0).setTableOf
          (structs.NewArgument "" "PL/SQL TABLE" "" "T_ROW" "IN" 0 "" 0 0 0)]) = .ok (r, vn')) ∧
    (¬ ∃ (h : structs.Helpers) (r : structs.Prepared) (vn' : structs.VarNames),
      structs.prepareCall h [] (structs.procedure "F"
        [structs.NewArgument "P_CUR" "REF CURSOR" "" "" "IN" 0 "" 0 0 0]) = .ok (r, vn')) ∧
    structs.prepareCall structs.Helpers.plain [] (structs.procedure "F"
        [(structs.NewArgument "P_TAB" "PL/SQL TABLE" "" "T_TAB" "IN" 0 "" 0 0 0).setTableOf
          (structs.NewArgument "" "PL/SQL TABLE" "" "T_ROW" "IN" 0 "" 0 0 0)])
      = .error (.fatal "only table of simple or record types are allowed (no table of table!)") ∧
    structs.prepareCall structs.Helpers.plain [] (structs.procedure "F"
        [structs.NewArgument "P_CUR" "REF CURSOR" "" "" "IN" 0 "" 0 0 0])
      = .error (.fatal "cannot use IN cursor variables") := by
  refine ⟨?_, ?_, rfl, rfl⟩
  · rintro ⟨h, r, vn', hr⟩
    have hv : ((structs.NewArgument "P_TAB" "PL/SQL TABLE" "" "T_TAB" "IN" 0 "" 0 0 0).setTableOf
        (structs.NewArgument "" "PL/SQL TABLE" "" "T_ROW" "IN" 0 "" 0 0 0)).violates :=
      ⟨by decide, Or.inr ⟨by decide, _, rfl, by decide⟩⟩
    obtain ⟨msg, hm⟩ := planArg_violates h ((structs.procedure "F"
        [(structs.NewArgument "P_TAB" "PL/SQL TABLE" "" "T_TAB" "IN" 0 "" 0 0 0).setTableOf
          (structs.NewArgument "" "PL/SQL TABLE" "" "T_ROW" "IN" 0 "" 0 0 0)]).Name h) _ hv
        ([], { decls := ["i1 PLS_INTEGER;", "i2 PLS_INTEGER;"],
               convIn := ["var v driver.Value\nvar x interface\x7b\x7d\n _, _ = v, x"],
               types := [] })
    simp only [structs.prepareCall, structs.procedure, structs.forRange] at hr hm
    rw [hm] at hr
    cases hr
  · rintro ⟨h, r, vn', hr⟩
    have hv : (structs.NewArgument "P_CUR" "REF CURSOR" "" "" "IN" 0 "" 0 0 0).violates :=
      ⟨by decide, Or.inl ⟨by decide, by decide⟩⟩
    obtain ⟨msg, hm⟩ := planArg_violates h ((structs.procedure "F"
        [structs.NewArgument "P_CUR" "REF CURSOR" "" "" "IN" 0 "" 0 0 0]).Name h) _ hv
        ([], { decls := ["i1 PLS_INTEGER;", "i2 PLS_INTEGER;"],
               convIn := ["var v driver.Value\nvar x interface\x7b\x7d\n _, _ = v, x"],
               types := [] })
    simp only [structs.prepareCall, structs.procedure, structs.forRange] at hr hm
    rw [hm] at hr
    cases hr

/-- C19, amended: a structural violation stops the whole run: for every
Function that contains a Table argument whose element is itself a Table, or a
`REF CURSOR` argument whose direction includes IN, `prepareCall` does not
return, and when the violation is in the first argument the run stops in
`glog.Fatalf`; `prepareCall` returns no error value: whenever it returns, its
error is nil. -/
theorem prepareCall_violation_stops_run (h : structs.Helpers) (vn : structs.VarNames)
    (f : structs.Function) :
    ((∃ a ∈ f.args, a.violates) → ∃ e, structs.prepareCall h vn f = .error e) ∧
    (∀ a rest, f.args = a :: rest → a.violates →
      ∃ msg, structs.prepareCall h vn f = .error (.fatal msg)) ∧
    (∀ r vn', structs.prepareCall h vn f = .ok (r, vn') → r.err = none) := by
  refine ⟨?_, ?_, fun r vn' hr => prepareCall_err_none h vn f r vn' hr⟩
  · rintro ⟨a, ha, hv⟩
    obtain ⟨e, he⟩ := forRange_error_of_mem (structs.planArg h (f.Name h)) a
      (fun st => by
        obtain ⟨msg, hm⟩ := planArg_violates h (f.Name h) a hv st
        exact ⟨_, hm⟩) f.args ha
      (vn, { decls := ["i1 PLS_INTEGER;", "i2 PLS_INTEGER;"],
             convIn := ["var v driver.Value\nvar x interface\x7b\x7d\n _, _ = v, x"],
             types := f.types })
    refine ⟨e, ?_⟩
    simp only [structs.prepareCall]
    simp only [structs.Function.args] at he
    rw [he]
  · intro a rest hl hv
    obtain ⟨msg, hm⟩ := planArg_violates h (f.Name h) a hv
      (vn, { decls := ["i1 PLS_INTEGER;", "i2 PLS_INTEGER;"],
             convIn := ["var v driver.Value\nvar x interface\x7b\x7d\n _, _ = v, x"],
             types := f.types })
    refine ⟨msg, ?_⟩
    simp only [structs.prepareCall]
    simp only [structs.Function.args] at hl
    rw [hl]
    simp only [structs.forRange, hm]

/-- C19, the amended claim at a concrete input: a function that returns an IN/OUT
`REF CURSOR`, after a scalar argument. -/
theorem prepareCall_violation_stops_run_witness :
    ∃ e, structs.prepareCall structs.Helpers.plain []
      { name := "F",
        Args := [(structs.NewArgument "P_ID" "NUMBER" "" "" "IN" 0 "" 9 0 0).setGoTypeName
          "float64"],
        Returns := some (structs.NewArgument "" "REF CURSOR" "" "" "IN/OUT" 0 "" 0 0 0) }
      = .error e :=
  (prepareCall_violation_stops_run structs.Helpers.plain []
    { name := "F",
      Args := [(structs.NewArgument "P_ID" "NUMBER" "" "" "IN" 0 "" 9 0 0).setGoTypeName
        "float64"],
      Returns := some (structs.NewArgument "" "REF CURSOR" "" "" "IN/OUT" 0 "" 0 0 0) }).1
    ⟨structs.NewArgument "" "REF CURSOR" "" "" "IN/OUT" 0 "" 0 0 0, by
      simp [structs.Function.args], ⟨by decide, Or.inl ⟨by decide, by decide⟩⟩⟩

/-- C17, the code at the failing input: for the IN/OUT Table-of-Record argument
`P_HIBALISTA` with the fields `hibaszam` and `szoveg`, the pre-call statements
load the shadow collections `x002#hibaszam` and `x002#szoveg` from their bind
slots, and the post-call statements hold the loop and the two write-backs but
no `.DELETE;` of a shadow collection. -/
theorem prepareCall_post_has_no_clear :
    (structs.prepared structs.Helpers.plain [] (structs.procedure "F"
      [(structs.NewArgument "P_HIBALISTA" "PL/SQL TABLE" "" "BRUNO.DB_WEB_ELEKTR.HIBA_TAB_TYP"
          "IN/OUT" 0 "" 0 0 0).setTableOf
        (((structs.NewArgument "" "PL/SQL RECORD" "" "BRUNO.DB_WEB_ELEKTR.HIBA_REC_TYP"
            "IN/OUT" 0 "" 0 0 0).setRecordOf
          [("hibaszam", (structs.NewArgument "HIBASZAM" "NUMBER" "NUMBER" "" "IN/OUT" 0 "" 9 0
              0).setGoTypeName "float64"),
           ("szoveg", (structs.NewArgument "SZOVEG" "VARCHAR2" "VARCHAR2" "" "IN/OUT" 0
              "CHAR_CS" 0 0 1000).setGoTypeName "string")]).setGoTypeName
          "*Hiba_rec_typ")])).map (fun r => (r.pre, r.post))
    = .ok (["x002#hibaszam := :x002#hibaszam;", "x002#szoveg := :x002#szoveg;", "",
            "i1 := x002#hibaszam.FIRST;", "WHILE i1 IS NOT NULL LOOP",
            "  x001(i1).hibaszam := x002#hibaszam(i1);", "  x001(i1).szoveg := x002#szoveg(i1);",
            "  i1 := x002#hibaszam.NEXT(i1);", "END LOOP;"],
           ["", "i1 := x001.FIRST; i2 := 1;", "WHILE i1 IS NOT NULL LOOP",
            "  x002#hibaszam(i2) := x001(i1).hibaszam;", "  x002#szoveg(i2) := x001(i1).szoveg;",
            "  i1 := x001.NEXT(i1); i2 := i2 + 1;", "END LOOP;",
            ":x002#hibaszam := x002#hibaszam;", ":x002#szoveg := x002#szoveg;"]) := by
  rfl

section ScalarFacts

/-- The scalar case of the planner changes the conversions only. -/
theorem planSimple_ok (h : structs.Helpers) (vns vns' : structs.VarNames) (p p' : structs.Plan)
    (arg : structs.Argument) (hr : structs.planSimple h (vns, p) arg = .ok (vns', p')) :
    vns' = vns ∧ p'.decls = p.decls ∧ p'.pre = p.pre ∧ p'.post = p.post ∧
    p'.callArgs = p.callArgs ∧ p'.tableTypes = p.tableTypes ∧
    ∃ r, structs.getConvSimple h arg p.convIn p.convOut p.types
        (h.capitalize (h.goName arg.fields.Name)) arg.fields.Name 0 = .ok r ∧
      p'.convIn = r.1 ∧ p'.convOut = r.2.1 ∧ p'.types = r.2.2 := by
  simp only [structs.planSimple] at hr
  split at hr
  · cases hr
  · rename_i ci co t hc
    simp only [Except.ok.injEq, Prod.mk.injEq] at hr
    obtain ⟨rfl, rfl⟩ := hr
    exact ⟨rfl, rfl, rfl, rfl, rfl, rfl, ⟨_, hc, rfl, rfl, rfl⟩⟩

/-- A run of the loop over scalar arguments changes the conversions only. -/
theorem forRange_planSimple (h : structs.Helpers) (f : String) :
    ∀ (l : List structs.Argument), (∀ a ∈ l, a.fields.Flavor = structs.FLAVOR_SIMPLE) →
    ∀ (vns vns' : structs.VarNames) (p p' : structs.Plan),
      structs.forRange (structs.planArg h f) l (vns, p) = .ok (vns', p') →
      vns' = vns ∧ p'.decls = p.decls ∧ p'.pre = p.pre ∧ p'.post = p.post ∧
      p'.callArgs = p.callArgs ∧ p'.tableTypes = p.tableTypes := by
  intro l
  induction l with
  | nil =>
    intro _ vns vns' p p' hr
    simp only [structs.forRange, Except.ok.injEq, Prod.mk.injEq] at hr
    obtain ⟨rfl, rfl⟩ := hr
    exact ⟨rfl, rfl, rfl, rfl, rfl, rfl⟩
  | cons a l ih =>
    intro hs vns vns' p p' hr
    have ha := hs a (List.mem_cons_self a l)
    simp only [structs.forRange, structs.planArg, ha, if_true] at hr
    cases h1 : structs.planSimple h (vns, p) a with
    | error e => rw [h1] at hr; cases hr
    | ok st1 =>
      obtain ⟨vns1, p1⟩ := st1
      rw [h1] at hr
      obtain ⟨e1, e2, e3, e4, e5, e6, _⟩ := planSimple_ok h vns vns1 p p1 a h1
      obtain ⟨g1, g2, g3, g4, g5, g6⟩ :=
        ih (fun b hb => hs b (List.mem_cons_of_mem a hb)) vns1 vns' p1 p' hr
      exact ⟨g1.trans e1, g2.trans e2, g3.trans e3, g4.trans e4, g5.trans e5, g6.trans e6⟩

/-- The plan of a function whose arguments are all scalars: the two counters are
its only declarations, it has no pre-call and no post-call statement, every
actual parameter is a bind slot, and `varNames` is left as it was. -/
theorem prepareCall_scalars (h : structs.Helpers) (vn vn' : structs.VarNames)
    (f : structs.Function) (r : structs.Prepared)
    (hs : ∀ a ∈ f.args, a.fields.Flavor = structs.FLAVOR_SIMPLE)
    (hr : structs.prepareCall h vn f = .ok (r, vn')) :
    r.decls = ["i1 PLS_INTEGER;", "i2 PLS_INTEGER;"] ∧ r.pre = [] ∧ r.post = [] ∧
    r.call = (if f.Returns.isSome then ":ret := " else "") ++ f.Name h ++ "("
      ++ structs.writeCallArgs [] f.Args 0 ++ ")" ∧
    vn' = vn := by
  simp only [structs.prepareCall] at hr
  split at hr
  · cases hr
  · rename_i vns p hf
    simp only [Except.ok.injEq, Prod.mk.injEq] at hr
    obtain ⟨rfl, rfl⟩ := hr
    obtain ⟨e1, e2, e3, e4, e5, _⟩ := forRange_planSimple h (f.Name h) f.args hs _ _ _ _ hf
    simp only [e1, e2, e3, e4, e5, and_self]

/-- The text of a block without pre-call and post-call statements whose
declarations are the two counters. -/
theorem plsqlText_counters_only (r : structs.Prepared)
    (hd : r.decls = ["i1 PLS_INTEGER;", "i2 PLS_INTEGER;"]) (hp : r.pre = [])
    (hq : r.post = []) :
    structs.plsqlText r = "DECLARE\n  i1 PLS_INTEGER;\n  i2 PLS_INTEGER;\n\nBEGIN\n\n  "
      ++ r.call ++ ";\n\n\nEND;\n" := by
  simp only [structs.plsqlText, hd, hp, hq, structs.plsqlLines, List.length_cons,
    List.length_nil]
  simp only [String.append_assoc, String.append_empty]
  rfl

/-- The `types` map that `getConvSimple` leaves is the one `goType` left. -/
theorem getConvSimple_types (h : structs.Helpers) (arg : structs.Argument)
    (convIn convOut : List String) (types : structs.StrMap) (name paramName : String)
    (tableSize : Nat) (r : List String × List String × structs.StrMap)
    (hr : structs.getConvSimple h arg convIn convOut types name paramName tableSize = .ok r) :
    r.2.2 = (h.goType arg types).2 := by
  simp only [structs.getConvSimple] at hr
  split_ifs at hr <;> cases hr <;> rfl

/-- The conversions that the loop leaves for an IN scalar followed by an OUT
scalar whose host type is not `string`: the output conversions are unchanged
and the result is bound by reference. -/
theorem forRange_in_out_conversions (h : structs.Helpers) (fn : String)
    (vn vn' : structs.VarNames) (p0 p : structs.Plan) (a b : structs.Argument)
    (ha : a.fields.Flavor = structs.FLAVOR_SIMPLE) (hb : b.fields.Flavor = structs.FLAVOR_SIMPLE)
    (hao : a.IsOutput = false) (hbo : b.IsOutput = true) (hbi : b.IsInput = false)
    (hg : (h.goType b (h.goType a p0.types).2).1 ≠ "string")
    (hr : structs.forRange (structs.planArg h fn) [a, b] (vn, p0) = .ok (vn', p)) :
    p.convOut = p0.convOut ∧
    ("v = &output." ++ h.capitalize (h.goName b.fields.Name)) ∈ p.convIn := by
  simp only [structs.forRange, structs.planArg, ha, hb, if_true] at hr
  cases h1 : structs.planSimple h (vn, p0) a with
  | error e => rw [h1] at hr; cases hr
  | ok st1 =>
    obtain ⟨vns1, p1⟩ := st1
    rw [h1] at hr
    simp only at hr
    cases h2 : structs.planSimple h (vns1, p1) b with
    | error e => rw [h2] at hr; cases hr
    | ok st2 =>
      obtain ⟨vns2, p2⟩ := st2
      rw [h2] at hr
      simp only [Except.ok.injEq, Prod.mk.injEq] at hr
      obtain ⟨_, rfl⟩ := hr
      obtain ⟨_, _, _, _, _, _, ra, hra, _, a2, a3⟩ := planSimple_ok h _ _ _ _ a h1
      obtain ⟨_, _, _, _, _, _, rb, hrb, b1, b2, _⟩ := planSimple_ok h _ _ _ _ b h2
      have ta := getConvSimple_types h a _ _ _ _ _ 0 ra hra
      have oa := getConvSimple_in_only h a _ _ _ _ _ 0 hao ra hra
      have hg' : (h.goType b p1.types).1 ≠ "string" := by
        rw [a3, ta]; exact hg
      obtain ⟨e1, e2⟩ := (getConvSimple_out_only h b _ _ _ _ _ 0 hbi hbo rb hrb).1 hg'
      refine ⟨?_, ?_⟩
      · rw [b2, e2, a2, oa]
      · rw [b1, e1]
        simp

/-- The conversions of a procedure with an IN scalar followed by an OUT scalar
whose host type is not `string`: no output conversion, and the result bound by
reference. -/
theorem prepareCall_in_out_conversions (h : structs.Helpers) (vn vn' : structs.VarNames)
    (f : structs.Function) (a b : structs.Argument) (r : structs.Prepared)
    (hargs : f.Args = [a, b]) (hret : f.Returns = none)
    (ha : a.fields.Flavor = structs.FLAVOR_SIMPLE) (hb : b.fields.Flavor = structs.FLAVOR_SIMPLE)
    (hao : a.IsOutput = false) (hbo : b.IsOutput = true) (hbi : b.IsInput = false)
    (hg : (h.goType b (h.goType a f.types).2).1 ≠ "string")
    (hr : structs.prepareCall h vn f = .ok (r, vn')) :
    r.convOut = [] ∧
    ("v = &output." ++ h.capitalize (h.goName b.fields.Name)) ∈ r.convIn := by
  simp only [structs.prepareCall, hret, hargs] at hr
  split at hr
  · cases hr
  · rename_i vns p hf
    simp only [Except.ok.injEq, Prod.mk.injEq] at hr
    obtain ⟨rfl, _⟩ := hr
    exact forRange_in_out_conversions h _ vn vns _ p a b ha hb hao hbo hbi hg hf

end ScalarFacts

/-- C14, refuted as stated: whatever the functions missing from src/structs
are, the plan of the procedure `SET_NAME(P_NAME IN VARCHAR2, P_RESULT OUT
NUMBER)` has declarations and no post-call statement, and with the stand-in
functions its block starts with a DECLARE section. -/
theorem prepareCall_scalars_declare_section :
    (¬ ∃ (h : structs.Helpers) (r : structs.Prepared),
      structs.prepared h [] (structs.procedure "SET_NAME"
        [(structs.NewArgument "P_NAME" "VARCHAR2" "VARCHAR2" "" "IN" 0 "CHAR_CS" 0 0
            80).setGoTypeName "string",
         (structs.NewArgument "P_RESULT" "NUMBER" "NUMBER" "" "OUT" 0 "" 9 0 0).setGoTypeName
            "float64"]) = .ok r ∧
      (r.decls = [] ∨ r.post ≠ [])) ∧
    (structs.PlsqlBlock structs.Helpers.plain [] (structs.procedure "SET_NAME"
        [(structs.NewArgument "P_NAME" "VARCHAR2" "VARCHAR2" "" "IN" 0 "CHAR_CS" 0 0
            80).setGoTypeName "string",
         (structs.NewArgument "P_RESULT" "NUMBER" "NUMBER" "" "OUT" 0 "" 9 0 0).setGoTypeName
            "float64"])).map Prod.fst
      = .ok ("DECLARE\n  i1 PLS_INTEGER;\n  i2 PLS_INTEGER;\n\nBEGIN\n\n"
          ++ "  set_name(p_name=>:p_name,\n\t\tp_result=>:p_result);\n\n\nEND;\n") := by
  refine ⟨?_, rfl⟩
  rintro ⟨h, r, hr, hc⟩
  simp only [structs.prepared] at hr
  split at hr
  · rename_i r0 vn' hp
    cases hr
    have hs : ∀ a ∈ (structs.procedure "SET_NAME"
        [(structs.NewArgument "P_NAME" "VARCHAR2" "VARCHAR2" "" "IN" 0 "CHAR_CS" 0 0
            80).setGoTypeName "string",
         (structs.NewArgument "P_RESULT" "NUMBER" "NUMBER" "" "OUT" 0 "" 9 0 0).setGoTypeName
            "float64"]).args, a.fields.Flavor = structs.FLAVOR_SIMPLE := by
      intro a ha
      simp only [structs.procedure, structs.Function.args, List.mem_cons, List.mem_singleton,
        List.mem_nil_iff, or_false] at ha
      rcases ha with rfl | rfl <;> rfl
    obtain ⟨hd, _, hq, _⟩ := prepareCall_scalars h [] vn' _ r hs hp
    rcases hc with hc | hc
    · rw [hd] at hc; cases hc
    · exact hc hq
  · cases hr

/-- C14, amended: for every procedure (no Returns) with exactly one IN Scalar
parameter and one OUT Scalar parameter that `prepareCall` plans, the
declarations are exactly the two counters `i1` and `i2`, so the block has a
DECLARE section with these two lines; there is no pre-call statement, exactly
one call statement, which passes the two bind slots, and no post-call
statement: the result is bound by reference in the input conversions
(`v = &output.<Name>` when its host type is not `string`) and the output
conversions are empty. -/
theorem prepareCall_in_out_scalars (h : structs.Helpers) (vn vn' : structs.VarNames)
    (f : structs.Function) (a b : structs.Argument) (r : structs.Prepared)
    (hargs : f.Args = [a, b]) (hret : f.Returns = none)
    (ha : a.fields.Flavor = structs.FLAVOR_SIMPLE) (hb : b.fields.Flavor = structs.FLAVOR_SIMPLE)
    (hr : structs.prepareCall h vn f = .ok (r, vn')) :
    r.decls = ["i1 PLS_INTEGER;", "i2 PLS_INTEGER;"] ∧ r.pre = [] ∧ r.post = [] ∧
    r.call = f.Name h ++ "(" ++ a.fields.Name ++ "=>:" ++ a.fields.Name ++ ",\n\t\t"
      ++ b.fields.Name ++ "=>:" ++ b.fields.Name ++ ")" ∧
    structs.PlsqlBlock h vn f
      = .ok ("DECLARE\n  i1 PLS_INTEGER;\n  i2 PLS_INTEGER;\n\nBEGIN\n\n  " ++ r.call
          ++ ";\n\n\nEND;\n", vn') ∧
    (a.IsOutput = false → b.IsOutput = true → b.IsInput = false →
      (h.goType b (h.goType a f.types).2).1 ≠ "string" →
      r.convOut = [] ∧
      ("v = &output." ++ h.capitalize (h.goName b.fields.Name)) ∈ r.convIn) := by
  have hs : ∀ x ∈ f.args, x.fields.Flavor = structs.FLAVOR_SIMPLE := by
    intro x hx
    simp only [structs.Function.args, hret, hargs, List.mem_cons, List.mem_singleton,
      List.mem_nil_iff, or_false] at hx
    rcases hx with rfl | rfl
    · exact ha
    · exact hb
  obtain ⟨hd, hp, hq, hc, _⟩ := prepareCall_scalars h vn vn' f r hs hr
  have he := prepareCall_err_none h vn f r vn' hr
  refine ⟨hd, hp, hq, ?_, ?_, fun hao hbo hbi hg =>
    prepareCall_in_out_conversions h vn vn' f a b r hargs hret ha hb hao hbo hbi hg hr⟩
  · rw [hc, hret, hargs]
    simp only [Option.isSome_none, Bool.false_eq_true, if_false, structs.writeCallArgs,
      Go.mapGet, Nat.lt_irrefl, gt_iff_lt, Nat.zero_add, Nat.lt_one_iff, Nat.pos_of_ne_zero,
      Nat.one_pos, if_true, String.append_assoc, String.append_empty, String.empty_append]
    rfl
  · simp only [structs.PlsqlBlock, hr, he, plsqlText_counters_only r hd hp hq]

/-- C14, the amended claim at a concrete input: the procedure
`SET_NAME(P_NAME IN VARCHAR2, P_RESULT OUT NUMBER)`. -/
theorem prepareCall_in_out_scalars_witness :
    structs.PlsqlBlock structs.Helpers.plain [] (structs.procedure "SET_NAME"
        [(structs.NewArgument "P_NAME" "VARCHAR2" "VARCHAR2" "" "IN" 0 "CHAR_CS" 0 0
            80).setGoTypeName "string",
         (structs.NewArgument "P_RESULT" "NUMBER" "NUMBER" "" "OUT" 0 "" 9 0 0).setGoTypeName
            "float64"])
      = .ok ("DECLARE\n  i1 PLS_INTEGER;\n  i2 PLS_INTEGER;\n\nBEGIN\n\n  "
          ++ "set_name(p_name=>:p_name,\n\t\tp_result=>:p_result)" ++ ";\n\n\nEND;\n", []) :=
  (prepareCall_in_out_scalars structs.Helpers.plain [] [] (structs.procedure "SET_NAME"
        [(structs.NewArgument "P_NAME" "VARCHAR2" "VARCHAR2" "" "IN" 0 "CHAR_CS" 0 0
            80).setGoTypeName "string",
         (structs.NewArgument "P_RESULT" "NUMBER" "NUMBER" "" "OUT" 0 "" 9 0 0).setGoTypeName
            "float64"])
      ((structs.NewArgument "P_NAME" "VARCHAR2" "VARCHAR2" "" "IN" 0 "CHAR_CS" 0 0
            80).setGoTypeName "string")
      ((structs.NewArgument "P_RESULT" "NUMBER" "NUMBER" "" "OUT" 0 "" 9 0 0).setGoTypeName
            "float64")
      { decls := ["i1 PLS_INTEGER;", "i2 PLS_INTEGER;"], pre := [],
        call := "set_name(p_name=>:p_name,\n\t\tp_result=>:p_result)", post := [],
        convIn := ["var v driver.Value\nvar x interface\x7b\x7d\n _, _ = v, x",
          "v = input.p_name", "params[\"p_name\"] = v\n", "v = &output.p_result",
          "params[\"p_result\"] = v\n"],
        convOut := [], err := none }
      rfl rfl rfl rfl rfl).2.2.2.2.1


/-! # What the steps of the planner leave -/

section KeepsFacts

/-- Keeping is reflexive. -/
theorem keeps_refl (vn : structs.VarNames) : structs.Keeps vn vn := fun _ _ _ h => h

/-- Keeping is transitive. -/
theorem keeps_trans (a b c : structs.VarNames) (h1 : structs.Keeps a b) (h2 : structs.Keeps b c) :
    structs.Keeps a c := fun f k y h => h2 f k y (h1 f k y h)

/-- A request keeps what is recorded and records the name it returns. -/
theorem getVarName_keeps (vn : structs.VarNames) (f v : String) :
    structs.Keeps vn (structs.getVarName vn f v "x").2 ∧
    structs.recorded (structs.getVarName vn f v "x").2 f v
      = some (structs.getVarName vn f v "x").1 := by
  have h := getVarNameFuel_records _ vn f v "x" (structs.getVarName vn f v "x").1
    (structs.getVarName vn f v "x").2 (getVarName_eq vn f v "x")
  exact ⟨h.2, h.1⟩

/-- A request for a recorded path returns the recorded name and the state. -/
theorem getVarName_hit (vn : structs.VarNames) (f v x : String)
    (h : structs.recorded vn f v = some x) : structs.getVarName vn f v "x" = (x, vn) := by
  have h1 := getVarNameFuel_hit v.length vn f v "x" x h
  have h2 := getVarName_eq vn f v "x"
  rw [h1] at h2
  exact (Option.some.inj h2).symm

/-- The name a request returned is the one a later state has in its slot. -/
theorem slotOf_of_keeps (vn vn' : structs.VarNames) (f v : String)
    (hk : structs.Keeps (structs.getVarName vn f v "x").2 vn') :
    structs.slotOf vn' f v = (structs.getVarName vn f v "x").1 := by
  have := hk f v _ (getVarName_keeps vn f v).2
  simp only [structs.slotOf, this, Option.getD_some]

end KeepsFacts

section StepEffects

/-- What one turn of the loop over the fields of a Record leaves. -/
theorem recordField_ok (h : structs.Helpers) (f : String) (arg : structs.Argument)
    (vn aname : String) (vns vns' : structs.VarNames) (p p' : structs.Plan)
    (kv : String × structs.Argument)
    (hr : structs.recordField h f arg vn aname (vns, p) kv = .ok (vns', p')) :
    vns' = (structs.getVarName vns f (vn ++ "." ++ kv.1) "x").2 ∧
    p'.decls = p.decls ∧ p'.tableTypes = p.tableTypes ∧ p'.callArgs = p.callArgs ∧
    p'.pre = p.pre ++ (if arg.IsInput = true then
      [vn ++ "." ++ kv.1 ++ " := :" ++ (structs.getVarName vns f (vn ++ "." ++ kv.1) "x").1
        ++ ";"] else []) ∧
    p'.post = p.post ++ (if arg.IsOutput = true then
      [":" ++ (structs.getVarName vns f (vn ++ "." ++ kv.1) "x").1 ++ " := " ++ vn ++ "."
        ++ kv.1 ++ ";"] else []) := by
  obtain ⟨k, v⟩ := kv
  simp only [structs.recordField, structs.getParamName] at hr
  split at hr
  · cases hr
  · simp only [Except.ok.injEq, Prod.mk.injEq] at hr
    obtain ⟨rfl, rfl⟩ := hr
    refine ⟨rfl, ?_, ?_, ?_, ?_, ?_⟩ <;> split_ifs <;> simp

/-- What the loop over the fields of a Record leaves: one pre-call assignment
per visited field for an input, one post-call write-back per visited field for
an output, written with the slot recorded for the field. -/
theorem forRange_recordField (h : structs.Helpers) (f : String) (arg : structs.Argument)
    (vn aname : String) :
    ∀ (l : List (String × structs.Argument)) (vns vns' : structs.VarNames)
      (p p' : structs.Plan),
      structs.forRange (structs.recordField h f arg vn aname) l (vns, p) = .ok (vns', p') →
      structs.Keeps vns vns' ∧
      p'.decls = p.decls ∧ p'.tableTypes = p.tableTypes ∧ p'.callArgs = p.callArgs ∧
      p'.pre = p.pre ++ (if arg.IsInput = true then
        l.map (fun kv => vn ++ "." ++ kv.1 ++ " := :"
          ++ structs.slotOf vns' f (vn ++ "." ++ kv.1) ++ ";") else []) ∧
      p'.post = p.post ++ (if arg.IsOutput = true then
        l.map (fun kv => ":" ++ structs.slotOf vns' f (vn ++ "." ++ kv.1) ++ " := " ++ vn
          ++ "." ++ kv.1 ++ ";") else []) := by
  intro l
  induction l with
  | nil =>
    intro vns vns' p p' hr
    simp only [structs.forRange, Except.ok.injEq, Prod.mk.injEq] at hr
    obtain ⟨rfl, rfl⟩ := hr
    refine ⟨keeps_refl _, rfl, rfl, rfl, ?_, ?_⟩ <;> split_ifs <;> simp
  | cons kv l ih =>
    intro vns vns' p p' hr
    simp only [structs.forRange] at hr
    cases h1 : structs.recordField h f arg vn aname (vns, p) kv with
    | error e => rw [h1] at hr; cases hr
    | ok st1 =>
      obtain ⟨vns1, p1⟩ := st1
      rw [h1] at hr
      obtain ⟨e0, e1, e2, e3, e4, e5⟩ := recordField_ok h f arg vn aname vns vns1 p p1 kv h1
      obtain ⟨g0, g1, g2, g3, g4, g5⟩ := ih vns1 vns' p1 p' hr
      have hs : structs.slotOf vns' f (vn ++ "." ++ kv.1)
          = (structs.getVarName vns f (vn ++ "." ++ kv.1) "x").1 :=
        slotOf_of_keeps vns vns' f _ (by rw [← e0]; exact g0)
      refine ⟨?_, g1.trans e1, g2.trans e2, g3.trans e3, ?_, ?_⟩
      · exact keeps_trans _ _ _ (by rw [e0]; exact (getVarName_keeps vns f _).1) g0
      · rw [g4, e4, ← hs]
        split_ifs <;> simp
      · rw [g5, e5, ← hs]
        split_ifs <;> simp

/-- What the Record case of the planner leaves: the declaration of the local
variable, its entry among the actual parameters, and the field assignments of
`forRange_recordField`. -/
theorem planRecord_ok (h : structs.Helpers) (f : String) (arg : structs.Argument)
    (vns vns' : structs.VarNames) (p p' : structs.Plan)
    (hr : structs.planRecord h f (vns, p) arg = .ok (vns', p')) :
    structs.Keeps vns vns' ∧
    structs.recorded vns' f arg.fields.Name = some (structs.slotOf vns' f arg.fields.Name) ∧
    structs.slotOf vns' f arg.fields.Name = (structs.getVarName vns f arg.fields.Name "x").1 ∧
    p'.decls = p.decls
      ++ [structs.slotOf vns' f arg.fields.Name ++ " " ++ arg.fields.TypeName ++ ";"] ∧
    p'.tableTypes = p.tableTypes ∧
    p'.callArgs = Go.mapSet p.callArgs arg.fields.Name (structs.slotOf vns' f arg.fields.Name) ∧
    p'.pre = p.pre ++ (if arg.IsInput = true then
      (h.rangeOf 0 (arg.fields.RecordOf.getD [])).map (fun kv =>
        structs.slotOf vns' f arg.fields.Name ++ "." ++ kv.1 ++ " := :"
          ++ structs.slotOf vns' f (structs.slotOf vns' f arg.fields.Name ++ "." ++ kv.1)
          ++ ";") else []) ∧
    p'.post = p.post ++ (if arg.IsOutput = true then
      (h.rangeOf 0 (arg.fields.RecordOf.getD [])).map (fun kv =>
        ":" ++ structs.slotOf vns' f (structs.slotOf vns' f arg.fields.Name ++ "." ++ kv.1)
          ++ " := " ++ structs.slotOf vns' f arg.fields.Name ++ "." ++ kv.1 ++ ";") else []) := by
  simp only [structs.planRecord, structs.getInnerVarName] at hr
  split at hr
  · cases hr
  · rename_i p1 hw
    obtain ⟨g0, g1, g2, g3, g4, g5⟩ := forRange_recordField h f arg _ _ _ _ _ _ _ hr
    have hs := slotOf_of_keeps vns vns' f arg.fields.Name g0
    have hk := (getVarName_keeps vns f arg.fields.Name)
    have hrec := g0 f _ _ hk.2
    have hp1 : p1.decls = p.decls ++ [(structs.getVarName vns f arg.fields.Name "x").1 ++ " "
          ++ arg.fields.TypeName ++ ";"] ∧ p1.tableTypes = p.tableTypes ∧
        p1.callArgs = Go.mapSet p.callArgs arg.fields.Name
          (structs.getVarName vns f arg.fields.Name "x").1 ∧
        p1.pre = p.pre ∧ p1.post = p.post := by
      split_ifs at hw
      · cases hw; exact ⟨rfl, rfl, rfl, rfl, rfl⟩
      · cases hw; exact ⟨rfl, rfl, rfl, rfl, rfl⟩
    obtain ⟨q1, q2, q3, q4, q5⟩ := hp1
    rw [hs]
    exact ⟨keeps_trans _ _ _ hk.1 g0, hrec, rfl, g1.trans q1, g2.trans q2, g3.trans q3,
      by rw [g4, q4], by rw [g5, q5]⟩

end StepEffects

section WellNamedFacts

/-- The first character of a concatenation whose first part starts with `c`. -/
theorem head_append (a b : String) (c : Char) (h : a.data.head? = some c) :
    (a ++ b).data.head? = some c := by
  obtain ⟨l⟩ := a
  cases l with
  | nil => cases h
  | cons d l =>
    show ((d :: l) ++ b.data).head? = some c
    simpa using h

/-- The name that `record` stores under the prefix `x` starts with `x` when the
candidate is empty or starts with `x`. -/
theorem record_head (vn : structs.VarNames) (f v : String) (n : Nat) (x0 : String)
    (h0 : x0 = "" ∨ x0.data.head? = some 'x') :
    (structs.getVarName.record vn f v "x" n x0).1.data.head? = some 'x' := by
  simp only [structs.getVarName.record]
  split_ifs with hc
  · exact head_append "x" _ 'x' rfl
  · rcases h0 with h0 | h0
    · exact absurd (Or.inl h0) hc
    · exact h0

/-- Requests with the prefix `x` keep every recorded name starting with `x`, and
return such a name. -/
theorem getVarNameFuel_wellNamed (fuel : Nat) : ∀ (vn : structs.VarNames) (f v x : String)
    (vn' : structs.VarNames), structs.WellNamed vn →
    structs.getVarNameFuel fuel vn f v "x" = some (x, vn') →
    x.data.head? = some 'x' ∧ structs.WellNamed vn' := by
  induction fuel with
  | zero => intro vn f v x vn' _ h; cases h
  | succ fuel ih =>
    intro vn f v x vn' hs h
    simp only [structs.getVarNameFuel, mapGet_getD_eq, recorded_openMap] at h
    cases hm : structs.recorded vn f v with
    | some x1 =>
      simp only [hm, Option.some.injEq, Prod.mk.injEq] at h
      obtain ⟨rfl, rfl⟩ := h
      exact ⟨hs f v x1 hm, fun f' k y hy => hs f' k y (by rw [recorded_openMap] at hy; exact hy)⟩
    | none =>
      simp only [hm] at h
      have key : ∀ (vn2 : structs.VarNames) (x0 : String),
          structs.WellNamed vn2 → (x0 = "" ∨ x0.data.head? = some 'x') →
          (x, vn') = structs.getVarName.record vn2 f v "x"
            (Go.mapLen ((Go.mapGet (structs.getVarName.openMap vn f) f).getD [])) x0 →
          x.data.head? = some 'x' ∧ structs.WellNamed vn' := by
        intro vn2 x0 hs2 h0 he
        have hx : x = (structs.getVarName.record vn2 f v "x"
            (Go.mapLen ((Go.mapGet (structs.getVarName.openMap vn f) f).getD [])) x0).1 := by
          rw [← he]
        have hv : vn' = (structs.getVarName.record vn2 f v "x"
            (Go.mapLen ((Go.mapGet (structs.getVarName.openMap vn f) f).getD [])) x0).2 := by
          rw [← he]
        have hhead : x.data.head? = some 'x' := by rw [hx]; exact record_head _ _ _ _ _ h0
        refine ⟨hhead, ?_⟩
        intro f' k y hy
        rw [hv, recorded_record] at hy
        by_cases hc : f' = f ∧ k = v
        · rw [if_pos hc, ← hx] at hy
          cases hy
          exact hhead
        · rw [if_neg hc] at hy
          exact hs2 f' k y hy
      have hs1 : structs.WellNamed (structs.getVarName.openMap vn f) :=
        fun f' k y hy => hs f' k y (by rw [recorded_openMap] at hy; exact hy)
      cases hd : structs.getVarName.dotSplit v with
      | none =>
        simp only [hd, Option.some.injEq] at h
        exact key _ _ hs1 (Or.inl rfl) h.symm
      | some ps =>
        obtain ⟨pre, suf⟩ := ps
        simp only [hd] at h
        cases hr : structs.getVarNameFuel fuel (structs.getVarName.openMap vn f) f pre "x" with
        | none => simp only [hr] at h; cases h
        | some r =>
          obtain ⟨y, vn2⟩ := r
          simp only [hr, Option.some.injEq] at h
          obtain ⟨hy, hw⟩ := ih _ _ _ _ _ hs1 hr
          refine key _ _ hw (Or.inr ?_) h.symm
          rw [String.append_assoc]
          exact head_append y _ 'x' hy

/-- A request keeps the names well formed and returns a name starting with `x`. -/
theorem getVarName_wellNamed (vn : structs.VarNames) (f v : String) (hs : structs.WellNamed vn) :
    (structs.getVarName vn f v "x").1.data.head? = some 'x' ∧
    structs.WellNamed (structs.getVarName vn f v "x").2 :=
  getVarNameFuel_wellNamed _ vn f v (structs.getVarName vn f v "x").1
    (structs.getVarName vn f v "x").2 hs (getVarName_eq vn f v "x")

/-- The fresh state is well named. -/
theorem wellNamed_nil : structs.WellNamed [] := fun _ _ _ h => by cases h

end WellNamedFacts

section TableEffects

/-- What the closure `getTableType` does: a signature that has its type returns
it and changes nothing; a new one gets the name `tableTypeName`, one `TYPE`
declaration and its entry in `tableTypes`. -/
theorem getTableType_effect (p : structs.Plan) (a : String) :
    (structs.getTableType p a).1 = (Go.mapGet p.tableTypes a).getD (structs.tableTypeName a) ∧
    (structs.getTableType p a).2.decls
      = p.decls ++ (if Go.mapGet p.tableTypes a = none then [structs.typeLine a] else []) ∧
    (structs.getTableType p a).2.tableTypes
      = (if Go.mapGet p.tableTypes a = none then
          Go.mapSet p.tableTypes a (structs.tableTypeName a) else p.tableTypes) ∧
    (structs.getTableType p a).2.pre = p.pre ∧ (structs.getTableType p a).2.post = p.post ∧
    (structs.getTableType p a).2.callArgs = p.callArgs ∧
    (structs.getTableType p a).2.convIn = p.convIn ∧
    (structs.getTableType p a).2.convOut = p.convOut ∧
    (structs.getTableType p a).2.types = p.types := by
  unfold structs.getTableType
  cases hm : Go.mapGet p.tableTypes a with
  | some t => simp
  | none =>
    simp only [Option.getD_none, if_true, structs.typeLine, structs.tableTypeName, and_self,
      and_true, true_and]

/-- What the Table-of-Scalar case of the planner leaves. -/
theorem planTableSimple_ok (h : structs.Helpers) (f : String) (arg elem : structs.Argument)
    (vns vns' : structs.VarNames) (p p' : structs.Plan)
    (hr : structs.planTableSimple h f (vns, p) arg elem = .ok (vns', p')) :
    vns' = (structs.getVarName vns f arg.fields.Name "x").2 ∧
    p'.decls = (structs.getTableType p elem.fields.AbsType).2.decls
      ++ [arg.fields.Name ++ " " ++ (structs.getTableType p elem.fields.AbsType).1
            ++ (if arg.IsInput = true then " := :" ++ arg.fields.Name else "") ++ ";",
          (structs.getVarName vns f arg.fields.Name "x").1 ++ " " ++ arg.fields.TypeName
            ++ ";"] ∧
    p'.tableTypes = (structs.getTableType p elem.fields.AbsType).2.tableTypes ∧
    p'.callArgs = Go.mapSet p.callArgs arg.fields.Name
      (structs.getVarName vns f arg.fields.Name "x").1 ∧
    p'.pre = p.pre ++ (if arg.IsInput = true then
      [(structs.getVarName vns f arg.fields.Name "x").1 ++ ".DELETE;",
       "i1 := " ++ arg.fields.Name ++ ".FIRST;",
       "WHILE i1 IS NOT NULL LOOP",
       "  " ++ (structs.getVarName vns f arg.fields.Name "x").1 ++ "(i1) := "
          ++ arg.fields.Name ++ "(i1);",
       "  i1 := " ++ arg.fields.Name ++ ".NEXT(i1);",
       "END LOOP;"] else []) ∧
    p'.post = p.post ++ (if arg.IsOutput = true then
      [arg.fields.Name ++ ".DELETE;",
       "i1 := " ++ (structs.getVarName vns f arg.fields.Name "x").1 ++ ".FIRST;",
       "WHILE i1 IS NOT NULL LOOP",
       "  " ++ arg.fields.Name ++ "(i1) := " ++ (structs.getVarName vns f arg.fields.Name "x").1
          ++ "(i1);",
       "  i1 := " ++ (structs.getVarName vns f arg.fields.Name "x").1 ++ ".NEXT(i1);",
       "END LOOP;",
       ":" ++ arg.fields.Name ++ " := " ++ arg.fields.Name ++ ";"] else []) := by
  obtain ⟨t1, t2, t3, t4, t5, t6, _⟩ := getTableType_effect p elem.fields.AbsType
  simp only [structs.planTableSimple, structs.getInnerVarName] at hr
  split at hr
  · cases hr
  · simp only [Except.ok.injEq, Prod.mk.injEq] at hr
    obtain ⟨rfl, rfl⟩ := hr
    refine ⟨rfl, ?_, ?_, ?_, ?_, ?_⟩ <;> split_ifs <;> simp [t4, t5, t6]

/-- What one turn of the declaration loop of a Table-of-Record leaves: the type
of the field, the declaration of its shadow collection, and the pre-call
statement that loads or clears it. -/
theorem tableRecordDecl_ok (f : String) (arg : structs.Argument) (vn : String)
    (vns vns' : structs.VarNames) (p p' : structs.Plan) (kv : String × structs.Argument)
    (hr : structs.tableRecordDecl f arg vn (vns, p) kv = .ok (vns', p')) :
    vns' = (structs.getVarName vns f (vn ++ "." ++ kv.1) "x").2 ∧
    p'.decls = (structs.getTableType p kv.2.fields.AbsType).2.decls
      ++ [(structs.getVarName vns f (vn ++ "." ++ kv.1) "x").1 ++ " "
            ++ (structs.getTableType p kv.2.fields.AbsType).1 ++ ";"] ∧
    p'.tableTypes = (structs.getTableType p kv.2.fields.AbsType).2.tableTypes ∧
    p'.callArgs = p.callArgs ∧
    p'.pre = p.pre ++ [if arg.IsInput = true then
      (structs.getVarName vns f (vn ++ "." ++ kv.1) "x").1 ++ " := :"
        ++ (structs.getVarName vns f (vn ++ "." ++ kv.1) "x").1 ++ ";"
      else (structs.getVarName vns f (vn ++ "." ++ kv.1) "x").1 ++ ".DELETE;"] ∧
    p'.post = p.post := by
  obtain ⟨k, v⟩ := kv
  obtain ⟨t1, t2, t3, t4, t5, t6, _⟩ := getTableType_effect p v.fields.AbsType
  have hh := getVarName_hit (structs.getVarName vns f (vn ++ "." ++ k) "x").2 f (vn ++ "." ++ k)
    _ (getVarName_keeps vns f (vn ++ "." ++ k)).2
  simp only [structs.tableRecordDecl, structs.getParamName, hh, Except.ok.injEq,
    Prod.mk.injEq] at hr
  obtain ⟨rfl, rfl⟩ := hr
  refine ⟨rfl, ?_, ?_, ?_, ?_, ?_⟩ <;> split_ifs <;> simp [t4, t5, t6]

/-- What the declaration loop of a Table-of-Record leaves outside the
declarations: one pre-call statement per visited field, which loads the shadow
collection of an input and clears that of an argument that is no input. -/
theorem forRange_tableRecordDecl (f : String) (arg : structs.Argument) (vn : String) :
    ∀ (l : List (String × structs.Argument)) (vns vns' : structs.VarNames)
      (p p' : structs.Plan),
      structs.forRange (structs.tableRecordDecl f arg vn) l (vns, p) = .ok (vns', p') →
      structs.Keeps vns vns' ∧ p'.callArgs = p.callArgs ∧ p'.post = p.post ∧
      p'.pre = p.pre ++ l.map (fun kv => if arg.IsInput = true then
        structs.slotOf vns' f (vn ++ "." ++ kv.1) ++ " := :"
          ++ structs.slotOf vns' f (vn ++ "." ++ kv.1) ++ ";"
        else structs.slotOf vns' f (vn ++ "." ++ kv.1) ++ ".DELETE;") := by
  intro l
  induction l with
  | nil =>
    intro vns vns' p p' hr
    simp only [structs.forRange, Except.ok.injEq, Prod.mk.injEq] at hr
    obtain ⟨rfl, rfl⟩ := hr
    exact ⟨keeps_refl _, rfl, rfl, by simp⟩
  | cons kv l ih =>
    intro vns vns' p p' hr
    simp only [structs.forRange] at hr
    cases h1 : structs.tableRecordDecl f arg vn (vns, p) kv with
    | error e => rw [h1] at hr; cases hr
    | ok st1 =>
      obtain ⟨vns1, p1⟩ := st1
      rw [h1] at hr
      obtain ⟨e0, _, _, e3, e4, e5⟩ := tableRecordDecl_ok f arg vn vns vns1 p p1 kv h1
      obtain ⟨g0, g3, g5, g4⟩ := ih vns1 vns' p1 p' hr
      have hs : structs.slotOf vns' f (vn ++ "." ++ kv.1)
          = (structs.getVarName vns f (vn ++ "." ++ kv.1) "x").1 :=
        slotOf_of_keeps vns vns' f _ (by rw [← e0]; exact g0)
      refine ⟨?_, g3.trans e3, g5.trans e5, ?_⟩
      · exact keeps_trans _ _ _ (by rw [e0]; exact (getVarName_keeps vns f _).1) g0
      · rw [g4, e4, ← hs]
        simp

end TableEffects

section ContinuesFacts

/-- A relation that every turn of a loop establishes between the state before
and the state after, and that is reflexive and transitive, holds between the
state before the loop and the state after it. -/
theorem forRange_rel {α σ : Type} (R : σ → σ → Prop) (hrefl : ∀ s, R s s)
    (htrans : ∀ a b c, R a b → R b c → R a c) (body : σ → α → Except Go.Fault σ) :
    ∀ (l : List α), (∀ s a s', a ∈ l → body s a = .ok s' → R s s') →
      ∀ s s', structs.forRange body l s = .ok s' → R s s' := by
  intro l
  induction l with
  | nil =>
    intro _ s s' hr
    simp only [structs.forRange, Except.ok.injEq] at hr
    subst hr
    exact hrefl s
  | cons a l ih =>
    intro hb s s' hr
    simp only [structs.forRange] at hr
    cases h1 : body s a with
    | error e => rw [h1] at hr; cases hr
    | ok s1 =>
      rw [h1] at hr
      exact htrans _ _ _ (hb s a s1 (List.mem_cons_self a l) h1)
        (ih (fun s a' s' ha hs => hb s a' s' (List.mem_cons_of_mem a ha) hs) s1 s' hr)

/-- A loop that returns has returned from the turns before any of its elements
and from the turn of that element. -/
theorem forRange_split {α σ : Type} (body : σ → α → Except Go.Fault σ) (a : α) :
    ∀ (l1 l2 : List α) (s s' : σ), structs.forRange body (l1 ++ a :: l2) s = .ok s' →
      ∃ s1 s2, structs.forRange body l1 s = .ok s1 ∧ body s1 a = .ok s2 ∧
        structs.forRange body l2 s2 = .ok s' := by
  intro l1
  induction l1 with
  | nil =>
    intro l2 s s' hr
    simp only [List.nil_append, structs.forRange] at hr
    cases h1 : body s a with
    | error e => rw [h1] at hr; cases hr
    | ok s2 =>
      rw [h1] at hr
      exact ⟨s, s2, rfl, h1, hr⟩
  | cons b l1 ih =>
    intro l2 s s' hr
    simp only [List.cons_append, structs.forRange] at hr
    cases h1 : body s b with
    | error e => rw [h1] at hr; cases hr
    | ok s0 =>
      rw [h1] at hr
      obtain ⟨s1, s2, g1, g2, g3⟩ := ih l2 s0 s' hr
      refine ⟨s1, s2, ?_, g2, g3⟩
      simp only [structs.forRange, h1]
      exact g1

/-- A plan continues itself. -/
theorem extends_refl (p : structs.Plan) : p.Extends p :=
  ⟨List.prefix_rfl, List.prefix_rfl, List.prefix_rfl⟩

/-- Continuation of plans is transitive. -/
theorem extends_trans (p q r : structs.Plan) (h1 : p.Extends q) (h2 : q.Extends r) :
    p.Extends r :=
  ⟨h1.1.trans h2.1, h1.2.1.trans h2.2.1, h1.2.2.trans h2.2.2⟩

/-- A plan whose three lists are those of `p` with something appended continues `p`. -/
theorem extends_of_append (p q : structs.Plan) (d e o : List String)
    (hd : q.decls = p.decls ++ d) (he : q.pre = p.pre ++ e) (ho : q.post = p.post ++ o) :
    p.Extends q :=
  ⟨hd ▸ List.prefix_append _ _, he ▸ List.prefix_append _ _, ho ▸ List.prefix_append _ _⟩

/-- A state continues itself. -/
theorem continues_refl (st : structs.VarNames × structs.Plan) : structs.Continues st st :=
  ⟨keeps_refl _, fun h => h, extends_refl _⟩

/-- Continuation of states is transitive. -/
theorem continues_trans (a b c : structs.VarNames × structs.Plan)
    (h1 : structs.Continues a b) (h2 : structs.Continues b c) : structs.Continues a c :=
  ⟨keeps_trans _ _ _ h1.1 h2.1, fun h => h2.2.1 (h1.2.1 h), extends_trans _ _ _ h1.2.2 h2.2.2⟩

/-- A request to the allocator, with a plan that continues the plan before,
continues the state. -/
theorem continues_alloc (vns : structs.VarNames) (f v : String) (p q : structs.Plan)
    (he : p.Extends q) :
    structs.Continues (vns, p) ((structs.getVarName vns f v "x").2, q) :=
  ⟨(getVarName_keeps vns f v).1, fun h => (getVarName_wellNamed vns f v h).2, he⟩

/-- The plan that `getTableType` leaves continues the plan before. -/
theorem getTableType_extends (p : structs.Plan) (a : String) :
    p.Extends (structs.getTableType p a).2 := by
  obtain ⟨_, t2, _, t4, t5, _⟩ := getTableType_effect p a
  exact extends_of_append _ _ _ [] [] t2 (by simp [t4]) (by simp [t5])

end ContinuesFacts

section LoopEffects

/-- What one turn of the copy loop of a Table-of-Record leaves: the loop header
when `idxvar` was still empty, and the copy statement of the field. -/
theorem tableRecordLoop_ok (h : structs.Helpers) (f : String) (arg : structs.Argument)
    (vn aname : String) (vns vns' : structs.VarNames) (p p' : structs.Plan)
    (idxvar idxvar' : String) (kv : String × structs.Argument)
    (hr : structs.tableRecordLoop h f arg vn aname (vns, p, idxvar) kv
      = .ok (vns', p', idxvar')) :
    vns' = (structs.getVarName vns f (vn ++ "." ++ kv.1) "x").2 ∧
    idxvar' = (if idxvar = "" then (structs.getVarName vns f (vn ++ "." ++ kv.1) "x").1
      else idxvar) ∧
    p'.decls = (structs.getTableType p kv.2.fields.AbsType).2.decls ∧
    p'.tableTypes = (structs.getTableType p kv.2.fields.AbsType).2.tableTypes ∧
    p'.callArgs = p.callArgs ∧
    p'.pre = p.pre ++ (if arg.IsInput = true then
      (if idxvar = "" then
        ["", "i1 := " ++ (structs.getVarName vns f (vn ++ "." ++ kv.1) "x").1 ++ ".FIRST;",
         "WHILE i1 IS NOT NULL LOOP"] else [])
      ++ ["  " ++ vn ++ "(i1)." ++ kv.1 ++ " := "
            ++ (structs.getVarName vns f (vn ++ "." ++ kv.1) "x").1 ++ "(i1);"] else []) ∧
    p'.post = p.post ++ (if arg.IsOutput = true then
      (if idxvar = "" then
        ["", "i1 := " ++ vn ++ ".FIRST; i2 := 1;", "WHILE i1 IS NOT NULL LOOP"] else [])
      ++ ["  " ++ (structs.getVarName vns f (vn ++ "." ++ kv.1) "x").1 ++ "(i2) := " ++ vn
            ++ "(i1)." ++ kv.1 ++ ";"] else []) := by
  obtain ⟨k, v⟩ := kv
  obtain ⟨t1, t2, t3, t4, t5, t6, _⟩ := getTableType_effect p v.fields.AbsType
  have hh := getVarName_hit (structs.getVarName vns f (vn ++ "." ++ k) "x").2 f (vn ++ "." ++ k)
    _ (getVarName_keeps vns f (vn ++ "." ++ k)).2
  simp only [structs.tableRecordLoop, structs.getParamName, hh] at hr
  by_cases hi : idxvar = ""
  · simp only [hi, if_true] at hr
    split at hr
    · cases hr
    · simp only [Except.ok.injEq, Prod.mk.injEq] at hr
      obtain ⟨rfl, rfl, rfl⟩ := hr
      refine ⟨rfl, by simp [hi], ?_, ?_, ?_, ?_, ?_⟩ <;> split_ifs <;> simp [t4, t5, t6, hi]
  · simp only [hi, if_false] at hr
    split at hr
    · cases hr
    · simp only [Except.ok.injEq, Prod.mk.injEq] at hr
      obtain ⟨rfl, rfl, rfl⟩ := hr
      refine ⟨rfl, by simp [hi], ?_, ?_, ?_, ?_, ?_⟩ <;> split_ifs <;> simp [t4, t5, t6, hi]

/-- What one turn of the write-back loop of an output Table-of-Record leaves. -/
theorem tableRecordOut_ok (f vn : String) (vns vns' : structs.VarNames) (p p' : structs.Plan)
    (kv : String × structs.Argument)
    (hr : structs.tableRecordOut f vn (vns, p) kv = .ok (vns', p')) :
    vns' = (structs.getVarName vns f (vn ++ "." ++ kv.1) "x").2 ∧
    p'.decls = p.decls ∧ p'.tableTypes = p.tableTypes ∧ p'.callArgs = p.callArgs ∧
    p'.pre = p.pre ∧
    p'.post = p.post ++ [":" ++ (structs.getVarName vns f (vn ++ "." ++ kv.1) "x").1 ++ " := "
      ++ (structs.getVarName vns f (vn ++ "." ++ kv.1) "x").1 ++ ";"] := by
  simp only [structs.tableRecordOut, structs.getParamName, Except.ok.injEq, Prod.mk.injEq] at hr
  obtain ⟨rfl, rfl⟩ := hr
  exact ⟨rfl, rfl, rfl, rfl, rfl, rfl⟩

end LoopEffects

section StepContinues

/-- One turn of the loop over the fields of a Record continues the state and
leaves the actual parameters. -/
theorem recordField_continues (h : structs.Helpers) (f : String) (arg : structs.Argument)
    (vn aname : String) (s s' : structs.VarNames × structs.Plan)
    (kv : String × structs.Argument)
    (hr : structs.recordField h f arg vn aname s kv = .ok s') :
    structs.Continues s s' ∧ s'.2.callArgs = s.2.callArgs := by
  obtain ⟨vns, p⟩ := s
  obtain ⟨vns', p'⟩ := s'
  obtain ⟨e0, e1, _, e3, e4, e5⟩ := recordField_ok h f arg vn aname vns vns' p p' kv hr
  subst e0
  exact ⟨continues_alloc _ _ _ _ _ (extends_of_append _ _ [] _ _ (by simp [e1]) e4 e5), e3⟩

/-- One turn of the declaration loop of a Table-of-Record continues the state
and leaves the actual parameters. -/
theorem tableRecordDecl_continues (f : String) (arg : structs.Argument) (vn : String)
    (s s' : structs.VarNames × structs.Plan) (kv : String × structs.Argument)
    (hr : structs.tableRecordDecl f arg vn s kv = .ok s') :
    structs.Continues s s' ∧ s'.2.callArgs = s.2.callArgs := by
  obtain ⟨vns, p⟩ := s
  obtain ⟨vns', p'⟩ := s'
  obtain ⟨e0, e1, _, e3, e4, e5⟩ := tableRecordDecl_ok f arg vn vns vns' p p' kv hr
  subst e0
  refine ⟨continues_alloc _ _ _ _ _ ⟨?_, e4 ▸ List.prefix_append _ _, by simp [e5]⟩, e3⟩
  rw [e1]
  exact (getTableType_extends p kv.2.fields.AbsType).1.trans (List.prefix_append _ _)

/-- One turn of the copy loop of a Table-of-Record continues the state and
leaves the actual parameters. -/
theorem tableRecordLoop_continues (h : structs.Helpers) (f : String) (arg : structs.Argument)
    (vn aname : String) (s s' : structs.VarNames × structs.Plan × String)
    (kv : String × structs.Argument)
    (hr : structs.tableRecordLoop h f arg vn aname s kv = .ok s') :
    structs.Continues (s.1, s.2.1) (s'.1, s'.2.1) ∧ s'.2.1.callArgs = s.2.1.callArgs := by
  obtain ⟨vns, p, i⟩ := s
  obtain ⟨vns', p', i'⟩ := s'
  obtain ⟨e0, _, e1, _, e3, e4, e5⟩ := tableRecordLoop_ok h f arg vn aname vns vns' p p' i i' kv hr
  subst e0
  refine ⟨continues_alloc _ _ _ _ _ ⟨?_, e4 ▸ List.prefix_append _ _,
    e5 ▸ List.prefix_append _ _⟩, e3⟩
  show p.decls <+: p'.decls
  rw [e1]
  exact (getTableType_extends p kv.2.fields.AbsType).1

/-- One turn of the write-back loop of a Table-of-Record continues the state
and leaves the actual parameters. -/
theorem tableRecordOut_continues (f vn : String) (s s' : structs.VarNames × structs.Plan)
    (kv : String × structs.Argument)
    (hr : structs.tableRecordOut f vn s kv = .ok s') :
    structs.Continues s s' ∧ s'.2.callArgs = s.2.callArgs := by
  obtain ⟨vns, p⟩ := s
  obtain ⟨vns', p'⟩ := s'
  obtain ⟨e0, e1, _, e3, e4, e5⟩ := tableRecordOut_ok f vn vns vns' p p' kv hr
  subst e0
  exact ⟨continues_alloc _ _ _ _ _ (extends_of_append _ _ [] [] _ (by simp [e1]) (by simp [e4]) e5),
    e3⟩

/-- A loop whose turns continue the state and leave the actual parameters does
so as a whole. -/
theorem forRange_continues {α : Type}
    (body : structs.VarNames × structs.Plan → α → Except Go.Fault (structs.VarNames × structs.Plan))
    (hb : ∀ s a s', body s a = .ok s' → structs.Continues s s' ∧ s'.2.callArgs = s.2.callArgs)
    (l : List α) (s s' : structs.VarNames × structs.Plan)
    (hr : structs.forRange body l s = .ok s') :
    structs.Continues s s' ∧ s'.2.callArgs = s.2.callArgs :=
  forRange_rel (fun s s' => structs.Continues s s' ∧ s'.2.callArgs = s.2.callArgs)
    (fun s => ⟨continues_refl s, rfl⟩)
    (fun a b c h1 h2 => ⟨continues_trans a b c h1.1 h2.1, h2.2.trans h1.2⟩)
    body l (fun s a s' _ hs => hb s a s' hs) s s' hr

/-- The copy loops of a Table-of-Record continue the state and leave the actual
parameters. -/
theorem forRange_tableRecordLoop_continues (h : structs.Helpers) (f : String)
    (arg : structs.Argument) (vn aname : String) (l : List (String × structs.Argument))
    (s s' : structs.VarNames × structs.Plan × String)
    (hr : structs.forRange (structs.tableRecordLoop h f arg vn aname) l s = .ok s') :
    structs.Continues (s.1, s.2.1) (s'.1, s'.2.1) ∧ s'.2.1.callArgs = s.2.1.callArgs :=
  forRange_rel (fun (s s' : structs.VarNames × structs.Plan × String) =>
      structs.Continues (s.1, s.2.1) (s'.1, s'.2.1) ∧ s'.2.1.callArgs = s.2.1.callArgs)
    (fun _ => ⟨continues_refl _, rfl⟩)
    (fun _ _ _ h1 h2 => ⟨continues_trans _ _ _ h1.1 h2.1, h2.2.trans h1.2⟩)
    _ l (fun s a s' _ hs => tableRecordLoop_continues h f arg vn aname s s' a hs) s s' hr

/-- The end of the case of a Table-of-Record continues the state and leaves the
actual parameters. -/
theorem tableRecordClose_continues (h : structs.Helpers) (f : String) (arg : structs.Argument)
    (vn : String) (recordOf : List (String × structs.Argument))
    (s : structs.VarNames × structs.Plan × String) (s' : structs.VarNames × structs.Plan)
    (hr : structs.tableRecordClose h f arg vn recordOf s = .ok s') :
    structs.Continues (s.1, s.2.1) s' ∧ s'.2.callArgs = s.2.1.callArgs := by
  obtain ⟨vns, p, i⟩ := s
  simp only [structs.tableRecordClose] at hr
  by_cases hi : arg.IsInput = true <;> by_cases ho : arg.IsOutput = true
  · simp only [hi, ho, if_true] at hr
    obtain ⟨g1, g2⟩ := forRange_continues _
      (fun s a s' hs => tableRecordOut_continues f vn s s' a hs) _ _ _ hr
    refine ⟨continues_trans _ _ _ ?_ g1, g2⟩
    exact ⟨keeps_refl _, fun hw => hw, extends_of_append _ _ [] _ _ (by simp) rfl rfl⟩
  · simp only [hi, ho, if_true, Bool.false_eq_true, if_false, Except.ok.injEq] at hr
    subst hr
    exact ⟨⟨keeps_refl _, fun hw => hw, extends_of_append _ _ [] _ [] (by simp) rfl (by simp)⟩,
      rfl⟩
  · simp only [hi, ho, if_true, Bool.false_eq_true, if_false] at hr
    obtain ⟨g1, g2⟩ := forRange_continues _
      (fun s a s' hs => tableRecordOut_continues f vn s s' a hs) _ _ _ hr
    refine ⟨continues_trans _ _ _ ?_ g1, g2⟩
    exact ⟨keeps_refl _, fun hw => hw, extends_of_append _ _ [] [] _ (by simp) (by simp) rfl⟩
  · simp only [hi, ho, Bool.false_eq_true, if_false, Except.ok.injEq] at hr
    subst hr
    exact ⟨continues_refl _, rfl⟩

/-- The copy loops of a Table-of-Record and what follows them continue the state
and leave the actual parameters. -/
theorem tableRecordLoops_continues (h : structs.Helpers) (f : String) (arg : structs.Argument)
    (vn aname : String) (recordOf : List (String × structs.Argument))
    (s s' : structs.VarNames × structs.Plan)
    (hr : structs.tableRecordLoops h f arg vn aname recordOf s = .ok s') :
    structs.Continues s s' ∧ s'.2.callArgs = s.2.callArgs := by
  simp only [structs.tableRecordLoops] at hr
  split at hr
  · cases hr
  · rename_i st1 h1
    obtain ⟨g1, g2⟩ := forRange_tableRecordLoop_continues h f arg vn aname _ _ _ h1
    obtain ⟨g3, g4⟩ := tableRecordClose_continues h f arg vn recordOf st1 s' hr
    exact ⟨continues_trans _ _ _ g1 g3, g4.trans g2⟩

end StepContinues

section ArgContinues

/-- The case of a scalar continues the state and leaves the actual parameters. -/
theorem planSimple_continues (h : structs.Helpers) (s s' : structs.VarNames × structs.Plan)
    (arg : structs.Argument) (hr : structs.planSimple h s arg = .ok s') :
    structs.Continues s s' ∧ s'.2.callArgs = s.2.callArgs := by
  obtain ⟨vns, p⟩ := s
  obtain ⟨vns', p'⟩ := s'
  obtain ⟨e0, e1, e2, e3, e4, _⟩ := planSimple_ok h vns vns' p p' arg hr
  subst e0
  exact ⟨⟨keeps_refl _, fun hw => hw,
    extends_of_append _ _ [] [] [] (by simp [e1]) (by simp [e2]) (by simp [e3])⟩, e4⟩

/-- The case of a Record continues the state, records the local variable under
the name of the argument, declares it and passes it to the call. -/
theorem planRecord_effect (h : structs.Helpers) (f : String) (arg : structs.Argument)
    (s s' : structs.VarNames × structs.Plan)
    (hr : structs.planRecord h f s arg = .ok s') :
    structs.Continues s s' ∧
    structs.recorded s'.1 f arg.fields.Name = some (structs.slotOf s'.1 f arg.fields.Name) ∧
    s'.2.callArgs
      = Go.mapSet s.2.callArgs arg.fields.Name (structs.slotOf s'.1 f arg.fields.Name) ∧
    (structs.slotOf s'.1 f arg.fields.Name ++ " " ++ arg.fields.TypeName ++ ";")
      ∈ s'.2.decls := by
  obtain ⟨vns, p⟩ := s
  obtain ⟨vns', p'⟩ := s'
  obtain ⟨_, e1, _, e3, _, e5, _, _⟩ := planRecord_ok h f arg vns vns' p p' hr
  refine ⟨?_, e1, e5, by simp [e3]⟩
  simp only [structs.planRecord, structs.getInnerVarName] at hr
  split at hr
  · cases hr
  · rename_i p1 hw
    obtain ⟨g1, _⟩ := forRange_continues _
      (fun s a s' hs => recordField_continues h f arg _ _ s s' a hs) _ _ _ hr
    refine continues_trans _ _ _ (continues_alloc vns f arg.fields.Name p p1 ?_) g1
    split_ifs at hw
    all_goals
      simp only [Except.ok.injEq] at hw
      subst hw
      exact extends_of_append _ _ _ [] [] rfl (by simp) (by simp)

/-- The case of a Table of scalars continues the state, records the local
variable under the name of the argument, declares it and passes it to the
call. -/
theorem planTableSimple_effect (h : structs.Helpers) (f : String) (arg elem : structs.Argument)
    (s s' : structs.VarNames × structs.Plan)
    (hr : structs.planTableSimple h f s arg elem = .ok s') :
    structs.Continues s s' ∧
    structs.recorded s'.1 f arg.fields.Name = some (structs.slotOf s'.1 f arg.fields.Name) ∧
    s'.2.callArgs
      = Go.mapSet s.2.callArgs arg.fields.Name (structs.slotOf s'.1 f arg.fields.Name) ∧
    (structs.slotOf s'.1 f arg.fields.Name ++ " " ++ arg.fields.TypeName ++ ";")
      ∈ s'.2.decls := by
  obtain ⟨vns, p⟩ := s
  obtain ⟨vns', p'⟩ := s'
  obtain ⟨e0, e1, _, e3, e4, e5⟩ := planTableSimple_ok h f arg elem vns vns' p p' hr
  subst e0
  have hk := getVarName_keeps vns f arg.fields.Name
  have hs : structs.slotOf (structs.getVarName vns f arg.fields.Name "x").2 f arg.fields.Name
      = (structs.getVarName vns f arg.fields.Name "x").1 := by
    simp only [structs.slotOf, hk.2, Option.getD_some]
  refine ⟨continues_alloc _ _ _ _ _ ⟨?_, e4 ▸ List.prefix_append _ _,
    e5 ▸ List.prefix_append _ _⟩, ?_, ?_, ?_⟩
  · rw [e1]
    exact (getTableType_extends p elem.fields.AbsType).1.trans (List.prefix_append _ _)
  · show structs.recorded _ f arg.fields.Name = some (structs.slotOf _ f arg.fields.Name)
    rw [hs]; exact hk.2
  · show p'.callArgs = Go.mapSet p.callArgs arg.fields.Name (structs.slotOf _ f arg.fields.Name)
    rw [hs]; exact e3
  · show structs.slotOf _ f arg.fields.Name ++ " " ++ arg.fields.TypeName ++ ";" ∈ p'.decls
    rw [hs, e1]; simp

/-- The case of a Table of Records continues the state, records the local
variable under the name of the argument followed by a dot and the name of the
element, declares it and passes it to the call. -/
theorem planTableRecord_effect (h : structs.Helpers) (f : String) (arg elem : structs.Argument)
    (s s' : structs.VarNames × structs.Plan)
    (hr : structs.planTableRecord h f s arg elem = .ok s') :
    structs.Continues s s' ∧
    structs.recorded s'.1 f (arg.fields.Name ++ "." ++ elem.fields.Name)
      = some (structs.slotOf s'.1 f (arg.fields.Name ++ "." ++ elem.fields.Name)) ∧
    s'.2.callArgs = Go.mapSet s.2.callArgs arg.fields.Name
      (structs.slotOf s'.1 f (arg.fields.Name ++ "." ++ elem.fields.Name)) ∧
    (structs.slotOf s'.1 f (arg.fields.Name ++ "." ++ elem.fields.Name) ++ " "
      ++ arg.fields.TypeName ++ ";") ∈ s'.2.decls := by
  obtain ⟨vns, p⟩ := s
  simp only [structs.planTableRecord, structs.getInnerVarName] at hr
  split at hr
  · cases hr
  · rename_i st1 h1
    obtain ⟨g1, g2⟩ := forRange_continues _
      (fun s a s' hs => tableRecordDecl_continues f arg _ s s' a hs) _ _ _ h1
    obtain ⟨g3, g4⟩ := tableRecordLoops_continues h f arg _ _ _ _ _ hr
    have g := continues_trans _ _ _ g1 g3
    have hk := getVarName_keeps vns f (arg.fields.Name ++ "." ++ elem.fields.Name)
    have hrec := g.1 f _ _ hk.2
    have hs : structs.slotOf s'.1 f (arg.fields.Name ++ "." ++ elem.fields.Name)
        = (structs.getVarName vns f (arg.fields.Name ++ "." ++ elem.fields.Name) "x").1 := by
      simp only [structs.slotOf, hrec, Option.getD_some]
    refine ⟨continues_trans _ _ _ (continues_alloc vns f _ p _ ?_) g, ?_, ?_, ?_⟩
    · split_ifs
      all_goals first
        | exact extends_of_append _ _ _ _ [] rfl rfl (by simp)
        | exact extends_of_append _ _ _ [] [] rfl (by simp) (by simp)
    · rw [hs]; exact hrec
    · rw [hs, g4, g2]
      split_ifs <;> rfl
    · rw [hs]
      apply g.2.2.1.subset
      split_ifs <;> simp

end ArgContinues

section CallFacts

/-- What the body of the loop of `prepareCall` leaves for one argument: the
state is continued; an argument with a local variable has it recorded under its
path, declared with the type name of the argument, and passed to the call; any
other argument leaves the actual parameters as they were. -/
theorem planArg_effect (h : structs.Helpers) (f : String) (a : structs.Argument)
    (s s' : structs.VarNames × structs.Plan) (hr : structs.planArg h f s a = .ok s') :
    structs.Continues s s' ∧
    (a.isLocal →
      structs.recorded s'.1 f a.path = some (structs.slotOf s'.1 f a.path) ∧
      s'.2.callArgs = Go.mapSet s.2.callArgs a.fields.Name (structs.slotOf s'.1 f a.path) ∧
      (structs.slotOf s'.1 f a.path ++ " " ++ a.fields.TypeName ++ ";") ∈ s'.2.decls) ∧
    (¬ a.isLocal → s'.2.callArgs = s.2.callArgs) := by
  simp only [structs.planArg] at hr
  by_cases h0 : a.fields.Flavor = structs.FLAVOR_SIMPLE
  · rw [if_pos h0] at hr
    obtain ⟨g1, g2⟩ := planSimple_continues h s s' a hr
    have hn : ¬ a.isLocal := by
      rintro (hf | ⟨hf, _⟩) <;> rw [h0] at hf <;> exact absurd hf (by decide)
    exact ⟨g1, fun hl => absurd hl hn, fun _ => g2⟩
  rw [if_neg h0] at hr
  by_cases h1 : a.fields.Flavor = structs.FLAVOR_RECORD
  · rw [if_pos h1] at hr
    have hp : a.path = a.fields.Name := by simp only [structs.Argument.path, h1, if_true]
    have hl : a.isLocal := Or.inl h1
    obtain ⟨g1, g2, g3, g4⟩ := planRecord_effect h f a s s' hr
    rw [hp]
    exact ⟨g1, fun _ => ⟨g2, g3, g4⟩, fun hn => absurd hl hn⟩
  rw [if_neg h1] at hr
  by_cases h2 : a.fields.Flavor = structs.FLAVOR_TABLE
  · rw [if_pos h2] at hr
    by_cases hc : a.fields.Type_ = "REF CURSOR"
    · rw [if_pos hc] at hr
      have hn : ¬ a.isLocal := by
        simp only [structs.Argument.isLocal, hc, ne_eq, not_true_eq_false, and_false, or_false]
        exact h1
      split_ifs at hr
      obtain ⟨g1, g2⟩ := planSimple_continues h s s' a hr
      exact ⟨g1, fun hl => absurd hl hn, fun _ => g2⟩
    · rw [if_neg hc] at hr
      have hl : a.isLocal := Or.inr ⟨h2, hc⟩
      cases ht : a.fields.TableOf with
      | none => rw [ht] at hr; cases hr
      | some elem =>
        rw [ht] at hr
        simp only at hr
        by_cases e0 : elem.fields.Flavor = structs.FLAVOR_SIMPLE
        · rw [if_pos e0] at hr
          have hp : a.path = a.fields.Name := by
            have : ¬ elem.fields.Flavor = structs.FLAVOR_RECORD := by rw [e0]; decide
            simp only [structs.Argument.path, h1, if_false, ht, this]
          obtain ⟨g1, g2, g3, g4⟩ := planTableSimple_effect h f a elem s s' hr
          rw [hp]
          exact ⟨g1, fun _ => ⟨g2, g3, g4⟩, fun hn => absurd hl hn⟩
        · rw [if_neg e0] at hr
          split_ifs at hr with e1
          have hp : a.path = a.fields.Name ++ "." ++ elem.fields.Name := by
            simp only [structs.Argument.path, h1, if_false, ht, e1, if_true]
          obtain ⟨g1, g2, g3, g4⟩ := planTableRecord_effect h f a elem s s' hr
          rw [hp]
          exact ⟨g1, fun _ => ⟨g2, g3, g4⟩, fun hn => absurd hl hn⟩
  · rw [if_neg h2] at hr
    cases hr

/-- The loop of `prepareCall` over arguments with pairwise distinct names: the
state is continued, the actual parameter of a name that no argument bears is
left, every argument with a local variable has it declared and passed to the
call, and every other argument has its actual parameter left. -/
theorem forRange_planArg_callArgs (h : structs.Helpers) (f : String) :
    ∀ (l : List structs.Argument), (l.map (fun a => a.fields.Name)).Nodup →
      ∀ (s s' : structs.VarNames × structs.Plan),
      structs.forRange (structs.planArg h f) l s = .ok s' →
      structs.Continues s s' ∧
      (∀ n, n ∉ l.map (fun a => a.fields.Name) →
        Go.mapGet s'.2.callArgs n = Go.mapGet s.2.callArgs n) ∧
      ∀ a ∈ l,
        (a.isLocal →
          Go.mapGet s'.2.callArgs a.fields.Name = some (structs.slotOf s'.1 f a.path) ∧
          (structs.slotOf s'.1 f a.path ++ " " ++ a.fields.TypeName ++ ";") ∈ s'.2.decls) ∧
        (¬ a.isLocal →
          Go.mapGet s'.2.callArgs a.fields.Name = Go.mapGet s.2.callArgs a.fields.Name) := by
  intro l
  induction l with
  | nil =>
    intro _ s s' hr
    simp only [structs.forRange, Except.ok.injEq] at hr
    subst hr
    exact ⟨continues_refl _, fun _ _ => rfl, fun a ha => by cases ha⟩
  | cons a l ih =>
    intro hd s s' hr
    simp only [List.map_cons, List.nodup_cons] at hd
    simp only [structs.forRange] at hr
    cases h1 : structs.planArg h f s a with
    | error e => rw [h1] at hr; cases hr
    | ok s1 =>
      rw [h1] at hr
      obtain ⟨c1, l1, n1⟩ := planArg_effect h f a s s1 h1
      obtain ⟨c2, k2, m2⟩ := ih hd.2 s1 s' hr
      have hstep : ∀ n, n ≠ a.fields.Name →
          Go.mapGet s1.2.callArgs n = Go.mapGet s.2.callArgs n := by
        intro n hn
        by_cases hl : a.isLocal
        · rw [(l1 hl).2.1]
          exact mapGet_mapSet_ne _ _ _ _ hn
        · rw [n1 hl]
      refine ⟨continues_trans _ _ _ c1 c2, ?_, ?_⟩
      · intro n hn
        simp only [List.map_cons, List.mem_cons, not_or] at hn
        rw [k2 n hn.2, hstep n hn.1]
      · intro b hb
        rcases List.mem_cons.mp hb with rfl | hb
        · refine ⟨fun hl => ?_, fun hl => ?_⟩
          · obtain ⟨r1, r2, r3⟩ := l1 hl
            have hs : structs.slotOf s'.1 f b.path = structs.slotOf s1.1 f b.path := by
              show (structs.recorded s'.1 f b.path).getD "" = _
              rw [c2.1 f _ _ r1]
              rfl
            rw [hs, k2 _ hd.1, r2]
            exact ⟨mapGet_mapSet_self _ _ _, c2.2.2.1.subset r3⟩
          · rw [k2 _ hd.1, n1 hl]
        · obtain ⟨m3, m4⟩ := m2 b hb
          refine ⟨m3, fun hl => ?_⟩
          have hne : b.fields.Name ≠ a.fields.Name := by
            intro he
            exact hd.1 (he ▸ List.mem_map_of_mem (fun a => a.fields.Name) hb)
          rw [m4 hl, hstep _ hne]

/-- The accumulating loop of `String.intercalate` over the entries of the call
appends what `writeCallArgs` writes from an index above zero. -/
theorem intercalate_go_writeCallArgs (m : structs.StrMap) :
    ∀ (l : List structs.Argument) (acc : String) (i : Nat),
      String.intercalate.go acc ",\n\t\t" (l.map (fun a => a.fields.Name ++ "=>"
        ++ (match Go.mapGet m a.fields.Name with
            | some vn => vn
            | none => ":" ++ a.fields.Name)))
      = acc ++ structs.writeCallArgs m l (i + 1) := by
  intro l
  induction l with
  | nil =>
    intro acc i
    simp only [List.map_nil, String.intercalate.go, structs.writeCallArgs, String.append_empty]
  | cons a l ih =>
    intro acc i
    simp only [List.map_cons, String.intercalate.go, structs.writeCallArgs]
    rw [ih _ (i + 1)]
    simp only [String.append_assoc, Nat.succ_pos, gt_iff_lt, if_true]

/-- The loop that writes the actual parameters joins one entry per argument
with a comma, a newline and two tabs. -/
theorem writeCallArgs_eq (m : structs.StrMap) (l : List structs.Argument) :
    structs.writeCallArgs m l 0
      = String.intercalate ",\n\t\t" (l.map (fun a => a.fields.Name ++ "=>"
        ++ (match Go.mapGet m a.fields.Name with
            | some vn => vn
            | none => ":" ++ a.fields.Name))) := by
  cases l with
  | nil => simp [String.intercalate, structs.writeCallArgs]
  | cons a l =>
    simp only [List.map_cons, String.intercalate, structs.writeCallArgs]
    rw [intercalate_go_writeCallArgs m l _ 0]
    simp only [String.append_assoc, gt_iff_lt, Nat.lt_irrefl, if_false, String.empty_append]

end CallFacts

section CallString

/-- The call string of a plan: the prefix, the qualified name, and one entry
per element of `Args` whose ref is the local variable of an argument that has
one and the bind slot of any other; the local variables are declared. -/
theorem prepareCall_call_eq (h : structs.Helpers) (vn vn' : structs.VarNames)
    (f : structs.Function) (r : structs.Prepared)
    (hr : structs.prepareCall h vn f = .ok (r, vn'))
    (hd : (f.args.map (fun a => a.fields.Name)).Nodup) :
    r.call = (if f.Returns.isSome then ":ret := " else "") ++ f.Name h ++ "("
      ++ String.intercalate ",\n\t\t"
          (f.Args.map (fun a => a.fields.Name ++ "=>" ++ structs.callRef vn' (f.Name h) a))
      ++ ")" ∧
    ∀ a ∈ f.Args, a.isLocal →
      (structs.callRef vn' (f.Name h) a ++ " " ++ a.fields.TypeName ++ ";") ∈ r.decls := by
  simp only [structs.prepareCall] at hr
  split at hr
  · cases hr
  · rename_i vns p hf
    simp only [Except.ok.injEq, Prod.mk.injEq] at hr
    obtain ⟨rfl, rfl⟩ := hr
    obtain ⟨_, hk, hm⟩ := forRange_planArg_callArgs h (f.Name h) f.args hd _ _ hf
    have hin : ∀ a ∈ f.Args, a ∈ f.args := by
      intro a ha
      unfold structs.Function.args
      split
      · exact List.mem_append_left _ ha
      · exact ha
    have href : ∀ a ∈ f.Args,
        (match Go.mapGet p.callArgs a.fields.Name with
          | some v => v
          | none => ":" ++ a.fields.Name) = structs.callRef vns (f.Name h) a := by
      intro a ha
      obtain ⟨m1, m2⟩ := hm a (hin a ha)
      by_cases hl : a.isLocal
      · simp only [structs.callRef, hl, if_true, (m1 hl).1]
      · have : Go.mapGet p.callArgs a.fields.Name = none := by
          rw [m2 hl]; rfl
        simp only [structs.callRef, hl, if_false, this]
    refine ⟨?_, fun a ha hl => ?_⟩
    · show _ ++ structs.writeCallArgs p.callArgs f.Args 0 ++ ")" = _
      rw [writeCallArgs_eq]
      congr 3
      apply List.map_congr_left
      intro a ha
      show a.fields.Name ++ "=>" ++ _ = _
      rw [href a ha]
    · simp only [structs.callRef, hl, if_true]
      exact ((hm a (hin a ha)).1 hl).2

end CallString

/-- C13: for every plannable function whose arguments, `Returns` included, have
pairwise distinct names, the call string that `prepareCall` returns is
`:ret := ` exactly when `Returns` is present, then `Name()`, `(`, then one entry
`<argname>=><ref>` per element of `Args` in the order of `Args`, the entries
joined by a comma, a newline and two tabs, then `)`.  The ref of a Record or of
a Table that is no `REF CURSOR` is the local variable recorded for it, which
the declarations declare with the type name of the argument; the ref of any
other argument is `:` followed by its name. -/
theorem prepareCall_call_string (h : structs.Helpers) (vn vn' : structs.VarNames)
    (f : structs.Function) (r : structs.Prepared)
    (hr : structs.prepareCall h vn f = .ok (r, vn'))
    (hd : (f.args.map (fun a => a.fields.Name)).Nodup) :
    r.call = (if f.Returns.isSome then ":ret := " else "") ++ f.Name h ++ "("
      ++ String.intercalate ",\n\t\t"
          (f.Args.map (fun a => a.fields.Name ++ "=>" ++ structs.callRef vn' (f.Name h) a))
      ++ ")" ∧
    ∀ a ∈ f.Args, a.isLocal →
      (structs.callRef vn' (f.Name h) a ++ " " ++ a.fields.TypeName ++ ";") ∈ r.decls :=
  prepareCall_call_eq h vn vn' f r hr hd

/-- C13 at a concrete input: the function `DB_web.send_offer` with a scalar, a
Record, a Table of scalars, a Table of Records and a `REF CURSOR` has a plan,
its arguments have distinct names, and the call passes the local variables
`x001`, `x004` and `x005`, which the declarations declare, and bind slots for
the scalar and the cursor. -/
theorem prepareCall_call_string_witness :
    ∃ r vn', structs.prepareCall structs.Helpers.plain [] structs.sendOffer = .ok (r, vn') ∧
      (structs.sendOffer.args.map (fun a => a.fields.Name)).Nodup ∧
      r.call = ":ret := DB_web.send_offer(p_sessionid=>:p_sessionid,\n\t\tp_kotveny=>x001,"
        ++ "\n\t\tp_szamok=>x004,\n\t\tp_hibalista=>x005,\n\t\tp_cur=>:p_cur)" ∧
      "x001 DB_WEB.KOTVENY_REC_TYP;" ∈ r.decls ∧ "x004 DB_WEB.SZAM_TAB_TYP;" ∈ r.decls ∧
      "x005 DB_WEB.HIBA_TAB_TYP;" ∈ r.decls :=
  ⟨_, _, rfl, by decide,
    (prepareCall_call_string structs.Helpers.plain [] _ structs.sendOffer _ rfl
      (by decide)).1.trans (by rfl),
    by decide, by decide, by decide⟩

section RecordFacts

/-- A name that a state records is the slot of its path in every state that
keeps the names of that state. -/
theorem slotOf_keeps (a b : structs.VarNames) (f k : String) (hk : structs.Keeps a b)
    (hr : structs.recorded a f k ≠ none) : structs.slotOf b f k = structs.slotOf a f k := by
  cases h : structs.recorded a f k with
  | none => exact absurd h hr
  | some y => simp only [structs.slotOf, h, hk f k y h]

/-- After the loop over the fields of a Record, the slot of every visited field
is recorded. -/
theorem forRange_recordField_recorded (h : structs.Helpers) (f : String)
    (arg : structs.Argument) (vn aname : String) :
    ∀ (l : List (String × structs.Argument)) (s s' : structs.VarNames × structs.Plan),
      structs.forRange (structs.recordField h f arg vn aname) l s = .ok s' →
      ∀ kv ∈ l, structs.recorded s'.1 f (vn ++ "." ++ kv.1) ≠ none := by
  intro l
  induction l with
  | nil => intro _ _ _ kv hkv; cases hkv
  | cons a l ih =>
    intro s s' hr kv hkv
    simp only [structs.forRange] at hr
    cases h1 : structs.recordField h f arg vn aname s a with
    | error e => rw [h1] at hr; cases hr
    | ok s1 =>
      rw [h1] at hr
      rcases List.mem_cons.mp hkv with rfl | hkv
      · obtain ⟨vns, p⟩ := s
        obtain ⟨vns1, p1⟩ := s1
        obtain ⟨e0, _⟩ := recordField_ok h f arg vn aname vns vns1 p p1 kv h1
        obtain ⟨g, _⟩ := forRange_continues _
          (fun s a s' hs => recordField_continues h f arg vn aname s s' a hs) _ _ _ hr
        have := g.1 f _ _ (e0 ▸ (getVarName_keeps vns f (vn ++ "." ++ kv.1)).2)
        simp only [this, ne_eq, reduceCtorEq, not_false_eq_true]
      · exact ih s1 s' hr kv hkv

/-- The loop of `prepareCall` over the arguments continues the state. -/
theorem forRange_planArg_continues (h : structs.Helpers) (f : String)
    (l : List structs.Argument) (s s' : structs.VarNames × structs.Plan)
    (hr : structs.forRange (structs.planArg h f) l s = .ok s') : structs.Continues s s' :=
  forRange_rel structs.Continues continues_refl continues_trans _ l
    (fun s a s' _ hs => (planArg_effect h f a s s' hs).1) s s' hr

/-- The case of a Record, with the slots read in a later state `vn'` that keeps
the names: one declaration of the local variable with the type name of the
argument, one pre-call assignment per visited field for an input, and one
post-call write-back per visited field for an output. -/
theorem planRecord_later (h : structs.Helpers) (f : String) (arg : structs.Argument)
    (s s' : structs.VarNames × structs.Plan) (vn' : structs.VarNames)
    (hr : structs.planRecord h f s arg = .ok s') (hk : structs.Keeps s'.1 vn') :
    s'.2.decls = s.2.decls
      ++ [structs.slotOf vn' f arg.fields.Name ++ " " ++ arg.fields.TypeName ++ ";"] ∧
    s'.2.pre = s.2.pre ++ (if arg.IsInput = true then
      (h.rangeOf 0 (arg.fields.RecordOf.getD [])).map (fun kv =>
        structs.slotOf vn' f arg.fields.Name ++ "." ++ kv.1 ++ " := :"
          ++ structs.slotOf vn' f (structs.slotOf vn' f arg.fields.Name ++ "." ++ kv.1)
          ++ ";") else []) ∧
    s'.2.post = s.2.post ++ (if arg.IsOutput = true then
      (h.rangeOf 0 (arg.fields.RecordOf.getD [])).map (fun kv =>
        ":" ++ structs.slotOf vn' f (structs.slotOf vn' f arg.fields.Name ++ "." ++ kv.1)
          ++ " := " ++ structs.slotOf vn' f arg.fields.Name ++ "." ++ kv.1 ++ ";") else []) := by
  obtain ⟨vns, p⟩ := s
  obtain ⟨vns1, p1⟩ := s'
  obtain ⟨_, e1, e2, e3, _, _, e6, e7⟩ := planRecord_ok h f arg vns vns1 p p1 hr
  have hv : structs.slotOf vn' f arg.fields.Name = structs.slotOf vns1 f arg.fields.Name :=
    slotOf_keeps vns1 vn' f _ hk (by rw [e1]; simp)
  have hf : ∀ kv ∈ h.rangeOf 0 (arg.fields.RecordOf.getD []),
      structs.slotOf vn' f (structs.slotOf vns1 f arg.fields.Name ++ "." ++ kv.1)
        = structs.slotOf vns1 f (structs.slotOf vns1 f arg.fields.Name ++ "." ++ kv.1) := by
    intro kv hkv
    apply slotOf_keeps vns1 vn' f _ hk
    simp only [structs.planRecord, structs.getInnerVarName] at hr
    split at hr
    · cases hr
    · rw [e2]
      exact forRange_recordField_recorded h f arg _ _ _ _ _ hr kv hkv
  rw [hv]
  refine ⟨e3, ?_, ?_⟩
  · rw [e6]
    congr 1
    split_ifs
    · exact List.map_congr_left (fun kv hkv => by rw [hf kv hkv])
    · rfl
  · rw [e7]
    congr 1
    split_ifs
    · exact List.map_congr_left (fun kv hkv => by rw [hf kv hkv])
    · rfl

end RecordFacts

/-- C15, refuted as stated: in the procedure `F`, whose Record argument `P_ADAT`
is followed by a Table of Records of the same name, the Record has the local
variable `x001` (declared as `x001 DB_WEB.ADAT_REC_TYP;` and loaded by
`x001.kod := :x002#kod;`), and the call passes `p_adat=>x004`, the local
collection of the Table, for it. -/
theorem prepareCall_record_same_name :
    (structs.prepared structs.Helpers.plain [] structs.sameNames).map
        (fun r => (r.decls, r.pre, r.call))
      = .ok (["i1 PLS_INTEGER;", "i2 PLS_INTEGER;", "x001 DB_WEB.ADAT_REC_TYP;",
              "x004 DB_WEB.HIBA_TAB_TYP;",
              "TYPE NUMBER_9_tab_typ IS TABLE OF NUMBER(9) INDEX BY BINARY_INTEGER;",
              "x005#hibaszam NUMBER_9_tab_typ;",
              "TYPE VARCHAR2_1000_tab_typ IS TABLE OF VARCHAR2(1000) INDEX BY BINARY_INTEGER;",
              "x005#szoveg VARCHAR2_1000_tab_typ;"],
             ["x001.kod := :x002#kod;", "x004.DELETE;", "x005#hibaszam.DELETE;",
              "x005#szoveg.DELETE;"],
             "f(p_adat=>x004,\n\t\tp_adat=>x004)") := by
  rfl

/-- C15, amended: a Record argument `a` of `Args`, in a function that has a plan
and whose arguments, `Returns` included, have pairwise distinct names.  With
`s1` the state in which the loop of `prepareCall` reaches `a` and `s2` the state
after its turn, and with `vn` the local variable recorded for `a`: the turn
appends exactly the one declaration `vn <TypeName>;`; it appends to the pre-call
statements exactly one assignment `vn.k := :slot_k;` per field `k` that the
range loop visits when `a` is an input, and nothing otherwise; it appends to
the post-call statements exactly one write-back `:slot_k := vn.k;` per visited
field, with the same slot, when `a` is an output, and nothing otherwise; the
results of `prepareCall` start with these lists; and the entry of `a` in the
call is `a=>vn`, which is the first conjunct. -/
theorem prepareCall_record_argument (h : structs.Helpers) (vn vn' : structs.VarNames)
    (f : structs.Function) (r : structs.Prepared) (l1 l2 : List structs.Argument)
    (a : structs.Argument)
    (hargs : f.Args = l1 ++ a :: l2) (hrec : a.fields.Flavor = structs.FLAVOR_RECORD)
    (hd : (f.args.map (fun b => b.fields.Name)).Nodup)
    (hr : structs.prepareCall h vn f = .ok (r, vn')) :
    r.call = (if f.Returns.isSome then ":ret := " else "") ++ f.Name h ++ "("
      ++ String.intercalate ",\n\t\t"
          (l1.map (fun b => b.fields.Name ++ "=>" ++ structs.callRef vn' (f.Name h) b)
            ++ (a.fields.Name ++ "=>" ++ structs.slotOf vn' (f.Name h) a.fields.Name)
            :: l2.map (fun b => b.fields.Name ++ "=>" ++ structs.callRef vn' (f.Name h) b))
      ++ ")" ∧
    ∃ s1 s2 : structs.VarNames × structs.Plan,
      structs.forRange (structs.planArg h (f.Name h)) l1
        (vn, { decls := ["i1 PLS_INTEGER;", "i2 PLS_INTEGER;"],
               convIn := ["var v driver.Value\nvar x interface\x7b\x7d\n _, _ = v, x"],
               types := f.types }) = .ok s1 ∧
      structs.planArg h (f.Name h) s1 a = .ok s2 ∧
      s2.2.decls = s1.2.decls
        ++ [structs.slotOf vn' (f.Name h) a.fields.Name ++ " " ++ a.fields.TypeName ++ ";"] ∧
      s2.2.pre = s1.2.pre ++ (if a.IsInput = true then
        (h.rangeOf 0 (a.fields.RecordOf.getD [])).map (fun kv =>
          structs.slotOf vn' (f.Name h) a.fields.Name ++ "." ++ kv.1 ++ " := :"
            ++ structs.slotOf vn' (f.Name h)
                (structs.slotOf vn' (f.Name h) a.fields.Name ++ "." ++ kv.1)
            ++ ";") else []) ∧
      s2.2.post = s1.2.post ++ (if a.IsOutput = true then
        (h.rangeOf 0 (a.fields.RecordOf.getD [])).map (fun kv =>
          ":" ++ structs.slotOf vn' (f.Name h)
                (structs.slotOf vn' (f.Name h) a.fields.Name ++ "." ++ kv.1)
            ++ " := " ++ structs.slotOf vn' (f.Name h) a.fields.Name ++ "." ++ kv.1 ++ ";")
        else []) ∧
      s2.2.decls <+: r.decls ∧ s2.2.pre <+: r.pre ∧ s2.2.post <+: r.post := by
  have hcall := (prepareCall_call_eq h vn vn' f r hr hd).1
  have hargs2 : f.args = l1 ++ a :: (l2 ++ f.Returns.toList) := by
    unfold structs.Function.args
    cases f.Returns with
    | none => simp [hargs]
    | some x => simp [hargs]
  simp only [structs.prepareCall] at hr
  split at hr
  · cases hr
  · rename_i vns p hf
    simp only [Except.ok.injEq, Prod.mk.injEq] at hr
    obtain ⟨rfl, rfl⟩ := hr
    have hf2 : structs.forRange (structs.planArg h (f.Name h)) f.args _ = .ok (vns, p) := hf
    rw [hargs2] at hf2
    obtain ⟨s1, s2, g1, g2, g3⟩ := forRange_split _ a l1 _ _ _ hf2
    have hc := forRange_planArg_continues h (f.Name h) _ s2 (vns, p) g3
    have g2r : structs.planRecord h (f.Name h) s1 a = .ok s2 := by
      have := g2
      simp only [structs.planArg, hrec, if_true] at this
      exact this
    obtain ⟨d1, d2, d3⟩ := planRecord_later h (f.Name h) a s1 s2 vns g2r hc.1
    refine ⟨?_, s1, s2, g1, g2, d1, d2, d3, hc.2.2.1, hc.2.2.2.1, hc.2.2.2.2⟩
    rw [hcall, hargs, List.map_append, List.map_cons]
    have hl : a.isLocal := Or.inl hrec
    have hp : a.path = a.fields.Name := by simp only [structs.Argument.path, hrec, if_true]
    simp only [structs.callRef, hl, if_true, hp]

/-- C15, the amended claim at a concrete input: the procedure
`DB_web.set_dates` with one IN/OUT Record of two DATE fields plans one record
declaration, two pre-call field assignments, two post-call field write-backs
with the same slots, and a call that passes the local variable. -/
theorem prepareCall_record_argument_witness :
    ∃ r vn', structs.prepareCall structs.Helpers.plain [] structs.setDates = .ok (r, vn') ∧
      r.decls = ["i1 PLS_INTEGER;", "i2 PLS_INTEGER;",
        "x001 BRUNO.DB_WEB_ELEKTR.KOTVENY_REC_TYP;"] ∧
      r.pre = ["x001.szerkot := :x002#szerkot;", "x001.szerlejar := :x002#szerlejar;"] ∧
      r.post = [":x002#szerkot := x001.szerkot;", ":x002#szerlejar := x001.szerlejar;"] ∧
      r.call = "DB_web.set_dates(p_kotveny=>x001)" :=
  ⟨_, _, rfl, by decide, by decide, by decide,
    (prepareCall_record_argument structs.Helpers.plain [] _ structs.setDates _ [] []
      structs.kotvenyRecord rfl rfl (by decide) rfl).1.trans (by rfl)⟩

section LaterFacts

/-- Every state that requests reach from the empty state records names that
start with `x` only. -/
theorem reachable_wellNamed (vn : structs.VarNames) (hr : structs.Reachable vn) :
    structs.WellNamed vn := by
  obtain ⟨rs, rfl⟩ := hr
  have : ∀ (rs : List structs.Request) (v : structs.VarNames), structs.WellNamed v →
      structs.WellNamed (structs.requests v rs) := by
    intro rs
    induction rs with
    | nil => intro v hv; exact hv
    | cons q rs ih =>
      intro v hv
      show structs.WellNamed (structs.requests (structs.request v q) rs)
      apply ih
      unfold structs.request
      split
      · exact (getVarName_wellNamed v _ _ hv).2
      · exact (getVarName_wellNamed v _ _ hv).2
  exact this rs [] wellNamed_nil

/-- A signature has a recorded type after `getTableType` was called for it. -/
theorem getTableType_present (p : structs.Plan) (a : String) :
    Go.mapGet (structs.getTableType p a).2.tableTypes a ≠ none := by
  obtain ⟨_, _, t3, _⟩ := getTableType_effect p a
  rw [t3]
  split_ifs with hn
  · rw [mapGet_mapSet_self]; simp
  · exact hn

/-- The call `getTableType` keeps the recorded type of every signature. -/
theorem getTableType_mono (p : structs.Plan) (a b : String)
    (hb : Go.mapGet p.tableTypes b ≠ none) :
    Go.mapGet (structs.getTableType p a).2.tableTypes b ≠ none := by
  obtain ⟨_, _, t3, _⟩ := getTableType_effect p a
  rw [t3]
  split_ifs with hn
  · by_cases hab : b = a
    · subst hab; rw [mapGet_mapSet_self]; simp
    · rw [mapGet_mapSet_ne _ _ _ _ hab]; exact hb
  · exact hb

/-- For a signature with a recorded type, `getTableType` changes neither the
declarations nor the recorded types. -/
theorem getTableType_known (p : structs.Plan) (a : String)
    (ha : Go.mapGet p.tableTypes a ≠ none) :
    (structs.getTableType p a).2.decls = p.decls ∧
    (structs.getTableType p a).2.tableTypes = p.tableTypes := by
  obtain ⟨_, t2, t3, _⟩ := getTableType_effect p a
  rw [t2, t3, if_neg ha, if_neg ha]
  simp

/-- The write-back loop of an output Table-of-Record, with the slots read in a
later state: one write-back per visited field. -/
theorem forRange_tableRecordOut_later (f vn : String) :
    ∀ (l : List (String × structs.Argument)) (vns vns' : structs.VarNames)
      (p p' : structs.Plan),
      structs.forRange (structs.tableRecordOut f vn) l (vns, p) = .ok (vns', p') →
      ∀ w, structs.Keeps vns' w →
      p'.decls = p.decls ∧ p'.tableTypes = p.tableTypes ∧ p'.pre = p.pre ∧
      p'.post = p.post ++ l.map (fun kv =>
        ":" ++ structs.slotOf w f (vn ++ "." ++ kv.1) ++ " := "
          ++ structs.slotOf w f (vn ++ "." ++ kv.1) ++ ";") := by
  intro l
  induction l with
  | nil =>
    intro vns vns' p p' hr w _
    simp only [structs.forRange, Except.ok.injEq, Prod.mk.injEq] at hr
    obtain ⟨rfl, rfl⟩ := hr
    simp
  | cons kv l ih =>
    intro vns vns' p p' hr w hw
    simp only [structs.forRange] at hr
    cases h1 : structs.tableRecordOut f vn (vns, p) kv with
    | error e => rw [h1] at hr; cases hr
    | ok st1 =>
      obtain ⟨vns1, p1⟩ := st1
      rw [h1] at hr
      obtain ⟨e0, e1, e2, _, e4, e5⟩ := tableRecordOut_ok f vn vns vns1 p p1 kv h1
      obtain ⟨g1, g2, g4, g5⟩ := ih vns1 vns' p1 p' hr w hw
      obtain ⟨c, _⟩ := forRange_continues _
        (fun s a s' hs => tableRecordOut_continues f vn s s' a hs) _ _ _ hr
      have hs : structs.slotOf w f (vn ++ "." ++ kv.1)
          = (structs.getVarName vns f (vn ++ "." ++ kv.1) "x").1 :=
        slotOf_of_keeps vns w f _ (by rw [← e0]; exact keeps_trans _ _ _ c.1 hw)
      refine ⟨g1.trans e1, g2.trans e2, g4.trans e4, ?_⟩
      rw [g5, e5, ← hs]
      simp

/-- The declaration loop of a Table-of-Record, with the slots read in a later
state: one pre-call statement per visited field, and afterwards the signature
of every visited field has a recorded type. -/
theorem forRange_tableRecordDecl_later (f : String) (arg : structs.Argument) (vn : String) :
    ∀ (l : List (String × structs.Argument)) (vns vns' : structs.VarNames)
      (p p' : structs.Plan),
      structs.forRange (structs.tableRecordDecl f arg vn) l (vns, p) = .ok (vns', p') →
      (∀ b, Go.mapGet p.tableTypes b ≠ none → Go.mapGet p'.tableTypes b ≠ none) ∧
      (∀ kv ∈ l, Go.mapGet p'.tableTypes kv.2.fields.AbsType ≠ none) ∧
      ∀ w, structs.Keeps vns' w →
      p'.post = p.post ∧
      p'.pre = p.pre ++ l.map (fun kv => if arg.IsInput = true then
        structs.slotOf w f (vn ++ "." ++ kv.1) ++ " := :"
          ++ structs.slotOf w f (vn ++ "." ++ kv.1) ++ ";"
        else structs.slotOf w f (vn ++ "." ++ kv.1) ++ ".DELETE;") := by
  intro l
  induction l with
  | nil =>
    intro vns vns' p p' hr
    simp only [structs.forRange, Except.ok.injEq, Prod.mk.injEq] at hr
    obtain ⟨rfl, rfl⟩ := hr
    exact ⟨fun _ hb => hb, fun kv hkv => (by cases hkv), fun w _ => by simp⟩
  | cons kv l ih =>
    intro vns vns' p p' hr
    simp only [structs.forRange] at hr
    cases h1 : structs.tableRecordDecl f arg vn (vns, p) kv with
    | error e => rw [h1] at hr; cases hr
    | ok st1 =>
      obtain ⟨vns1, p1⟩ := st1
      rw [h1] at hr
      obtain ⟨e0, _, e2, _, e4, e5⟩ := tableRecordDecl_ok f arg vn vns vns1 p p1 kv h1
      obtain ⟨m1, m2, g⟩ := ih vns1 vns' p1 p' hr
      obtain ⟨c, _⟩ := forRange_continues _
        (fun s a s' hs => tableRecordDecl_continues f arg vn s s' a hs) _ _ _ hr
      refine ⟨fun b hb => m1 b (e2 ▸ getTableType_mono p _ b hb), ?_, fun w hw => ?_⟩
      · intro kv' hkv'
        rcases List.mem_cons.mp hkv' with rfl | hkv'
        · exact m1 _ (e2 ▸ getTableType_present p _)
        · exact m2 kv' hkv'
      · obtain ⟨g5, g4⟩ := g w hw
        have hs : structs.slotOf w f (vn ++ "." ++ kv.1)
            = (structs.getVarName vns f (vn ++ "." ++ kv.1) "x").1 :=
          slotOf_of_keeps vns w f _ (by rw [← e0]; exact keeps_trans _ _ _ c.1 hw)
        refine ⟨g5.trans e5, ?_⟩
        rw [g4, e4, ← hs]
        simp

end LaterFacts

section LoopLater

/-- The copy loop of a Table-of-Record over fields whose signatures have a
recorded type changes neither the declarations nor the recorded types. -/
theorem forRange_tableRecordLoop_decls (h : structs.Helpers) (f : String)
    (arg : structs.Argument) (vn aname : String) :
    ∀ (l : List (String × structs.Argument)) (s s' : structs.VarNames × structs.Plan × String),
      structs.forRange (structs.tableRecordLoop h f arg vn aname) l s = .ok s' →
      (∀ kv ∈ l, Go.mapGet s.2.1.tableTypes kv.2.fields.AbsType ≠ none) →
      s'.2.1.decls = s.2.1.decls ∧ s'.2.1.tableTypes = s.2.1.tableTypes := by
  intro l
  induction l with
  | nil =>
    intro s s' hr _
    simp only [structs.forRange, Except.ok.injEq] at hr
    subst hr
    exact ⟨rfl, rfl⟩
  | cons kv l ih =>
    intro s s' hr hk
    simp only [structs.forRange] at hr
    cases h1 : structs.tableRecordLoop h f arg vn aname s kv with
    | error e => rw [h1] at hr; cases hr
    | ok s1 =>
      rw [h1] at hr
      obtain ⟨vns, p, i⟩ := s
      obtain ⟨vns1, p1, i1⟩ := s1
      obtain ⟨_, _, e1, e2, _⟩ := tableRecordLoop_ok h f arg vn aname vns vns1 p p1 i i1 kv h1
      obtain ⟨k1, k2⟩ := getTableType_known p kv.2.fields.AbsType
        (hk kv (List.mem_cons_self kv l))
      have d1 : p1.decls = p.decls := e1.trans k1
      have d2 : p1.tableTypes = p.tableTypes := e2.trans k2
      obtain ⟨g1, g2⟩ := ih (vns1, p1, i1) s' hr (fun kv' hkv' => by
        show Go.mapGet p1.tableTypes kv'.2.fields.AbsType ≠ none
        rw [d2]
        exact hk kv' (List.mem_cons_of_mem kv hkv'))
      exact ⟨g1.trans d1, g2.trans d2⟩

/-- The copy loop of a Table-of-Record once its header is written (`idxvar` is
set), with the slots read in a later state: one copy statement per visited
field in the pre-call statements of an input and in the post-call statements
of an output. -/
theorem forRange_tableRecordLoop_open (h : structs.Helpers) (f : String)
    (arg : structs.Argument) (vn aname : String) :
    ∀ (l : List (String × structs.Argument)) (vns vns' : structs.VarNames)
      (p p' : structs.Plan) (i i' : String),
      structs.forRange (structs.tableRecordLoop h f arg vn aname) l (vns, p, i)
        = .ok (vns', p', i') →
      i ≠ "" →
      i' = i ∧
      ∀ w, structs.Keeps vns' w →
      p'.pre = p.pre ++ (if arg.IsInput = true then l.map (fun kv =>
        "  " ++ vn ++ "(i1)." ++ kv.1 ++ " := " ++ structs.slotOf w f (vn ++ "." ++ kv.1)
          ++ "(i1);") else []) ∧
      p'.post = p.post ++ (if arg.IsOutput = true then l.map (fun kv =>
        "  " ++ structs.slotOf w f (vn ++ "." ++ kv.1) ++ "(i2) := " ++ vn ++ "(i1)." ++ kv.1
          ++ ";") else []) := by
  intro l
  induction l with
  | nil =>
    intro vns vns' p p' i i' hr _
    simp only [structs.forRange, Except.ok.injEq, Prod.mk.injEq] at hr
    obtain ⟨rfl, rfl, rfl⟩ := hr
    exact ⟨rfl, fun w _ => by simp⟩
  | cons kv l ih =>
    intro vns vns' p p' i i' hr hi
    simp only [structs.forRange] at hr
    cases h1 : structs.tableRecordLoop h f arg vn aname (vns, p, i) kv with
    | error e => rw [h1] at hr; cases hr
    | ok s1 =>
      obtain ⟨vns1, p1, i1⟩ := s1
      rw [h1] at hr
      obtain ⟨e0, ei, _, _, _, e4, e5⟩ :=
        tableRecordLoop_ok h f arg vn aname vns vns1 p p1 i i1 kv h1
      rw [if_neg hi] at ei
      subst ei
      obtain ⟨gi, g⟩ := ih vns1 vns' p1 p' i1 i' hr hi
      obtain ⟨c, _⟩ := forRange_tableRecordLoop_continues h f arg vn aname _ _ _ hr
      refine ⟨gi, fun w hw => ?_⟩
      obtain ⟨g4, g5⟩ := g w hw
      have hs : structs.slotOf w f (vn ++ "." ++ kv.1)
          = (structs.getVarName vns f (vn ++ "." ++ kv.1) "x").1 :=
        slotOf_of_keeps vns w f _ (by rw [← e0]; exact keeps_trans _ _ _ c.1 hw)
      rw [g4, g5, e4, e5, ← hs]
      simp only [if_neg hi, List.nil_append, List.map_cons]
      constructor <;> split_ifs <;> simp

/-- The copy loop of a Table-of-Record from its start (`idxvar` is empty), over
at least one field, in a state whose names start with `x`, with the slots read
in a later state: the loop header once, then one copy statement per visited
field; `idxvar` becomes the shadow collection of the first visited field. -/
theorem forRange_tableRecordLoop_first (h : structs.Helpers) (f : String)
    (arg : structs.Argument) (vn aname : String) (kv : String × structs.Argument)
    (l : List (String × structs.Argument)) (vns vns' : structs.VarNames)
    (p p' : structs.Plan) (i' : String) (hwell : structs.WellNamed vns)
    (hr : structs.forRange (structs.tableRecordLoop h f arg vn aname) (kv :: l) (vns, p, "")
      = .ok (vns', p', i'))
    (w : structs.VarNames) (hw : structs.Keeps vns' w) :
    i' = structs.slotOf w f (vn ++ "." ++ kv.1) ∧
    p'.pre = p.pre ++ (if arg.IsInput = true then
      ["", "i1 := " ++ structs.slotOf w f (vn ++ "." ++ kv.1) ++ ".FIRST;",
       "WHILE i1 IS NOT NULL LOOP"]
      ++ (kv :: l).map (fun kv =>
        "  " ++ vn ++ "(i1)." ++ kv.1 ++ " := " ++ structs.slotOf w f (vn ++ "." ++ kv.1)
          ++ "(i1);") else []) ∧
    p'.post = p.post ++ (if arg.IsOutput = true then
      ["", "i1 := " ++ vn ++ ".FIRST; i2 := 1;", "WHILE i1 IS NOT NULL LOOP"]
      ++ (kv :: l).map (fun kv =>
        "  " ++ structs.slotOf w f (vn ++ "." ++ kv.1) ++ "(i2) := " ++ vn ++ "(i1)." ++ kv.1
          ++ ";") else []) := by
  simp only [structs.forRange] at hr
  cases h1 : structs.tableRecordLoop h f arg vn aname (vns, p, "") kv with
  | error e => rw [h1] at hr; cases hr
  | ok s1 =>
    obtain ⟨vns1, p1, i1⟩ := s1
    rw [h1] at hr
    obtain ⟨e0, ei, _, _, _, e4, e5⟩ :=
      tableRecordLoop_ok h f arg vn aname vns vns1 p p1 "" i1 kv h1
    rw [if_pos rfl] at ei
    have hne : i1 ≠ "" := by
      rw [ei]
      intro he
      have := (getVarName_wellNamed vns f (vn ++ "." ++ kv.1) hwell).1
      rw [he] at this
      cases this
    obtain ⟨gi, g⟩ := forRange_tableRecordLoop_open h f arg vn aname l vns1 vns' p1 p' i1 i' hr hne
    obtain ⟨c, _⟩ := forRange_tableRecordLoop_continues h f arg vn aname _ _ _ hr
    obtain ⟨g4, g5⟩ := g w hw
    have hs : structs.slotOf w f (vn ++ "." ++ kv.1)
        = (structs.getVarName vns f (vn ++ "." ++ kv.1) "x").1 :=
      slotOf_of_keeps vns w f _ (by rw [← e0]; exact keeps_trans _ _ _ c.1 hw)
    refine ⟨by rw [gi, ei, hs], ?_, ?_⟩
    · rw [g4, e4, ← hs]
      simp only [if_pos, List.map_cons]
      split_ifs <;> simp
    · rw [g5, e5, ← hs]
      simp only [if_pos, List.map_cons]
      split_ifs <;> simp

/-- The end of the case of a Table-of-Record, with the slots read in a later
state: the loops are closed, and an output gets one write-back per visited
field. -/
theorem tableRecordClose_later (h : structs.Helpers) (f : String) (arg : structs.Argument)
    (vn : String) (recordOf : List (String × structs.Argument))
    (vns vns' : structs.VarNames) (p p' : structs.Plan) (i : String)
    (hr : structs.tableRecordClose h f arg vn recordOf (vns, p, i) = .ok (vns', p'))
    (w : structs.VarNames) (hw : structs.Keeps vns' w) :
    p'.decls = p.decls ∧ p'.tableTypes = p.tableTypes ∧
    p'.pre = p.pre ++ (if arg.IsInput = true then
      ["  i1 := " ++ i ++ ".NEXT(i1);", "END LOOP;"] else []) ∧
    p'.post = p.post ++ (if arg.IsOutput = true then
      ["  i1 := " ++ vn ++ ".NEXT(i1); i2 := i2 + 1;", "END LOOP;"]
      ++ (h.rangeOf 3 recordOf).map (fun kv =>
        ":" ++ structs.slotOf w f (vn ++ "." ++ kv.1) ++ " := "
          ++ structs.slotOf w f (vn ++ "." ++ kv.1) ++ ";") else []) := by
  simp only [structs.tableRecordClose] at hr
  by_cases hi : arg.IsInput = true <;> by_cases ho : arg.IsOutput = true
  · simp only [hi, ho, if_true] at hr
    obtain ⟨g1, g2, g4, g5⟩ := forRange_tableRecordOut_later f vn _ _ _ _ _ hr w hw
    simp only [hi, ho, if_true]
    exact ⟨g1, g2, g4, by rw [g5]; simp⟩
  · simp only [hi, ho, if_true, Bool.false_eq_true, if_false, Except.ok.injEq,
      Prod.mk.injEq] at hr
    obtain ⟨rfl, rfl⟩ := hr
    simp [hi, ho]
  · simp only [hi, ho, if_true, Bool.false_eq_true, if_false] at hr
    obtain ⟨g1, g2, g4, g5⟩ := forRange_tableRecordOut_later f vn _ _ _ _ _ hr w hw
    simp only [hi, ho, if_true, Bool.false_eq_true, if_false]
    exact ⟨g1, g2, by rw [g4]; simp, by rw [g5]; simp⟩
  · simp only [hi, ho, Bool.false_eq_true, if_false, Except.ok.injEq, Prod.mk.injEq] at hr
    obtain ⟨rfl, rfl⟩ := hr
    simp [hi, ho]

end LoopLater

section TableRecordOut

/-- The declaration loop of a Table-of-Record over two fields, from a plan
without recorded types, with the slots read in a later state: the type of the
first field and its shadow collection, the type of the second field unless it
is that of the first, and its shadow collection. -/
theorem forRange_tableRecordDecl_pair (f : String) (arg : structs.Argument) (vn : String)
    (ka kb : String) (va vb : structs.Argument) (vns : structs.VarNames) (p : structs.Plan)
    (s' : structs.VarNames × structs.Plan)
    (hr : structs.forRange (structs.tableRecordDecl f arg vn) [(ka, va), (kb, vb)] (vns, p)
      = .ok s')
    (hnone : p.tableTypes = []) (w : structs.VarNames) (hw : structs.Keeps s'.1 w) :
    s'.2.decls = p.decls
      ++ [structs.typeLine va.fields.AbsType,
          structs.slotOf w f (vn ++ "." ++ ka) ++ " "
            ++ structs.tableTypeName va.fields.AbsType ++ ";"]
      ++ (if vb.fields.AbsType = va.fields.AbsType then []
          else [structs.typeLine vb.fields.AbsType])
      ++ [structs.slotOf w f (vn ++ "." ++ kb) ++ " "
            ++ structs.tableTypeName vb.fields.AbsType ++ ";"] := by
  simp only [structs.forRange] at hr
  cases h1 : structs.tableRecordDecl f arg vn (vns, p) (ka, va) with
  | error e => rw [h1] at hr; cases hr
  | ok s1 =>
    obtain ⟨vns1, p1⟩ := s1
    rw [h1] at hr
    simp only at hr
    cases h2 : structs.tableRecordDecl f arg vn (vns1, p1) (kb, vb) with
    | error e => rw [h2] at hr; cases hr
    | ok s2 =>
      obtain ⟨vns2, p2⟩ := s2
      rw [h2] at hr
      simp only [Except.ok.injEq] at hr
      subst hr
      obtain ⟨e0, e1, e2, _⟩ := tableRecordDecl_ok f arg vn vns vns1 p p1 (ka, va) h1
      obtain ⟨d0, d1, _⟩ := tableRecordDecl_ok f arg vn vns1 vns2 p1 p2 (kb, vb) h2
      obtain ⟨t1, t2, t3, _⟩ := getTableType_effect p va.fields.AbsType
      obtain ⟨u1, u2, _⟩ := getTableType_effect p1 vb.fields.AbsType
      have hn : Go.mapGet p.tableTypes va.fields.AbsType = none := by rw [hnone]; rfl
      have hsa : structs.slotOf w f (vn ++ "." ++ ka)
          = (structs.getVarName vns f (vn ++ "." ++ ka) "x").1 :=
        slotOf_of_keeps vns w f _ (by
          rw [← e0]
          exact keeps_trans _ _ _ (d0 ▸ (getVarName_keeps vns1 f (vn ++ "." ++ kb)).1) hw)
      have hsb : structs.slotOf w f (vn ++ "." ++ kb)
          = (structs.getVarName vns1 f (vn ++ "." ++ kb) "x").1 :=
        slotOf_of_keeps vns1 w f _ (by rw [← d0]; exact hw)
      have hp1 : p1.tableTypes = Go.mapSet [] va.fields.AbsType
          (structs.tableTypeName va.fields.AbsType) := by
        rw [e2, t3, if_pos hn, hnone]
      have hget : Go.mapGet p1.tableTypes vb.fields.AbsType
          = if vb.fields.AbsType = va.fields.AbsType then
              some (structs.tableTypeName va.fields.AbsType) else none := by
        rw [hp1]
        split_ifs with hab
        · rw [hab, mapGet_mapSet_self]
        · rw [mapGet_mapSet_ne _ _ _ _ hab]; rfl
      show p2.decls = _
      rw [d1, u2, u1, e1, t2, t1, hn, hget, hsa, hsb]
      by_cases hab : vb.fields.AbsType = va.fields.AbsType
      · simp [hab]
      · simp [hab]

/-- The case of an output-only Table of Records whose copy loop visits at least
one field and only fields that the declaration loop visits, in a state whose
names start with `x`, with the slots read in a later state. -/
theorem planTableRecord_out (h : structs.Helpers) (f : String) (a e : structs.Argument)
    (vns : structs.VarNames) (p : structs.Plan) (s' : structs.VarNames × structs.Plan)
    (hin : a.IsInput = false) (hout : a.IsOutput = true) (hwell : structs.WellNamed vns)
    (kv0 : String × structs.Argument) (l2 : List (String × structs.Argument))
    (h2 : h.rangeOf 2 (e.fields.RecordOf.getD []) = kv0 :: l2)
    (hsub : ∀ kv ∈ h.rangeOf 2 (e.fields.RecordOf.getD []),
      kv ∈ h.rangeOf 1 (e.fields.RecordOf.getD []))
    (hr : structs.planTableRecord h f (vns, p) a e = .ok s')
    (w : structs.VarNames) (hw : structs.Keeps s'.1 w) :
    (∃ (vns0 : structs.VarNames) (p0 : structs.Plan) (s1 : structs.VarNames × structs.Plan),
      p0.decls = p.decls ++ [structs.slotOf w f (a.fields.Name ++ "." ++ e.fields.Name) ++ " "
        ++ a.fields.TypeName ++ ";"] ∧
      p0.tableTypes = p.tableTypes ∧
      structs.forRange (structs.tableRecordDecl f a
          (structs.slotOf w f (a.fields.Name ++ "." ++ e.fields.Name)))
        (h.rangeOf 1 (e.fields.RecordOf.getD [])) (vns0, p0) = .ok s1 ∧
      structs.Keeps s1.1 w ∧ s'.2.decls = s1.2.decls) ∧
    s'.2.pre = p.pre
      ++ (structs.slotOf w f (a.fields.Name ++ "." ++ e.fields.Name) ++ ".DELETE;")
      :: (h.rangeOf 1 (e.fields.RecordOf.getD [])).map (fun kv =>
          structs.slotOf w f (structs.slotOf w f (a.fields.Name ++ "." ++ e.fields.Name)
            ++ "." ++ kv.1) ++ ".DELETE;") ∧
    s'.2.post = p.post
      ++ ["", "i1 := " ++ structs.slotOf w f (a.fields.Name ++ "." ++ e.fields.Name)
            ++ ".FIRST; i2 := 1;", "WHILE i1 IS NOT NULL LOOP"]
      ++ (h.rangeOf 2 (e.fields.RecordOf.getD [])).map (fun kv =>
          "  " ++ structs.slotOf w f (structs.slotOf w f
              (a.fields.Name ++ "." ++ e.fields.Name) ++ "." ++ kv.1)
            ++ "(i2) := " ++ structs.slotOf w f (a.fields.Name ++ "." ++ e.fields.Name)
            ++ "(i1)." ++ kv.1 ++ ";")
      ++ ["  i1 := " ++ structs.slotOf w f (a.fields.Name ++ "." ++ e.fields.Name)
            ++ ".NEXT(i1); i2 := i2 + 1;", "END LOOP;"]
      ++ (h.rangeOf 3 (e.fields.RecordOf.getD [])).map (fun kv =>
          ":" ++ structs.slotOf w f (structs.slotOf w f
              (a.fields.Name ++ "." ++ e.fields.Name) ++ "." ++ kv.1)
            ++ " := " ++ structs.slotOf w f (structs.slotOf w f
              (a.fields.Name ++ "." ++ e.fields.Name) ++ "." ++ kv.1) ++ ";") := by
  simp only [structs.planTableRecord, structs.getInnerVarName, hin, hout, if_true,
    Bool.false_eq_true, not_false_eq_true] at hr
  split at hr
  · cases hr
  · rename_i st1 h1
    obtain ⟨vns1, p1⟩ := st1
    simp only [structs.tableRecordLoops] at hr
    split at hr
    · cases hr
    · rename_i st2 hl
      obtain ⟨vns2, p2, i2⟩ := st2
      obtain ⟨vns', p'⟩ := s'
      -- the states continue one another
      obtain ⟨c1, _⟩ := forRange_continues _
        (fun s a' s' hs => tableRecordDecl_continues f a _ s s' a' hs) _ _ _ h1
      obtain ⟨c2, _⟩ := forRange_tableRecordLoop_continues h f a _ _ _ _ _ hl
      obtain ⟨c3, _⟩ := tableRecordClose_continues h f a _ _ _ _ hr
      have k2w : structs.Keeps vns2 w := keeps_trans _ _ _ c3.1 hw
      have k1w : structs.Keeps vns1 w := keeps_trans _ _ _ c2.1 k2w
      have hc : structs.slotOf w f (a.fields.Name ++ "." ++ e.fields.Name)
          = (structs.getVarName vns f (a.fields.Name ++ "." ++ e.fields.Name) "x").1 :=
        slotOf_of_keeps vns w f _ (keeps_trans _ _ _ c1.1 k1w)
      have hw1 : structs.WellNamed vns1 :=
        c1.2.1 (getVarName_wellNamed vns f _ hwell).2
      rw [← hc] at h1 hl hr
      -- the three loops
      obtain ⟨_, m2, g1⟩ := forRange_tableRecordDecl_later f a _ _ _ _ _ _ h1
      obtain ⟨g15, g14⟩ := g1 w k1w
      obtain ⟨d1, d2⟩ := forRange_tableRecordLoop_decls h f a _ _ _ _ _ hl
        (fun kv hkv => m2 kv (hsub kv hkv))
      rw [h2] at hl
      obtain ⟨_, g24, g25⟩ := forRange_tableRecordLoop_first h f a _ _ kv0 l2 vns1 vns2 p1 p2 i2
        hw1 hl w k2w
      obtain ⟨g31, _, g34, g35⟩ := tableRecordClose_later h f a _ _ vns2 vns' p2 p' i2 hr w hw
      refine ⟨⟨_, _, (vns1, p1), ?_, ?_, h1, k1w, g31.trans d1⟩, ?_, ?_⟩
      · simp only [hc]
      · rfl
      · show p'.pre = _
        rw [g34, g24, g14]
        simp [hin]
      · show p'.post = _
        rw [g35, g25, g15, h2]
        simp [hout]

end TableRecordOut

/-- C16: a function whose only argument is its `Returns`, an OUT Table of a
Record with the two fields `k1` and `k2`, planned in a state that requests to
the allocator reach, every range loop visiting each field once.  With `vn` the
local collection and `shadow_k` the shadow collection of field `k`: the
declarations are the two counters, the one declaration `vn <TypeName>;`, and
for the two fields in the order of the declaration loop the type of the field
(once when both have the same signature) and the one declaration of its shadow
collection; the pre-call statements are exactly the clears `vn.DELETE;` and
`shadow_k.DELETE;` of both fields; the post-call statements are one loop that
starts with `i1 := vn.FIRST; i2 := 1;`, runs while `i1` is not null, writes
`shadow_k(i2) := vn(i1).k;` for both fields and steps with
`i1 := vn.NEXT(i1); i2 := i2 + 1;`, followed by one `:shadow_k := shadow_k;`
per field. -/
theorem prepareCall_out_table_of_record (h : structs.Helpers) (vn vn' : structs.VarNames)
    (f : structs.Function) (r : structs.Prepared) (a e : structs.Argument)
    (k1 k2 : String) (v1 v2 : structs.Argument)
    (hargs : f.Args = []) (hret : f.Returns = some a)
    (hflav : a.fields.Flavor = structs.FLAVOR_TABLE) (hcur : a.fields.Type_ ≠ "REF CURSOR")
    (hof : a.fields.TableOf = some e) (herec : e.fields.Flavor = structs.FLAVOR_RECORD)
    (hfs : e.fields.RecordOf = some [(k1, v1), (k2, v2)])
    (hin : a.IsInput = false) (hout : a.IsOutput = true)
    (hp1 : (h.rangeOf 1 [(k1, v1), (k2, v2)]).Perm [(k1, v1), (k2, v2)])
    (hp2 : (h.rangeOf 2 [(k1, v1), (k2, v2)]).Perm [(k1, v1), (k2, v2)])
    (hp3 : (h.rangeOf 3 [(k1, v1), (k2, v2)]).Perm [(k1, v1), (k2, v2)])
    (hreach : structs.Reachable vn)
    (hr : structs.prepareCall h vn f = .ok (r, vn')) :
    r.pre = (structs.slotOf vn' (f.Name h) (a.fields.Name ++ "." ++ e.fields.Name)
        ++ ".DELETE;")
      :: (h.rangeOf 1 [(k1, v1), (k2, v2)]).map (fun kv =>
          structs.slotOf vn' (f.Name h) (structs.slotOf vn' (f.Name h)
            (a.fields.Name ++ "." ++ e.fields.Name) ++ "." ++ kv.1) ++ ".DELETE;") ∧
    r.post = ["", "i1 := " ++ structs.slotOf vn' (f.Name h)
          (a.fields.Name ++ "." ++ e.fields.Name) ++ ".FIRST; i2 := 1;",
        "WHILE i1 IS NOT NULL LOOP"]
      ++ (h.rangeOf 2 [(k1, v1), (k2, v2)]).map (fun kv =>
          "  " ++ structs.slotOf vn' (f.Name h) (structs.slotOf vn' (f.Name h)
              (a.fields.Name ++ "." ++ e.fields.Name) ++ "." ++ kv.1)
            ++ "(i2) := " ++ structs.slotOf vn' (f.Name h)
              (a.fields.Name ++ "." ++ e.fields.Name)
            ++ "(i1)." ++ kv.1 ++ ";")
      ++ ["  i1 := " ++ structs.slotOf vn' (f.Name h) (a.fields.Name ++ "." ++ e.fields.Name)
            ++ ".NEXT(i1); i2 := i2 + 1;", "END LOOP;"]
      ++ (h.rangeOf 3 [(k1, v1), (k2, v2)]).map (fun kv =>
          ":" ++ structs.slotOf vn' (f.Name h) (structs.slotOf vn' (f.Name h)
              (a.fields.Name ++ "." ++ e.fields.Name) ++ "." ++ kv.1)
            ++ " := " ++ structs.slotOf vn' (f.Name h) (structs.slotOf vn' (f.Name h)
              (a.fields.Name ++ "." ++ e.fields.Name) ++ "." ++ kv.1) ++ ";") ∧
    (h.rangeOf 2 [(k1, v1), (k2, v2)]).length = 2 ∧
    (h.rangeOf 3 [(k1, v1), (k2, v2)]).length = 2 ∧
    ∃ ka va kb vb, h.rangeOf 1 [(k1, v1), (k2, v2)] = [(ka, va), (kb, vb)] ∧
      r.decls = ["i1 PLS_INTEGER;", "i2 PLS_INTEGER;",
          structs.slotOf vn' (f.Name h) (a.fields.Name ++ "." ++ e.fields.Name) ++ " "
            ++ a.fields.TypeName ++ ";",
          structs.typeLine va.fields.AbsType,
          structs.slotOf vn' (f.Name h) (structs.slotOf vn' (f.Name h)
            (a.fields.Name ++ "." ++ e.fields.Name) ++ "." ++ ka) ++ " "
            ++ structs.tableTypeName va.fields.AbsType ++ ";"]
        ++ (if vb.fields.AbsType = va.fields.AbsType then []
            else [structs.typeLine vb.fields.AbsType])
        ++ [structs.slotOf vn' (f.Name h) (structs.slotOf vn' (f.Name h)
            (a.fields.Name ++ "." ++ e.fields.Name) ++ "." ++ kb) ++ " "
            ++ structs.tableTypeName vb.fields.AbsType ++ ";"] := by
  have hfs' : e.fields.RecordOf.getD [] = [(k1, v1), (k2, v2)] := by rw [hfs]; rfl
  have hl1 : (h.rangeOf 1 [(k1, v1), (k2, v2)]).length = 2 := hp1.length_eq
  have hl2 : (h.rangeOf 2 [(k1, v1), (k2, v2)]).length = 2 := hp2.length_eq
  have hl3 : (h.rangeOf 3 [(k1, v1), (k2, v2)]).length = 2 := hp3.length_eq
  obtain ⟨kv0, l2, h2⟩ : ∃ kv0 l2, h.rangeOf 2 [(k1, v1), (k2, v2)] = kv0 :: l2 := by
    cases hh : h.rangeOf 2 [(k1, v1), (k2, v2)] with
    | nil => rw [hh] at hl2; cases hl2
    | cons x l => exact ⟨x, l, rfl⟩
  obtain ⟨ka, va, kb, vb, h1⟩ : ∃ ka va kb vb,
      h.rangeOf 1 [(k1, v1), (k2, v2)] = [(ka, va), (kb, vb)] := by
    match hh : h.rangeOf 1 [(k1, v1), (k2, v2)], hl1 with
    | [(ka, va), (kb, vb)], _ => exact ⟨ka, va, kb, vb, rfl⟩
  have hsub : ∀ kv ∈ h.rangeOf 2 (e.fields.RecordOf.getD []),
      kv ∈ h.rangeOf 1 (e.fields.RecordOf.getD []) := by
    intro kv hkv
    rw [hfs'] at hkv ⊢
    exact hp1.mem_iff.mpr (hp2.mem_iff.mp hkv)
  simp only [structs.prepareCall] at hr
  split at hr
  · cases hr
  · rename_i vns p hf
    simp only [Except.ok.injEq, Prod.mk.injEq] at hr
    obtain ⟨rfl, rfl⟩ := hr
    rw [hret, hargs] at hf
    simp only [List.nil_append, structs.forRange] at hf
    split at hf
    · cases hf
    · rename_i s1 hs
      simp only [Except.ok.injEq] at hf
      subst hf
      simp only [structs.planArg, hflav, hcur, hof, herec, if_true, if_false] at hs
      rw [if_neg (by decide), if_neg (by decide), if_neg (by decide)] at hs
      obtain ⟨⟨vns0, p0, s1, q1, q2, q3, q4, q5⟩, gpre, gpost⟩ :=
        planTableRecord_out h (f.Name h) a e vn _ (vns, p) hin hout
          (reachable_wellNamed vn hreach) kv0 l2 (by rw [hfs']; exact h2) hsub hs vns
          (keeps_refl _)
      rw [hfs'] at gpre gpost q3
      refine ⟨?_, ?_, hl2, hl3, ka, va, kb, vb, h1, ?_⟩
      · show p.pre = _
        rw [gpre]; rfl
      · show p.post = _
        rw [gpost]; rfl
      · show p.decls = _
        rw [h1] at q3
        have := forRange_tableRecordDecl_pair (f.Name h) a _ ka kb va vb vns0 p0 s1 q3 q2
          vns q4
        rw [q5, this, q1]
        simp

/-- C16 at a concrete input: the function `DB_web.szamolt_dijtetelek`, which
returns an OUT Table of a Record with the fields `nev` and `ertek`, planned
from the empty state: one local collection `x001`, the shadow collections
`x002#nev` and `x002#ertek`, three pre-call clears, and one post-call loop that
fills both shadow collections at `i2`, followed by the two write-backs. -/
theorem prepareCall_out_table_of_record_witness :
    ∃ r vn', structs.prepareCall structs.Helpers.plain [] structs.szamoltDijtetelek
        = .ok (r, vn') ∧
      structs.Reachable [] ∧
      r.decls = ["i1 PLS_INTEGER;", "i2 PLS_INTEGER;",
        "x001 BRUNO.DB_WEB_PORTAL.NEVSZAM_TAB_TYP;",
        "TYPE VARCHAR2_80_tab_typ IS TABLE OF VARCHAR2(80) INDEX BY BINARY_INTEGER;",
        "x002#nev VARCHAR2_80_tab_typ;",
        "TYPE NUMBER_12_2_tab_typ IS TABLE OF NUMBER(12, 2) INDEX BY BINARY_INTEGER;",
        "x002#ertek NUMBER_12_2_tab_typ;"] ∧
      r.pre = ["x001.DELETE;", "x002#nev.DELETE;", "x002#ertek.DELETE;"] ∧
      r.post = ["", "i1 := x001.FIRST; i2 := 1;", "WHILE i1 IS NOT NULL LOOP",
        "  x002#nev(i2) := x001(i1).nev;", "  x002#ertek(i2) := x001(i1).ertek;",
        "  i1 := x001.NEXT(i1); i2 := i2 + 1;", "END LOOP;",
        ":x002#nev := x002#nev;", ":x002#ertek := x002#ertek;"] :=
  ⟨_, _, rfl, ⟨[], rfl⟩, by decide,
    (prepareCall_out_table_of_record structs.Helpers.plain [] _ structs.szamoltDijtetelek _
      structs.nevszamTable structs.nevszamRecord "nev" "ertek" _ _ rfl rfl rfl (by decide)
      rfl rfl rfl rfl rfl (List.Perm.refl _) (List.Perm.refl _) (List.Perm.refl _)
      ⟨[], rfl⟩ rfl).1.trans (by rfl),
    by decide⟩

section TypeLineFacts

/-- Two lists that agree around the first occurrence of a character agree
before it and after it. -/
theorem append_cons_inj_of_not_mem {α : Type} (c : α) :
    ∀ (l1 l2 r1 r2 : List α), c ∉ l1 → c ∉ l2 → l1 ++ c :: r1 = l2 ++ c :: r2 →
      l1 = l2 ∧ r1 = r2 := by
  intro l1
  induction l1 with
  | nil =>
    intro l2 r1 r2 _ h2 he
    cases l2 with
    | nil => simpa using he
    | cons b l2 =>
      simp only [List.nil_append, List.cons_append, List.cons.injEq] at he
      exact absurd (he.1 ▸ List.mem_cons_self _ _) h2
  | cons a l1 ih =>
    intro l2 r1 r2 h1 h2 he
    cases l2 with
    | nil =>
      simp only [List.nil_append, List.cons_append, List.cons.injEq] at he
      exact absurd (he.1 ▸ List.mem_cons_self _ _) h1
    | cons b l2 =>
      simp only [List.cons_append, List.cons.injEq] at he
      obtain ⟨g1, g2⟩ := ih l2 r1 r2 (fun hm => h1 (List.mem_cons_of_mem _ hm))
        (fun hm => h2 (List.mem_cons_of_mem _ hm)) he.2
      exact ⟨by rw [he.1, g1], g2⟩

/-- The name that `getTableType` makes for a collection type holds no space. -/
theorem tableTypeName_no_space (a : String) : ' ' ∉ (structs.tableTypeName a).data := by
  intro hm
  simp only [structs.tableTypeName, Go.mapRunes, String.data_append, List.mem_append,
    List.mem_filterMap] at hm
  rcases hm with ⟨c, _, hc⟩ | hm
  · simp only [structs.tableTypeRune] at hc
    split_ifs at hc with h1 h2
    · cases hc
    · simp only [Option.some.injEq] at hc
      exact h2 (Or.inl hc)
  · revert hm
    decide

/-- The declaration of a collection type starts with `T`. -/
theorem typeLine_head (a : String) : (structs.typeLine a).data.head? = some 'T' := by
  unfold structs.typeLine
  exact head_append _ _ _ (head_append _ _ _ (head_append _ _ _ (head_append _ _ _ rfl)))

/-- Two signatures with the same declaration of their collection type are the
same signature. -/
theorem typeLine_inj (a b : String) (h : structs.typeLine a = structs.typeLine b) : a = b := by
  have hd := congrArg String.data h
  simp only [structs.typeLine, String.data_append] at hd
  simp only [List.append_assoc, List.cons_append, List.nil_append, List.cons.injEq,
    true_and] at hd
  obtain ⟨_, g⟩ := append_cons_inj_of_not_mem ' ' _ _ _ _ (tableTypeName_no_space a)
    (tableTypeName_no_space b) hd
  simp only [List.cons.injEq, true_and] at g
  have g2 := List.append_cancel_right g
  exact String.ext g2

/-- A line that does not start with `T` is no declaration of a collection type. -/
theorem ne_typeLine (s a : String) (hs : s.data.head? ≠ some 'T') : s ≠ structs.typeLine a := by
  intro he
  rw [he] at hs
  exact hs (typeLine_head a)

/-- A line that starts with `x` is no declaration of a collection type. -/
theorem head_x_ne_T (s : String) (hs : s.data.head? = some 'x') : s.data.head? ≠ some 'T' := by
  rw [hs]; decide

end TypeLineFacts

section TypesOnceFacts

/-- Lines that are no declaration of a collection type, appended to the
declarations, keep the invariant of the collection types. -/
theorem typesOnce_append (p q : structs.Plan) (ls : List String) (hp : p.TypesOnce)
    (hd : q.decls = p.decls ++ ls) (ht : q.tableTypes = p.tableTypes)
    (hl : ∀ s ∈ ls, ∀ b, s ≠ structs.typeLine b) : q.TypesOnce := by
  intro a
  have hc : ls.count (structs.typeLine a) = 0 :=
    List.count_eq_zero.mpr (fun hm => hl _ hm a rfl)
  rw [hd, ht, List.count_append, hc, Nat.add_zero]
  exact hp a

/-- The call `getTableType` keeps the invariant of the collection types, and
under the invariant it returns the name `tableTypeName` of the signature. -/
theorem getTableType_typesOnce (p : structs.Plan) (a : String) (hp : p.TypesOnce) :
    (structs.getTableType p a).2.TypesOnce ∧
    (structs.getTableType p a).1 = structs.tableTypeName a := by
  obtain ⟨t1, t2, t3, _⟩ := getTableType_effect p a
  cases hg : Go.mapGet p.tableTypes a with
  | some t =>
    rw [hg] at t1 t2 t3
    simp only [reduceCtorEq, if_false, List.append_nil, Option.getD_some] at t1 t2 t3
    refine ⟨typesOnce_append p _ [] hp (by simp [t2]) t3 (fun s hs => (by cases hs)), ?_⟩
    rw [t1]
    exact ((hp a).2 t hg).1
  | none =>
    rw [hg] at t1 t2 t3
    simp only [if_true, Option.getD_none] at t1 t2 t3
    refine ⟨fun b => ?_, t1⟩
    rw [t2, t3, List.count_append]
    by_cases hb : b = a
    · subst hb
      rw [mapGet_mapSet_self]
      refine ⟨fun hn => (by cases hn), fun t ht => ?_⟩
      simp only [Option.some.injEq] at ht
      refine ⟨ht.symm, ?_⟩
      rw [(hp b).1 hg]
      simp
    · rw [mapGet_mapSet_ne _ _ _ _ hb]
      have hc : [structs.typeLine a].count (structs.typeLine b) = 0 := by
        rw [List.count_eq_zero]
        intro hm
        simp only [List.mem_singleton] at hm
        exact hb (typeLine_inj b a hm)
      rw [hc, Nat.add_zero]
      exact hp b

end TypesOnceFacts

section DeclLineFacts

/-- A list without the character `c`, followed by `c`, that starts a list with a
`c` somewhere is a prefix of the part before that `c`. -/
theorem prefix_of_not_mem {α : Type} (c : α) :
    ∀ (t x r1 r2 : List α), c ∉ t → x ++ c :: r1 = t ++ c :: r2 →
      ∃ x', x = t ++ x' ∧ x' ++ c :: r1 = c :: r2 := by
  intro t
  induction t with
  | nil => intro x r1 r2 _ h; exact ⟨x, rfl, h⟩
  | cons a t ih =>
    intro x r1 r2 hn h
    cases x with
    | nil =>
      simp only [List.nil_append, List.cons_append, List.cons.injEq] at h
      exact absurd (h.1 ▸ List.mem_cons_self _ _) hn
    | cons b x =>
      simp only [List.cons_append, List.cons.injEq] at h
      obtain ⟨x', g1, g2⟩ := ih x r1 r2 (fun hm => hn (List.mem_cons_of_mem _ hm)) h.2
      exact ⟨x', by rw [h.1, g1]; rfl, g2⟩

/-- The name that `getTableType` makes for a collection type holds no character
that its rune mapping drops. -/
theorem tableTypeName_kept (a : String) :
    ∀ c ∈ (structs.tableTypeName a).data, structs.tableTypeRune c ≠ none := by
  intro c hm
  simp only [structs.tableTypeName, Go.mapRunes, String.data_append, List.mem_append,
    List.mem_filterMap] at hm
  rcases hm with ⟨c0, _, hc⟩ | hm
  · simp only [structs.tableTypeRune] at hc
    split_ifs at hc with h1 h2
    · simp only [Option.some.injEq] at hc
      subst hc
      decide
    · simp only [Option.some.injEq] at hc
      subst hc
      simp only [structs.tableTypeRune, h1, h2, if_false]
      exact fun h => by cases h
  · revert c
    decide

/-- The rune mapping of `getTableType` keeps the length of a list in which it
drops nothing. -/
theorem filterMap_rune_length :
    ∀ (l : List Char), (∀ c ∈ l, structs.tableTypeRune c ≠ none) →
      (l.filterMap structs.tableTypeRune).length = l.length := by
  intro l
  induction l with
  | nil => intro _; rfl
  | cons a l ih =>
    intro h
    cases ha : structs.tableTypeRune a with
    | none => exact absurd ha (h a (List.mem_cons_self _ _))
    | some b =>
      rw [List.filterMap_cons_some ha, List.length_cons, List.length_cons,
        ih (fun c hc => h c (List.mem_cons_of_mem _ hc))]

/-- No signature holds the name of its own collection type. -/
theorem tableTypeName_not_infix (b : String) (x y : List Char)
    (h : b.data = x ++ (structs.tableTypeName b).data ++ y) : False := by
  have h1 := congrArg (fun l => (l.filterMap structs.tableTypeRune).length) h
  simp only [List.filterMap_append, List.length_append] at h1
  rw [filterMap_rune_length _ (tableTypeName_kept b)] at h1
  have h2 : (structs.tableTypeName b).data.length
      = (b.data.filterMap structs.tableTypeRune).length + 8 := by
    simp only [structs.tableTypeName, Go.mapRunes, String.data_append, List.length_append]
    rfl
  omega

/-- The name that `getTableType` makes for a collection type ends with `p`. -/
theorem tableTypeName_last (a : String) : (structs.tableTypeName a).data.getLast? = some 'p' := by
  simp only [structs.tableTypeName, String.data_append]
  rw [List.getLast?_append]
  rfl

/-- The name that `getTableType` makes for a collection type has at least eight
characters. -/
theorem tableTypeName_length (a : String) : 8 ≤ (structs.tableTypeName a).data.length := by
  simp only [structs.tableTypeName, String.data_append, List.length_append]
  exact Nat.le_add_left _ _

end DeclLineFacts

section DeclLineNotType

/-- The declaration of the collection of an input Table of scalars,
`<name> <t> := :<name>;`, is no declaration of a collection type; on lists of
characters. -/
theorem in_line_aux (N Te Tb B : List Char) (hTe : ' ' ∉ Te) (hTeLen : 8 ≤ Te.length)
    (hTb : ' ' ∉ Tb) (hTbp : Tb.getLast? = some 'p')
    (hTbB : ∀ X Y, B = X ++ Tb ++ Y → False) :
    N ++ ' ' :: (Te ++ (" := :".data ++ (N ++ [';'])))
      ≠ "TYPE ".data ++ (Tb ++ (" IS TABLE OF ".data
          ++ (B ++ " INDEX BY BINARY_INTEGER;".data))) := by
  intro h
  match N, h with
  | [], h => simp at h
  | [_], h => simp at h
  | [_, _], h => simp at h
  | [_, _, _], h => simp at h
  | [c1, c2, c3, c4], h =>
    simp only [List.cons_append, List.nil_append, String.data, List.cons.injEq] at h
    obtain ⟨_, _, _, _, h⟩ := h
    have := (append_cons_inj_of_not_mem ' ' Te Tb _ _ hTe hTb
      (by simpa using h)).2
    simp at this
  | c1 :: c2 :: c3 :: c4 :: c5 :: N1, h =>
    simp only [List.cons_append, List.nil_append, List.cons.injEq] at h
    obtain ⟨rfl, rfl, rfl, rfl, rfl, h⟩ := h
    obtain ⟨X, rfl, h2⟩ := prefix_of_not_mem ' ' Tb N1 _ _ hTb h
    have h3 : (X ++ ' ' :: (Te ++ " := :TYPE ".data) ++ Tb) ++ (X ++ [';'])
        = (" IS TABLE OF ".data ++ B) ++ (" INDEX BY BINARY_INTEGER".data ++ [';']) := by
      simpa [List.append_assoc] using h2
    have hlen : 13 < (X ++ ' ' :: (Te ++ " := :TYPE ".data)).length := by
      simp only [List.length_append, List.length_cons]
      have : (" := :TYPE " : String).data.length = 10 := rfl
      omega
    have key : ∀ a', " IS TABLE OF ".data ++ B
        = (X ++ ' ' :: (Te ++ " := :TYPE ".data) ++ Tb) ++ a' → False := by
      intro a' hc
      rw [List.append_assoc] at hc
      rcases List.append_eq_append_iff.mp hc with ⟨w', hw1, hw2⟩ | ⟨l', hl1, _⟩
      · exact hTbB w' a' (by rw [hw2, List.append_assoc])
      · have := congrArg List.length hl1
        rw [List.length_append] at this
        have h13 : (" IS TABLE OF " : String).data.length = 13 := rfl
        omega
    rcases List.append_eq_append_iff.mp h3 with ⟨a', ha1, _⟩ | ⟨c', hc1, hc2⟩
    · exact key a' ha1
    · cases c' with
      | nil => exact key [] (by rw [List.append_nil] at hc1 ⊢; exact hc1.symm)
      | cons d c' =>
        have hl1 : (X ++ ' ' :: (Te ++ " := :TYPE ".data) ++ Tb).getLast? = some 'p' := by
          rw [List.getLast?_append, hTbp]; rfl
        rw [hc1, List.getLast?_append] at hl1
        have hne : (d :: c').getLast? = some 'p' := by
          cases hg : (d :: c').getLast? with
          | none => simp at hg
          | some z => rw [hg] at hl1; simpa using hl1
        have hmem : 'p' ∈ d :: c' := List.mem_of_getLast?_eq_some hne
        have : 'p' ∈ (" INDEX BY BINARY_INTEGER" : String).data ++ [';'] := by
          rw [hc2]
          exact List.mem_append_left _ hmem
        revert this
        decide

end DeclLineNotType

section DeclLineOfTable

/-- The declaration of the collection of a Table of scalars, `<name> <t>;` for
an argument that is no input and `<name> <t> := :<name>;` for an input, is no
declaration of a collection type, whatever the name of the argument is. -/
theorem tableSimple_line_ne_typeLine (n e b : String) (isIn : Bool) :
    n ++ " " ++ structs.tableTypeName e ++ (if isIn = true then " := :" ++ n else "") ++ ";"
      ≠ structs.typeLine b := by
  intro he
  have hd := congrArg String.data he
  cases isIn with
  | false =>
    have hr := congrArg List.reverse hd
    simp [structs.typeLine, structs.tableTypeName] at hr
  | true =>
    simp only [if_true, structs.typeLine, String.data_append, List.append_assoc] at hd
    exact in_line_aux n.data (structs.tableTypeName e).data (structs.tableTypeName b).data b.data
      (tableTypeName_no_space e) (tableTypeName_length e) (tableTypeName_no_space b)
      (tableTypeName_last b) (fun X Y h => tableTypeName_not_infix b X Y h) hd

end DeclLineOfTable

section KeepsTypesFacts

/-- A state keeps its own collection types. -/
theorem keepsTypes_refl (s : structs.VarNames × structs.Plan) : structs.KeepsTypes s s :=
  ⟨continues_refl s, fun _ h => h, fun _ h => h⟩

/-- Keeping the collection types is transitive. -/
theorem keepsTypes_trans (a b c : structs.VarNames × structs.Plan)
    (h1 : structs.KeepsTypes a b) (h2 : structs.KeepsTypes b c) : structs.KeepsTypes a c :=
  ⟨continues_trans a b c h1.1 h2.1,
    fun hw ht => h2.2.1 (h1.1.2.1 hw) (h1.2.1 hw ht),
    fun x hx => h2.2.2 x (h1.2.2 x hx)⟩

/-- A step that continues the state, appends lines that are no declaration of
a collection type to the declarations and leaves the recorded types keeps the
collection types. -/
theorem keepsTypes_of (s s' : structs.VarNames × structs.Plan) (ls : List String)
    (hc : structs.Continues s s') (hd : s'.2.decls = s.2.decls ++ ls)
    (ht : s'.2.tableTypes = s.2.tableTypes)
    (hl : structs.WellNamed s.1 → s.2.TypesOnce → ∀ x ∈ ls, ∀ b, x ≠ structs.typeLine b) :
    structs.KeepsTypes s s' :=
  ⟨hc, fun hw hp => typesOnce_append s.2 s'.2 ls hp hd ht (hl hw hp), fun _ hb => ht ▸ hb⟩

/-- A step that continues the state, calls `getTableType` and then appends
lines that are no declaration of a collection type to the declarations keeps
the collection types. -/
theorem keepsTypes_of_getTableType (s s' : structs.VarNames × structs.Plan) (a : String)
    (ls : List String) (hc : structs.Continues s s')
    (hd : s'.2.decls = (structs.getTableType s.2 a).2.decls ++ ls)
    (ht : s'.2.tableTypes = (structs.getTableType s.2 a).2.tableTypes)
    (hl : structs.WellNamed s.1 → s.2.TypesOnce → ∀ x ∈ ls, ∀ b, x ≠ structs.typeLine b) :
    structs.KeepsTypes s s' :=
  ⟨hc, fun hw hp => typesOnce_append _ s'.2 ls (getTableType_typesOnce s.2 a hp).1 hd ht (hl hw hp),
    fun b hb => ht ▸ getTableType_mono s.2 a b hb⟩

/-- A line that starts with a name of the allocator is no declaration of a
collection type. -/
theorem alloc_line_ne (vns : structs.VarNames) (f v rest b : String)
    (hw : structs.WellNamed vns) :
    (structs.getVarName vns f v "x").1 ++ rest ≠ structs.typeLine b :=
  ne_typeLine _ b (head_x_ne_T _ (head_append _ _ _ (getVarName_wellNamed vns f v hw).1))

/-- One turn of the loop over the fields of a Record keeps the collection
types. -/
theorem recordField_keepsTypes (h : structs.Helpers) (f : String) (arg : structs.Argument)
    (vn aname : String) (s s' : structs.VarNames × structs.Plan)
    (kv : String × structs.Argument)
    (hr : structs.recordField h f arg vn aname s kv = .ok s') : structs.KeepsTypes s s' := by
  obtain ⟨e0, e1, e2, _⟩ := recordField_ok h f arg vn aname s.1 s'.1 s.2 s'.2 kv hr
  exact keepsTypes_of s s' [] (recordField_continues h f arg vn aname s s' kv hr).1
    (by simp [e1]) e2 (fun _ _ x hx => by cases hx)

/-- One turn of the declaration loop of a Table-of-Record keeps the collection
types. -/
theorem tableRecordDecl_keepsTypes (f : String) (arg : structs.Argument) (vn : String)
    (s s' : structs.VarNames × structs.Plan) (kv : String × structs.Argument)
    (hr : structs.tableRecordDecl f arg vn s kv = .ok s') : structs.KeepsTypes s s' := by
  obtain ⟨e0, e1, e2, _⟩ := tableRecordDecl_ok f arg vn s.1 s'.1 s.2 s'.2 kv hr
  refine keepsTypes_of_getTableType s s' kv.2.fields.AbsType _
    (tableRecordDecl_continues f arg vn s s' kv hr).1 e1 e2 (fun hw _ x hx b => ?_)
  simp only [List.mem_singleton] at hx
  rw [hx, String.append_assoc, String.append_assoc]
  exact alloc_line_ne _ _ _ _ b hw

/-- One turn of the write-back loop of a Table-of-Record keeps the collection
types. -/
theorem tableRecordOut_keepsTypes (f vn : String) (s s' : structs.VarNames × structs.Plan)
    (kv : String × structs.Argument)
    (hr : structs.tableRecordOut f vn s kv = .ok s') : structs.KeepsTypes s s' := by
  obtain ⟨e0, e1, e2, _⟩ := tableRecordOut_ok f vn s.1 s'.1 s.2 s'.2 kv hr
  exact keepsTypes_of s s' [] (tableRecordOut_continues f vn s s' kv hr).1
    (by simp [e1]) e2 (fun _ _ x hx => by cases hx)

/-- One turn of the copy loop of a Table-of-Record keeps the collection types. -/
theorem tableRecordLoop_keepsTypes (h : structs.Helpers) (f : String) (arg : structs.Argument)
    (vn aname : String) (s s' : structs.VarNames × structs.Plan × String)
    (kv : String × structs.Argument)
    (hr : structs.tableRecordLoop h f arg vn aname s kv = .ok s') :
    structs.KeepsTypes (s.1, s.2.1) (s'.1, s'.2.1) := by
  obtain ⟨_, _, e1, e2, _⟩ :=
    tableRecordLoop_ok h f arg vn aname s.1 s'.1 s.2.1 s'.2.1 s.2.2 s'.2.2 kv hr
  exact keepsTypes_of_getTableType (s.1, s.2.1) (s'.1, s'.2.1) kv.2.fields.AbsType []
    (tableRecordLoop_continues h f arg vn aname s s' kv hr).1 (by simp [e1]) e2
    (fun _ _ x hx => by cases hx)

/-- A loop whose turns keep the collection types keeps them as a whole. -/
theorem forRange_keepsTypes {α : Type}
    (body : structs.VarNames × structs.Plan → α → Except Go.Fault (structs.VarNames × structs.Plan))
    (l : List α) (hb : ∀ s a s', a ∈ l → body s a = .ok s' → structs.KeepsTypes s s')
    (s s' : structs.VarNames × structs.Plan)
    (hr : structs.forRange body l s = .ok s') : structs.KeepsTypes s s' :=
  forRange_rel structs.KeepsTypes keepsTypes_refl keepsTypes_trans body l hb s s' hr

/-- The end of the case of a Table-of-Record keeps the collection types. -/
theorem tableRecordClose_keepsTypes (h : structs.Helpers) (f : String) (arg : structs.Argument)
    (vn : String) (recordOf : List (String × structs.Argument))
    (s : structs.VarNames × structs.Plan × String) (s' : structs.VarNames × structs.Plan)
    (hr : structs.tableRecordClose h f arg vn recordOf s = .ok s') :
    structs.KeepsTypes (s.1, s.2.1) s' := by
  obtain ⟨e1, e2, _⟩ :=
    tableRecordClose_later h f arg vn recordOf s.1 s'.1 s.2.1 s'.2 s.2.2 hr s'.1 (keeps_refl _)
  exact keepsTypes_of (s.1, s.2.1) s' [] (tableRecordClose_continues h f arg vn recordOf s s' hr).1
    (by simp [e1]) e2 (fun _ _ x hx => by cases hx)

/-- The copy loops of a Table-of-Record and what follows them keep the
collection types. -/
theorem tableRecordLoops_keepsTypes (h : structs.Helpers) (f : String) (arg : structs.Argument)
    (vn aname : String) (recordOf : List (String × structs.Argument))
    (s s' : structs.VarNames × structs.Plan)
    (hr : structs.tableRecordLoops h f arg vn aname recordOf s = .ok s') :
    structs.KeepsTypes s s' := by
  simp only [structs.tableRecordLoops] at hr
  split at hr
  · cases hr
  · rename_i st1 h1
    have g1 := forRange_rel (fun (s s' : structs.VarNames × structs.Plan × String) =>
        structs.KeepsTypes (s.1, s.2.1) (s'.1, s'.2.1))
      (fun _ => keepsTypes_refl _) (fun _ _ _ h1 h2 => keepsTypes_trans _ _ _ h1 h2)
      _ _ (fun s a s' _ hs => tableRecordLoop_keepsTypes h f arg vn aname s s' a hs) _ _ h1
    exact keepsTypes_trans _ _ _ g1 (tableRecordClose_keepsTypes h f arg vn recordOf st1 s' hr)

end KeepsTypesFacts

section ArgKeepsTypes

/-- The case of a scalar keeps the collection types. -/
theorem planSimple_keepsTypes (h : structs.Helpers) (s s' : structs.VarNames × structs.Plan)
    (arg : structs.Argument) (hr : structs.planSimple h s arg = .ok s') :
    structs.KeepsTypes s s' := by
  obtain ⟨_, e1, _, _, _, e5, _⟩ := planSimple_ok h s.1 s'.1 s.2 s'.2 arg hr
  exact keepsTypes_of s s' [] (planSimple_continues h s s' arg hr).1 (by simp [e1]) e5
    (fun _ _ x hx => by cases hx)

/-- The case of a Record keeps the collection types. -/
theorem planRecord_keepsTypes (h : structs.Helpers) (f : String) (arg : structs.Argument)
    (s s' : structs.VarNames × structs.Plan)
    (hr : structs.planRecord h f s arg = .ok s') : structs.KeepsTypes s s' := by
  obtain ⟨_, _, e2, e3, e4, _⟩ := planRecord_ok h f arg s.1 s'.1 s.2 s'.2 hr
  refine keepsTypes_of s s' _ (planRecord_effect h f arg s s' hr).1 e3 e4 (fun hw _ x hx b => ?_)
  simp only [List.mem_singleton] at hx
  rw [hx, e2, String.append_assoc, String.append_assoc]
  exact alloc_line_ne _ _ _ _ b hw

/-- The case of a Table of scalars keeps the collection types. -/
theorem planTableSimple_keepsTypes (h : structs.Helpers) (f : String)
    (arg elem : structs.Argument) (s s' : structs.VarNames × structs.Plan)
    (hr : structs.planTableSimple h f s arg elem = .ok s') : structs.KeepsTypes s s' := by
  obtain ⟨_, e1, e2, _⟩ := planTableSimple_ok h f arg elem s.1 s'.1 s.2 s'.2 hr
  refine keepsTypes_of_getTableType s s' elem.fields.AbsType _
    (planTableSimple_effect h f arg elem s s' hr).1 e1 e2 (fun hw hp x hx b => ?_)
  simp only [List.mem_cons, List.mem_singleton, List.mem_nil_iff, or_false] at hx
  rcases hx with rfl | rfl
  · rw [(getTableType_typesOnce s.2 elem.fields.AbsType hp).2]
    exact tableSimple_line_ne_typeLine _ _ b arg.IsInput
  · rw [String.append_assoc, String.append_assoc]
    exact alloc_line_ne _ _ _ _ b hw

/-- The case of a Table of Records keeps the collection types. -/
theorem planTableRecord_keepsTypes (h : structs.Helpers) (f : String)
    (arg elem : structs.Argument) (s s' : structs.VarNames × structs.Plan)
    (hr : structs.planTableRecord h f s arg elem = .ok s') : structs.KeepsTypes s s' := by
  obtain ⟨vns, p⟩ := s
  simp only [structs.planTableRecord, structs.getInnerVarName] at hr
  split at hr
  · cases hr
  · rename_i st1 h1
    have g1 := forRange_keepsTypes _ _
      (fun s a s' _ hs => tableRecordDecl_keepsTypes f arg _ s s' a hs) _ _ h1
    have g2 := tableRecordLoops_keepsTypes h f arg _ _ _ _ _ hr
    refine keepsTypes_trans _ _ _ (keepsTypes_of (vns, p) _
      [(structs.getVarName vns f (arg.fields.Name ++ "." ++ elem.fields.Name) "x").1 ++ " "
        ++ arg.fields.TypeName ++ ";"] (continues_alloc vns f _ p _ ?_) ?_ ?_
      (fun hw _ x hx b => ?_)) (keepsTypes_trans _ _ _ g1 g2)
    · split_ifs
      all_goals first
        | exact extends_of_append _ _ _ _ [] rfl rfl (by simp)
        | exact extends_of_append _ _ _ [] [] rfl (by simp) (by simp)
    · split_ifs <;> rfl
    · split_ifs <;> rfl
    · simp only [List.mem_singleton] at hx
      rw [hx, String.append_assoc, String.append_assoc]
      exact alloc_line_ne _ _ _ _ b hw

/-- The body of the loop of `prepareCall` keeps the collection types. -/
theorem planArg_keepsTypes (h : structs.Helpers) (f : String) (a : structs.Argument)
    (s s' : structs.VarNames × structs.Plan)
    (hr : structs.planArg h f s a = .ok s') : structs.KeepsTypes s s' := by
  simp only [structs.planArg] at hr
  split_ifs at hr
  · exact planSimple_keepsTypes h s s' a hr
  · exact planRecord_keepsTypes h f a s s' hr
  · exact planSimple_keepsTypes h s s' a hr
  · split at hr
    · cases hr
    · split_ifs at hr
      · exact planTableSimple_keepsTypes h f a _ s s' hr
      · exact planTableRecord_keepsTypes h f a _ s s' hr

/-- The loop of `prepareCall` over the arguments keeps the collection types. -/
theorem forRange_planArg_keepsTypes (h : structs.Helpers) (f : String)
    (l : List structs.Argument) (s s' : structs.VarNames × structs.Plan)
    (hr : structs.forRange (structs.planArg h f) l s = .ok s') : structs.KeepsTypes s s' :=
  forRange_keepsTypes _ l (fun s a s' _ hs => planArg_keepsTypes h f a s s' hs) s s' hr

end ArgKeepsTypes

section TypeUsers

/-- The case of a Table of scalars, under the invariant of the collection types:
the signature of the element has a recorded type, and the collection of the
argument is declared with the type name of that signature. -/
theorem planTableSimple_user (h : structs.Helpers) (f : String) (arg elem : structs.Argument)
    (s s' : structs.VarNames × structs.Plan) (hp : s.2.TypesOnce)
    (hr : structs.planTableSimple h f s arg elem = .ok s') :
    Go.mapGet s'.2.tableTypes elem.fields.AbsType ≠ none ∧
    (arg.fields.Name ++ " " ++ structs.tableTypeName elem.fields.AbsType
      ++ (if arg.IsInput = true then " := :" ++ arg.fields.Name else "") ++ ";")
      ∈ s'.2.decls := by
  obtain ⟨_, e1, e2, _⟩ := planTableSimple_ok h f arg elem s.1 s'.1 s.2 s'.2 hr
  refine ⟨e2 ▸ getTableType_present s.2 _, ?_⟩
  rw [e1, (getTableType_typesOnce s.2 elem.fields.AbsType hp).2]
  simp

/-- The declaration loop of a Table-of-Record, under the invariant of the
collection types and with names that start with `x`: the shadow collection of
every visited field is declared with the type name of the signature of the
field; the slots are read in a later state. -/
theorem forRange_tableRecordDecl_users (f : String) (arg : structs.Argument) (vn : String) :
    ∀ (l : List (String × structs.Argument)) (s s' : structs.VarNames × structs.Plan),
      structs.WellNamed s.1 → s.2.TypesOnce →
      structs.forRange (structs.tableRecordDecl f arg vn) l s = .ok s' →
      ∀ kv ∈ l, ∀ w, structs.Keeps s'.1 w →
        (structs.slotOf w f (vn ++ "." ++ kv.1) ++ " "
          ++ structs.tableTypeName kv.2.fields.AbsType ++ ";") ∈ s'.2.decls := by
  intro l
  induction l with
  | nil => intro _ _ _ _ _ kv hkv; cases hkv
  | cons a l ih =>
    intro s s' hw hp hr kv hkv w hk
    simp only [structs.forRange] at hr
    cases h1 : structs.tableRecordDecl f arg vn s a with
    | error e => rw [h1] at hr; cases hr
    | ok s1 =>
      rw [h1] at hr
      have k1 := tableRecordDecl_keepsTypes f arg vn s s1 a h1
      have k2 := forRange_keepsTypes _ _
        (fun s a s' _ hs => tableRecordDecl_keepsTypes f arg vn s s' a hs) _ _ hr
      rcases List.mem_cons.mp hkv with rfl | hkv
      · obtain ⟨e0, e1, _⟩ := tableRecordDecl_ok f arg vn s.1 s1.1 s.2 s1.2 kv h1
        have hs : structs.slotOf w f (vn ++ "." ++ kv.1)
            = (structs.getVarName s.1 f (vn ++ "." ++ kv.1) "x").1 :=
          slotOf_of_keeps s.1 w f _ (by rw [← e0]; exact keeps_trans _ _ _ k2.1.1 hk)
        apply k2.1.2.2.1.subset
        rw [e1, (getTableType_typesOnce s.2 kv.2.fields.AbsType hp).2, hs]
        simp
      · exact ih s1 s' (k1.1.2.1 hw) (k1.2.1 hw hp) hr kv hkv w hk

/-- The case of a Table of Records, under the invariant of the collection types
and with names that start with `x`: the signature of every field that the
declaration loop visits has a recorded type, and the shadow collection of the
field is declared with the type name of that signature; the slots are read in a
later state. -/
theorem planTableRecord_users (h : structs.Helpers) (f : String) (arg elem : structs.Argument)
    (s s' : structs.VarNames × structs.Plan) (hw : structs.WellNamed s.1) (hp : s.2.TypesOnce)
    (hr : structs.planTableRecord h f s arg elem = .ok s') :
    ∀ kv ∈ h.rangeOf 1 (elem.fields.RecordOf.getD []),
      Go.mapGet s'.2.tableTypes kv.2.fields.AbsType ≠ none ∧
      ∀ w, structs.Keeps s'.1 w →
        (structs.slotOf w f
            (structs.slotOf w f (arg.fields.Name ++ "." ++ elem.fields.Name) ++ "." ++ kv.1)
          ++ " " ++ structs.tableTypeName kv.2.fields.AbsType ++ ";") ∈ s'.2.decls := by
  obtain ⟨vns, p⟩ := s
  intro kv hkv
  simp only [structs.planTableRecord, structs.getInnerVarName] at hr
  split at hr
  · cases hr
  · rename_i st1 h1
    have g1 := forRange_keepsTypes _ _
      (fun s a s' _ hs => tableRecordDecl_keepsTypes f arg _ s s' a hs) _ _ h1
    have g2 := tableRecordLoops_keepsTypes h f arg _ _ _ _ _ hr
    obtain ⟨_, m2, _⟩ := forRange_tableRecordDecl_later f arg _ _ _ _ _ _ h1
    refine ⟨g2.2.2 _ (m2 kv hkv), fun w hk => ?_⟩
    have k1w : structs.Keeps st1.1 w := keeps_trans _ _ _ g2.1.1 hk
    have hc : structs.slotOf w f (arg.fields.Name ++ "." ++ elem.fields.Name)
        = (structs.getVarName vns f (arg.fields.Name ++ "." ++ elem.fields.Name) "x").1 :=
      slotOf_of_keeps vns w f _ (keeps_trans _ _ _ g1.1.1 k1w)
    rw [hc]
    apply g2.1.2.2.1.subset
    refine forRange_tableRecordDecl_users f arg _ _ _ st1
      (getVarName_wellNamed vns f _ hw).2 ?_ h1 kv hkv w k1w
    refine typesOnce_append p _
      [(structs.getVarName vns f (arg.fields.Name ++ "." ++ elem.fields.Name) "x").1 ++ " "
        ++ arg.fields.TypeName ++ ";"] hp ?_ ?_ (fun x hx b => ?_)
    · split_ifs <;> rfl
    · split_ifs <;> rfl
    · simp only [List.mem_singleton] at hx
      rw [hx, String.append_assoc, String.append_assoc]
      exact alloc_line_ne _ _ _ _ b hw

end TypeUsers

/-- C18: in a plan made from a state that requests to the allocator reach, the
declaration loop visiting every field: for every signature
(`AbsType`) that is the element of a Table-of-Scalar argument or a field of a
Table-of-Record argument, the declarations hold exactly one line
`TYPE <t> IS TABLE OF <AbsType> INDEX BY BINARY_INTEGER;`, however many
arguments or fields have that signature, and the collection of each such
argument and the shadow collection of each such field are declared with that
same type name `<t>`, the name that `getTableType` makes from the signature. -/
theorem prepareCall_types_once (h : structs.Helpers) (vn vn' : structs.VarNames)
    (f : structs.Function) (r : structs.Prepared)
    (hreach : structs.Reachable vn)
    (hrange : ∀ m, (h.rangeOf 1 m).Perm m)
    (hr : structs.prepareCall h vn f = .ok (r, vn')) :
    ∀ a ∈ f.args, a.fields.Flavor = structs.FLAVOR_TABLE → a.fields.Type_ ≠ "REF CURSOR" →
      ∀ e, a.fields.TableOf = some e →
        (e.fields.Flavor = structs.FLAVOR_SIMPLE →
          r.decls.count (structs.typeLine e.fields.AbsType) = 1 ∧
          (a.fields.Name ++ " " ++ structs.tableTypeName e.fields.AbsType
            ++ (if a.IsInput = true then " := :" ++ a.fields.Name else "") ++ ";")
            ∈ r.decls) ∧
        (e.fields.Flavor = structs.FLAVOR_RECORD →
          ∀ kv ∈ e.fields.RecordOf.getD [],
            r.decls.count (structs.typeLine kv.2.fields.AbsType) = 1 ∧
            (structs.slotOf vn' (f.Name h)
                (structs.slotOf vn' (f.Name h) (a.fields.Name ++ "." ++ e.fields.Name)
                  ++ "." ++ kv.1)
              ++ " " ++ structs.tableTypeName kv.2.fields.AbsType ++ ";") ∈ r.decls) := by
  intro a ha hflav hcur e hof
  simp only [structs.prepareCall] at hr
  split at hr
  · cases hr
  · rename_i vns p hf
    simp only [Except.ok.injEq, Prod.mk.injEq] at hr
    obtain ⟨rfl, rfl⟩ := hr
    have hf2 : structs.forRange (structs.planArg h (f.Name h)) f.args _ = .ok (vns, p) := hf
    obtain ⟨l1, l2, hsplit⟩ := List.append_of_mem ha
    rw [hsplit] at hf2
    obtain ⟨s1, s2, g1, g2, g3⟩ := forRange_split _ a l1 l2 _ _ hf2
    have K1 := forRange_planArg_keepsTypes h (f.Name h) l1 _ _ g1
    have Ks := planArg_keepsTypes h (f.Name h) a s1 s2 g2
    have K2 := forRange_planArg_keepsTypes h (f.Name h) l2 _ _ g3
    have hw0 := reachable_wellNamed vn hreach
    have hw1 : structs.WellNamed s1.1 := K1.1.2.1 hw0
    have hp1 : s1.2.TypesOnce := by
      refine K1.2.1 hw0 (fun b => ⟨fun _ => ?_, fun t ht => by cases ht⟩)
      rw [List.count_eq_zero]
      intro hm
      simp only [List.mem_cons, List.mem_singleton, List.mem_nil_iff, or_false] at hm
      rcases hm with hm | hm
      · exact ne_typeLine "i1 PLS_INTEGER;" b (by decide) hm.symm
      · exact ne_typeLine "i2 PLS_INTEGER;" b (by decide) hm.symm
    have hfin : p.TypesOnce := K2.2.1 (Ks.1.2.1 hw1) (Ks.2.1 hw1 hp1)
    have hcount : ∀ b, Go.mapGet p.tableTypes b ≠ none →
        p.decls.count (structs.typeLine b) = 1 := by
      intro b hb
      cases hg : Go.mapGet p.tableTypes b with
      | none => exact absurd hg hb
      | some t => exact ((hfin b).2 t hg).2
    simp only [structs.planArg, hflav, hcur, hof, if_false, if_true] at g2
    refine ⟨fun he => ?_, fun he kv hkv => ?_⟩
    · rw [if_pos he] at g2
      obtain ⟨u1, u2⟩ := planTableSimple_user h (f.Name h) a e s1 s2 hp1 g2
      exact ⟨hcount _ (K2.2.2 _ u1), K2.1.2.2.1.subset u2⟩
    · simp only [he, if_true, if_false] at g2
      rw [if_neg (by decide)] at g2
      obtain ⟨u1, u2⟩ := planTableRecord_users h (f.Name h) a e s1 s2 hw1 hp1 g2 kv
        ((hrange _).mem_iff.mpr hkv)
      exact ⟨hcount _ (K2.2.2 _ u1), K2.1.2.2.1.subset (u2 vns K2.1.1)⟩

/-- C18 at a concrete input: in the plan of the procedure `DB_web.check_codes`,
whose two Tables of scalars and one field of its Table of Records have the
signature `NUMBER(9)`, the declarations hold one `TYPE` line for that signature,
and `p_szamok`, `p_kodok` and `x004#hibaszam` are declared with its type name
`NUMBER_9_tab_typ`. -/
theorem prepareCall_types_once_witness :
    ∃ r vn', structs.prepareCall structs.Helpers.plain [] structs.checkCodes = .ok (r, vn') ∧
      structs.Reachable [] ∧
      r.decls = ["i1 PLS_INTEGER;", "i2 PLS_INTEGER;",
        "TYPE NUMBER_9_tab_typ IS TABLE OF NUMBER(9) INDEX BY BINARY_INTEGER;",
        "p_szamok NUMBER_9_tab_typ := :p_szamok;", "x001 DB_WEB.SZAM_TAB_TYP;",
        "p_kodok NUMBER_9_tab_typ;", "x002 DB_WEB.KOD_TAB_TYP;", "x003 DB_WEB.HIBA_TAB_TYP;",
        "x004#hibaszam NUMBER_9_tab_typ;",
        "TYPE VARCHAR2_1000_tab_typ IS TABLE OF VARCHAR2(1000) INDEX BY BINARY_INTEGER;",
        "x004#szoveg VARCHAR2_1000_tab_typ;"] ∧
      r.decls.count (structs.typeLine "NUMBER(9)") = 1 :=
  ⟨_, _, rfl, ⟨[], rfl⟩, by decide,
    ((prepareCall_types_once structs.Helpers.plain [] _ structs.checkCodes _ ⟨[], rfl⟩
      (fun m => List.Perm.refl m) rfl structs.kodokOut
      (List.Mem.tail _ (List.Mem.head _)) rfl (by decide) _ rfl).1 rfl).1⟩

/-! # The element of a Table, the host types and the host-side values -/

section TableOfFacts

/-- The first switch of `structs.NewArgument` leaves `TableOf`. -/
theorem structs_setFlavor_TableOf (a : structs.ArgumentF structs.Argument) :
    (structs.NewArgument.setFlavor a).TableOf = a.TableOf := by
  simp only [structs.NewArgument.setFlavor]
  split_ifs <;> rfl

/-- The second switch of `structs.NewArgument` leaves `TableOf`. -/
theorem structs_setAbsType_TableOf (a : structs.ArgumentF structs.Argument) :
    (structs.NewArgument.setAbsType a).TableOf = a.TableOf := by
  simp only [structs.NewArgument.setAbsType]
  split_ifs <;> rfl

/-- The first switch of `oracall.NewArgument` leaves `TableOf`. -/
theorem oracall_setFlavor_TableOf (a : oracall.ArgumentF oracall.Argument) :
    (oracall.NewArgument.setFlavor a).TableOf = a.TableOf := by
  simp only [oracall.NewArgument.setFlavor]
  split_ifs <;> rfl

/-- The second switch of `oracall.NewArgument` leaves `TableOf`. -/
theorem oracall_setAbsType_TableOf (a : oracall.ArgumentF oracall.Argument) :
    (oracall.NewArgument.setAbsType a).TableOf = a.TableOf := by
  simp only [oracall.NewArgument.setAbsType]
  split_ifs <;> rfl

end TableOfFacts

/-- C21, refuted as stated: for the keyword `PL/SQL TABLE`, `NewArgument` returns
in both packages an argument whose Flavor is FLAVOR_TABLE and whose `TableOf`
is nil. -/
theorem NewArgument_table_without_element :
    (structs.NewArgument "P_SZAMOK" "PL/SQL TABLE" "" "DB_WEB.SZAM_TAB_TYP" "IN" 0 "" 0 0
        0).fields.Flavor = structs.FLAVOR_TABLE ∧
    (structs.NewArgument "P_SZAMOK" "PL/SQL TABLE" "" "DB_WEB.SZAM_TAB_TYP" "IN" 0 "" 0 0
        0).fields.TableOf.isNone = true ∧
    (oracall.NewArgument "P_SZAMOK" "PL/SQL TABLE" "" "DB_WEB.SZAM_TAB_TYP" "IN" 0 "" 0 0
        0).fields.Flavor = oracall.FLAVOR_TABLE ∧
    (oracall.NewArgument "P_SZAMOK" "PL/SQL TABLE" "" "DB_WEB.SZAM_TAB_TYP" "IN" 0 "" 0 0
        0).fields.TableOf.isNone = true :=
  ⟨rfl, rfl, rfl, rfl⟩

/-- C21, amended: for every input, `NewArgument` returns in both packages an
argument whose `TableOf` is nil, also when its Flavor is FLAVOR_TABLE; the
element is set afterwards, by the reader of the metadata. -/
theorem NewArgument_TableOf_nil (name dataType plsType typeName dirName : String)
    (dir : Nat) (charset : String) (precision scale charlength : Nat) :
    (structs.NewArgument name dataType plsType typeName dirName dir charset precision scale
        charlength).fields.TableOf = none ∧
    (oracall.NewArgument name dataType plsType typeName dirName dir charset precision scale
        charlength).fields.TableOf = none := by
  constructor
  · simp only [structs.NewArgument, structs.Argument.fields, structs_setAbsType_TableOf,
      structs_setFlavor_TableOf]
  · simp only [oracall.NewArgument, oracall.Argument.fields, oracall_setAbsType_TableOf,
      oracall_setFlavor_TableOf]

section HostTypeFacts

/-- The result of `oracleVarTypeName` for each keyword of its switch. -/
theorem oracleVarTypeName_known (quote : String → String) (typ : String)
    (h : typ ∈ ["BINARY_INTEGER", "PLS_INTEGER", "STRING", "VARCHAR2", "CHAR", "BINARY", "INTEGER",
        "ROWID", "REF CURSOR", "TIMESTAMP", "NUMBER", "DATE", "BLOB", "CLOB", "BOOLEAN",
        "PL/SQL BOOLEAN"]) :
    ∃ s, structs.oracleVarTypeName quote typ = .ok s ∧
      s ∈ ["int32", "string", "int64", "[10]byte", "gocilib.Cursor", "sqlhlp.NullTime",
        "float64", "gocilib.LOB", "bool"] := by
  simp only [List.mem_cons, List.mem_singleton, List.mem_nil_iff, or_false] at h
  rcases h with h | h | h | h | h | h | h | h | h | h | h | h | h | h | h | h <;> subst h <;>
    exact ⟨_, rfl, by decide⟩

/-- The default case of `oracleVarTypeName`. -/
theorem oracleVarTypeName_unknown (quote : String → String) (typ : String)
    (h : typ ∉ ["BINARY_INTEGER", "PLS_INTEGER", "STRING", "VARCHAR2", "CHAR", "BINARY", "INTEGER",
        "ROWID", "REF CURSOR", "TIMESTAMP", "NUMBER", "DATE", "BLOB", "CLOB", "BOOLEAN",
        "PL/SQL BOOLEAN"]) :
    structs.oracleVarTypeName quote typ
      = .error (.fatal ("oracleVarTypeName: unknown variable type " ++ quote typ)) := by
  simp only [List.mem_cons, List.mem_singleton, List.mem_nil_iff, or_false, not_or] at h
  obtain ⟨h1, h2, h3, h4, h5, h6, h7, h8, h9, h10, h11, h12, h13, h14, h15, h16⟩ := h
  simp only [structs.oracleVarTypeName, h1, h2, h3, h4, h5, h6, h7, h8, h9, h10, h11, h12, h13,
    h14, h15, h16, or_self, if_false]

end HostTypeFacts

/-- C22: `oracleVarTypeName` returns a host type name exactly for the sixteen
keywords of its switch; for every other keyword it stops the run with the fatal
error `oracleVarTypeName: unknown variable type`; and whenever it returns, the
name is not empty and is one of the nine host types of the switch. -/
theorem oracleVarTypeName_closed (quote : String → String) (typ : String) :
    (typ ∈ ["BINARY_INTEGER", "PLS_INTEGER", "STRING", "VARCHAR2", "CHAR", "BINARY", "INTEGER",
        "ROWID", "REF CURSOR", "TIMESTAMP", "NUMBER", "DATE", "BLOB", "CLOB", "BOOLEAN",
        "PL/SQL BOOLEAN"] ↔ ∃ s, structs.oracleVarTypeName quote typ = .ok s) ∧
    (typ ∉ ["BINARY_INTEGER", "PLS_INTEGER", "STRING", "VARCHAR2", "CHAR", "BINARY", "INTEGER",
        "ROWID", "REF CURSOR", "TIMESTAMP", "NUMBER", "DATE", "BLOB", "CLOB", "BOOLEAN",
        "PL/SQL BOOLEAN"] →
      structs.oracleVarTypeName quote typ
        = .error (.fatal ("oracleVarTypeName: unknown variable type " ++ quote typ))) ∧
    (∀ s, structs.oracleVarTypeName quote typ = .ok s →
      s ≠ "" ∧ s ∈ ["int32", "string", "int64", "[10]byte", "gocilib.Cursor", "sqlhlp.NullTime",
        "float64", "gocilib.LOB", "bool"]) := by
  by_cases hm : typ ∈ ["BINARY_INTEGER", "PLS_INTEGER", "STRING", "VARCHAR2", "CHAR", "BINARY",
      "INTEGER", "ROWID", "REF CURSOR", "TIMESTAMP", "NUMBER", "DATE", "BLOB", "CLOB", "BOOLEAN",
      "PL/SQL BOOLEAN"]
  · obtain ⟨s, hs, hmem⟩ := oracleVarTypeName_known quote typ hm
    refine ⟨⟨fun _ => ⟨s, hs⟩, fun _ => hm⟩, fun hn => absurd hm hn, ?_⟩
    intro s' hs'
    rw [hs] at hs'
    cases hs'
    refine ⟨?_, hmem⟩
    rintro rfl
    exact absurd hmem (by decide)
  · have he := oracleVarTypeName_unknown quote typ hm
    refine ⟨⟨fun h => absurd h hm, ?_⟩, fun _ => he, ?_⟩
    · rintro ⟨s, hs⟩
      rw [he] at hs
      cases hs
    · intro s hs
      rw [he] at hs
      cases hs

section DateFacts

/-- The constant `timeFormat` has 25 bytes. -/
theorem len_timeFormat : Go.len custom.timeFormat = 25 := by decide

end DateFacts

/-- C23, the code at the failing input: for the Date text
`2019-03-04 15:16:17 +0100 CET` (29 bytes) and for every text longer than the
25 bytes of `timeFormat`, `Date.Get` does not return: the slice
`timeFormat[:len(d)]` is a runtime fault; for every text of at most 25 bytes it
returns a date, the zero date when `time.Parse` fails. -/
theorem Date_Get_faults_on_long_text (L : custom.Lib) :
    custom.Date.Get L "2019-03-04 15:16:17 +0100 CET"
      = .error (.panic "slice bounds out of range") ∧
    (∀ d : custom.Date, 25 < Go.len d →
      custom.Date.Get L d = .error (.panic "slice bounds out of range")) ∧
    (∀ d : custom.Date, Go.len d ≤ 25 → ∃ od, custom.Date.Get L d = .ok od ∧
      (L.parse (Go.sliceTo custom.timeFormat (Go.len d)) d = none → od = L.zeroDate)) := by
  have key : ∀ d : custom.Date, 25 < Go.len d →
      custom.Date.Get L d = .error (.panic "slice bounds out of range") := by
    intro d hd
    simp only [custom.Date.Get, len_timeFormat, hd, if_true]
  refine ⟨key _ (by decide), key, ?_⟩
  intro d hd
  have hd' : ¬ 25 < Go.len d := by omega
  simp only [custom.Date.Get, len_timeFormat, hd', if_false]
  cases hp : L.parse (Go.sliceTo custom.timeFormat (Go.len d)) d with
  | none => exact ⟨_, rfl, fun _ => rfl⟩
  | some t => exact ⟨_, rfl, fun h => by cases h⟩

/-- C24: on the nil interface `AsString`, `AsFloat64`, `AsInt32`, `AsInt64` and
`AsDate` return the empty string, 0, 0, 0 and the empty Date, and on the empty
string they return the same values. -/
theorem coercions_zero_on_nil_and_empty (L : custom.Lib)
    (sprint : custom.Value L → String) :
    custom.AsString L sprint .nil = "" ∧ custom.AsFloat64 L .nil = L.zero ∧
    custom.AsInt32 L .nil = 0 ∧ custom.AsInt64 L .nil = 0 ∧ custom.AsDate L .nil = "" ∧
    custom.AsString L sprint (.string "") = "" ∧ custom.AsFloat64 L (.string "") = L.zero ∧
    custom.AsInt32 L (.string "") = 0 ∧ custom.AsInt64 L (.string "") = 0 ∧
    custom.AsDate L (.string "") = "" :=
  ⟨rfl, rfl, rfl, rfl, rfl, rfl, rfl, rfl, rfl, rfl⟩

/-! # The order of the fields of a Record -/

section RequestFacts

/-- A loop whose every turn issues one request to the allocator issues the
requests of its elements in the order in which it visits them. -/
theorem forRange_requests {α σ : Type} (body : σ → α → Except Go.Fault σ)
    (proj : σ → structs.VarNames) (req : α → structs.Request)
    (hstep : ∀ s a s', body s a = .ok s' → proj s' = structs.request (proj s) (req a)) :
    ∀ (l : List α) (s s' : σ), structs.forRange body l s = .ok s' →
      proj s' = structs.requests (proj s) (l.map req) := by
  intro l
  induction l with
  | nil =>
    intro s s' hr
    simp only [structs.forRange, Except.ok.injEq] at hr
    subst hr
    rfl
  | cons a l ih =>
    intro s s' hr
    simp only [structs.forRange] at hr
    cases h1 : body s a with
    | error e => rw [h1] at hr; cases hr
    | ok s1 =>
      rw [h1] at hr
      rw [ih s1 s' hr, hstep s a s1 h1]
      rfl

/-- Requests issued one run after another are the requests of the joined run. -/
theorem requests_append (vn : structs.VarNames) (a b : List structs.Request) :
    structs.requests (structs.requests vn a) b = structs.requests vn (a ++ b) := by
  simp only [structs.requests, List.foldl_append]

/-- The requests of the Record case: the local variable, then one bind slot
per field in the order of the loop over the fields. -/
theorem planRecord_requests (h : structs.Helpers) (f : String) (arg : structs.Argument)
    (vns vns' : structs.VarNames) (p p' : structs.Plan)
    (hr : structs.planRecord h f (vns, p) arg = .ok (vns', p')) :
    vns' = structs.requests vns ((false, f, arg.fields.Name)
      :: (h.rangeOf 0 (arg.fields.RecordOf.getD [])).map
          (structs.fieldRequest f (structs.getVarName vns f arg.fields.Name "x").1)) := by
  simp only [structs.planRecord, structs.getInnerVarName] at hr
  split at hr
  · cases hr
  · exact forRange_requests (structs.recordField h f arg _ _) (fun s => s.1)
      (structs.fieldRequest f (structs.getVarName vns f arg.fields.Name "x").1)
      (fun s a s' hs =>
        (recordField_ok h f arg _ _ s.1 s'.1 s.2 s'.2 a hs).1) _ _ _ hr

/-- The requests of the Table-of-Record case: the local collection, then one
shadow collection per field in the order of the declaration loop, again in the
order of the copy loop, and for an output in the order of the write-back loop. -/
theorem planTableRecord_requests (h : structs.Helpers) (f : String)
    (arg elem : structs.Argument) (vns vns' : structs.VarNames) (p p' : structs.Plan)
    (hr : structs.planTableRecord h f (vns, p) arg elem = .ok (vns', p')) :
    vns' = structs.requests vns ((false, f, arg.fields.Name ++ "." ++ elem.fields.Name)
      :: (h.rangeOf 1 (elem.fields.RecordOf.getD [])
          ++ h.rangeOf 2 (elem.fields.RecordOf.getD [])
          ++ (if arg.IsOutput = true then h.rangeOf 3 (elem.fields.RecordOf.getD [])
              else [])).map (structs.fieldRequest f
            (structs.getVarName vns f (arg.fields.Name ++ "." ++ elem.fields.Name) "x").1)) := by
  simp only [structs.planTableRecord, structs.getInnerVarName] at hr
  split at hr
  · cases hr
  · rename_i s1 h1
    have e1 : s1.1 = structs.requests
        (structs.getVarName vns f (arg.fields.Name ++ "." ++ elem.fields.Name) "x").2
        ((h.rangeOf 1 (elem.fields.RecordOf.getD [])).map (structs.fieldRequest f
          (structs.getVarName vns f (arg.fields.Name ++ "." ++ elem.fields.Name) "x").1)) :=
      forRange_requests (structs.tableRecordDecl f arg _) (fun s => s.1) (structs.fieldRequest f
          (structs.getVarName vns f (arg.fields.Name ++ "." ++ elem.fields.Name) "x").1)
        (fun s a s' hs => (tableRecordDecl_ok f arg _ s.1 s'.1 s.2 s'.2 a hs).1) _ _ _ h1
    simp only [structs.tableRecordLoops] at hr
    split at hr
    · cases hr
    · rename_i s2 h2
      have e2 : s2.1 = structs.requests s1.1
          ((h.rangeOf 2 (elem.fields.RecordOf.getD [])).map (structs.fieldRequest f
            (structs.getVarName vns f (arg.fields.Name ++ "." ++ elem.fields.Name) "x").1)) :=
        forRange_requests (structs.tableRecordLoop h f arg _ _) (fun s => s.1) (structs.fieldRequest f
          (structs.getVarName vns f (arg.fields.Name ++ "." ++ elem.fields.Name) "x").1)
          (fun s a s' hs =>
            (tableRecordLoop_ok h f arg _ _ s.1 s'.1 s.2.1 s'.2.1 s.2.2 s'.2.2 a hs).1) _ _ _ h2
      obtain ⟨v2, p2, i2⟩ := s2
      simp only [structs.tableRecordClose] at hr
      by_cases ho : arg.IsOutput = true
      · simp only [ho, if_true] at hr
        have e3 : vns' = structs.requests v2
            ((h.rangeOf 3 (elem.fields.RecordOf.getD [])).map (structs.fieldRequest f
              (structs.getVarName vns f (arg.fields.Name ++ "." ++ elem.fields.Name)
                "x").1)) :=
          forRange_requests (structs.tableRecordOut f _) (fun s => s.1) (structs.fieldRequest f
          (structs.getVarName vns f (arg.fields.Name ++ "." ++ elem.fields.Name) "x").1)
            (fun s a s' hs => (tableRecordOut_ok f _ s.1 s'.1 s.2 s'.2 a hs).1) _ _ _ hr
        have e2' : v2 = _ := e2
        rw [e3, e2', e1, requests_append, requests_append]
        simp only [ho, if_true, List.map_append, List.append_assoc]
        rfl
      · simp only [ho, Bool.false_eq_true, if_false, Except.ok.injEq, Prod.mk.injEq] at hr
        obtain ⟨rfl, rfl⟩ := hr
        have e2' : v2 = _ := e2
        rw [e2', e1, requests_append]
        simp only [ho, Bool.false_eq_true, if_false, List.append_nil, List.map_append]
        rfl

end RequestFacts

section TableRecordOrder

/-- The case of a Table of Records whose copy loop visits at least one field,
in a state whose names start with `x`, with the slots read in a later state:
the pre-call and the post-call statements, field by field in the order of the
loop that writes them. -/
theorem planTableRecord_order (h : structs.Helpers) (f : String) (a e : structs.Argument)
    (vns : structs.VarNames) (p : structs.Plan) (s' : structs.VarNames × structs.Plan)
    (hwell : structs.WellNamed vns)
    (kv0 : String × structs.Argument) (l2 : List (String × structs.Argument))
    (h2 : h.rangeOf 2 (e.fields.RecordOf.getD []) = kv0 :: l2)
    (hr : structs.planTableRecord h f (vns, p) a e = .ok s')
    (w : structs.VarNames) (hw : structs.Keeps s'.1 w) :
    s'.2.pre = p.pre
      ++ (if a.IsInput = true then []
          else [structs.slotOf w f (a.fields.Name ++ "." ++ e.fields.Name) ++ ".DELETE;"])
      ++ (h.rangeOf 1 (e.fields.RecordOf.getD [])).map (fun kv =>
          if a.IsInput = true then
            structs.slotOf w f (structs.slotOf w f (a.fields.Name ++ "." ++ e.fields.Name)
              ++ "." ++ kv.1) ++ " := :"
            ++ structs.slotOf w f (structs.slotOf w f (a.fields.Name ++ "." ++ e.fields.Name)
              ++ "." ++ kv.1) ++ ";"
          else
            structs.slotOf w f (structs.slotOf w f (a.fields.Name ++ "." ++ e.fields.Name)
              ++ "." ++ kv.1) ++ ".DELETE;")
      ++ (if a.IsInput = true then
          ["", "i1 := " ++ structs.slotOf w f (structs.slotOf w f
              (a.fields.Name ++ "." ++ e.fields.Name) ++ "." ++ kv0.1) ++ ".FIRST;",
           "WHILE i1 IS NOT NULL LOOP"]
          ++ (h.rangeOf 2 (e.fields.RecordOf.getD [])).map (fun kv =>
            "  " ++ structs.slotOf w f (a.fields.Name ++ "." ++ e.fields.Name) ++ "(i1)."
              ++ kv.1 ++ " := " ++ structs.slotOf w f (structs.slotOf w f
                (a.fields.Name ++ "." ++ e.fields.Name) ++ "." ++ kv.1) ++ "(i1);")
          ++ ["  i1 := " ++ structs.slotOf w f (structs.slotOf w f
              (a.fields.Name ++ "." ++ e.fields.Name) ++ "." ++ kv0.1) ++ ".NEXT(i1);",
            "END LOOP;"]
          else []) ∧
    s'.2.post = p.post
      ++ (if a.IsOutput = true then
          ["", "i1 := " ++ structs.slotOf w f (a.fields.Name ++ "." ++ e.fields.Name)
            ++ ".FIRST; i2 := 1;", "WHILE i1 IS NOT NULL LOOP"]
          ++ (h.rangeOf 2 (e.fields.RecordOf.getD [])).map (fun kv =>
            "  " ++ structs.slotOf w f (structs.slotOf w f
                (a.fields.Name ++ "." ++ e.fields.Name) ++ "." ++ kv.1)
              ++ "(i2) := " ++ structs.slotOf w f (a.fields.Name ++ "." ++ e.fields.Name)
              ++ "(i1)." ++ kv.1 ++ ";")
          ++ ["  i1 := " ++ structs.slotOf w f (a.fields.Name ++ "." ++ e.fields.Name)
              ++ ".NEXT(i1); i2 := i2 + 1;", "END LOOP;"]
          ++ (h.rangeOf 3 (e.fields.RecordOf.getD [])).map (fun kv =>
            ":" ++ structs.slotOf w f (structs.slotOf w f
                (a.fields.Name ++ "." ++ e.fields.Name) ++ "." ++ kv.1)
              ++ " := " ++ structs.slotOf w f (structs.slotOf w f
                (a.fields.Name ++ "." ++ e.fields.Name) ++ "." ++ kv.1) ++ ";")
          else []) := by
  simp only [structs.planTableRecord, structs.getInnerVarName] at hr
  split at hr
  · cases hr
  · rename_i st1 h1
    obtain ⟨vns1, p1⟩ := st1
    simp only [structs.tableRecordLoops] at hr
    split at hr
    · cases hr
    · rename_i st2 hl
      obtain ⟨vns2, p2, i2⟩ := st2
      obtain ⟨vns', p'⟩ := s'
      obtain ⟨c1, _⟩ := forRange_continues _
        (fun s a' s' hs => tableRecordDecl_continues f a _ s s' a' hs) _ _ _ h1
      obtain ⟨c2, _⟩ := forRange_tableRecordLoop_continues h f a _ _ _ _ _ hl
      obtain ⟨c3, _⟩ := tableRecordClose_continues h f a _ _ _ _ hr
      have k2w : structs.Keeps vns2 w := keeps_trans _ _ _ c3.1 hw
      have k1w : structs.Keeps vns1 w := keeps_trans _ _ _ c2.1 k2w
      have hc : structs.slotOf w f (a.fields.Name ++ "." ++ e.fields.Name)
          = (structs.getVarName vns f (a.fields.Name ++ "." ++ e.fields.Name) "x").1 :=
        slotOf_of_keeps vns w f _ (keeps_trans _ _ _ c1.1 k1w)
      have hw1 : structs.WellNamed vns1 :=
        c1.2.1 (getVarName_wellNamed vns f _ hwell).2
      rw [← hc] at h1 hl hr
      obtain ⟨_, _, g1⟩ := forRange_tableRecordDecl_later f a _ _ _ _ _ _ h1
      obtain ⟨g15, g14⟩ := g1 w k1w
      rw [h2] at hl
      obtain ⟨gi, g24, g25⟩ := forRange_tableRecordLoop_first h f a _ _ kv0 l2 vns1 vns2 p1
        p2 i2 hw1 hl w k2w
      obtain ⟨_, _, g34, g35⟩ := tableRecordClose_later h f a _ _ vns2 vns' p2 p' i2 hr w hw
      constructor
      · show p'.pre = _
        rw [g34, g24, g14, gi, h2]
        by_cases hi : a.IsInput = true <;> by_cases ho : a.IsOutput = true <;>
          simp [hi, ho]
      · show p'.post = _
        rw [g35, g25, g15, h2]
        by_cases hi : a.IsInput = true <;> by_cases ho : a.IsOutput = true <;>
          simp [hi, ho]

end TableRecordOrder

section TableRecordSlot

/-- The local collection of a Table of Records is recorded, in the state the
case leaves, with the name the allocator returned for it. -/
theorem planTableRecord_slot (h : structs.Helpers) (f : String) (a e : structs.Argument)
    (vns : structs.VarNames) (p : structs.Plan) (s' : structs.VarNames × structs.Plan)
    (hr : structs.planTableRecord h f (vns, p) a e = .ok s') :
    structs.slotOf s'.1 f (a.fields.Name ++ "." ++ e.fields.Name)
      = (structs.getInnerVarName vns f (a.fields.Name ++ "." ++ e.fields.Name)).1 := by
  simp only [structs.planTableRecord, structs.getInnerVarName] at hr
  split at hr
  · cases hr
  · rename_i st1 h1
    obtain ⟨g1, _⟩ := forRange_continues _
      (fun s a' s' hs => tableRecordDecl_continues f a _ s s' a' hs) _ _ _ h1
    obtain ⟨g3, _⟩ := tableRecordLoops_continues h f a _ _ _ _ _ hr
    exact slotOf_of_keeps vns s'.1 f _ (keeps_trans _ _ _ g1.1 g3.1)

end TableRecordSlot

/-- C25, refuted as stated: the Record `p_kotveny` of `DB_web.set_dates` has the
fields `szerkot` and `szerlejar`, added in this order; when the `range` loop
visits the map in this order the assignments of `szerkot` come first, and when
it visits the map in the other order, as Go allows, the assignments of
`szerlejar` come first: the plan is not a function of the argument tree alone. -/
theorem prepareCall_fields_follow_range_order :
    (structs.prepared structs.Helpers.plain [] structs.setDates).map
        (fun r => (r.pre, r.post))
      = .ok (["x001.szerkot := :x002#szerkot;", "x001.szerlejar := :x002#szerlejar;"],
          [":x002#szerkot := x001.szerkot;", ":x002#szerlejar := x001.szerlejar;"]) ∧
    (structs.prepared structs.Helpers.reversed [] structs.setDates).map
        (fun r => (r.pre, r.post))
      = .ok (["x001.szerlejar := :x002#szerlejar;", "x001.szerkot := :x002#szerkot;"],
          [":x002#szerlejar := x001.szerlejar;", ":x002#szerkot := x001.szerkot;"]) :=
  ⟨rfl, rfl⟩

/-- C25, amended: in the turn of the loop of `prepareCall` for a Record, the
requests to the allocator are the one for the local variable and then one per
field in the order in which the `range` loop visits the map `RecordOf`, and the
pre-call assignments and the post-call write-backs of the fields come in that
order.  In the turn for a Table of Records the requests are the one for the
local collection and then one per field in the order of the declaration loop,
of the copy loop and, for an output, of the write-back loop; and when the names
start with `x` and the copy loop visits at least one field, the pre-call
statements are the clear of the local collection of a non-input, the load or
clear of each shadow collection in the order of the declaration loop and, for
an input, the copy loop in the order of the second loop, and the post-call
statements of an output are the copy loop in the order of the second loop and
the write-backs in the order of the third loop. -/
theorem planArg_fields_in_range_order (h : structs.Helpers) (f : String)
    (arg : structs.Argument) (vns vns' : structs.VarNames) (p p' : structs.Plan)
    (hr : structs.planArg h f (vns, p) arg = .ok (vns', p')) :
    (arg.fields.Flavor = structs.FLAVOR_RECORD →
      vns' = structs.requests vns ((false, f, arg.fields.Name)
        :: (h.rangeOf 0 (arg.fields.RecordOf.getD [])).map
            (structs.fieldRequest f (structs.getInnerVarName vns f arg.fields.Name).1)) ∧
      p'.pre = p.pre ++ (if arg.IsInput = true then
        (h.rangeOf 0 (arg.fields.RecordOf.getD [])).map (fun kv =>
          (structs.getInnerVarName vns f arg.fields.Name).1 ++ "." ++ kv.1 ++ " := :"
            ++ structs.slotOf vns' f
              ((structs.getInnerVarName vns f arg.fields.Name).1 ++ "." ++ kv.1)
            ++ ";") else []) ∧
      p'.post = p.post ++ (if arg.IsOutput = true then
        (h.rangeOf 0 (arg.fields.RecordOf.getD [])).map (fun kv =>
          ":" ++ structs.slotOf vns' f
              ((structs.getInnerVarName vns f arg.fields.Name).1 ++ "." ++ kv.1)
            ++ " := " ++ (structs.getInnerVarName vns f arg.fields.Name).1 ++ "." ++ kv.1
            ++ ";") else [])) ∧
    (∀ elem, arg.fields.Flavor = structs.FLAVOR_TABLE → arg.fields.Type_ ≠ "REF CURSOR" →
      arg.fields.TableOf = some elem → elem.fields.Flavor = structs.FLAVOR_RECORD →
      vns' = structs.requests vns ((false, f, arg.fields.Name ++ "." ++ elem.fields.Name)
        :: (h.rangeOf 1 (elem.fields.RecordOf.getD [])
            ++ h.rangeOf 2 (elem.fields.RecordOf.getD [])
            ++ (if arg.IsOutput = true then h.rangeOf 3 (elem.fields.RecordOf.getD [])
                else [])).map (structs.fieldRequest f
              (structs.getInnerVarName vns f
                (arg.fields.Name ++ "." ++ elem.fields.Name)).1)) ∧
      (structs.WellNamed vns → ∀ kv0 l2,
        h.rangeOf 2 (elem.fields.RecordOf.getD []) = kv0 :: l2 →
        p'.pre = p.pre
          ++ (if arg.IsInput = true then []
              else [(structs.getInnerVarName vns f
                (arg.fields.Name ++ "." ++ elem.fields.Name)).1 ++ ".DELETE;"])
          ++ (h.rangeOf 1 (elem.fields.RecordOf.getD [])).map (fun kv =>
              if arg.IsInput = true then
                structs.slotOf vns' f ((structs.getInnerVarName vns f
                  (arg.fields.Name ++ "." ++ elem.fields.Name)).1 ++ "." ++ kv.1) ++ " := :"
                ++ structs.slotOf vns' f ((structs.getInnerVarName vns f
                  (arg.fields.Name ++ "." ++ elem.fields.Name)).1 ++ "." ++ kv.1) ++ ";"
              else
                structs.slotOf vns' f ((structs.getInnerVarName vns f
                  (arg.fields.Name ++ "." ++ elem.fields.Name)).1 ++ "." ++ kv.1)
                ++ ".DELETE;")
          ++ (if arg.IsInput = true then
              ["", "i1 := " ++ structs.slotOf vns' f ((structs.getInnerVarName vns f
                  (arg.fields.Name ++ "." ++ elem.fields.Name)).1 ++ "." ++ kv0.1)
                ++ ".FIRST;",
               "WHILE i1 IS NOT NULL LOOP"]
              ++ (h.rangeOf 2 (elem.fields.RecordOf.getD [])).map (fun kv =>
                "  " ++ (structs.getInnerVarName vns f
                    (arg.fields.Name ++ "." ++ elem.fields.Name)).1 ++ "(i1)."
                  ++ kv.1 ++ " := " ++ structs.slotOf vns' f ((structs.getInnerVarName vns f
                    (arg.fields.Name ++ "." ++ elem.fields.Name)).1 ++ "." ++ kv.1)
                  ++ "(i1);")
              ++ ["  i1 := " ++ structs.slotOf vns' f ((structs.getInnerVarName vns f
                  (arg.fields.Name ++ "." ++ elem.fields.Name)).1 ++ "." ++ kv0.1)
                ++ ".NEXT(i1);", "END LOOP;"]
              else []) ∧
        p'.post = p.post
          ++ (if arg.IsOutput = true then
              ["", "i1 := " ++ (structs.getInnerVarName vns f
                  (arg.fields.Name ++ "." ++ elem.fields.Name)).1 ++ ".FIRST; i2 := 1;",
               "WHILE i1 IS NOT NULL LOOP"]
              ++ (h.rangeOf 2 (elem.fields.RecordOf.getD [])).map (fun kv =>
                "  " ++ structs.slotOf vns' f ((structs.getInnerVarName vns f
                    (arg.fields.Name ++ "." ++ elem.fields.Name)).1 ++ "." ++ kv.1)
                  ++ "(i2) := " ++ (structs.getInnerVarName vns f
                    (arg.fields.Name ++ "." ++ elem.fields.Name)).1 ++ "(i1)." ++ kv.1 ++ ";")
              ++ ["  i1 := " ++ (structs.getInnerVarName vns f
                    (arg.fields.Name ++ "." ++ elem.fields.Name)).1
                  ++ ".NEXT(i1); i2 := i2 + 1;", "END LOOP;"]
              ++ (h.rangeOf 3 (elem.fields.RecordOf.getD [])).map (fun kv =>
                ":" ++ structs.slotOf vns' f ((structs.getInnerVarName vns f
                    (arg.fields.Name ++ "." ++ elem.fields.Name)).1 ++ "." ++ kv.1)
                  ++ " := " ++ structs.slotOf vns' f ((structs.getInnerVarName vns f
                    (arg.fields.Name ++ "." ++ elem.fields.Name)).1 ++ "." ++ kv.1) ++ ";")
              else []))) := by
  constructor
  · intro hf
    have hr' : structs.planRecord h f (vns, p) arg = .ok (vns', p') := by
      simp only [structs.planArg, hf, if_true] at hr
      exact hr
    obtain ⟨_, _, e3, _, _, _, e7, e8⟩ := planRecord_ok h f arg vns vns' p p' hr'
    rw [e3] at e7 e8
    exact ⟨planRecord_requests h f arg vns vns' p p' hr', e7, e8⟩
  · intro elem hf ht he hef
    have hr' : structs.planTableRecord h f (vns, p) arg elem = .ok (vns', p') := by
      simp only [structs.planArg, hf, ht, he, hef, if_true, if_false] at hr
      rw [if_neg (by decide)] at hr
      exact hr
    refine ⟨planTableRecord_requests h f arg elem vns vns' p p' hr', ?_⟩
    intro hwell kv0 l2 h2
    have hs := planTableRecord_slot h f arg elem vns p (vns', p') hr'
    have := planTableRecord_order h f arg elem vns p (vns', p') hwell kv0 l2 h2 hr' vns'
      (keeps_refl _)
    rw [hs] at this
    exact this

/-- C25, the amended claim at a concrete input: the Record `kotvenyRecord`,
with its fields visited from the last to the first. -/
theorem planArg_fields_in_range_order_witness :
    ∃ vns' p', structs.planArg structs.Helpers.reversed "F" ([], {}) structs.kotvenyRecord
        = .ok (vns', p') ∧
      p'.pre = ["x001.szerlejar := :x002#szerlejar;", "x001.szerkot := :x002#szerkot;"] :=
  ⟨_, _, rfl, (((planArg_fields_in_range_order structs.Helpers.reversed "F"
    structs.kotvenyRecord [] _ {} _ rfl).1 rfl).2.1).trans (by rfl)⟩

/-! # The reader of the metadata -/

section ReaderFacts

/-- Attaching a child leaves the flavor of the parent. -/
theorem attach_flavor (p c : oracall.Argument) :
    (oracall.attach p c).fields.Flavor = p.fields.Flavor := by
  simp only [oracall.attach]
  split_ifs <;> rfl

/-- A chain that is not empty closes into an argument of the flavor of its
first argument. -/
theorem collapse_cons (a : oracall.Argument) (rest : List oracall.Argument) :
    ∃ c, oracall.collapse (a :: rest) = some c ∧ c.fields.Flavor = a.fields.Flavor := by
  simp only [oracall.collapse]
  cases oracall.collapse rest with
  | none => exact ⟨a, rfl, rfl⟩
  | some c => exact ⟨_, rfl, attach_flavor a c⟩

/-- Reading a run of rows is reading its first part and then its second part. -/
theorem readRows_append (a b : List oracall.Row) :
    ∀ st, oracall.readRows (a ++ b) st
      = match oracall.readRows a st with
        | .error e => .error e
        | .ok st1 => oracall.readRows b st1 := by
  induction a with
  | nil => intro st; rfl
  | cons r a ih =>
    intro st
    simp only [List.cons_append, oracall.readRows]
    cases oracall.readRow st r with
    | error e => rfl
    | ok st1 => exact ih st1

/-- The open arguments after a row that is read: those below the level of the
parent, the parent, and the argument of the row. -/
theorem readRow_opened (st st' : oracall.Reader) (r : oracall.Row)
    (hr : oracall.readRow st r = .ok st') :
    (r.DataLevel = 0 ∧ st'.opened = [r.argument]) ∨
    (∃ a rest parent, 0 < r.DataLevel ∧ st.opened.drop (r.DataLevel - 1) = a :: rest ∧
      parent.fields.Flavor = a.fields.Flavor ∧
      st'.opened = st.opened.take (r.DataLevel - 1) ++ [parent, r.argument]) := by
  simp only [oracall.readRow] at hr
  by_cases h0 : r.DataLevel = 0
  · simp only [h0, if_true, Except.ok.injEq] at hr
    subst hr
    exact Or.inl ⟨h0, rfl⟩
  · simp only [h0, if_false] at hr
    right
    cases hd : st.opened.drop (r.DataLevel - 1) with
    | nil =>
      rw [hd] at hr
      simp only [oracall.collapse] at hr
      cases hr
    | cons a rest =>
      rw [hd] at hr
      obtain ⟨c, hc, hf⟩ := collapse_cons a rest
      rw [hc] at hr
      simp only at hr
      split_ifs at hr
      all_goals
        simp only [Except.ok.injEq] at hr
        subst hr
        exact ⟨a, rest, c, by omega, rfl, hf, rfl⟩

/-- The open row at a level below the level of a new row stays open. -/
theorem openRow_cons_lt (l : Nat) (r : oracall.Row) (rows : List oracall.Row)
    (h : l < r.DataLevel) : oracall.openRow l (r :: rows) = oracall.openRow l rows := by
  simp only [oracall.openRow]
  rw [if_neg (by omega), if_neg (by omega)]

/-- A row is open at its level once it is read. -/
theorem openRow_cons_self (r : oracall.Row) (rows : List oracall.Row) :
    oracall.openRow r.DataLevel (r :: rows) = some r := by
  simp only [oracall.openRow, if_true]

/-- A row that is read keeps the open arguments following the rows. -/
theorem readRow_follows (st st' : oracall.Reader) (r : oracall.Row) (rows : List oracall.Row)
    (hr : oracall.readRow st r = .ok st') (hf : oracall.OpenFollows rows st.opened) :
    oracall.OpenFollows (r :: rows) st'.opened := by
  intro l e he
  rcases readRow_opened st st' r hr with ⟨h0, ho⟩ | ⟨a, rest, parent, hpos, hd, hpf, ho⟩
  · rw [ho] at he
    cases l with
    | zero =>
      simp only [List.getElem?_cons_zero, Option.some.injEq] at he
      subst he
      exact ⟨r, by rw [← h0]; exact openRow_cons_self r rows, rfl⟩
    | succ l => simp at he
  · rw [ho] at he
    have hlen : r.DataLevel - 1 < st.opened.length := by
      by_contra hc
      rw [List.drop_of_length_le (by omega)] at hd
      cases hd
    have htl : (st.opened.take (r.DataLevel - 1)).length = r.DataLevel - 1 := by
      rw [List.length_take]
      omega
    have ha : st.opened[r.DataLevel - 1]? = some a := by
      have := congrArg (fun s => s[0]?) hd
      simpa using this
    by_cases h1 : l < r.DataLevel - 1
    · rw [List.getElem?_append_left (by omega)] at he
      rw [List.getElem?_take_of_lt h1] at he
      obtain ⟨p, hp, hpe⟩ := hf l e he
      exact ⟨p, by rw [openRow_cons_lt l r rows (by omega)]; exact hp, hpe⟩
    · rw [List.getElem?_append_right (by omega), htl] at he
      by_cases h2 : l = r.DataLevel - 1
      · subst h2
        simp only [Nat.sub_self, List.getElem?_cons_zero, Option.some.injEq] at he
        subst he
        obtain ⟨p, hp, hpe⟩ := hf _ a ha
        exact ⟨p, by rw [openRow_cons_lt _ r rows (by omega)]; exact hp, hpf.trans hpe⟩
      · by_cases h3 : l = r.DataLevel
        · subst h3
          have : r.DataLevel - (r.DataLevel - 1) = 1 := by omega
          rw [this] at he
          simp only [List.getElem?_cons_succ, List.getElem?_cons_zero, Option.some.injEq] at he
          subst he
          exact ⟨r, openRow_cons_self r rows, rfl⟩
        · have : ∃ k, l - (r.DataLevel - 1) = k + 2 := ⟨l - (r.DataLevel - 1) - 2, by omega⟩
          obtain ⟨k, hk⟩ := this
          rw [hk] at he
          simp at he

/-- A run of rows that is read keeps the open arguments following the rows. -/
theorem readRows_follows (l : List oracall.Row) :
    ∀ (st st' : oracall.Reader) (rows : List oracall.Row),
      oracall.readRows l st = .ok st' → oracall.OpenFollows rows st.opened →
      oracall.OpenFollows (l.reverse ++ rows) st'.opened := by
  induction l with
  | nil =>
    intro st st' rows hr hf
    simp only [oracall.readRows, Except.ok.injEq] at hr
    subst hr
    exact hf
  | cons r l ih =>
    intro st st' rows hr hf
    simp only [oracall.readRows] at hr
    cases h1 : oracall.readRow st r with
    | error e => rw [h1] at hr; cases hr
    | ok st1 =>
      rw [h1] at hr
      have := ih st1 st' (r :: rows) hr (readRow_follows st st1 r rows h1 hf)
      simpa using this

/-- A row above level 0 whose parent level has no open Record or Table is not
read. -/
theorem readRow_dangling (st : oracall.Reader) (r : oracall.Row) (rows : List oracall.Row)
    (n : Nat) (hl : r.DataLevel = n + 1) (hf : oracall.OpenFollows rows st.opened)
    (hno : ∀ p, oracall.openRow n rows = some p →
      p.argument.fields.Flavor ≠ oracall.FLAVOR_RECORD ∧
      p.argument.fields.Flavor ≠ oracall.FLAVOR_TABLE) :
    ∃ e, oracall.readRow st r = .error e := by
  have h0 : ¬ r.DataLevel = 0 := by omega
  have hn : r.DataLevel - 1 = n := by omega
  simp only [oracall.readRow, h0, if_false, hn]
  cases hd : st.opened.drop n with
  | nil => exact ⟨_, rfl⟩
  | cons a rest =>
    obtain ⟨c, hc, hcf⟩ := collapse_cons a rest
    rw [hc]
    have ha : st.opened[n]? = some a := by
      have := congrArg (fun s => s[0]?) hd
      simpa using this
    obtain ⟨p, hp, hpe⟩ := hf n a ha
    obtain ⟨n1, n2⟩ := hno p hp
    have c1 : ¬ c.fields.Flavor = oracall.FLAVOR_RECORD := by rw [hcf, hpe]; exact n1
    have c2 : ¬ c.fields.Flavor = oracall.FLAVOR_TABLE := by rw [hcf, hpe]; exact n2
    simp only [c1, c2, if_false]
    exact ⟨_, rfl⟩

/-- A group of rows with a row above level 0 whose parent level has no open
Record or Table is not read. -/
theorem readRows_dangling (pre post : List oracall.Row) (r : oracall.Row) (n : Nat)
    (hl : r.DataLevel = n + 1)
    (hno : ∀ p, oracall.openRow n pre.reverse = some p →
      p.argument.fields.Flavor ≠ oracall.FLAVOR_RECORD ∧
      p.argument.fields.Flavor ≠ oracall.FLAVOR_TABLE) :
    ∃ e, oracall.readRows (pre ++ r :: post) {} = .error e := by
  rw [readRows_append]
  cases h1 : oracall.readRows pre {} with
  | error e => exact ⟨e, rfl⟩
  | ok st1 =>
    have hf : oracall.OpenFollows pre.reverse st1.opened := by
      have := readRows_follows pre {} st1 [] h1 (fun l e he => by simp at he)
      simpa using this
    obtain ⟨e, he⟩ := readRow_dangling st1 r pre.reverse n hl hf hno
    simp only [oracall.readRows, he]
    exact ⟨e, rfl⟩

end ReaderFacts

section GroupFacts

/-- A row belongs to its own function. -/
theorem sameFunction_refl (r : oracall.Row) : oracall.sameFunction r r = true := by
  simp [oracall.sameFunction]

/-- Rows of the same function have the same rows in their group. -/
theorem sameFunction_congr (k r s : oracall.Row) (h : oracall.sameFunction k r = true) :
    oracall.sameFunction k s = oracall.sameFunction r s := by
  simp only [oracall.sameFunction, Bool.and_eq_true, decide_eq_true_eq] at h
  simp only [oracall.sameFunction, h.1, h.2]

/-- Every row has the first row of its function among the first rows. -/
theorem firstRows_covers (rows : List oracall.Row) :
    ∀ r ∈ rows, ∃ k ∈ oracall.firstRows rows, oracall.sameFunction k r = true := by
  induction rows with
  | nil => intro r hr; cases hr
  | cons a rows ih =>
    intro r hr
    simp only [oracall.firstRows]
    by_cases ha : oracall.sameFunction a r = true
    · exact ⟨a, List.mem_cons_self _ _, ha⟩
    · rcases List.mem_cons.mp hr with rfl | hm
      · exact absurd (sameFunction_refl r) ha
      · obtain ⟨k, hk, hkr⟩ := ih r hm
        refine ⟨k, List.mem_cons_of_mem _ (List.mem_filter.mpr ⟨hk, ?_⟩), hkr⟩
        have : oracall.sameFunction a k = false := by
          cases hak : oracall.sameFunction a k with
          | false => rfl
          | true =>
            rw [sameFunction_congr a k r hak] at ha
            exact absurd hkr ha
        simp [this]

/-- The rows of the function of a row are one of the groups. -/
theorem groupRows_covers (rows : List oracall.Row) (r : oracall.Row) (hr : r ∈ rows) :
    rows.filter (oracall.sameFunction r) ∈ oracall.groupRows rows := by
  obtain ⟨k, hk, hkr⟩ := firstRows_covers rows r hr
  simp only [oracall.groupRows, List.mem_map]
  refine ⟨k, hk, ?_⟩
  congr 1
  funext s
  exact sameFunction_congr k r s hkr

/-- A batch with a group that is not read yields no Function. -/
theorem readFunctions_error (g : List oracall.Row)
    (hg : ∃ e, oracall.readFunction g = .error e) :
    ∀ gs : List (List oracall.Row), g ∈ gs → ∃ e, oracall.readFunctions gs = .error e := by
  intro gs
  induction gs with
  | nil => intro hm; cases hm
  | cons a gs ih =>
    intro hm
    simp only [oracall.readFunctions]
    cases ha : oracall.readFunction a with
    | error e => exact ⟨e, rfl⟩
    | ok f =>
      rcases List.mem_cons.mp hm with rfl | hm'
      · obtain ⟨e, he⟩ := hg
        rw [he] at ha
        cases ha
      · obtain ⟨e, he⟩ := ih hm'
        simp only [he]
        exact ⟨e, rfl⟩

end GroupFacts

/-- The rows `recordRows` are read into one Function with the Record
`p_kotveny`, which has the field `szerkot` after the zero element that
`NewArgument` puts in `RecordOf`, and the number `p_azon`. -/
theorem ParseCsv_reads_record :
    (oracall.ParseCsv oracall.recordRows).map (fun fs => fs.map (fun f =>
        (f.Package, f.name, f.Returns.isSome, f.Args.map (fun a =>
          (a.fields.Name, a.fields.Flavor,
            (a.fields.RecordOf.getD []).map (fun kv => kv.1))))))
      = .ok [("DB_WEB", "SET_DATES", false,
          [("p_kotveny", 1, ["", "szerkot"]), ("p_azon", 0, [])])] := by
  rfl

/-- C26: for every batch of rows that holds a level-2 row of a function at a
point where, among the rows of that function read before it, no level-1 row
whose argument is a Record or a Table is open, `ParseCsv` fails with a
structural metadata error, so that the batch yields no Function. -/
theorem ParseCsv_dangling_level_two (pre post : List oracall.Row) (r : oracall.Row)
    (hl : r.DataLevel = 2)
    (hno : ∀ p, oracall.openRow 1 (pre.filter (oracall.sameFunction r)).reverse = some p →
      p.argument.fields.Flavor ≠ oracall.FLAVOR_RECORD ∧
      p.argument.fields.Flavor ≠ oracall.FLAVOR_TABLE) :
    ∃ msg, oracall.ParseCsv (pre ++ r :: post) = .error (.structural msg) := by
  have hg : ∃ e, oracall.readFunction ((pre ++ r :: post).filter (oracall.sameFunction r))
      = .error e := by
    obtain ⟨e, he⟩ := readRows_dangling (pre.filter (oracall.sameFunction r))
      (post.filter (oracall.sameFunction r)) r 1 hl hno
    simp only [oracall.readFunction, List.filter_append, List.filter_cons,
      sameFunction_refl, if_true, he]
    exact ⟨e, rfl⟩
  obtain ⟨e, he⟩ := readFunctions_error _ hg _
    (groupRows_covers (pre ++ r :: post) r (by simp))
  cases e with
  | structural msg => exact ⟨msg, he⟩

/-- C26 at a concrete input: a level-2 row after the rows `recordRows`, whose
last row is a top-level number. -/
theorem ParseCsv_dangling_level_two_witness :
    ∃ msg, oracall.ParseCsv (oracall.recordRows ++ [oracall.deepRow])
      = .error (.structural msg) :=
  ParseCsv_dangling_level_two oracall.recordRows [] oracall.deepRow rfl
    (fun p hp => by
      have h : oracall.openRow 1
          (oracall.recordRows.filter (oracall.sameFunction oracall.deepRow)).reverse = none := rfl
      rw [h] at hp
      cases hp)

/-! # The name of a function without underscore, and the return value -/

/-- C27, the code at the failing input: whatever `capitalize` is, `Name()` of
the function `GET_VERSION` of package `UTILS` does not return, and neither does
`Name()` of any Function whose Package is not empty and has no underscore:
`unocap` slices `text[:i]` with `i = -1`, a runtime fault. -/
theorem Function_Name_faults_without_underscore (capitalize : String → String) :
    oracall.Function.Name capitalize { Package := "UTILS", name := "GET_VERSION" }
      = .error (.panic "slice bounds out of range") ∧
    ∀ f : oracall.Function, f.Package ≠ "" → Go.index f.Package '_' = none →
      f.Name capitalize = .error (.panic "slice bounds out of range") := by
  refine ⟨rfl, ?_⟩
  intro f hp hi
  simp only [oracall.Function.Name, hp, if_false, oracall.unocap, hi]

section ReturnsFacts

/-- The last statement that `getConvSimple` appends to the input conversions
registers the bind key `paramName`. -/
theorem getConvSimple_last (h : structs.Helpers) (arg : structs.Argument)
    (convIn convOut : List String) (types : structs.StrMap) (name paramName : String)
    (tableSize : Nat) (r : List String × List String × structs.StrMap)
    (hr : structs.getConvSimple h arg convIn convOut types name paramName tableSize = .ok r) :
    r.1.getLast? = some ("params[\"" ++ paramName ++ "\"] = v\n") := by
  simp only [structs.getConvSimple] at hr
  split_ifs at hr <;> cases hr <;> simp

/-- The state that the loop of `prepareCall` leaves when the last argument is a scalar. -/
theorem forRange_planArg_last_simple (h : structs.Helpers) (f : String)
    (l : List structs.Argument) (ret : structs.Argument)
    (hs : ret.fields.Flavor = structs.FLAVOR_SIMPLE)
    (s s' : structs.VarNames × structs.Plan)
    (hr : structs.forRange (structs.planArg h f) (l ++ [ret]) s = .ok s') :
    s'.2.convIn.getLast? = some ("params[\"" ++ ret.fields.Name ++ "\"] = v\n") := by
  obtain ⟨s1, s2, _, g2, g3⟩ := forRange_split (structs.planArg h f) ret l [] s s' hr
  simp only [structs.forRange, Except.ok.injEq] at g3
  subst g3
  simp only [structs.planArg, hs, if_true] at g2
  obtain ⟨vns1, p1⟩ := s1
  obtain ⟨vns2, p2⟩ := s2
  obtain ⟨_, _, _, _, _, _, r, hc, e1, _⟩ := planSimple_ok h vns1 vns2 p1 p2 ret g2
  show p2.convIn.getLast? = _
  rw [e1]
  exact getConvSimple_last h ret _ _ _ _ _ 0 r hc

end ReturnsFacts

/-- C28, the code at the failing input: for the function
`DB_web.szamolt_dijtetelek`, which returns a Table of Records, `prepareCall`
declares the local collection `x001` of the type of the return value and reads
it after the call (`i1 := x001.FIRST`), while the call statement is
`:ret := DB_web.szamolt_dijtetelek()`, in which `x001` does not occur. -/
theorem prepareCall_returns_variable_not_in_call :
    (structs.prepared structs.Helpers.plain [] structs.szamoltDijtetelek).map
        (fun r => (r.decls, r.call, r.post.take 2))
      = .ok (["i1 PLS_INTEGER;", "i2 PLS_INTEGER;", "x001 BRUNO.DB_WEB_PORTAL.NEVSZAM_TAB_TYP;",
          "TYPE VARCHAR2_80_tab_typ IS TABLE OF VARCHAR2(80) INDEX BY BINARY_INTEGER;",
          "x002#nev VARCHAR2_80_tab_typ;",
          "TYPE NUMBER_12_2_tab_typ IS TABLE OF NUMBER(12, 2) INDEX BY BINARY_INTEGER;",
          "x002#ertek NUMBER_12_2_tab_typ;"],
        ":ret := DB_web.szamolt_dijtetelek()",
        ["", "i1 := x001.FIRST; i2 := 1;"]) ∧
    Go.contains ":ret := DB_web.szamolt_dijtetelek()" "x001" = false :=
  ⟨rfl, by decide⟩

/-- C29, refuted as stated: for the function `DB_web.get_count`, whose return
value carries no name, the call statement assigns `:ret` and the input
conversions of the return value register the bind key of the empty name,
`params[""]`. -/
theorem prepareCall_returns_key_not_ret :
    (structs.prepared structs.Helpers.plain [] structs.getCount).map
        (fun r => (r.call, r.convIn.drop 3))
      = .ok (":ret := DB_web.get_count(p_sessionid=>:p_sessionid)",
          ["v = &output.", "params[\"\"] = v\n"]) :=
  rfl

/-- Two statements that register a bind key are equal only for the same key. -/
theorem params_line_inj (a b : String)
    (e : "params[\"" ++ a ++ "\"] = v\n" = "params[\"" ++ b ++ "\"] = v\n") : a = b := by
  have hd := congrArg String.data e
  simp only [String.data_append] at hd
  have h1 := List.append_cancel_right hd
  have h2 := List.append_cancel_left h1
  exact String.ext h2

/-- C29, amended: for every Function with a Scalar `Returns`, the call statement
assigns `:ret`, and the last input conversion, the one of `Returns`, registers
the bind key that is the name of the `Returns` argument; it is the key `ret`
if and only if that name is `ret`. -/
theorem prepareCall_returns_bind_key (h : structs.Helpers) (vn vn' : structs.VarNames)
    (f : structs.Function) (r : structs.Prepared) (ret : structs.Argument)
    (hr : structs.prepareCall h vn f = .ok (r, vn'))
    (hret : f.Returns = some ret) (hs : ret.fields.Flavor = structs.FLAVOR_SIMPLE) :
    r.convIn.getLast? = some ("params[\"" ++ ret.fields.Name ++ "\"] = v\n") ∧
    (∃ rest, r.call = ":ret := " ++ rest) ∧
    (r.convIn.getLast? = some "params[\"ret\"] = v\n" ↔ ret.fields.Name = "ret") := by
  simp only [structs.prepareCall, hret] at hr
  cases h1 : structs.forRange (structs.planArg h (f.Name h)) (f.Args ++ [ret])
      (vn, { decls := ["i1 PLS_INTEGER;", "i2 PLS_INTEGER;"],
             convIn := ["var v driver.Value\nvar x interface\x7b\x7d\n _, _ = v, x"],
             types := f.types }) with
  | error e => rw [h1] at hr; cases hr
  | ok s1 =>
    rw [h1] at hr
    have hl := forRange_planArg_last_simple h (f.Name h) f.Args ret hs _ _ h1
    simp only [Except.ok.injEq, Prod.mk.injEq] at hr
    obtain ⟨rfl, rfl⟩ := hr
    refine ⟨hl, ⟨f.Name h ++ ("(" ++ (structs.writeCallArgs s1.2.callArgs f.Args 0 ++ ")")),
      by simp only [Option.isSome_some, if_true, String.append_assoc]⟩, ?_⟩
    show s1.2.convIn.getLast? = _ ↔ _
    rw [hl]
    constructor
    · intro e
      exact params_line_inj _ _ (Option.some.inj e)
    · intro e
      rw [e]
      rfl

/-- C29, the amended claim at a concrete input: the function `sendOffer`, whose
return value has the name `ret`. -/
theorem prepareCall_returns_bind_key_witness :
    ∃ r vn', structs.prepareCall structs.Helpers.plain [] structs.sendOffer = .ok (r, vn') ∧
      r.convIn.getLast? = some "params[\"ret\"] = v\n" :=
  ⟨_, _, rfl, (prepareCall_returns_bind_key structs.Helpers.plain [] _ structs.sendOffer _ _
    rfl rfl rfl).1.trans (by rfl)⟩

/-! # The conversions of a field and of a parameter -/

/-- Outside the IN/OUT case `getConvRec` with a parent and `getConvSimple` do
the same for an argument whose host type is not `string`, in one call. -/
theorem getConvRec_eq_getConvSimple (h : structs.Helpers) (arg : structs.Argument)
    (convIn convOut : List String) (types : structs.StrMap) (name paramName key : String)
    (hd : ¬ (arg.IsInput = true ∧ arg.IsOutput = true))
    (hs : (h.goType arg types).1 ≠ "string") :
    structs.getConvRec h arg convIn convOut types name paramName 0 true key
      = structs.getConvSimple h arg convIn convOut types name paramName 0 := by
  by_cases ho : arg.IsOutput = true
  · have hi : ¬ arg.IsInput = true := fun hi => hd ⟨hi, ho⟩
    simp only [structs.getConvRec, structs.getConvSimple, ho, hi, hs, if_true, if_false,
      Bool.false_eq_true, and_true]
  · simp only [structs.getConvRec, structs.getConvSimple, ho, if_true, if_false,
      Bool.false_eq_true, and_true]

/-- C30, the code at the failing input: for the IN/OUT field `szerkot` (a `DATE`
of host type `time.Time`) with the name `P_kotveny.Szerkot`, `getConvSimple`
starts with the echo `output.P_kotveny.Szerkot = input.P_kotveny.Szerkot` and
`getConvRec` with the reversed `input.P_kotveny.Szerkot =
output.P_kotveny.Szerkot`; for every IN/OUT argument the two functions append
different statements to the input conversions; for an argument that is not
IN/OUT and whose host type is not `string` they return the same. -/
theorem getConvRec_inout_echo_reversed :
    structs.getConvSimple structs.Helpers.plain structs.szerkotField [] [] []
        "P_kotveny.Szerkot" "x002#szerkot" 0
      = .ok (["output.P_kotveny.Szerkot = input.P_kotveny.Szerkot",
          "v = &output.P_kotveny.Szerkot", "if input.P_kotveny != nil \x7b", "\x7d",
          "params[\"x002#szerkot\"] = v\n"], [], []) ∧
    structs.getConvRec structs.Helpers.plain structs.szerkotField [] [] []
        "P_kotveny.Szerkot" "x002#szerkot" 0 true "szerkot"
      = .ok (["input.P_kotveny.Szerkot = output.P_kotveny.Szerkot",
          "v = &output.P_kotveny.Szerkot", "if input.P_kotveny != nil \x7b", "\x7d",
          "params[\"x002#szerkot\"] = v\n"], [], []) ∧
    (∀ (h : structs.Helpers) (arg : structs.Argument) (convIn convOut : List String)
      (types : structs.StrMap) (name paramName key : String)
      (r s : List String × List String × structs.StrMap),
      arg.IsInput = true → arg.IsOutput = true →
      structs.getConvSimple h arg convIn convOut types name paramName 0 = .ok r →
      structs.getConvRec h arg convIn convOut types name paramName 0 true key = .ok s →
      (∃ rest, r.1 = convIn ++ ("output." ++ name ++ " = input." ++ name) :: rest) ∧
      (∃ rest, s.1 = convIn ++ ("input." ++ name ++ " = output." ++ name) :: rest) ∧
      r.1 ≠ s.1) ∧
    (∀ (h : structs.Helpers) (arg : structs.Argument) (convIn convOut : List String)
      (types : structs.StrMap) (name paramName key : String),
      ¬ (arg.IsInput = true ∧ arg.IsOutput = true) → (h.goType arg types).1 ≠ "string" →
      structs.getConvRec h arg convIn convOut types name paramName 0 true key
        = structs.getConvSimple h arg convIn convOut types name paramName 0) := by
  refine ⟨rfl, rfl, ?_, fun h arg convIn convOut types name paramName key hd hs =>
    getConvRec_eq_getConvSimple h arg convIn convOut types name paramName key hd hs⟩
  intro h arg convIn convOut types name paramName key r s hi ho hr hs
  have h1 : ∃ rest, r.1 = convIn ++ ("output." ++ name ++ " = input." ++ name) :: rest :=
    (getConvSimple_inout h arg convIn convOut types name paramName 0 hi ho r hr).1
  have h2 : ∃ rest, s.1 = convIn ++ ("input." ++ name ++ " = output." ++ name) :: rest := by
    simp only [structs.getConvRec, ho, hi, if_true] at hs
    split_ifs at hs <;> cases hs <;> simp
  refine ⟨h1, h2, ?_⟩
  obtain ⟨r1, e1⟩ := h1
  obtain ⟨r2, e2⟩ := h2
  intro e
  rw [e1, e2] at e
  have e3 := List.append_cancel_left e
  simp only [List.cons.injEq] at e3
  have e4 := congrArg String.data e3.1
  simp only [String.data_append] at e4
  have e5 := congrArg List.head? e4
  simp at e5

/-! ## New paths, collection loops, type names, block text, the two models, conversions -/

section NewPathFacts

/-- Making the map of a function twice is making it once. -/
theorem openMap_idem (vn : structs.VarNames) (f : String) :
    structs.getVarName.openMap (structs.getVarName.openMap vn f) f
      = structs.getVarName.openMap vn f := by
  cases h : Go.mapGet vn f with
  | some m => rw [openMap_of_some vn f m h, openMap_of_some vn f m h]
  | none =>
    have : Go.mapGet (structs.getVarName.openMap vn f) f = some [] := by
      simp only [structs.getVarName.openMap, h, mapGet_mapSet_self]
    exact openMap_of_some _ f [] this

/-- A request in the state in which the map of the function is made is the
request in the state before. -/
theorem getVarNameFuel_openMap (fuel : Nat) (vn : structs.VarNames) (f v p : String) :
    structs.getVarNameFuel fuel (structs.getVarName.openMap vn f) f v p
      = structs.getVarNameFuel fuel vn f v p := by
  cases fuel with
  | zero => rfl
  | succ fuel => simp only [structs.getVarNameFuel, openMap_idem]

/-- More fuel does not change what `getVarNameFuel` returns. -/
theorem getVarNameFuel_mono (fuel : Nat) : ∀ (vn : structs.VarNames) (f v p : String)
    (r : String × structs.VarNames), structs.getVarNameFuel fuel vn f v p = some r →
    structs.getVarNameFuel (fuel + 1) vn f v p = some r := by
  induction fuel with
  | zero => intro vn f v p r h; cases h
  | succ fuel ih =>
    intro vn f v p r h
    rw [structs.getVarNameFuel] at h ⊢
    cases hm : Go.mapGet ((Go.mapGet (structs.getVarName.openMap vn f) f).getD []) v with
    | some x => simp only [hm] at h ⊢; exact h
    | none =>
      simp only [hm] at h ⊢
      cases hd : structs.getVarName.dotSplit v with
      | none => simp only [hd] at h ⊢; exact h
      | some ps =>
        obtain ⟨pre, suf⟩ := ps
        simp only [hd] at h ⊢
        cases hr : structs.getVarNameFuel fuel (structs.getVarName.openMap vn f) f pre p with
        | none => simp only [hr] at h; cases h
        | some r1 =>
          rw [ih _ _ _ _ r1 hr]
          simp only [hr] at h
          exact h

/-- With fuel above the length of the path, `getVarNameFuel` is `getVarName`. -/
theorem getVarNameFuel_of_lt (fuel : Nat) (vn : structs.VarNames) (f v p : String)
    (h : v.length < fuel) :
    structs.getVarNameFuel fuel vn f v p = some (structs.getVarName vn f v p) := by
  have key : ∀ k, structs.getVarNameFuel (v.length + 1 + k) vn f v p
      = some (structs.getVarName vn f v p) := by
    intro k
    induction k with
    | zero => exact getVarName_eq vn f v p
    | succ k ih => exact getVarNameFuel_mono _ vn f v p _ ih
  have := key (fuel - (v.length + 1))
  rwa [show v.length + 1 + (fuel - (v.length + 1)) = fuel by omega] at this

/-- Function `getVarName` for a path not yet recorded. -/
theorem getVarName_unfold (vn : structs.VarNames) (f v p : String)
    (hnew : structs.recorded vn f v = none) :
    structs.getVarName vn f v p =
      match structs.getVarName.dotSplit v with
      | some (pre, suf) =>
        structs.getVarName.record (structs.getVarName vn f pre p).2 f v p
          (Go.mapLen (structs.namesOf vn f)) ((structs.getVarName vn f pre p).1 ++ "#" ++ suf)
      | none =>
        structs.getVarName.record (structs.getVarName.openMap vn f) f v p
          (Go.mapLen (structs.namesOf vn f)) "" := by
  have h := getVarName_eq vn f v p
  have hn : (Go.mapGet (structs.getVarName.openMap vn f) f).getD [] = structs.namesOf vn f := by
    unfold structs.namesOf structs.getVarName.openMap
    cases hg : Go.mapGet vn f with
    | some m => simp only [hg, Option.getD_some]
    | none => simp only [mapGet_mapSet_self, Option.getD_some, Option.getD_none]
  rw [structs.getVarNameFuel] at h
  simp only [mapGet_getD_eq, recorded_openMap, hnew] at h
  cases hd : structs.getVarName.dotSplit v with
  | none =>
    simp only [hd, Option.some.injEq] at h
    rw [← h, hn]
  | some ps =>
    obtain ⟨pre, suf⟩ := ps
    have hlt := dotSplit_length_lt v pre suf hd
    simp only [hd, getVarNameFuel_openMap,
      getVarNameFuel_of_lt v.length vn f pre p hlt, Option.some.injEq] at h
    rw [← h, hn]

end NewPathFacts

/-- C31: a request to `getVarName` for a path `p` that the map of `f` does not
hold, with the prefix `x`.  When the last dot of `p`, at `i`, is neither the
first nor the last character, the prefix `p[:i]` is resolved first (and is
recorded afterwards) and the name is `name(prefix)#suffix` when that is at most
30 bytes long, the sequence name otherwise; without such a dot the name is the
sequence name.  The sequence name is `x` and, zero-padded to three digits, one
more than the number of entries the map of `f` held when the request was made.
In every case the name returned is recorded for `p`. -/
theorem getVarName_new_path (vn : structs.VarNames) (f p : String)
    (hnew : structs.recorded vn f p = none) :
    (∀ i, Go.lastIndex p '.' = some i → 0 < i → i + 1 < p.length →
      (structs.getVarName vn f p "x").1 =
        (if Go.len ((structs.getVarName vn f (Go.sliceTo p i) "x").1 ++ "#"
            ++ Go.sliceFrom p (i + 1)) ≤ 30
         then (structs.getVarName vn f (Go.sliceTo p i) "x").1 ++ "#" ++ Go.sliceFrom p (i + 1)
         else "x" ++ Go.fmt03d (Go.mapLen (structs.namesOf vn f) + 1)) ∧
      structs.recorded (structs.getVarName vn f p "x").2 f (Go.sliceTo p i)
        = some (structs.getVarName vn f (Go.sliceTo p i) "x").1) ∧
    ((∀ i, Go.lastIndex p '.' = some i → ¬ (0 < i ∧ i + 1 < p.length)) →
      (structs.getVarName vn f p "x").1
        = "x" ++ Go.fmt03d (Go.mapLen (structs.namesOf vn f) + 1)) ∧
    structs.recorded (structs.getVarName vn f p "x").2 f p
      = some (structs.getVarName vn f p "x").1 := by
  have hu := getVarName_unfold vn f p "x" hnew
  refine ⟨?_, ?_, (getVarName_keeps vn f p).2⟩
  · intro i hi h0 h1
    have hd : structs.getVarName.dotSplit p
        = some (Go.sliceTo p i, Go.sliceFrom p (i + 1)) := by
      simp only [structs.getVarName.dotSplit, hi, h0, h1, and_self, if_true]
    rw [hd] at hu
    simp only at hu
    have hne : ¬ ((structs.getVarName vn f (Go.sliceTo p i) "x").1 ++ "#"
        ++ Go.sliceFrom p (i + 1) = "") := by
      intro he
      have := congrArg String.length he
      simp only [String.length_append] at this
      have h2 : ("#" : String).length = 1 := rfl
      have h3 : ("" : String).length = 0 := rfl
      omega
    constructor
    · rw [hu]
      simp only [structs.getVarName.record, hne, false_or]
      by_cases hl : Go.len ((structs.getVarName vn f (Go.sliceTo p i) "x").1 ++ "#"
          ++ Go.sliceFrom p (i + 1)) ≤ 30
      · rw [if_neg (by omega), if_pos hl]
      · rw [if_pos (by omega), if_neg hl]
    · rw [hu, recorded_record]
      have hpre : ¬ (f = f ∧ Go.sliceTo p i = p) := by
        rintro ⟨_, he⟩
        have hlt := dotSplit_length_lt p _ _ hd
        rw [he] at hlt
        omega
      rw [if_neg hpre]
      exact (getVarName_keeps vn f (Go.sliceTo p i)).2
  · intro hno
    have hd : structs.getVarName.dotSplit p = none := by
      unfold structs.getVarName.dotSplit
      cases hl : Go.lastIndex p '.' with
      | none => rfl
      | some i => simp only [hno i hl, if_false]
    rw [hd] at hu
    simp only at hu
    rw [hu]
    simp only [structs.getVarName.record, true_or, if_true]

/-- C31 at a concrete input: with the path `p_rec` recorded for `f` under the
name `x001`, the new path `p_rec.nev` gets the name `x001#nev`. -/
theorem getVarName_new_path_witness :
    (structs.getVarName [("f", [("p_rec", "x001")])] "f" "p_rec.nev" "x").1 = "x001#nev" :=
  ((getVarName_new_path [("f", [("p_rec", "x001")])] "f" "p_rec.nev" rfl).1 5 rfl
    (by decide) (by decide)).1.trans (by rfl)

/-- C32: the turn of `prepareCall` for a Table-of-Scalar argument `a`, named
`n`, whose local collection is `vn` (the name recorded for `n` when the plan is
done, declared as `vn <TypeName>;`).  From the state `s1` the loop has reached
before `a` to the state `s2` after it, the pre-call statements gain exactly
`vn.DELETE;`, `i1 := n.FIRST;`, `WHILE i1 IS NOT NULL LOOP`,
`  vn(i1) := n(i1);`, `  i1 := n.NEXT(i1);`, `END LOOP;` when `a` is an input and
nothing otherwise; the post-call statements gain exactly `n.DELETE;`,
`i1 := vn.FIRST;`, `WHILE i1 IS NOT NULL LOOP`, `  n(i1) := vn(i1);`,
`  i1 := vn.NEXT(i1);`, `END LOOP;`, `:n := n;` when `a` is an output and nothing
otherwise; both streams of `s2` are kept at the start of the streams that
`prepareCall` returns. -/
theorem prepareCall_table_of_scalar (h : structs.Helpers) (vn vn' : structs.VarNames)
    (f : structs.Function) (r : structs.Prepared) (l1 l2 : List structs.Argument)
    (a elem : structs.Argument) (s1 s2 : structs.VarNames × structs.Plan)
    (hargs : f.args = l1 ++ a :: l2)
    (hflav : a.fields.Flavor = structs.FLAVOR_TABLE) (hcur : a.fields.Type_ ≠ "REF CURSOR")
    (hof : a.fields.TableOf = some elem)
    (hes : elem.fields.Flavor = structs.FLAVOR_SIMPLE)
    (hr : structs.prepareCall h vn f = .ok (r, vn'))
    (hs1 : structs.forRange (structs.planArg h (f.Name h)) l1
        (vn, { decls := ["i1 PLS_INTEGER;", "i2 PLS_INTEGER;"],
               convIn := ["var v driver.Value\nvar x interface\x7b\x7d\n _, _ = v, x"],
               types := f.types }) = .ok s1)
    (hs2 : structs.planArg h (f.Name h) s1 a = .ok s2) :
    s2.2.pre = s1.2.pre ++ (if a.IsInput = true then
      [structs.slotOf vn' (f.Name h) a.fields.Name ++ ".DELETE;",
       "i1 := " ++ a.fields.Name ++ ".FIRST;",
       "WHILE i1 IS NOT NULL LOOP",
       "  " ++ structs.slotOf vn' (f.Name h) a.fields.Name ++ "(i1) := "
          ++ a.fields.Name ++ "(i1);",
       "  i1 := " ++ a.fields.Name ++ ".NEXT(i1);",
       "END LOOP;"] else []) ∧
    s2.2.post = s1.2.post ++ (if a.IsOutput = true then
      [a.fields.Name ++ ".DELETE;",
       "i1 := " ++ structs.slotOf vn' (f.Name h) a.fields.Name ++ ".FIRST;",
       "WHILE i1 IS NOT NULL LOOP",
       "  " ++ a.fields.Name ++ "(i1) := " ++ structs.slotOf vn' (f.Name h) a.fields.Name
          ++ "(i1);",
       "  i1 := " ++ structs.slotOf vn' (f.Name h) a.fields.Name ++ ".NEXT(i1);",
       "END LOOP;",
       ":" ++ a.fields.Name ++ " := " ++ a.fields.Name ++ ";"] else []) ∧
    s2.2.pre <+: r.pre ∧ s2.2.post <+: r.post ∧
    (structs.slotOf vn' (f.Name h) a.fields.Name ++ " " ++ a.fields.TypeName ++ ";")
      ∈ r.decls := by
  simp only [structs.prepareCall] at hr
  split at hr
  · cases hr
  · rename_i vns p hf
    simp only [Except.ok.injEq, Prod.mk.injEq] at hr
    obtain ⟨rfl, rfl⟩ := hr
    have hf2 : structs.forRange (structs.planArg h (f.Name h)) f.args _ = .ok (vns, p) := hf
    rw [hargs] at hf2
    obtain ⟨t1, t2, g1, g2, g3⟩ := forRange_split _ a l1 _ _ _ hf2
    rw [hs1] at g1
    cases g1
    rw [hs2] at g2
    cases g2
    have hc := forRange_planArg_continues h (f.Name h) _ s2 (vns, p) g3
    have g2r : structs.planTableSimple h (f.Name h) s1 a elem = .ok s2 := by
      have := hs2
      simp only [structs.planArg, hflav, hcur, hof, hes, if_true, if_false] at this
      rw [if_neg (by decide)] at this
      exact this
    obtain ⟨v1, p1⟩ := s1
    obtain ⟨v2, p2⟩ := s2
    obtain ⟨e0, e1, _, _, e4, e5⟩ := planTableSimple_ok h (f.Name h) a elem v1 v2 p1 p2 g2r
    have hs : structs.slotOf vns (f.Name h) a.fields.Name
        = (structs.getVarName v1 (f.Name h) a.fields.Name "x").1 :=
      slotOf_of_keeps v1 vns (f.Name h) _ (by rw [← e0]; exact hc.1)
    refine ⟨?_, ?_, hc.2.2.2.1, hc.2.2.2.2, ?_⟩
    · show p2.pre = _
      rw [e4, hs]
    · show p2.post = _
      rw [e5, hs]
    · apply hc.2.2.1.subset
      show _ ∈ p2.decls
      rw [e1, hs]
      simp

/-- C32 at a concrete input: the IN Table `P_SZAMOK` of `NUMBER(9)`, the first
parameter of `DB_WEB.CHECK_CODES`, whose local collection is `x001`. -/
theorem prepareCall_table_of_scalar_witness :
    ∃ s2 : structs.VarNames × structs.Plan,
      structs.planArg structs.Helpers.plain "DB_web.check_codes"
        ([], { decls := ["i1 PLS_INTEGER;", "i2 PLS_INTEGER;"],
               convIn := ["var v driver.Value\nvar x interface\x7b\x7d\n _, _ = v, x"] })
        structs.szamokIn = .ok s2 ∧
      s2.2.pre = ["x001.DELETE;", "i1 := p_szamok.FIRST;", "WHILE i1 IS NOT NULL LOOP",
        "  x001(i1) := p_szamok(i1);", "  i1 := p_szamok.NEXT(i1);", "END LOOP;"] :=
  ⟨_, rfl, (prepareCall_table_of_scalar structs.Helpers.plain [] _ structs.checkCodes _ []
    [structs.kodokOut, structs.hibaTable] structs.szamokIn _ _ _ rfl rfl (by decide) rfl rfl
    rfl rfl rfl).1.trans (by rfl)⟩

/-- C33, violated by the code: for the procedure `DB_WEB.CLEAR_ALL` whose one
parameter is an IN/OUT Table of a Record without fields, the pre-call
statements that `prepareCall` plans are `  i1 := .NEXT(i1);`, `END LOOP;` and
the post-call statements `  i1 := x001.NEXT(i1); i2 := i2 + 1;`, `END LOOP;`:
one loop-closing statement and no loop-opening statement in each.  The loop
header is written in the turn of the first field, the footer after the fields:
whatever the helpers, a Table of a Record without fields gets the footer alone
in each direction it has. -/
theorem prepareCall_loop_closed_without_opening :
    (structs.prepared structs.Helpers.plain [] structs.clearAll).map
        (fun r => (r.pre, r.post))
      = .ok (["  i1 := .NEXT(i1);", "END LOOP;"],
          ["  i1 := x001.NEXT(i1); i2 := i2 + 1;", "END LOOP;"]) ∧
    (["  i1 := .NEXT(i1);", "END LOOP;"].count "WHILE i1 IS NOT NULL LOOP" = 0 ∧
     ["  i1 := .NEXT(i1);", "END LOOP;"].count "END LOOP;" = 1) ∧
    ∀ (h : structs.Helpers) (f : String) (a e : structs.Argument) (vns : structs.VarNames)
      (p : structs.Plan) (s' : structs.VarNames × structs.Plan),
      e.fields.RecordOf.getD [] = [] → (∀ n, h.rangeOf n [] = []) →
      structs.planTableRecord h f (vns, p) a e = .ok s' →
      s'.2.pre = p.pre
        ++ (if a.IsInput = true then ["  i1 := .NEXT(i1);", "END LOOP;"]
            else [(structs.getInnerVarName vns f (a.fields.Name ++ "." ++ e.fields.Name)).1
              ++ ".DELETE;"]) ∧
      s'.2.post = p.post
        ++ (if a.IsOutput = true then
            ["  i1 := " ++ (structs.getInnerVarName vns f
                (a.fields.Name ++ "." ++ e.fields.Name)).1 ++ ".NEXT(i1); i2 := i2 + 1;",
             "END LOOP;"]
            else []) := by
  refine ⟨rfl, ⟨by decide, by decide⟩, ?_⟩
  intro h f a e vns p s' he hr0 hr
  simp only [structs.planTableRecord, he, hr0, structs.forRange, structs.tableRecordLoops,
    structs.tableRecordClose] at hr
  by_cases hi : a.IsInput = true <;> by_cases ho : a.IsOutput = true <;>
    simp [hi, ho, structs.forRange] at hr <;> subst hr <;> simp [hi, ho]

section RuneFacts

/-- The rune mapping of `getTableType` on a text: the spaces and the closing
parentheses are deleted, every opening parenthesis and every comma becomes an
underscore. -/
theorem filterMap_rune_eq (l : List Char) :
    l.filterMap structs.tableTypeRune
      = (l.filter (fun c => decide (c ≠ ' ' ∧ c ≠ ')'))).map
          (fun c => if c = '(' ∨ c = ',' then '_' else c) := by
  induction l with
  | nil => rfl
  | cons c l ih =>
    by_cases h1 : c = '(' ∨ c = ','
    · have hc : structs.tableTypeRune c = some '_' := by
        simp only [structs.tableTypeRune, h1, if_true]
      have hk : decide (c ≠ ' ' ∧ c ≠ ')') = true := by
        rcases h1 with h | h <;> subst h <;> decide
      rw [List.filterMap_cons_some hc, List.filter_cons, if_pos hk, List.map_cons, ih, if_pos h1]
    · by_cases h2 : c = ' ' ∨ c = ')'
      · have hc : structs.tableTypeRune c = none := by
          simp only [structs.tableTypeRune, h1, h2, if_false, if_true]
        have hk : ¬ decide (c ≠ ' ' ∧ c ≠ ')') = true := by
          rcases h2 with h | h <;> subst h <;> decide
        rw [List.filterMap_cons_none hc, List.filter_cons, if_neg hk, ih]
      · have hc : structs.tableTypeRune c = some c := by
          simp only [structs.tableTypeRune, h1, h2, if_false]
        have hk : decide (c ≠ ' ' ∧ c ≠ ')') = true := by
          simp only [not_or] at h2
          simp only [ne_eq, h2.1, h2.2, not_false_eq_true, and_self, decide_True]
        rw [List.filterMap_cons_some hc, List.filter_cons, if_pos hk, List.map_cons, ih,
          if_neg h1]

/-- The lines that `PlsqlBlock` writes for a list of statements, joined. -/
theorem plsqlLines_eq (l : List String) :
    structs.plsqlLines l = String.join (l.map (fun line => "  " ++ line ++ "\n")) := by
  apply String.ext
  rw [String.data_join]
  induction l with
  | nil => rfl
  | cons a l ih =>
    simp only [structs.plsqlLines, String.data_append, List.map_cons, List.flatten_cons, ih]

end RuneFacts

/-- C35, refuted as stated: for the signature `NUMBER(12, 2)` the type that
`getTableType` declares is named `NUMBER_12_2_tab_typ`, the space being
deleted, and not `NUMBER_12__2_tab_typ`. -/
theorem getTableType_drops_the_space :
    (structs.getTableType {} "NUMBER(12, 2)").1 = "NUMBER_12_2_tab_typ" ∧
    (structs.getTableType {} "NUMBER(12, 2)").1 ≠ "NUMBER_12__2_tab_typ" ∧
    (structs.getTableType {} "NUMBER(12, 2)").2.decls
      = ["TYPE NUMBER_12_2_tab_typ IS TABLE OF NUMBER(12, 2) INDEX BY BINARY_INTEGER;"] := by
  refine ⟨rfl, by decide, rfl⟩

/-- C35, amended: the local collection type that `getTableType` declares for an
element signature `S` not yet in the plan is named by deleting each space and
each `)` of `S`, replacing each `(` and each `,` with `_` and appending
`_tab_typ`; the declaration `TYPE <name> IS TABLE OF S INDEX BY BINARY_INTEGER;`
is appended to the declarations and the name is stored for `S`. -/
theorem getTableType_name_of_signature (p : structs.Plan) (S : String)
    (hnew : Go.mapGet p.tableTypes S = none) :
    (structs.getTableType p S).1
      = String.mk ((S.data.filter (fun c => decide (c ≠ ' ' ∧ c ≠ ')'))).map
          (fun c => if c = '(' ∨ c = ',' then '_' else c)) ++ "_tab_typ" ∧
    (structs.getTableType p S).2.decls
      = p.decls ++ ["TYPE " ++ (structs.getTableType p S).1 ++ " IS TABLE OF " ++ S
          ++ " INDEX BY BINARY_INTEGER;"] ∧
    Go.mapGet (structs.getTableType p S).2.tableTypes S = some (structs.getTableType p S).1 := by
  have e : (structs.getTableType p S).1 = structs.tableTypeName S := by
    rw [(getTableType_effect p S).1, hnew]
    rfl
  refine ⟨?_, ?_, ?_⟩
  · rw [e]
    simp only [structs.tableTypeName, Go.mapRunes, filterMap_rune_eq]
  · rw [(getTableType_effect p S).2.1, if_pos hnew, e]
    rfl
  · rw [(getTableType_effect p S).2.2.1, if_pos hnew, e]
    exact mapGet_mapSet_self _ _ _

/-- C35, the amended claim at concrete inputs: `VARCHAR2(80)` gives
`VARCHAR2_80_tab_typ`, `NUMBER(9)` gives `NUMBER_9_tab_typ` and `NUMBER(12, 2)`
gives `NUMBER_12_2_tab_typ`. -/
theorem getTableType_name_of_signature_witness :
    (structs.getTableType {} "VARCHAR2(80)").1 = "VARCHAR2_80_tab_typ" ∧
    (structs.getTableType {} "NUMBER(9)").1 = "NUMBER_9_tab_typ" ∧
    (structs.getTableType {} "NUMBER(12, 2)").1 = "NUMBER_12_2_tab_typ" :=
  ⟨(getTableType_name_of_signature {} "VARCHAR2(80)" rfl).1.trans (by decide),
   (getTableType_name_of_signature {} "NUMBER(9)" rfl).1.trans (by decide),
   (getTableType_name_of_signature {} "NUMBER(12, 2)" rfl).1.trans (by decide)⟩

/-- C36: whenever `prepareCall` returns for a Function, `PlsqlBlock` returns the
text made of: when there is a declaration, the line `DECLARE`, each declaration
on its own line indented by two spaces and one empty line, and nothing when
there is none; the line `BEGIN`; each pre-call statement on its own line
indented by two spaces; an empty line, the call indented by two spaces and
closed by `;`, an empty line; each post-call statement on its own line indented
by two spaces; an empty line and the line `END;`.  Each stream is written in
its own order. -/
theorem PlsqlBlock_text_layout (h : structs.Helpers) (vn vn' : structs.VarNames)
    (f : structs.Function) (r : structs.Prepared)
    (hr : structs.prepareCall h vn f = .ok (r, vn')) :
    structs.PlsqlBlock h vn f
      = .ok ((if r.decls = [] then ""
              else "DECLARE\n" ++ String.join (r.decls.map (fun d => "  " ++ d ++ "\n")) ++ "\n")
          ++ "BEGIN\n"
          ++ String.join (r.pre.map (fun s => "  " ++ s ++ "\n"))
          ++ "\n" ++ "  " ++ r.call ++ ";\n" ++ "\n"
          ++ String.join (r.post.map (fun s => "  " ++ s ++ "\n"))
          ++ "\n" ++ "END;\n", vn') := by
  have he := prepareCall_err_none h vn f r vn' hr
  simp only [structs.PlsqlBlock, hr, he, structs.plsqlText, plsqlLines_eq]
  have hd : (r.decls.length > 0) = ¬ (r.decls = []) := by
    cases r.decls <;> simp
  simp only [hd, ite_not]
  have e1 : ∀ x : String, "\n" ++ ("  " ++ x) = "\n  " ++ x := fun x => by
    rw [← String.append_assoc]
    rfl
  have e2 : ∀ x : String, ";\n" ++ ("\n" ++ x) = ";\n\n" ++ x := fun x => by
    rw [← String.append_assoc]
    rfl
  have e3 : "\n" ++ "END;\n" = "\nEND;\n" := rfl
  split_ifs <;> simp only [String.append_assoc, e1, e2, e3]

/-- C38: in both packages a non-empty direction text alone decides the
Direction that `NewArgument` sets, whatever the number `dir` is: `IN/OUT` gives
`DIR_IN|DIR_OUT`, `OUT` gives `DIR_OUT` and every other non-empty text gives
`DIR_IN`. -/
theorem NewArgument_direction_by_text (name dataType plsType typeName dirName : String)
    (dir : Nat) (charset : String) (precision scale charlength : Nat) (hd : dirName ≠ "") :
    (structs.NewArgument name dataType plsType typeName dirName dir charset precision scale
        charlength).fields.Direction
      = (if dirName = "IN/OUT" then structs.DIR_IN ||| structs.DIR_OUT
         else if dirName = "OUT" then structs.DIR_OUT else structs.DIR_IN) ∧
    (oracall.NewArgument name dataType plsType typeName dirName dir charset precision scale
        charlength).fields.Direction
      = (if dirName = "IN/OUT" then oracall.DIR_IN ||| oracall.DIR_OUT
         else if dirName = "OUT" then oracall.DIR_OUT else oracall.DIR_IN) := by
  rw [structs_NewArgument_Direction, oracall_NewArgument_Direction]
  simp only [structs.NewArgument.dir, oracall.NewArgument.dir, hd, ne_eq, not_false_eq_true,
    if_true]
  constructor <;> split_ifs <;> first | rfl | (exfalso; revert ‹_ < _›; decide)

/-- C38 at concrete inputs: the text `OUT` with the number 1 gives `DIR_OUT` in
package structs, the unrecognised text `INOUT` with the number 2 gives `DIR_IN`
in package oracall. -/
theorem NewArgument_direction_by_text_witness :
    (structs.NewArgument "P_X" "NUMBER" "" "" "OUT" 1 "" 0 0 0).fields.Direction
        = structs.DIR_OUT ∧
    (oracall.NewArgument "P_X" "NUMBER" "" "" "INOUT" 2 "" 0 0 0).fields.Direction
        = oracall.DIR_IN :=
  ⟨(NewArgument_direction_by_text "P_X" "NUMBER" "" "" "OUT" 1 "" 0 0 0 (by decide)).1.trans
      (by decide),
   (NewArgument_direction_by_text "P_X" "NUMBER" "" "" "INOUT" 2 "" 0 0 0 (by decide)).2.trans
      (by decide)⟩

/-- C36 at a concrete input: the procedure `PUT_CODES` with the IN Table
`P_SZAMOK` of `NUMBER(9)`, its four streams and its block text. -/
theorem PlsqlBlock_text_layout_witness :
    ∃ r vn', structs.prepareCall structs.Helpers.plain []
        (structs.procedure "PUT_CODES" [structs.szamokIn]) = .ok (r, vn') ∧
      r.decls = ["i1 PLS_INTEGER;", "i2 PLS_INTEGER;",
        "TYPE NUMBER_9_tab_typ IS TABLE OF NUMBER(9) INDEX BY BINARY_INTEGER;",
        "p_szamok NUMBER_9_tab_typ := :p_szamok;", "x001 DB_WEB.SZAM_TAB_TYP;"] ∧
      r.pre = ["x001.DELETE;", "i1 := p_szamok.FIRST;", "WHILE i1 IS NOT NULL LOOP",
        "  x001(i1) := p_szamok(i1);", "  i1 := p_szamok.NEXT(i1);", "END LOOP;"] ∧
      r.call = "put_codes(p_szamok=>x001)" ∧ r.post = [] ∧
      structs.PlsqlBlock structs.Helpers.plain []
          (structs.procedure "PUT_CODES" [structs.szamokIn])
        = .ok ((if r.decls = [] then ""
              else "DECLARE\n" ++ String.join (r.decls.map (fun d => "  " ++ d ++ "\n")) ++ "\n")
          ++ "BEGIN\n"
          ++ String.join (r.pre.map (fun s => "  " ++ s ++ "\n"))
          ++ "\n" ++ "  " ++ r.call ++ ";\n" ++ "\n"
          ++ String.join (r.post.map (fun s => "  " ++ s ++ "\n"))
          ++ "\n" ++ "END;\n", vn') :=
  ⟨_, _, rfl, rfl, rfl, rfl, rfl,
    PlsqlBlock_text_layout structs.Helpers.plain [] _
      (structs.procedure "PUT_CODES" [structs.szamokIn]) _ rfl⟩

section ReprFacts

/-- The digit character of a digit has the digit as its value. -/
theorem digitChar_value (d : Nat) (h : d < 10) : (Nat.digitChar d).toNat - 48 = d := by
  interval_cases d <;> rfl

/-- A digit character is none of the characters of a signature. -/
theorem digitChar_plain (d : Nat) (h : d < 10) :
    Nat.digitChar d ≠ '(' ∧ Nat.digitChar d ≠ ',' ∧ Nat.digitChar d ≠ ' ' ∧
    Nat.digitChar d ≠ ')' ∧ Nat.digitChar d ≠ '_' := by
  interval_cases d <;> decide

/-- The digits that `Nat.toDigitsCore` writes have the value of the number. -/
theorem toDigitsCore_value (fuel : Nat) : ∀ (n : Nat) (acc : List Char), n < fuel →
    (Nat.toDigitsCore 10 fuel n acc).foldl (fun a c => 10 * a + (c.toNat - 48)) 0
      = acc.foldl (fun a c => 10 * a + (c.toNat - 48)) n := by
  induction fuel with
  | zero => intro n acc h; omega
  | succ fuel ih =>
    intro n acc h
    simp only [Nat.toDigitsCore]
    have hd := digitChar_value (n % 10) (Nat.mod_lt _ (by decide))
    split_ifs with h0
    · simp only [List.foldl_cons, hd]
      congr 1
      omega
    · rw [ih (n / 10) _ (by omega)]
      simp only [List.foldl_cons, hd]
      congr 1
      omega

/-- The digits that `Nat.toDigitsCore` writes are digits. -/
theorem toDigitsCore_plain (fuel : Nat) : ∀ (n : Nat) (acc : List Char),
    (∀ c ∈ acc, c ≠ '(' ∧ c ≠ ',' ∧ c ≠ ' ' ∧ c ≠ ')' ∧ c ≠ '_') →
    ∀ c ∈ Nat.toDigitsCore 10 fuel n acc,
      c ≠ '(' ∧ c ≠ ',' ∧ c ≠ ' ' ∧ c ≠ ')' ∧ c ≠ '_' := by
  induction fuel with
  | zero => intro n acc hacc c hc; exact hacc c (by simpa [Nat.toDigitsCore] using hc)
  | succ fuel ih =>
    intro n acc hacc c hc
    have hacc' : ∀ c ∈ Nat.digitChar (n % 10) :: acc,
        c ≠ '(' ∧ c ≠ ',' ∧ c ≠ ' ' ∧ c ≠ ')' ∧ c ≠ '_' := by
      intro c' hc'
      rcases List.mem_cons.mp hc' with h | h
      · rw [h]; exact digitChar_plain _ (Nat.mod_lt _ (by decide))
      · exact hacc c' h
    simp only [Nat.toDigitsCore] at hc
    split_ifs at hc
    · exact hacc' c hc
    · exact ih _ _ hacc' c hc

/-- The decimal rendering of a number has the value of the number. -/
theorem digitsValue_repr (n : Nat) : structs.digitsValue (Nat.repr n).data = n := by
  have := toDigitsCore_value (n + 1) n [] (Nat.lt_succ_self n)
  simpa [structs.digitsValue, Nat.repr, Nat.toDigits, List.asString] using this

/-- Two numbers with the same decimal rendering are equal. -/
theorem repr_data_inj (a b : Nat) (h : (Nat.repr a).data = (Nat.repr b).data) : a = b := by
  rw [← digitsValue_repr a, ← digitsValue_repr b, h]

/-- The decimal rendering of a number holds digits only. -/
theorem repr_plain (n : Nat) : ∀ c ∈ (Nat.repr n).data,
    c ≠ '(' ∧ c ≠ ',' ∧ c ≠ ' ' ∧ c ≠ ')' ∧ c ≠ '_' := by
  have := toDigitsCore_plain (n + 1) n [] (by simp)
  simpa [Nat.repr, Nat.toDigits, List.asString] using this

end ReprFacts

section PieceFacts

/-- Pieces without underscore are read back from their joined text. -/
theorem joinPieces_inj : ∀ (xs ys : List (List Char)) (x y : List Char),
    '_' ∉ x → '_' ∉ y → (∀ p ∈ xs, '_' ∉ p) → (∀ p ∈ ys, '_' ∉ p) →
    structs.joinPieces x xs = structs.joinPieces y ys → x = y ∧ xs = ys := by
  intro xs
  induction xs with
  | nil =>
    intro ys x y hx hy _ _ he
    cases ys with
    | nil => simpa [structs.joinPieces] using he
    | cons q ys =>
      simp only [structs.joinPieces, List.map_nil, List.flatten_nil, List.append_nil,
        List.map_cons, List.flatten_cons, List.cons_append] at he
      exact absurd (he ▸ (by simp : '_' ∈ y ++ '_' :: (q ++ _))) hx
  | cons p xs ih =>
    intro ys x y hx hy hxs hys he
    cases ys with
    | nil =>
      simp only [structs.joinPieces, List.map_nil, List.flatten_nil, List.append_nil,
        List.map_cons, List.flatten_cons, List.cons_append] at he
      exact absurd (he ▸ (by simp : '_' ∈ x ++ '_' :: (p ++ _))) hy
    | cons q ys =>
      simp only [structs.joinPieces, List.map_cons, List.flatten_cons, List.cons_append] at he
      obtain ⟨g1, g2⟩ := append_cons_inj_of_not_mem '_' x y _ _ hx hy he
      obtain ⟨g3, g4⟩ := ih ys p q (hxs p (List.mem_cons_self _ _))
        (hys q (List.mem_cons_self _ _))
        (fun r hr => hxs r (List.mem_cons_of_mem _ hr))
        (fun r hr => hys r (List.mem_cons_of_mem _ hr)) g2
      exact ⟨g1, by rw [g3, g4]⟩

/-- The rune mapping of `getTableType` leaves a text without the characters it
rewrites or drops. -/
theorem filterMap_rune_plain (l : List Char)
    (h : ∀ c ∈ l, c ≠ '(' ∧ c ≠ ',' ∧ c ≠ ' ' ∧ c ≠ ')' ∧ c ≠ '_') :
    l.filterMap structs.tableTypeRune = l := by
  induction l with
  | nil => rfl
  | cons c l ih =>
    obtain ⟨h1, h2, h3, h4, _⟩ := h c (List.mem_cons_self _ _)
    have hc : structs.tableTypeRune c = some c := by
      simp only [structs.tableTypeRune, h1, h2, h3, h4, or_self, if_false]
    rw [List.filterMap_cons_some hc, ih (fun c' hc' => h c' (List.mem_cons_of_mem _ hc'))]

end PieceFacts

section SignatureFacts

/-- A signature is made of its keyword and its first two numbers. -/
theorem signature_take (kw : String) (ds : List Nat) :
    structs.signature kw ds = structs.signature kw (ds.take 2) := by
  rcases ds with _ | ⟨d1, _ | ⟨d2, ds⟩⟩ <;> rfl

/-- The name of the collection type of a signature with a plain keyword: the
keyword and the numbers, joined by underscores, and the ending `_tab_typ`. -/
theorem tableTypeName_signature (kw : String) (ds : List Nat) (hk : structs.plainKeyword kw) :
    (structs.tableTypeName (structs.signature kw ds)).data
      = structs.joinPieces kw.data ((ds.take 2).map (fun d => (Nat.repr d).data))
        ++ "_tab_typ".data := by
  have hkw := filterMap_rune_plain kw.data hk
  have hr : ∀ d, (Nat.repr d).data.filterMap structs.tableTypeRune = (Nat.repr d).data :=
    fun d => filterMap_rune_plain _ (repr_plain d)
  have h1 : structs.tableTypeRune '(' = some '_' := by decide
  have h2 : structs.tableTypeRune ',' = some '_' := by decide
  have h3 : structs.tableTypeRune ' ' = none := by decide
  have h4 : structs.tableTypeRune ')' = none := by decide
  rcases ds with _ | ⟨d1, _ | ⟨d2, ds⟩⟩
  · simp [structs.tableTypeName, structs.signature, Go.mapRunes, structs.joinPieces, hkw]
  · simp [structs.tableTypeName, structs.signature, Go.mapRunes, structs.joinPieces, hkw,
      Go.fmtD, List.filterMap_append, hr, h1, h4, List.filterMap_cons_some,
      List.filterMap_cons_none]
  · simp [structs.tableTypeName, structs.signature, Go.mapRunes, structs.joinPieces, hkw,
      Go.fmtD, List.filterMap_append, hr, h1, h2, h3, h4, List.filterMap_cons_some,
      List.filterMap_cons_none]

/-- Two signatures with plain keywords and the same name of the collection type
are the same signature. -/
theorem signature_eq_of_name (kw kw' : String) (ds ds' : List Nat)
    (hk : structs.plainKeyword kw) (hk' : structs.plainKeyword kw')
    (he : structs.tableTypeName (structs.signature kw ds)
      = structs.tableTypeName (structs.signature kw' ds')) :
    structs.signature kw ds = structs.signature kw' ds' := by
  have hd := congrArg String.data he
  rw [tableTypeName_signature kw ds hk, tableTypeName_signature kw' ds' hk'] at hd
  have hj := List.append_cancel_right hd
  have hp : ∀ (l : List Nat), ∀ p ∈ l.map (fun d => (Nat.repr d).data), '_' ∉ p := by
    intro l p hp hm
    obtain ⟨d, _, rfl⟩ := List.mem_map.mp hp
    exact (repr_plain d _ hm).2.2.2.2 rfl
  obtain ⟨g1, g2⟩ := joinPieces_inj _ _ kw.data kw'.data
    (fun hm => (hk _ hm).2.2.2.2 rfl) (fun hm => (hk' _ hm).2.2.2.2 rfl) (hp _) (hp _) hj
  have g3 : ds.take 2 = ds'.take 2 :=
    List.map_injective_iff.mpr (fun a b hab => repr_data_inj a b hab) g2
  rw [signature_take kw ds, signature_take kw' ds', g3, String.ext g1]

end SignatureFacts

section VocabularyFacts

/-- Two signatures with plain keywords and the same name of the collection type
have the same keyword and the same numbers. -/
theorem signature_parts_of_name (kw kw' : String) (ds ds' : List Nat)
    (hk : structs.plainKeyword kw) (hk' : structs.plainKeyword kw')
    (he : structs.tableTypeName (structs.signature kw ds)
      = structs.tableTypeName (structs.signature kw' ds')) :
    kw = kw' ∧ ds.take 2 = ds'.take 2 := by
  have hd := congrArg String.data he
  rw [tableTypeName_signature kw ds hk, tableTypeName_signature kw' ds' hk'] at hd
  have hj := List.append_cancel_right hd
  have hp : ∀ (l : List Nat), ∀ p ∈ l.map (fun d => (Nat.repr d).data), '_' ∉ p := by
    intro l p hp hm
    obtain ⟨d, _, rfl⟩ := List.mem_map.mp hp
    exact (repr_plain d _ hm).2.2.2.2 rfl
  obtain ⟨g1, g2⟩ := joinPieces_inj _ _ kw.data kw'.data
    (fun hm => (hk _ hm).2.2.2.2 rfl) (fun hm => (hk' _ hm).2.2.2.2 rfl) (hp _) (hp _) hj
  exact ⟨String.ext g1, List.map_injective_iff.mpr (fun a b hab => repr_data_inj a b hab) g2⟩

/-- The keywords of the vocabulary: each is plain, or one of the two integer
keywords, or one of the four keywords with a space. -/
theorem typeKeywords_cases (kw : String) (hk : kw ∈ structs.typeKeywords) :
    (structs.plainKeyword kw ∨ kw = "PLS_INTEGER" ∨ kw = "BINARY_INTEGER") ∨
    kw ∈ ["PL/SQL RECORD", "PL/SQL TABLE", "REF CURSOR", "PL/SQL BOOLEAN"] := by
  have hall : ∀ k ∈ structs.typeKeywords,
      (structs.plainKeyword k ∨ k = "PLS_INTEGER" ∨ k = "BINARY_INTEGER") ∨
      k ∈ ["PL/SQL RECORD", "PL/SQL TABLE", "REF CURSOR", "PL/SQL BOOLEAN"] := by
    decide
  exact hall kw hk

/-- The second switch of `structs.NewArgument` renders a signature: for a
keyword that is plain or one of the two integer keywords, the AbsType is the
signature of a plain keyword, which is the keyword itself or `INTEGER`. -/
theorem structs_setAbsType_keyword (a : structs.ArgumentF structs.Argument)
    (hk : structs.plainKeyword a.Type_ ∨ a.Type_ = "PLS_INTEGER"
      ∨ a.Type_ = "BINARY_INTEGER") :
    ∃ kw ds, structs.plainKeyword kw ∧ (kw = a.Type_ ∨ kw = "INTEGER") ∧
      (structs.NewArgument.setAbsType a).AbsType = structs.signature kw ds := by
  have hint : structs.plainKeyword "INTEGER" := by decide
  by_cases hi : a.Type_ = "PLS_INTEGER" ∨ a.Type_ = "BINARY_INTEGER"
  · refine ⟨"INTEGER", [10], hint, Or.inr rfl, ?_⟩
    rcases hi with h | h <;>
      simp [structs.NewArgument.setAbsType, h, structs.signature, Go.fmtD] <;> rfl
  · have hp : structs.plainKeyword a.Type_ := by
      rcases hk with h | h | h
      · exact h
      · exact absurd (Or.inl h) hi
      · exact absurd (Or.inr h) hi
    simp only [structs.NewArgument.setAbsType]
    split_ifs
    all_goals first
      | (refine ⟨a.Type_, [1000], hp, Or.inl rfl, ?_⟩; rfl)
      | (refine ⟨a.Type_, [10], hp, Or.inl rfl, ?_⟩; rfl)
      | (refine ⟨a.Type_, [a.CharLength], hp, Or.inl rfl, ?_⟩; rfl)
      | (refine ⟨a.Type_, [a.Precision, a.Scale], hp, Or.inl rfl, ?_⟩
         have hN : a.Type_ = "NUMBER" := by assumption
         rw [hN]; rfl)
      | (refine ⟨a.Type_, [a.Precision], hp, Or.inl rfl, ?_⟩
         have hN : a.Type_ = "NUMBER" := by assumption
         rw [hN]; rfl)
      | (refine ⟨a.Type_, [], hp, Or.inl rfl, ?_⟩
         have hN : a.Type_ = "NUMBER" := by assumption
         rw [hN]; rfl)
      | (refine ⟨a.Type_, [], hp, Or.inl rfl, ?_⟩; rfl)

/-- The second switch of `structs.NewArgument` keeps a keyword with a space as
the signature. -/
theorem structs_setAbsType_spaced (a : structs.ArgumentF structs.Argument)
    (hk : a.Type_ ∈ ["PL/SQL RECORD", "PL/SQL TABLE", "REF CURSOR", "PL/SQL BOOLEAN"]) :
    (structs.NewArgument.setAbsType a).AbsType = a.Type_ := by
  simp only [List.mem_cons, List.mem_singleton, List.not_mem_nil, or_false] at hk
  rcases hk with h | h | h | h <;> simp [structs.NewArgument.setAbsType, h]

/-- The signature that `structs.NewArgument` renders for a keyword of the
vocabulary: the signature of a plain keyword of the vocabulary, or one of the
four keywords with a space. -/
theorem structs_setAbsType_vocabulary (a : structs.ArgumentF structs.Argument)
    (hk : a.Type_ ∈ structs.typeKeywords) :
    (∃ kw ds, structs.plainKeyword kw ∧ kw ∈ structs.typeKeywords ∧
      (structs.NewArgument.setAbsType a).AbsType = structs.signature kw ds) ∨
    (structs.NewArgument.setAbsType a).AbsType
      ∈ ["PL/SQL RECORD", "PL/SQL TABLE", "REF CURSOR", "PL/SQL BOOLEAN"] := by
  rcases typeKeywords_cases a.Type_ hk with h | h
  · obtain ⟨kw, ds, hp, hkw, e⟩ := structs_setAbsType_keyword a h
    refine Or.inl ⟨kw, ds, hp, ?_, e⟩
    rcases hkw with h1 | h1
    · rw [h1]
      exact hk
    · rw [h1]
      decide
  · rw [structs_setAbsType_spaced a h]
    exact Or.inr h

/-- The naming of collection types is injective on the signatures of the
vocabulary. -/
theorem tableTypeName_inj_vocabulary (S T : String)
    (hS : (∃ kw ds, structs.plainKeyword kw ∧ kw ∈ structs.typeKeywords ∧
        S = structs.signature kw ds) ∨
      S ∈ ["PL/SQL RECORD", "PL/SQL TABLE", "REF CURSOR", "PL/SQL BOOLEAN"])
    (hT : (∃ kw ds, structs.plainKeyword kw ∧ kw ∈ structs.typeKeywords ∧
        T = structs.signature kw ds) ∨
      T ∈ ["PL/SQL RECORD", "PL/SQL TABLE", "REF CURSOR", "PL/SQL BOOLEAN"])
    (he : structs.tableTypeName S = structs.tableTypeName T) : S = T := by
  have mixed : ∀ (kw : String) (ds : List Nat) (U : String), structs.plainKeyword kw →
      kw ∈ structs.typeKeywords →
      U ∈ ["PL/SQL RECORD", "PL/SQL TABLE", "REF CURSOR", "PL/SQL BOOLEAN"] →
      structs.tableTypeName (structs.signature kw ds) = structs.tableTypeName U → False := by
    intro kw ds U hp hv hU hn
    simp only [List.mem_cons, List.mem_singleton, List.not_mem_nil, or_false] at hU
    rcases hU with h | h | h | h <;> subst h
    · have e : structs.tableTypeName "PL/SQL RECORD"
          = structs.tableTypeName (structs.signature "PL/SQLRECORD" []) := by decide
      rw [e] at hn
      have hk := (signature_parts_of_name kw "PL/SQLRECORD" ds [] hp (by decide) hn).1
      rw [hk] at hv
      exact absurd hv (by decide)
    · have e : structs.tableTypeName "PL/SQL TABLE"
          = structs.tableTypeName (structs.signature "PL/SQLTABLE" []) := by decide
      rw [e] at hn
      have hk := (signature_parts_of_name kw "PL/SQLTABLE" ds [] hp (by decide) hn).1
      rw [hk] at hv
      exact absurd hv (by decide)
    · have e : structs.tableTypeName "REF CURSOR"
          = structs.tableTypeName (structs.signature "REFCURSOR" []) := by decide
      rw [e] at hn
      have hk := (signature_parts_of_name kw "REFCURSOR" ds [] hp (by decide) hn).1
      rw [hk] at hv
      exact absurd hv (by decide)
    · have e : structs.tableTypeName "PL/SQL BOOLEAN"
          = structs.tableTypeName (structs.signature "PL/SQLBOOLEAN" []) := by decide
      rw [e] at hn
      have hk := (signature_parts_of_name kw "PL/SQLBOOLEAN" ds [] hp (by decide) hn).1
      rw [hk] at hv
      exact absurd hv (by decide)
  rcases hS with ⟨kw, ds, hp, hv, rfl⟩ | hS
  · rcases hT with ⟨kw', ds', hp', _, rfl⟩ | hT
    · exact signature_eq_of_name kw kw' ds ds' hp hp' he
    · exact absurd he (fun hn => mixed kw ds T hp hv hT hn)
  · rcases hT with ⟨kw', ds', hp', hv', rfl⟩ | hT
    · exact absurd he.symm (fun hn => mixed kw' ds' S hp' hv' hS hn)
    · have hall : ∀ U ∈ ["PL/SQL RECORD", "PL/SQL TABLE", "REF CURSOR", "PL/SQL BOOLEAN"],
          ∀ V ∈ ["PL/SQL RECORD", "PL/SQL TABLE", "REF CURSOR", "PL/SQL BOOLEAN"],
          structs.tableTypeName U = structs.tableTypeName V → U = V := by decide
      exact hall S hS T hT he

end VocabularyFacts

/-- Outside the vocabulary the naming loses information: for a data type text
`NUMBER(12,2)`, which `NewArgument` would keep as the signature, the type name
is the one of the signature `NUMBER(12, 2)` that `NewArgument` renders for a
`NUMBER` of precision 12 and scale 2. -/
theorem tableTypeName_outside_vocabulary :
    "NUMBER(12,2)" ∉ structs.typeKeywords ∧
    (structs.NewArgument "" "NUMBER" "NUMBER" "" "IN" 0 "" 12 2 0).fields.AbsType
      = "NUMBER(12, 2)" ∧
    (structs.NewArgument "" "NUMBER(12,2)" "NUMBER" "" "IN" 0 "" 0 0 0).fields.AbsType
      = "NUMBER(12,2)" ∧
    structs.tableTypeName "NUMBER(12, 2)" = structs.tableTypeName "NUMBER(12,2)" :=
  ⟨by decide, rfl, rfl, by decide⟩

/-- C34: the naming of local collection types is injective on the signatures
that `NewArgument` renders for the type keywords of the vocabulary: two such
signatures that get the same type name are the same signature; and when a plan
is asked for two different ones that it does not hold yet, `getTableType`
returns two different names and appends two TYPE declarations, one of each
name. -/
theorem getTableType_injective_on_vocabulary
    (name dataType plsType typeName dirName : String) (dir : Nat) (charset : String)
    (precision scale charlength : Nat)
    (name' dataType' plsType' typeName' dirName' : String) (dir' : Nat) (charset' : String)
    (precision' scale' charlength' : Nat) (S T : String)
    (hk : dataType ∈ structs.typeKeywords) (hk' : dataType' ∈ structs.typeKeywords)
    (hS : (structs.NewArgument name dataType plsType typeName dirName dir charset precision
        scale charlength).fields.AbsType = S)
    (hT : (structs.NewArgument name' dataType' plsType' typeName' dirName' dir' charset'
        precision' scale' charlength').fields.AbsType = T) :
    (structs.tableTypeName S = structs.tableTypeName T → S = T) ∧
    (∀ p : structs.Plan, S ≠ T →
      Go.mapGet p.tableTypes S = none → Go.mapGet p.tableTypes T = none →
      (structs.getTableType p S).1 ≠ (structs.getTableType (structs.getTableType p S).2 T).1 ∧
      (structs.getTableType (structs.getTableType p S).2 T).2.decls
        = p.decls ++
          ["TYPE " ++ (structs.getTableType p S).1 ++ " IS TABLE OF " ++ S
            ++ " INDEX BY BINARY_INTEGER;",
           "TYPE " ++ (structs.getTableType (structs.getTableType p S).2 T).1
            ++ " IS TABLE OF " ++ T ++ " INDEX BY BINARY_INTEGER;"]) := by
  have h1 : (structs.NewArgument.setFlavor
      { Name := Go.toLower name, Type_ := dataType, PlsType := plsType,
        TypeName := structs.NewArgument.typeName typeName,
        Direction := structs.NewArgument.dir dirName dir, Precision := precision,
        Scale := scale, CharLength := charlength, Charset := charset }).Type_ = dataType :=
    (structs_setFlavor_keeps _).2.1
  have h2 : (structs.NewArgument.setFlavor
      { Name := Go.toLower name', Type_ := dataType', PlsType := plsType',
        TypeName := structs.NewArgument.typeName typeName',
        Direction := structs.NewArgument.dir dirName' dir', Precision := precision',
        Scale := scale', CharLength := charlength', Charset := charset' }).Type_
      = dataType' :=
    (structs_setFlavor_keeps _).2.1
  have f1 := structs_setAbsType_vocabulary _ (by rw [h1]; exact hk)
  have f2 := structs_setAbsType_vocabulary _ (by rw [h2]; exact hk')
  simp only [structs.NewArgument, structs.Argument.fields] at hS hT
  rw [hS] at f1
  rw [hT] at f2
  have inj : structs.tableTypeName S = structs.tableTypeName T → S = T :=
    tableTypeName_inj_vocabulary S T f1 f2
  refine ⟨inj, ?_⟩
  intro p hne hpS hpT
  have e1 := getTableType_effect p S
  have e2 := getTableType_effect (structs.getTableType p S).2 T
  have g1 : (structs.getTableType p S).1 = structs.tableTypeName S := by
    rw [e1.1, hpS]
    rfl
  have g0 : Go.mapGet (structs.getTableType p S).2.tableTypes T = none := by
    rw [e1.2.2.1, if_pos hpS, mapGet_mapSet_ne _ _ _ _ (Ne.symm hne), hpT]
  have g2 : (structs.getTableType (structs.getTableType p S).2 T).1 = structs.tableTypeName T := by
    rw [e2.1, g0]
    rfl
  refine ⟨?_, ?_⟩
  · rw [g1, g2]
    exact fun hn => hne (inj hn)
  · rw [e2.2.1, if_pos g0, e1.2.1, if_pos hpS, g1, g2, List.append_assoc]
    rfl

/-- C34 at concrete inputs: in the empty plan the signatures `VARCHAR2(80)` and
`NUMBER(9)`, rendered for a `VARCHAR2` of length 80 and a `NUMBER` of precision
9, get two different type names and two TYPE declarations. -/
theorem getTableType_injective_on_vocabulary_witness :
    (structs.getTableType {} "VARCHAR2(80)").1
      ≠ (structs.getTableType (structs.getTableType {} "VARCHAR2(80)").2 "NUMBER(9)").1 ∧
    (structs.getTableType (structs.getTableType {} "VARCHAR2(80)").2 "NUMBER(9)").2.decls
      = ["TYPE VARCHAR2_80_tab_typ IS TABLE OF VARCHAR2(80) INDEX BY BINARY_INTEGER;",
         "TYPE NUMBER_9_tab_typ IS TABLE OF NUMBER(9) INDEX BY BINARY_INTEGER;"] :=
  ⟨((getTableType_injective_on_vocabulary "P_NEV" "VARCHAR2" "VARCHAR2" "" "IN" 0 "CHAR_CS" 0 0
      80 "P_KOD" "NUMBER" "NUMBER" "" "OUT" 0 "" 9 0 0 "VARCHAR2(80)" "NUMBER(9)"
      (by decide) (by decide) rfl rfl).2 {} (by decide) rfl rfl).1, by rfl⟩

section AgreementFacts

/-- The first switch of `structs.NewArgument`: the flavor it sets, and the
character set it leaves. -/
theorem structs_setFlavor_Flavor (a : structs.ArgumentF structs.Argument) :
    (structs.NewArgument.setFlavor a).Flavor
      = (if a.Type_ = "PL/SQL RECORD" then 1
         else if a.Type_ = "TABLE" ∨ a.Type_ = "PL/SQL TABLE" ∨ a.Type_ = "REF CURSOR" then 2
         else a.Flavor) ∧
    (structs.NewArgument.setFlavor a).Charset = a.Charset := by
  simp only [structs.NewArgument.setFlavor]
  split_ifs <;> exact ⟨rfl, rfl⟩

/-- The first switch of `oracall.NewArgument`: the flavor it sets, and the
character set it leaves. -/
theorem oracall_setFlavor_Flavor (a : oracall.ArgumentF oracall.Argument) :
    (oracall.NewArgument.setFlavor a).Flavor
      = (if a.Type_ = "PL/SQL RECORD" then 1
         else if a.Type_ = "TABLE" ∨ a.Type_ = "PL/SQL TABLE" ∨ a.Type_ = "REF CURSOR" then 2
         else a.Flavor) ∧
    (oracall.NewArgument.setFlavor a).Charset = a.Charset := by
  simp only [oracall.NewArgument.setFlavor]
  split_ifs <;> exact ⟨rfl, rfl⟩

/-- The second switch of `structs.NewArgument` leaves the precision, the scale
and the character set. -/
theorem structs_setAbsType_numbers (a : structs.ArgumentF structs.Argument) :
    (structs.NewArgument.setAbsType a).Precision = a.Precision ∧
    (structs.NewArgument.setAbsType a).Scale = a.Scale ∧
    (structs.NewArgument.setAbsType a).Charset = a.Charset := by
  simp only [structs.NewArgument.setAbsType]
  split_ifs <;> exact ⟨rfl, rfl, rfl⟩

/-- The second switch of `oracall.NewArgument` leaves the precision, the scale
and the character set. -/
theorem oracall_setAbsType_numbers (a : oracall.ArgumentF oracall.Argument) :
    (oracall.NewArgument.setAbsType a).Precision = a.Precision ∧
    (oracall.NewArgument.setAbsType a).Scale = a.Scale ∧
    (oracall.NewArgument.setAbsType a).Charset = a.Charset := by
  simp only [oracall.NewArgument.setAbsType]
  split_ifs <;> exact ⟨rfl, rfl, rfl⟩

/-- The second switches of the two packages on arguments of the same type,
character length, precision and scale: the same character length and rendered
type, unless the default length of a VARCHAR type is taken, which is 1000 in
package structs and 32767 in package oracall. -/
theorem setAbsType_agree (a : structs.ArgumentF structs.Argument)
    (b : oracall.ArgumentF oracall.Argument) (ht : a.Type_ = b.Type_)
    (hc : a.CharLength = b.Charlength) (hp : a.Precision = b.Precision)
    (hs : a.Scale = b.Scale) :
    ((0 < a.CharLength ∨ a.Type_ ∉ ["VARCHAR", "NVARCHAR", "VARCHAR2", "NVARCHAR2"]) →
      (structs.NewArgument.setAbsType a).CharLength
          = (oracall.NewArgument.setAbsType b).Charlength ∧
      (structs.NewArgument.setAbsType a).AbsType = (oracall.NewArgument.setAbsType b).AbsType) ∧
    (a.CharLength = 0 → a.Type_ ∈ ["VARCHAR", "NVARCHAR", "VARCHAR2", "NVARCHAR2"] →
      (structs.NewArgument.setAbsType a).CharLength = 1000 ∧
      (oracall.NewArgument.setAbsType b).Charlength = 32767 ∧
      (structs.NewArgument.setAbsType a).AbsType = a.Type_ ++ "(1000)" ∧
      (oracall.NewArgument.setAbsType b).AbsType = a.Type_ ++ "(32767)") := by
  constructor
  · intro h
    simp only [structs.NewArgument.setAbsType, oracall.NewArgument.setAbsType, ← ht, ← hc, ← hp,
      ← hs]
    by_cases hch : a.Type_ = "CHAR" ∨ a.Type_ = "NCHAR" ∨ a.Type_ = "VARCHAR"
        ∨ a.Type_ = "NVARCHAR" ∨ a.Type_ = "VARCHAR2" ∨ a.Type_ = "NVARCHAR2"
    · simp only [hch, if_true]
      by_cases hl : a.CharLength ≤ 0
      · have h0 : ¬ 0 < a.CharLength := by omega
        have hv := h.resolve_left h0
        simp only [List.mem_cons, List.mem_singleton, List.not_mem_nil, or_false, not_or] at hv
        have hk : a.Type_ = "CHAR" ∨ a.Type_ = "NCHAR" := by
          rcases hch with h1 | h1 | h1 | h1 | h1 | h1
          · exact Or.inl h1
          · exact Or.inr h1
          · exact absurd h1 hv.1
          · exact absurd h1 hv.2.1
          · exact absurd h1 hv.2.2.1
          · exact absurd h1 hv.2.2.2
        have hn : Go.contains a.Type_ "VAR" = false := by
          rcases hk with h1 | h1 <;> rw [h1] <;> decide
        simp only [hl, hn, if_true, Bool.false_eq_true, if_false, oracall.DefaultMaxCHARLength]
        exact ⟨trivial, trivial⟩
      · simp only [hl, if_false]
        exact ⟨hc, by rw [ht, hc]⟩
    · simp only [hch, if_false]
      split_ifs <;> exact ⟨rfl, rfl⟩
  · intro h0 hv
    simp only [List.mem_cons, List.mem_singleton, List.not_mem_nil, or_false] at hv
    have hch : a.Type_ = "CHAR" ∨ a.Type_ = "NCHAR" ∨ a.Type_ = "VARCHAR"
        ∨ a.Type_ = "NVARCHAR" ∨ a.Type_ = "VARCHAR2" ∨ a.Type_ = "NVARCHAR2" := by
      rcases hv with h1 | h1 | h1 | h1
      · exact Or.inr (Or.inr (Or.inl h1))
      · exact Or.inr (Or.inr (Or.inr (Or.inl h1)))
      · exact Or.inr (Or.inr (Or.inr (Or.inr (Or.inl h1))))
      · exact Or.inr (Or.inr (Or.inr (Or.inr (Or.inr h1))))
    have hn : Go.contains a.Type_ "VAR" = true := by
      rcases hv with h1 | h1 | h1 | h1 <;> rw [h1] <;> decide
    have hl : a.CharLength ≤ 0 := by omega
    simp only [structs.NewArgument.setAbsType, oracall.NewArgument.setAbsType, ← ht, ← hc,
      hch, hl, hn, if_true, oracall.DefaultMaxVARCHARLength]
    have e1 : ∀ n : Nat, a.Type_ ++ "(" ++ Go.fmtD n ++ ")" = a.Type_ ++ ("(" ++ Go.fmtD n ++ ")") :=
      fun n => by simp only [String.append_assoc]
    exact ⟨trivial, trivial, (e1 1000).trans rfl, (e1 32767).trans rfl⟩

end AgreementFacts

/-- C37, refuted as stated: for a `VARCHAR2` argument without character
length, `NewArgument` of package structs sets the length 1000 and the
signature `VARCHAR2(1000)`, `NewArgument` of package oracall the length 32767
and the signature `VARCHAR2(32767)`. -/
theorem NewArgument_default_length_differs :
    (structs.NewArgument "P_NEV" "VARCHAR2" "VARCHAR2" "" "IN" 0 "CHAR_CS" 0 0 0).fields.CharLength
      = 1000 ∧
    (oracall.NewArgument "P_NEV" "VARCHAR2" "VARCHAR2" "" "IN" 0 "CHAR_CS" 0 0 0).fields.Charlength
      = 32767 ∧
    (structs.NewArgument "P_NEV" "VARCHAR2" "VARCHAR2" "" "IN" 0 "CHAR_CS" 0 0 0).fields.AbsType
      = "VARCHAR2(1000)" ∧
    (oracall.NewArgument "P_NEV" "VARCHAR2" "VARCHAR2" "" "IN" 0 "CHAR_CS" 0 0 0).fields.AbsType
      = "VARCHAR2(32767)" ∧
    (structs.NewArgument "P_NEV" "VARCHAR2" "VARCHAR2" "" "IN" 0 "CHAR_CS" 0 0 0).fields.AbsType
      ≠ (oracall.NewArgument "P_NEV" "VARCHAR2" "VARCHAR2" "" "IN" 0 "CHAR_CS" 0 0
          0).fields.AbsType := by
  refine ⟨rfl, rfl, rfl, rfl, by decide⟩

/-- C37, amended: for every input the two `NewArgument` return the same Name,
Direction, Flavor, Type, Precision, Scale and Charset; they return the same
character length and the same AbsType unless the character length is 0 and the
data type is one of `VARCHAR`, `NVARCHAR`, `VARCHAR2`, `NVARCHAR2`, in which
case the AbsType is the data type with `(1000)` in package structs and with
`(32767)` in package oracall. -/
theorem NewArgument_models_agree (name dataType plsType typeName dirName : String)
    (dir : Nat) (charset : String) (precision scale charlength : Nat) :
    (structs.NewArgument name dataType plsType typeName dirName dir charset precision scale
        charlength).fields.Name
      = (oracall.NewArgument name dataType plsType typeName dirName dir charset precision scale
        charlength).fields.Name ∧
    (structs.NewArgument name dataType plsType typeName dirName dir charset precision scale
        charlength).fields.Direction
      = (oracall.NewArgument name dataType plsType typeName dirName dir charset precision scale
        charlength).fields.Direction ∧
    (structs.NewArgument name dataType plsType typeName dirName dir charset precision scale
        charlength).fields.Flavor
      = (oracall.NewArgument name dataType plsType typeName dirName dir charset precision scale
        charlength).fields.Flavor ∧
    (structs.NewArgument name dataType plsType typeName dirName dir charset precision scale
        charlength).fields.Type_
      = (oracall.NewArgument name dataType plsType typeName dirName dir charset precision scale
        charlength).fields.Type_ ∧
    (structs.NewArgument name dataType plsType typeName dirName dir charset precision scale
        charlength).fields.Precision
      = (oracall.NewArgument name dataType plsType typeName dirName dir charset precision scale
        charlength).fields.Precision ∧
    (structs.NewArgument name dataType plsType typeName dirName dir charset precision scale
        charlength).fields.Scale
      = (oracall.NewArgument name dataType plsType typeName dirName dir charset precision scale
        charlength).fields.Scale ∧
    (structs.NewArgument name dataType plsType typeName dirName dir charset precision scale
        charlength).fields.Charset
      = (oracall.NewArgument name dataType plsType typeName dirName dir charset precision scale
        charlength).fields.Charset ∧
    ((0 < charlength ∨ dataType ∉ ["VARCHAR", "NVARCHAR", "VARCHAR2", "NVARCHAR2"]) →
      (structs.NewArgument name dataType plsType typeName dirName dir charset precision scale
          charlength).fields.CharLength
        = (oracall.NewArgument name dataType plsType typeName dirName dir charset precision
          scale charlength).fields.Charlength ∧
      (structs.NewArgument name dataType plsType typeName dirName dir charset precision scale
          charlength).fields.AbsType
        = (oracall.NewArgument name dataType plsType typeName dirName dir charset precision
          scale charlength).fields.AbsType) ∧
    (charlength = 0 → dataType ∈ ["VARCHAR", "NVARCHAR", "VARCHAR2", "NVARCHAR2"] →
      (structs.NewArgument name dataType plsType typeName dirName dir charset precision scale
          charlength).fields.AbsType = dataType ++ "(1000)" ∧
      (oracall.NewArgument name dataType plsType typeName dirName dir charset precision scale
          charlength).fields.AbsType = dataType ++ "(32767)") := by
  have hsf := fun a => structs_setFlavor_keeps a
  have hof := fun a => oracall_setFlavor_keeps a
  have hagree := setAbsType_agree
    (structs.NewArgument.setFlavor
      { Name := Go.toLower name, Type_ := dataType, PlsType := plsType,
        TypeName := structs.NewArgument.typeName typeName,
        Direction := structs.NewArgument.dir dirName dir, Precision := precision,
        Scale := scale, CharLength := charlength, Charset := charset })
    (oracall.NewArgument.setFlavor
      { Name := Go.toLower name, Type_ := dataType, PlsType := oracall.NewPlsType plsType,
        TypeName := oracall.NewArgument.typeName typeName,
        Direction := oracall.NewArgument.dir dirName dir, Precision := precision,
        Scale := scale, Charlength := charlength, Charset := charset })
    (by rw [(hsf _).2.1, (hof _).2.1])
    (by rw [(hsf _).2.2.2.2.1, (hof _).2.2.2.2.1])
    (by rw [(hsf _).2.2.2.1, (hof _).2.2.2.1])
    (by rw [(hsf _).2.2.1, (hof _).2.2.1])
  rw [(hsf _).2.1, (hsf _).2.2.2.2.1] at hagree
  refine ⟨?_, ?_, ?_, ?_, ?_, ?_, ?_, ?_, ?_⟩
  · simp only [structs.NewArgument, oracall.NewArgument, structs.Argument.fields,
      oracall.Argument.fields, structs_setAbsType_keeps, structs_setFlavor_keeps,
      oracall_setAbsType_keeps, oracall_setFlavor_keeps]
  · rw [structs_NewArgument_Direction, oracall_NewArgument_Direction]
    rfl
  · simp only [structs.NewArgument, oracall.NewArgument, structs.Argument.fields,
      oracall.Argument.fields, structs_setAbsType_keeps, oracall_setAbsType_keeps,
      structs_setFlavor_Flavor, oracall_setFlavor_Flavor]
  · simp only [structs.NewArgument, oracall.NewArgument, structs.Argument.fields,
      oracall.Argument.fields, structs_setAbsType_keeps, structs_setFlavor_keeps,
      oracall_setAbsType_keeps, oracall_setFlavor_keeps]
  · simp only [structs.NewArgument, oracall.NewArgument, structs.Argument.fields,
      oracall.Argument.fields, structs_setAbsType_numbers, structs_setFlavor_keeps,
      oracall_setAbsType_numbers, oracall_setFlavor_keeps]
  · simp only [structs.NewArgument, oracall.NewArgument, structs.Argument.fields,
      oracall.Argument.fields, structs_setAbsType_numbers, structs_setFlavor_keeps,
      oracall_setAbsType_numbers, oracall_setFlavor_keeps]
  · simp only [structs.NewArgument, oracall.NewArgument, structs.Argument.fields,
      oracall.Argument.fields, structs_setAbsType_numbers, structs_setFlavor_Flavor,
      oracall_setAbsType_numbers, oracall_setFlavor_Flavor]
  · exact hagree.1
  · intro h0 hv
    exact ⟨(hagree.2 h0 hv).2.2.1, (hagree.2 h0 hv).2.2.2⟩

/-- C39, violated by the code: `NewArgument` of package oracall builds the
fields of a record with `make([]NamedArgument, 1)`, a slice that holds one
field, the zero `NamedArgument` of empty name, where package structs builds an
empty map.  For every input, `RecordOf` has one element for the type
`PL/SQL RECORD` in package oracall and none in package structs, it is nil for
every other type, and `TableOf` is nil in both packages. -/
theorem oracall_NewArgument_record_has_one_field :
    (oracall.NewArgument "P_REC" "PL/SQL RECORD" "" "DB_WEB.ADAT_REC_TYP" "IN" 0 "" 0 0
        0).fields.RecordOf.map List.length = some 1 ∧
    (oracall.NewArgument "P_REC" "PL/SQL RECORD" "" "DB_WEB.ADAT_REC_TYP" "IN" 0 "" 0 0
        0).fields.RecordOf.map (fun l => l.map Prod.fst) = some [""] ∧
    (structs.NewArgument "P_REC" "PL/SQL RECORD" "" "DB_WEB.ADAT_REC_TYP" "IN" 0 "" 0 0
        0).fields.RecordOf.map List.length = some 0 ∧
    (∀ (name dataType plsType typeName dirName : String) (dir : Nat) (charset : String)
      (precision scale charlength : Nat),
      (oracall.NewArgument name dataType plsType typeName dirName dir charset precision scale
          charlength).fields.RecordOf.map List.length
        = (if dataType = "PL/SQL RECORD" then some 1 else none) ∧
      (structs.NewArgument name dataType plsType typeName dirName dir charset precision scale
          charlength).fields.RecordOf.map List.length
        = (if dataType = "PL/SQL RECORD" then some 0 else none) ∧
      (oracall.NewArgument name dataType plsType typeName dirName dir charset precision scale
          charlength).fields.TableOf.isNone = true ∧
      (structs.NewArgument name dataType plsType typeName dirName dir charset precision scale
          charlength).fields.TableOf.isNone = true) := by
  refine ⟨rfl, rfl, rfl, ?_⟩
  intro name dataType plsType typeName dirName dir charset precision scale charlength
  have e1 : ∀ a : oracall.ArgumentF oracall.Argument,
      (oracall.NewArgument.setAbsType a).RecordOf = a.RecordOf := by
    intro a
    simp only [oracall.NewArgument.setAbsType]
    split_ifs <;> rfl
  have e2 : ∀ a : structs.ArgumentF structs.Argument,
      (structs.NewArgument.setAbsType a).RecordOf = a.RecordOf := by
    intro a
    simp only [structs.NewArgument.setAbsType]
    split_ifs <;> rfl
  refine ⟨?_, ?_, ?_, ?_⟩
  · simp only [oracall.NewArgument, oracall.Argument.fields, e1, oracall.NewArgument.setFlavor]
    split_ifs <;> rfl
  · simp only [structs.NewArgument, structs.Argument.fields, e2, structs.NewArgument.setFlavor]
    split_ifs <;> rfl
  · simp only [oracall.NewArgument, oracall.Argument.fields, oracall_setAbsType_TableOf,
      oracall_setFlavor_TableOf]
    rfl
  · simp only [structs.NewArgument, structs.Argument.fields, structs_setAbsType_TableOf,
      structs_setFlavor_TableOf]
    rfl

section ToOraFacts

/-- The name `mkVarName` makes is `var_` and sixteen hexadecimal digits: never
empty; the hash is the one of the reference vectors of FNV-1. -/
theorem mkVarName_shape (dst : String) :
    oracall.mkVarName dst ≠ "" ∧ (oracall.mkVarName dst).length = 20 ∧
    oracall.mkVarName "a" = "var_af63bd4c8601b7be" ∧
    oracall.mkVarName "" = "var_cbf29ce484222325" ∧
    oracall.mkVarName "foobar" = "var_340d8765a4dda9c2" := by
  have hl : (oracall.mkVarName dst).length = 20 := by
    simp only [oracall.mkVarName, Go.hex64, String.length_append, String.length, List.length_map,
      List.length_range]
    rfl
  refine ⟨?_, hl, by decide, by decide, by decide⟩
  intro h
  rw [h] at hl
  exact absurd hl (by decide)

end ToOraFacts

/-- C40: for every `PlsType`, every `dst` and every non-empty `src`, whatever
`Gogo` is, `ToOra` returns a pair whose variable is empty or `mkVarName(dst)`;
when the variable is not empty the expression starts with `<variable> := ` and
ends with `<dst> = <variable>`, an `&` standing before the variable exactly
when `src` starts with `&`; when the variable is empty the expression is
`<dst> = <src> // <type keyword>`. -/
theorem ToOra_expression_and_variable (Gogo : Bool) (arg : oracall.PlsType) (dst src : String)
    (hs : src ≠ "") :
    ∃ r, oracall.PlsType.ToOra Gogo arg dst src = .ok r ∧
      (r.2 = "" ∨ r.2 = oracall.mkVarName dst) ∧
      (r.2 ≠ "" → ∃ mid, r.1 = r.2 ++ " := " ++ mid ++ dst ++ " = "
          ++ (if src.data.head? = some '&' then "&" else "") ++ r.2) ∧
      (r.2 = "" → r.1 = dst ++ " = " ++ src ++ " // " ++ arg.ora) := by
  have hne := (mkVarName_shape dst).1
  obtain ⟨c, hc⟩ : ∃ c, src.data.head? = some c := by
    cases hd : src.data with
    | nil => exact absurd (String.ext hd) hs
    | cons c l => exact ⟨c, rfl⟩
  simp only [oracall.PlsType.ToOra, hc]
  by_cases h1 : Gogo = true ∧ arg.ora = "DATE"
  · rw [if_pos h1]
    refine ⟨_, rfl, Or.inr rfl, fun _ =>
      ⟨"custom.Date(" ++ Go.trimPrefix src "&" ++ ").Get() // toOra D\n\t\t\t", ?_⟩,
      fun h => absurd h hne⟩
    have e : " := custom.Date(" = " := " ++ "custom.Date(" := by decide
    simp only [String.append_assoc, Option.some.injEq]
    rw [e, String.append_assoc]
  · rw [if_neg h1]
    by_cases h2 : arg.ora = "PLS_INTEGER"
    · rw [if_pos h2]
      by_cases h3 : c = '&'
      · simp only [h3, ne_eq, not_true_eq_false, if_false]
        exact ⟨_, rfl, Or.inl rfl, fun h => absurd rfl h, fun _ => rfl⟩
      · simp only [h3, ne_eq, not_false_eq_true, if_true]
        refine ⟨_, rfl, Or.inr rfl, fun _ =>
          ⟨"ora.Int32\x7bIsNull:true\x7d; if " ++ src ++ " != 0 \x7b " ++ oracall.mkVarName dst
            ++ ".Value, " ++ oracall.mkVarName dst ++ ".IsNull = " ++ src ++ ", false \x7d; ", ?_⟩,
          fun h => absurd h hne⟩
        have e : " := ora.Int32\x7bIsNull:true\x7d; if "
            = " := " ++ "ora.Int32\x7bIsNull:true\x7d; if " := by decide
        simp only [String.append_assoc, Option.some.injEq, h3, if_false, String.empty_append]
        rw [e, String.append_assoc]
    · rw [if_neg h2]
      by_cases h4 : arg.ora = "NUMBER"
      · rw [if_pos h4]
        by_cases h3 : c = '&'
        · simp only [h3, ne_eq, not_true_eq_false, if_false]
          exact ⟨_, rfl, Or.inl rfl, fun h => absurd rfl h, fun _ => rfl⟩
        · simp only [h3, ne_eq, not_false_eq_true, if_true]
          refine ⟨_, rfl, Or.inr rfl, fun _ =>
            ⟨"ora.Float64\x7bIsNull:true\x7d; if " ++ src ++ " != 0 \x7b "
              ++ oracall.mkVarName dst ++ ".Value, " ++ oracall.mkVarName dst ++ ".IsNull = "
              ++ src ++ ", false \x7d; ", ?_⟩,
            fun h => absurd h hne⟩
          have e : " := ora.Float64\x7bIsNull:true\x7d; if "
              = " := " ++ "ora.Float64\x7bIsNull:true\x7d; if " := by decide
          simp only [String.append_assoc, Option.some.injEq, h3, if_false, String.empty_append]
          rw [e, String.append_assoc]
      · rw [if_neg h4]
        exact ⟨_, rfl, Or.inl rfl, fun h => absurd rfl h, fun _ => rfl⟩

/-- C40 at a concrete input: the `DATE` type with `Gogo` set, the destination
`output.P_datum` and the source `&input.P_datum`. -/
theorem ToOra_expression_and_variable_witness :
    "&input.P_datum" ≠ "" ∧
    ∃ r, oracall.PlsType.ToOra true { ora := "DATE" } "output.P_datum" "&input.P_datum" = .ok r ∧
      (r.2 = "" ∨ r.2 = oracall.mkVarName "output.P_datum") ∧
      (r.2 ≠ "" → ∃ mid, r.1 = r.2 ++ " := " ++ mid ++ "output.P_datum" ++ " = "
          ++ (if "&input.P_datum".data.head? = some '&' then "&" else "") ++ r.2) ∧
      (r.2 = "" → r.1 = "output.P_datum" ++ " = " ++ "&input.P_datum" ++ " // "
          ++ (oracall.PlsType.ora { ora := "DATE" })) :=
  ⟨by decide,
   ToOra_expression_and_variable true { ora := "DATE" } "output.P_datum" "&input.P_datum"
     (by decide)⟩
